import Mathlib

/-! # WFS: a RAID-backed inode filesystem (`src/p6/solution`)

Shallow embedding of `wfs.h` / `wfs.c` and theorems about it.

Modelling conventions.
* A mapped disk image (`disk_maps[i]`) is modelled by its four regions: the
  bytes of the inode bitmap (from `i_bitmap_ptr`), the bytes of the data
  bitmap (from `d_bitmap_ptr`), the inode table (one record per 512-byte
  slot from `i_blocks_ptr`) and the bytes of the data region (from
  `d_blocks_ptr`), together with its superblock.  Offsets inside a region
  are relative to the region's start.  Section "The image as one byte array,
  and the C integer types" embeds the block layer a second time, on the image
  as one array of bytes and with the 32-bit `int` products of the code.
* Bytes are natural numbers below 256; a C string is the list of its bytes
  (without the terminating NUL); a block buffer `char buf[512]` is a
  function from the index to the byte.
* Inode numbers, block numbers, sizes and offsets are natural numbers (they
  are never negative in the code paths modelled); `nlinks` is an integer
  because the code decrements it without a guard.
* Functions that return an `int` status return an `Int` here, a negative
  errno on failure, paired with the new state where the function writes.
* `time(NULL)`, `getuid()` and `getgid()` are read from an environment.
-/

namespace WFS

/-! ## Constants (`wfs.h`, `wfs.c`, `errno.h`, `sys/stat.h`) -/

def BLOCK_SIZE : Nat := 512
def MAX_NAME : Nat := 28
def MAX_DISKS : Nat := 10
def D_BLOCK : Nat := 6
def IND_BLOCK : Nat := D_BLOCK + 1
def N_BLOCKS : Nat := IND_BLOCK + 1
/-- The value of `BLOCK_SIZE / sizeof(off_t)`, with `sizeof(off_t) = 8`. -/
def INDIRECT_BLOCK_ENTRIES : Nat := BLOCK_SIZE / 8
def INODE_SIZE : Nat := 512
/-- The value of `sizeof(struct wfs_dentry)`: 28 name bytes and a 4-byte `int`. -/
def DENTRY_SIZE : Nat := MAX_NAME + 4

def ENOENT : Int := 2
def EIO : Int := 5
def ENOMEM : Int := 12
def EEXIST : Int := 17
def ENOTDIR : Int := 20
def EISDIR : Int := 21
def EINVAL : Int := 22
def EFBIG : Int := 27
def ENOSPC : Int := 28
def ENOTEMPTY : Int := 39

def S_IFDIR : Nat := 0o040000
def S_IFREG : Nat := 0o100000

/-! ## Data model -/

/-- Superblock `struct wfs_sb`. -/
structure wfs_sb where
  num_inodes : Nat
  num_data_blocks : Nat
  i_bitmap_ptr : Nat
  d_bitmap_ptr : Nat
  i_blocks_ptr : Nat
  d_blocks_ptr : Nat
  raid_mode : Int
  num_disks : Int
  disk_order : List (List Nat)

/-- Inode record `struct wfs_inode`; `blocks` has `N_BLOCKS` slots. -/
structure wfs_inode where
  num : Nat
  mode : Nat
  uid : Nat
  gid : Nat
  size : Nat
  nlinks : Int
  atim : Nat
  mtim : Nat
  ctim : Nat
  blocks : Nat → Nat

/-- Directory entry `struct wfs_dentry`, as copied out of a block. -/
structure wfs_dentry where
  name : Nat → Nat
  num : Nat

/-- One mapped disk image, by region: an index into one region never reaches
another one.  In the C code an index beyond its region lands in the next one;
`image_byte` and `image_write` below read and write the same image as one byte
array, and `free_data_block_int` uses them. -/
structure Disk where
  sb : wfs_sb
  i_bitmap : Nat → Nat
  d_bitmap : Nat → Nat
  inodes : Nat → wfs_inode
  data : Nat → Nat

/-- The globals of `wfs.c`: `superblock`, `disk_maps`, `num_disks`, `raid_mode`. -/
structure FS where
  superblock : wfs_sb
  num_disks : Nat
  raid_mode : Int
  disk_maps : Nat → Disk

/-- The process environment: `getuid()`, `getgid()`, and the value returned by
the `k`-th call of `time(NULL)` inside one operation. -/
structure Env where
  uid : Nat
  gid : Nat
  time : Nat → Nat

/-- The result of `memset(&inode, 0, sizeof inode)`. -/
def zero_inode : wfs_inode :=
  { num := 0, mode := 0, uid := 0, gid := 0, size := 0, nlinks := 0,
    atim := 0, mtim := 0, ctim := 0, blocks := fun _ => 0 }

/-! ## Array stores -/

/-- The array `f` after the assignment `f[a] = v`. -/
def update {β : Type} (f : Nat → β) (a : Nat) (v : β) : Nat → β :=
  fun x => if x = a then v else f x

/-! ## Bit-array helpers -/

def get_bit (bitmap : Nat → Nat) (index : Nat) : Nat :=
  (bitmap (index / 8) >>> (index % 8)) &&& 1

def set_bit (bitmap : Nat → Nat) (index : Nat) : Nat → Nat :=
  fun a => if a = index / 8 then bitmap a ||| (1 <<< (index % 8)) else bitmap a

/-- In C, `bitmap[index / 8] &= ~(1 << (index % 8))` on a byte. -/
def clear_bit (bitmap : Nat → Nat) (index : Nat) : Nat → Nat :=
  fun a => if a = index / 8 then bitmap a &&& (255 - (1 <<< (index % 8))) else bitmap a

/-! ## RAID I/O layer -/

/-- The call `memcpy(dst + off, buf, size)` on a byte region. -/
def memcpy_to (dst : Nat → Nat) (off : Nat) (buf : Nat → Nat) (size : Nat) : Nat → Nat :=
  fun a => if off ≤ a ∧ a < off + size then buf (a - off) else dst a

/-- The call `memcpy(buf, src + off, size)` into a fresh buffer (bytes of the
buffer that are not copied read as 0). -/
def memcpy_from (src : Nat → Nat) (off : Nat) (size : Nat) : Nat → Nat :=
  fun k => if k < size then src (off + k) else 0

/-- The test `memcmp(a, b, size) == 0`. -/
def memcmp_eq (a b : Nat → Nat) (size : Nat) : Bool :=
  decide (∀ k, k < size → a k = b k)

/-- The inner loop `for (j = i + 1; j < num_disks; j++)` of the vote. -/
def vote_inner (eq : Nat → Nat → Bool) (n i : Nat) (counts : Nat → Nat) : Nat → Nat :=
  (List.range' (i + 1) (n - (i + 1))).foldl
    (fun c j => if eq i j then
        update (update c i (c i + 1)) j
          (update c i (c i + 1) j + 1)
      else c) counts

/-- The loop that fills `counts[]` in `raid_read`, mode 2. -/
def vote_counts (eq : Nat → Nat → Bool) (n : Nat) : Nat → Nat :=
  (List.range n).foldl (fun c i => vote_inner eq n i c) (fun _ => 0)

/-- The loop that finds `max_idx` in `raid_read`, mode 2. -/
def vote_max (counts : Nat → Nat) (n : Nat) : Nat :=
  (List.range' 1 (n - 1)).foldl
    (fun max_idx i => if counts i > counts max_idx then i else max_idx) 0

/-- The index `max_idx` chosen by mode 2 for a block. -/
def raid_vote (s : FS) (block_number size : Nat) : Nat :=
  vote_max
    (vote_counts
      (fun i j => memcmp_eq
        (memcpy_from (s.disk_maps i).data (block_number * BLOCK_SIZE) size)
        (memcpy_from (s.disk_maps j).data (block_number * BLOCK_SIZE) size) size)
      s.num_disks)
    s.num_disks

/-- Function `raid_read`: the content of `buf` after the call (it returns `size`).
For a `raid_mode` outside 0, 1, 2 the C code leaves `buf` untouched.  The
offset `stripe_index * BLOCK_SIZE` is taken in `ℕ`; the C code computes it as
an `int`, which is the same number while the stripe index is below 2^22
(`raid_read_int_eq`); `raid_read_int` below computes it with the C types. -/
def raid_read (s : FS) (block_number size : Nat) : Nat → Nat :=
  if s.raid_mode = 0 then
    let stripe_index := block_number / s.num_disks
    let disk_idx := block_number % s.num_disks
    memcpy_from (s.disk_maps disk_idx).data (stripe_index * BLOCK_SIZE) size
  else if s.raid_mode = 1 then
    memcpy_from (s.disk_maps 0).data (block_number * BLOCK_SIZE) size
  else if s.raid_mode = 2 then
    memcpy_from (s.disk_maps (raid_vote s block_number size)).data
      (block_number * BLOCK_SIZE) size
  else fun _ => 0

/-- Function `raid_write`: the state after the call (it returns `size`).  The
offset `stripe_index * BLOCK_SIZE` is taken in `ℕ`; the C code computes it as
an `int`, which is the same number while the stripe index is below 2^22
(`raid_write_int_eq`); `raid_write_int` below computes it with the C types. -/
def raid_write (s : FS) (buf : Nat → Nat) (block_number size : Nat) : FS :=
  if s.raid_mode = 0 then
    let stripe_index := block_number / s.num_disks
    let disk_idx := block_number % s.num_disks
    { s with disk_maps := fun i =>
        if i = disk_idx then
          { s.disk_maps i with
            data := memcpy_to (s.disk_maps i).data (stripe_index * BLOCK_SIZE) buf size }
        else s.disk_maps i }
  else if s.raid_mode = 1 ∨ s.raid_mode = 2 then
    { s with disk_maps := fun i =>
        if i < s.num_disks then
          { s.disk_maps i with
            data := memcpy_to (s.disk_maps i).data (block_number * BLOCK_SIZE) buf size }
        else s.disk_maps i }
  else s

/-! ## Inode store -/

/-- Function `load_inode`: the record read from disk 0 (it returns 0). -/
def load_inode (s : FS) (inode_num : Nat) : wfs_inode :=
  (s.disk_maps 0).inodes inode_num

/-- Function `store_inode`: the record is copied to every disk (it returns 0). -/
def store_inode (s : FS) (inode_num : Nat) (inode : wfs_inode) : FS :=
  { s with disk_maps := fun i =>
      if i < s.num_disks then
        { s.disk_maps i with inodes := update (s.disk_maps i).inodes inode_num inode }
      else s.disk_maps i }

/-! ## Bitmap allocators -/

/-- Function `allocate_inode`: first clear bit of disk 0's inode bitmap, set on
disk 0 and on disks `1 .. num_disks - 1`; `-ENOSPC` when none is clear. -/
def allocate_inode (s : FS) : Int × FS :=
  match (List.range s.superblock.num_inodes).find?
      (fun i => get_bit (s.disk_maps 0).i_bitmap i = 0) with
  | some i =>
    ((i : Int),
      { s with disk_maps := fun j =>
          if j = 0 ∨ j < s.num_disks then
            { s.disk_maps j with i_bitmap := set_bit (s.disk_maps j).i_bitmap i }
          else s.disk_maps j })
  | none => (-ENOSPC, s)

/-- Function `free_inode`. -/
def free_inode (s : FS) (inode_num : Nat) : FS :=
  { s with disk_maps := fun i =>
      if i = 0 ∨ i < s.num_disks then
        { s.disk_maps i with i_bitmap := clear_bit (s.disk_maps i).i_bitmap inode_num }
      else s.disk_maps i }

/-- Function `allocate_data_block`: the scan starts at block 1; the other disks
are updated only in modes 1 and 2. -/
def allocate_data_block (s : FS) : Int × FS :=
  match (List.range' 1 (s.superblock.num_data_blocks - 1)).find?
      (fun i => get_bit (s.disk_maps 0).d_bitmap i = 0) with
  | some i =>
    ((i : Int),
      { s with disk_maps := fun j =>
          if j = 0 ∨ ((s.raid_mode = 1 ∨ s.raid_mode = 2) ∧ j < s.num_disks) then
            { s.disk_maps j with d_bitmap := set_bit (s.disk_maps j).d_bitmap i }
          else s.disk_maps j })
  | none => (-ENOSPC, s)

/-- Function `free_data_block`, for a block number whose bit lies in the data
bitmap (`free_data_block_int_eq`).  The C code has no range check: for another
number the bit it clears lies in a later region of the image, which
`free_data_block_int` below embeds. -/
def free_data_block (s : FS) (block_num : Nat) : FS :=
  { s with disk_maps := fun i =>
      if i = 0 ∨ ((s.raid_mode = 1 ∨ s.raid_mode = 2) ∧ i < s.num_disks) then
        { s.disk_maps i with d_bitmap := clear_bit (s.disk_maps i).d_bitmap block_num }
      else s.disk_maps i }

/-! ## Indirect-block helpers -/

/-- Little-endian value of the `n` bytes of `buf` from `off`. -/
def le_decode (buf : Nat → Nat) (off : Nat) : Nat → Nat
  | 0 => 0
  | n + 1 => buf off % 256 + 256 * le_decode buf (off + 1) n

/-- Byte `k` of the little-endian representation of `v`. -/
def le_byte (v k : Nat) : Nat := v / 256 ^ k % 256

/-- A block buffer read as `off_t indirect_pointers[64]`. -/
def pointers_of_block (buf : Nat → Nat) : Nat → Nat :=
  fun i => if i < INDIRECT_BLOCK_ENTRIES then le_decode buf (8 * i) 8 else 0

/-- The bytes of `off_t indirect_pointers[64]`. -/
def block_of_pointers (ptrs : Nat → Nat) : Nat → Nat :=
  fun k => if k < BLOCK_SIZE then le_byte (ptrs (k / 8)) (k % 8) else 0

/-- Function `read_indirect_pointers`.  (`raid_read` always returns `size`, so
the `-EIO` branch is never taken.) -/
def read_indirect_pointers (s : FS) (inode : wfs_inode) : Int × (Nat → Nat) :=
  if inode.blocks IND_BLOCK = 0 then (-ENOENT, fun _ => 0)
  else (0, pointers_of_block (raid_read s (inode.blocks IND_BLOCK) BLOCK_SIZE))

/-- Function `write_indirect_pointers`. -/
def write_indirect_pointers (s : FS) (inode : wfs_inode) (ptrs : Nat → Nat) : Int × FS :=
  if inode.blocks IND_BLOCK = 0 then (-ENOENT, s)
  else (0, raid_write s (block_of_pointers ptrs) (inode.blocks IND_BLOCK) BLOCK_SIZE)

/-- Function `allocate_indirect_block`; the inode argument is updated in place. -/
def allocate_indirect_block (s : FS) (inode : wfs_inode) : Int × wfs_inode × FS :=
  if inode.blocks IND_BLOCK ≠ 0 then (0, inode, s)
  else
    let r := allocate_data_block s
    if r.1 < 0 then (r.1, inode, r.2)
    else
      let block_num := r.1.toNat
      let inode1 := { inode with blocks := update inode.blocks IND_BLOCK block_num }
      let s1 := raid_write r.2 (fun _ => 0) block_num BLOCK_SIZE
      (0, inode1, store_inode s1 inode1.num inode1)

/-- Function `allocate_indirect_data_block`. -/
def allocate_indirect_data_block (s : FS) (inode : wfs_inode) (indirect_index : Nat) :
    Int × FS :=
  if indirect_index ≥ INDIRECT_BLOCK_ENTRIES then (-EFBIG, s)
  else
    let rp := read_indirect_pointers s inode
    if rp.1 ≠ 0 then (rp.1, s)
    else if rp.2 indirect_index ≠ 0 then ((rp.2 indirect_index : Int), s)
    else
      let r := allocate_data_block s
      if r.1 < 0 then (r.1, r.2)
      else
        let block_num := r.1.toNat
        let w := write_indirect_pointers r.2 inode
          (update rp.2 indirect_index block_num)
        if w.1 ≠ 0 then (w.1, free_data_block w.2 block_num)
        else ((block_num : Int), w.2)

/-- Function `free_indirect_blocks`; the inode argument is updated in place. -/
def free_indirect_blocks (s : FS) (inode : wfs_inode) : Int × wfs_inode × FS :=
  if inode.blocks IND_BLOCK = 0 then (0, inode, s)
  else
    let rp := read_indirect_pointers s inode
    if rp.1 ≠ 0 then (rp.1, inode, s)
    else
      let s1 := (List.range INDIRECT_BLOCK_ENTRIES).foldl
        (fun t i => if rp.2 i ≠ 0 then free_data_block t (rp.2 i) else t) s
      let s2 := raid_write s1 (fun _ => 0) (inode.blocks IND_BLOCK) BLOCK_SIZE
      let s3 := free_data_block s2 (inode.blocks IND_BLOCK)
      let inode1 := { inode with blocks := update inode.blocks IND_BLOCK 0 }
      (0, inode1, store_inode s3 inode1.num inode1)

/-! ## Directory operations -/

/-- Number of entries in a block, `BLOCK_SIZE / sizeof(struct wfs_dentry)`. -/
def entries_per_block : Nat := BLOCK_SIZE / DENTRY_SIZE

/-- The test `strcmp(buf + off, name) == 0` against the C string `name`. -/
def strcmp_eq (buf : Nat → Nat) (off : Nat) : List Nat → Bool
  | [] => buf off == 0
  | c :: cs => buf off == c && strcmp_eq buf (off + 1) cs

/-- The field `entries[j].name` is at byte `32 * j` of the block buffer; the test
is `strlen(entries[j].name) != 0`. -/
def name_nonempty (buf : Nat → Nat) (j : Nat) : Bool :=
  buf (DENTRY_SIZE * j) != 0

/-- The struct `entries[j]` copied out of a block buffer. -/
def dentry_at (buf : Nat → Nat) (j : Nat) : wfs_dentry :=
  { name := fun k => if k < MAX_NAME then buf (DENTRY_SIZE * j + k) else 0,
    num := le_decode buf (DENTRY_SIZE * j + MAX_NAME) 4 }

/-- The C string that starts at `buf + off`, read for at most `fuel` bytes. -/
def cstr (buf : Nat → Nat) (off : Nat) : Nat → List Nat
  | 0 => []
  | fuel + 1 => if buf off = 0 then [] else buf off :: cstr buf (off + 1) fuel

/-- The name `entries[j].name` found in a block buffer, as a C string (read up to
the end of the 512-byte buffer). -/
def entry_name (buf : Nat → Nat) (j : Nat) : List Nat :=
  cstr buf (DENTRY_SIZE * j) (BLOCK_SIZE - DENTRY_SIZE * j)

/-- The bytes of `new_entry` in `add_dentry`: `memset` to 0, then
`strncpy(name, MAX_NAME - 1)`, `name[MAX_NAME - 1] = 0`, `num = inode_num`. -/
def new_dentry_bytes (name : List Nat) (inode_num : Nat) : Nat → Nat :=
  fun k =>
    if k < MAX_NAME then (if k < MAX_NAME - 1 then name.getD k 0 else 0)
    else le_byte inode_num (k - MAX_NAME)

/-- The inner loop of `find_dentry` / `remove_dentry` over one block: the first
slot `j` whose name is non-empty and equal to `name`. -/
def find_in_block (buf : Nat → Nat) (name : List Nat) : Option Nat :=
  (List.range entries_per_block).find?
    (fun j => name_nonempty buf j && strcmp_eq buf (DENTRY_SIZE * j) name)

/-- The two nested loops of `find_dentry` / `remove_dentry`: the first pair
(block slot, entry slot) that matches, skipping block slots that hold 0. -/
def find_slot (s : FS) (dir_inode : wfs_inode) (name : List Nat) : Option (Nat × Nat) :=
  (List.range N_BLOCKS).findSome? (fun i =>
    if dir_inode.blocks i = 0 then none
    else (find_in_block (raid_read s (dir_inode.blocks i) BLOCK_SIZE) name).map
      (fun j => (i, j)))

/-- Function `find_dentry`. -/
def find_dentry (s : FS) (dir_inode : wfs_inode) (name : List Nat) : Int × wfs_dentry :=
  match find_slot s dir_inode name with
  | some (i, j) => (0, dentry_at (raid_read s (dir_inode.blocks i) BLOCK_SIZE) j)
  | none => (-ENOENT, { name := fun _ => 0, num := 0 })

/-- Function `add_dentry`; the directory inode argument is updated in place. -/
def add_dentry (s : FS) (dir_inode : wfs_inode) (name : List Nat) (inode_num : Nat) :
    Int × wfs_inode × FS :=
  let total_entries := dir_inode.size / DENTRY_SIZE
  let block_idx := total_entries / entries_per_block
  let entry_idx := total_entries % entries_per_block
  if block_idx ≥ N_BLOCKS then (-ENOSPC, dir_inode, s)
  else
    let r : Int × wfs_inode × FS :=
      if dir_inode.blocks block_idx = 0 then
        let a := allocate_data_block s
        if a.1 < 0 then (a.1, dir_inode, a.2)
        else (0, { dir_inode with
                    blocks := update dir_inode.blocks block_idx a.1.toNat }, a.2)
      else (0, dir_inode, s)
    if r.1 < 0 then r
    else
      let dir1 := r.2.1
      let block_buf := raid_read r.2.2 (dir1.blocks block_idx) BLOCK_SIZE
      let block_buf1 := memcpy_to block_buf (DENTRY_SIZE * entry_idx)
        (new_dentry_bytes name inode_num) DENTRY_SIZE
      let s1 := raid_write r.2.2 block_buf1 (dir1.blocks block_idx) BLOCK_SIZE
      let dir2 := { dir1 with size := dir1.size + DENTRY_SIZE }
      (0, dir2, store_inode s1 dir2.num dir2)

/-- Function `remove_dentry`. -/
def remove_dentry (s : FS) (dir_inode : wfs_inode) (name : List Nat) : Int × FS :=
  match find_slot s dir_inode name with
  | some (i, j) =>
    let block_buf := raid_read s (dir_inode.blocks i) BLOCK_SIZE
    let block_buf1 := memcpy_to block_buf (DENTRY_SIZE * j) (fun _ => 0) DENTRY_SIZE
    (0, raid_write s block_buf1 (dir_inode.blocks i) BLOCK_SIZE)
  | none => (-ENOENT, s)

/-! ## Path handling -/

/-- The byte `'/'`. -/
def SLASH : Nat := 47
/-- The byte `'.'`. -/
def DOT : Nat := 46

/-- The successive tokens returned by `strsep(&rest, "/")`. -/
def strsep_tokens : List Nat → List (List Nat)
  | [] => [[]]
  | c :: cs =>
    if c = SLASH then [] :: strsep_tokens cs
    else match strsep_tokens cs with
      | t :: ts => (c :: t) :: ts
      | [] => [[c]]

/-- A path without its trailing slashes. -/
def strip_slashes (p : List Nat) : List Nat :=
  (p.reverse.dropWhile (fun c => c = SLASH)).reverse

/-- The libc function `basename` (libgen.h, POSIX). -/
def basename (path : List Nat) : List Nat :=
  if path = [] then [DOT]
  else if strip_slashes path = [] then [SLASH]
  else ((strip_slashes path).reverse.takeWhile (fun c => c ≠ SLASH)).reverse

/-- The libc function `dirname` (libgen.h, POSIX). -/
def dirname (path : List Nat) : List Nat :=
  if path = [] then [DOT]
  else if strip_slashes path = [] then [SLASH]
  else if SLASH ∉ strip_slashes path then [DOT]
  else
    let d := strip_slashes ((strip_slashes path).reverse.dropWhile (fun c => c ≠ SLASH)).reverse
    if d = [] then [SLASH] else d

/-- The `while ((token = strsep(...)))` loop of `traverse_path` over the remaining
tokens, from the current inode. -/
def traverse_loop (s : FS) : List (List Nat) → wfs_inode → Nat → Int × wfs_inode × Nat
  | [], current_inode, current_inode_num => (0, current_inode, current_inode_num)
  | token :: rest, current_inode, current_inode_num =>
    if token = [] then traverse_loop s rest current_inode current_inode_num
    else if current_inode.mode &&& S_IFDIR = 0 then
      (-ENOTDIR, current_inode, current_inode_num)
    else
      let f := find_dentry s current_inode token
      if f.1 ≠ 0 then (-ENOENT, current_inode, current_inode_num)
      else traverse_loop s rest (load_inode s f.2.num) f.2.num

/-- Function `traverse_path`: status, `*inode` and `*inode_num`. -/
def traverse_path (s : FS) (path : List Nat) : Int × wfs_inode × Nat :=
  if path = [SLASH] then (0, load_inode s 0, 0)
  else traverse_loop s (strsep_tokens path) (load_inode s 0) 0

/-! ## Top-level operations

`strdup` is assumed to succeed (the `-ENOMEM` exits are not modelled). -/

/-- Function `wfs_init`. -/
def wfs_init (env : Env) (s : FS) : FS :=
  let root_inode := load_inode s 0
  if root_inode.mode &&& S_IFDIR = 0 ∨ root_inode.size < DENTRY_SIZE * 2 then
    let root1 : wfs_inode :=
      { root_inode with
        mode := S_IFDIR ||| 0o755, nlinks := 2, uid := env.uid, gid := env.gid,
        size := DENTRY_SIZE * 2, atim := env.time 0, mtim := env.time 0,
        ctim := env.time 0, blocks := fun _ => 0 }
    let block_num := 0
    let block_buf :=
      memcpy_to (memcpy_to (fun _ => 0) 0 (new_dentry_bytes [DOT] 0) DENTRY_SIZE)
        DENTRY_SIZE (new_dentry_bytes [DOT, DOT] 0) DENTRY_SIZE
    store_inode (raid_write s block_buf block_num BLOCK_SIZE) 0 root1
  else s

/-- The record `new_inode` that `wfs_mknod` builds for the inode number `n`:
`memset` to 0, then `num`, `mode`, `uid`, `gid`, `size = 0`, the three times, and
`nlinks = 2` for a directory mode, `1` otherwise. -/
def new_inode_record (env : Env) (n mode : Nat) : wfs_inode :=
  { zero_inode with
    num := n, mode := mode, uid := env.uid, gid := env.gid,
    size := 0, atim := env.time 0, mtim := env.time 0, ctim := env.time 0,
    nlinks := if mode &&& S_IFDIR ≠ 0 then 2 else 1 }

/-- Function `wfs_mknod`. -/
def wfs_mknod (env : Env) (s : FS) (path : List Nat) (mode : Nat) : Int × FS :=
  let dir_path := dirname path
  let base_name := basename path
  let tr := traverse_path s dir_path
  if tr.1 ≠ 0 then (tr.1, s)
  else
    let parent_inode := tr.2.1
    let parent_inode_num := tr.2.2
    if parent_inode.mode &&& S_IFDIR = 0 then (-ENOTDIR, s)
    else if (find_dentry s parent_inode base_name).1 = 0 then (-EEXIST, s)
    else
      let a := allocate_inode s
      if a.1 < 0 then (a.1, a.2)
      else
        let new_inode_num := a.1.toNat
        let new_inode := new_inode_record env new_inode_num mode
        let s1 := store_inode a.2 new_inode_num new_inode
        let ad := add_dentry s1 parent_inode base_name new_inode_num
        if ad.1 ≠ 0 then
          let s2 := free_inode ad.2.2 new_inode_num
          if mode &&& S_IFDIR ≠ 0 then
            (ad.1, store_inode s2 parent_inode_num
              { ad.2.1 with nlinks := ad.2.1.nlinks - 1 })
          else (ad.1, s2)
        else
          (0, store_inode ad.2.2 parent_inode_num
            { ad.2.1 with mtim := env.time 1, ctim := env.time 1 })

/-- Function `wfs_mkdir`. -/
def wfs_mkdir (env : Env) (s : FS) (path : List Nat) (mode : Nat) : Int × FS :=
  wfs_mknod env s path (mode ||| S_IFDIR)

/-- The loops `for (i = 0; i < count; i++) if (blocks[i] != 0) free_data_block(blocks[i])`
of `wfs_unlink` (`count = D_BLOCK`) and `wfs_rmdir` (`count = N_BLOCKS`). -/
def free_block_slots (s : FS) (inode : wfs_inode) (count : Nat) : FS :=
  (List.range count).foldl
    (fun t i => if inode.blocks i ≠ 0 then free_data_block t (inode.blocks i) else t) s

/-- Function `wfs_unlink`. -/
def wfs_unlink (env : Env) (s : FS) (path : List Nat) : Int × FS :=
  let dir_path := dirname path
  let base_name := basename path
  let tr := traverse_path s dir_path
  if tr.1 ≠ 0 then (tr.1, s)
  else
    let parent_inode := tr.2.1
    let parent_inode_num := tr.2.2
    let f := find_dentry s parent_inode base_name
    if f.1 ≠ 0 then (f.1, s)
    else
      let target_inode := load_inode s f.2.num
      if target_inode.mode &&& S_IFDIR ≠ 0 then (-EISDIR, s)
      else
        let rm := remove_dentry s parent_inode base_name
        if rm.1 ≠ 0 then (rm.1, rm.2)
        else
          let s1 := free_block_slots rm.2 target_inode D_BLOCK
          let target1 : wfs_inode :=
            { target_inode with
              blocks := fun i => if i < D_BLOCK then 0 else target_inode.blocks i }
          let fi := free_indirect_blocks s1 target1
          let s2 := free_inode fi.2.2 fi.2.1.num
          (0, store_inode s2 parent_inode_num
            { parent_inode with mtim := env.time 0, ctim := env.time 0 })

/-- The emptiness scan of `wfs_rmdir`: `true` when some allocated block of the
directory has a slot with a non-empty name other than `.` and `..`. -/
def dir_has_entry (s : FS) (target_inode : wfs_inode) : Bool :=
  (List.range N_BLOCKS).any (fun i =>
    target_inode.blocks i != 0 &&
    (List.range entries_per_block).any (fun j =>
      let buf := raid_read s (target_inode.blocks i) BLOCK_SIZE
      name_nonempty buf j &&
        (!strcmp_eq buf (DENTRY_SIZE * j) [DOT] &&
         !strcmp_eq buf (DENTRY_SIZE * j) [DOT, DOT])))

/-- Function `wfs_rmdir`. -/
def wfs_rmdir (env : Env) (s : FS) (path : List Nat) : Int × FS :=
  let dir_path := dirname path
  let base_name := basename path
  let tr := traverse_path s dir_path
  if tr.1 ≠ 0 then (tr.1, s)
  else
    let parent_inode := tr.2.1
    let parent_inode_num := tr.2.2
    let f := find_dentry s parent_inode base_name
    if f.1 ≠ 0 then (f.1, s)
    else
      let target_inode := load_inode s f.2.num
      if target_inode.mode &&& S_IFDIR = 0 then (-ENOTDIR, s)
      else if dir_has_entry s target_inode then (-ENOTEMPTY, s)
      else
        let rm := remove_dentry s parent_inode base_name
        if rm.1 ≠ 0 then (rm.1, rm.2)
        else
          let parent1 := { parent_inode with nlinks := parent_inode.nlinks - 1 }
          let s1 := free_block_slots rm.2 target_inode N_BLOCKS
          let s2 := free_inode s1 target_inode.num
          (0, store_inode s2 parent_inode_num
            { parent1 with mtim := env.time 0, ctim := env.time 0 })

/-- The value of a non-negative `long` after its conversion to `int` (32 bits,
two's complement, the value modulo 2^32 as gcc defines the conversion). -/
def to_int (v : Nat) : Int :=
  if v % 2 ^ 32 < 2 ^ 31 then ((v % 2 ^ 32 : Nat) : Int) else ((v % 2 ^ 32 : Nat) : Int) - 2 ^ 32

/-- The bytes `block_buf[block_offset .. block_offset + to_read)` appended to the
user buffer. -/
def copy_out (block_buf : Nat → Nat) (block_offset to_read : Nat) : List Nat :=
  (List.range to_read).map (fun k => block_buf (block_offset + k))

/-- The `while (size > 0)` loop of `wfs_read`; the result is the content of
`buf[0 .. bytes_read)`.  Every iteration that continues copies at least one
byte, so `fuel = size` iterations are enough.  `int block_index = offset /
BLOCK_SIZE` is the quotient converted to `int`; when it is negative the C code
indexes `inode.blocks` below its start (undefined behaviour), which is not
modelled: the model leaves the loop there. -/
def wfs_read_loop (s : FS) (inode : wfs_inode) :
    Nat → Nat → Nat → List Nat → List Nat
  | 0, _, _, out => out
  | fuel + 1, size, offset, out =>
    if size = 0 then out
    else if to_int (offset / BLOCK_SIZE) < 0 then out
    else
      let block_index := (to_int (offset / BLOCK_SIZE)).toNat
      let block_offset := offset % BLOCK_SIZE
      if block_index < D_BLOCK then
        if inode.blocks block_index = 0 then out
        else
          let block_buf := raid_read s (inode.blocks block_index) BLOCK_SIZE
          let to_read := min (BLOCK_SIZE - block_offset) size
          wfs_read_loop s inode fuel (size - to_read) (offset + to_read)
            (out ++ copy_out block_buf block_offset to_read)
      else if block_index < D_BLOCK + INDIRECT_BLOCK_ENTRIES then
        let indirect_index := block_index - D_BLOCK
        if inode.blocks IND_BLOCK = 0 then out
        else
          let rp := read_indirect_pointers s inode
          if rp.1 ≠ 0 then out
          else if rp.2 indirect_index = 0 then out
          else
            let data_block_buf := raid_read s (rp.2 indirect_index) BLOCK_SIZE
            let to_read := min (BLOCK_SIZE - block_offset) size
            wfs_read_loop s inode fuel (size - to_read) (offset + to_read)
              (out ++ copy_out data_block_buf block_offset to_read)
      else out

/-- Function `wfs_read`: the return value and the bytes stored in `buf`. -/
def wfs_read (s : FS) (path : List Nat) (size offset : Nat) : Int × List Nat :=
  let tr := traverse_path s path
  if tr.1 ≠ 0 then (tr.1, [])
  else
    let inode := tr.2.1
    if inode.mode &&& S_IFREG = 0 then (-EISDIR, [])
    else if offset ≥ inode.size then (0, [])
    else
      let size1 := if offset + size > inode.size then inode.size - offset else size
      let out := wfs_read_loop s inode size1 size1 offset []
      ((out.length : Int), out)

/-- State of the `while (size > 0)` loop of `wfs_write` when it is left:
`efbig` is set when the loop was left by `return -EFBIG`. -/
structure write_state where
  efbig : Bool
  fs : FS
  inode : wfs_inode
  offset : Nat
  bytes_written : Nat

/-- The `while (size > 0)` loop of `wfs_write`.  Every iteration that continues
writes at least one byte, so `fuel = size` iterations are enough.  `int
block_index = offset / BLOCK_SIZE` is the quotient converted to `int`; when it
is negative the C code indexes `inode.blocks` below its start (undefined
behaviour), which is not modelled: the model leaves the loop there. -/
def wfs_write_loop (buf : List Nat) :
    Nat → FS → wfs_inode → Nat → Nat → Nat → write_state
  | 0, s, inode, _, offset, bytes_written => ⟨false, s, inode, offset, bytes_written⟩
  | fuel + 1, s, inode, size, offset, bytes_written =>
    if size = 0 then ⟨false, s, inode, offset, bytes_written⟩
    else if to_int (offset / BLOCK_SIZE) < 0 then ⟨false, s, inode, offset, bytes_written⟩
    else
      let block_index := (to_int (offset / BLOCK_SIZE)).toNat
      let block_offset := offset % BLOCK_SIZE
      if block_index < D_BLOCK then
        let r : Int × wfs_inode × FS :=
          if inode.blocks block_index = 0 then
            let a := allocate_data_block s
            if a.1 < 0 then (a.1, inode, a.2)
            else (0, { inode with
                        blocks := update inode.blocks block_index a.1.toNat }, a.2)
          else (0, inode, s)
        if r.1 < 0 then ⟨false, r.2.2, r.2.1, offset, bytes_written⟩
        else
          let inode1 := r.2.1
          let block_buf := raid_read r.2.2 (inode1.blocks block_index) BLOCK_SIZE
          let to_write := min (BLOCK_SIZE - block_offset) size
          let block_buf1 := memcpy_to block_buf block_offset
            (fun k => buf.getD (bytes_written + k) 0) to_write
          let s1 := raid_write r.2.2 block_buf1 (inode1.blocks block_index) BLOCK_SIZE
          wfs_write_loop buf fuel s1 inode1 (size - to_write) (offset + to_write)
            (bytes_written + to_write)
      else if block_index < D_BLOCK + INDIRECT_BLOCK_ENTRIES then
        let indirect_index := block_index - D_BLOCK
        let ai := allocate_indirect_block s inode
        if ai.1 ≠ 0 then ⟨false, ai.2.2, ai.2.1, offset, bytes_written⟩
        else
          let ad := allocate_indirect_data_block ai.2.2 ai.2.1 indirect_index
          if ad.1 < 0 then ⟨false, ad.2, ai.2.1, offset, bytes_written⟩
          else
            let data_block_num := ad.1.toNat
            let data_block_buf := raid_read ad.2 data_block_num BLOCK_SIZE
            let to_write := min (BLOCK_SIZE - block_offset) size
            let data_block_buf1 := memcpy_to data_block_buf block_offset
              (fun k => buf.getD (bytes_written + k) 0) to_write
            let s1 := raid_write ad.2 data_block_buf1 data_block_num BLOCK_SIZE
            wfs_write_loop buf fuel s1 ai.2.1 (size - to_write) (offset + to_write)
              (bytes_written + to_write)
      else ⟨true, s, inode, offset, bytes_written⟩

/-- Function `wfs_write`, called with `size = buf.length`. -/
def wfs_write (env : Env) (s : FS) (path : List Nat) (buf : List Nat) (offset : Nat) :
    Int × FS :=
  let tr := traverse_path s path
  if tr.1 ≠ 0 then (tr.1, s)
  else
    let inode := tr.2.1
    if inode.mode &&& S_IFREG = 0 then (-EISDIR, s)
    else
      let w := wfs_write_loop buf buf.length s inode buf.length offset 0
      if w.efbig then (-EFBIG, w.fs)
      else
        let inode1 : wfs_inode :=
          { w.inode with
            size := if w.offset > w.inode.size then w.offset else w.inode.size,
            mtim := env.time 0, ctim := env.time 0 }
        ((w.bytes_written : Int), store_inode w.fs inode1.num inode1)

/-- The inner loop of `wfs_readdir` over the entry slots of one block: the names
passed to `filler`, appended to those passed before. -/
def readdir_block (buf : Nat → Nat) (emitted : List (List Nat)) : List (List Nat) :=
  (List.range entries_per_block).foldl
    (fun acc j =>
      if !name_nonempty buf j then acc
      else if strcmp_eq buf (DENTRY_SIZE * j) [DOT] || strcmp_eq buf (DENTRY_SIZE * j) [DOT, DOT]
        then acc
      else acc ++ [entry_name buf j])
    emitted

/-- Function `wfs_readdir`: the return value and the names passed to `filler`,
in the order of the calls. -/
def wfs_readdir (s : FS) (path : List Nat) : Int × List (List Nat) :=
  let tr := traverse_path s path
  if tr.1 ≠ 0 then (tr.1, [])
  else
    let dir_inode := tr.2.1
    if dir_inode.mode &&& S_IFDIR = 0 then (-ENOTDIR, [])
    else
      (0, (List.range N_BLOCKS).foldl
        (fun acc i =>
          if dir_inode.blocks i = 0 then acc
          else readdir_block (raid_read s (dir_inode.blocks i) BLOCK_SIZE) acc)
        [[DOT], [DOT, DOT]])

/-- The fields of `struct stat` that `wfs_getattr` fills in. -/
structure wfs_stat where
  st_mode : Nat
  st_nlink : Int
  st_uid : Nat
  st_gid : Nat
  st_size : Nat
  st_atime : Nat
  st_mtime : Nat
  st_ctime : Nat
  st_blocks : Nat
  st_blksize : Nat

/-- The result of `memset(stbuf, 0, sizeof(struct stat))`. -/
def zero_stat : wfs_stat :=
  { st_mode := 0, st_nlink := 0, st_uid := 0, st_gid := 0, st_size := 0, st_atime := 0,
    st_mtime := 0, st_ctime := 0, st_blocks := 0, st_blksize := 0 }

/-- Function `wfs_getattr`: the return value and the content of `*stbuf`. -/
def wfs_getattr (s : FS) (path : List Nat) : Int × wfs_stat :=
  let tr := traverse_path s path
  if tr.1 ≠ 0 then (tr.1, zero_stat)
  else
    let inode := tr.2.1
    (0, { st_mode := inode.mode, st_nlink := inode.nlinks, st_uid := inode.uid,
          st_gid := inode.gid, st_size := inode.size, st_atime := inode.atim,
          st_mtime := inode.mtim, st_ctime := inode.ctim,
          st_blocks := (inode.size + 511) / 512, st_blksize := 512 })

/-! ## The calls that only read, in state-passing form

Each function below is the C function of the same name with the disk images
passed in and handed back: a call yields its value and the images as the call
leaves them.  The images change hands at every call that the C body makes, so
that a store into an image anywhere in a body would show in the state that
comes out. -/

/-- A copy out of the images into memory of the caller, as
`memcpy(buf, disk_maps[i] + offset, n)` with `buf` a local buffer: the value
read by `get` and the images, which are the source of the copy and not its
destination. -/
def copy_out_of_images {α : Type} (s : FS) (get : FS → α) : α × FS := (get s, s)

/-- Function `load_inode` as a call: one `memcpy` from image 0 into `*inode`. -/
def load_inode_call (s : FS) (inode_num : Nat) : wfs_inode × FS :=
  copy_out_of_images s (fun t => load_inode t inode_num)

/-- Function `raid_read` as a call: its `memcpy` calls copy from the images
into `buf` and `temp_buf`. -/
def raid_read_call (s : FS) (block_number size : Nat) : (Nat → Nat) × FS :=
  copy_out_of_images s (fun t => raid_read t block_number size)

/-- Function `read_indirect_pointers` as a call. -/
def read_indirect_pointers_call (s : FS) (inode : wfs_inode) : (Int × (Nat → Nat)) × FS :=
  if inode.blocks IND_BLOCK = 0 then ((-ENOENT, fun _ => 0), s)
  else
    let r := raid_read_call s (inode.blocks IND_BLOCK) BLOCK_SIZE
    ((0, pointers_of_block r.1), r.2)

/-- The loop `for (i = 0; i < N_BLOCKS; i++)` of `find_dentry` over the block
slots that remain; the inner loop runs on the local `block_buf`. -/
def find_dentry_blocks (dir_inode : wfs_inode) (name : List Nat) :
    List Nat → FS → (Int × wfs_dentry) × FS
  | [], s => ((-ENOENT, { name := fun _ => 0, num := 0 }), s)
  | i :: rest, s =>
    if dir_inode.blocks i = 0 then find_dentry_blocks dir_inode name rest s
    else
      let r := raid_read_call s (dir_inode.blocks i) BLOCK_SIZE
      match find_in_block r.1 name with
      | some j => ((0, dentry_at r.1 j), r.2)
      | none => find_dentry_blocks dir_inode name rest r.2

/-- Function `find_dentry` as a call. -/
def find_dentry_call (s : FS) (dir_inode : wfs_inode) (name : List Nat) :
    (Int × wfs_dentry) × FS :=
  find_dentry_blocks dir_inode name (List.range N_BLOCKS) s

/-- The `while ((token = strsep(...)))` loop of `traverse_path` as a call. -/
def traverse_loop_call :
    List (List Nat) → wfs_inode → Nat → FS → (Int × wfs_inode × Nat) × FS
  | [], current_inode, current_inode_num, s => ((0, current_inode, current_inode_num), s)
  | token :: rest, current_inode, current_inode_num, s =>
    if token = [] then traverse_loop_call rest current_inode current_inode_num s
    else if current_inode.mode &&& S_IFDIR = 0 then
      ((-ENOTDIR, current_inode, current_inode_num), s)
    else
      let f := find_dentry_call s current_inode token
      if f.1.1 ≠ 0 then ((-ENOENT, current_inode, current_inode_num), f.2)
      else
        let l := load_inode_call f.2 f.1.2.num
        traverse_loop_call rest l.1 f.1.2.num l.2

/-- Function `traverse_path` as a call. -/
def traverse_path_call (s : FS) (path : List Nat) : (Int × wfs_inode × Nat) × FS :=
  if path = [SLASH] then
    let l := load_inode_call s 0
    ((0, l.1, 0), l.2)
  else
    let l := load_inode_call s 0
    traverse_loop_call (strsep_tokens path) l.1 0 l.2

/-- Function `wfs_getattr` as a call. -/
def wfs_getattr_call (s : FS) (path : List Nat) : (Int × wfs_stat) × FS :=
  let tr := traverse_path_call s path
  if tr.1.1 ≠ 0 then ((tr.1.1, zero_stat), tr.2)
  else
    let inode := tr.1.2.1
    ((0, { st_mode := inode.mode, st_nlink := inode.nlinks, st_uid := inode.uid,
           st_gid := inode.gid, st_size := inode.size, st_atime := inode.atim,
           st_mtime := inode.mtim, st_ctime := inode.ctim,
           st_blocks := (inode.size + 511) / 512, st_blksize := 512 }), tr.2)

/-- The `while (size > 0)` loop of `wfs_read` as a call (see `wfs_read_loop`). -/
def wfs_read_loop_call (inode : wfs_inode) :
    Nat → Nat → Nat → List Nat → FS → List Nat × FS
  | 0, _, _, out, s => (out, s)
  | fuel + 1, size, offset, out, s =>
    if size = 0 then (out, s)
    else if to_int (offset / BLOCK_SIZE) < 0 then (out, s)
    else
      let block_index := (to_int (offset / BLOCK_SIZE)).toNat
      let block_offset := offset % BLOCK_SIZE
      if block_index < D_BLOCK then
        if inode.blocks block_index = 0 then (out, s)
        else
          let r := raid_read_call s (inode.blocks block_index) BLOCK_SIZE
          let to_read := min (BLOCK_SIZE - block_offset) size
          wfs_read_loop_call inode fuel (size - to_read) (offset + to_read)
            (out ++ copy_out r.1 block_offset to_read) r.2
      else if block_index < D_BLOCK + INDIRECT_BLOCK_ENTRIES then
        let indirect_index := block_index - D_BLOCK
        if inode.blocks IND_BLOCK = 0 then (out, s)
        else
          let rp := read_indirect_pointers_call s inode
          if rp.1.1 ≠ 0 then (out, rp.2)
          else if rp.1.2 indirect_index = 0 then (out, rp.2)
          else
            let r := raid_read_call rp.2 (rp.1.2 indirect_index) BLOCK_SIZE
            let to_read := min (BLOCK_SIZE - block_offset) size
            wfs_read_loop_call inode fuel (size - to_read) (offset + to_read)
              (out ++ copy_out r.1 block_offset to_read) r.2
      else (out, s)

/-- Function `wfs_read` as a call. -/
def wfs_read_call (s : FS) (path : List Nat) (size offset : Nat) : (Int × List Nat) × FS :=
  let tr := traverse_path_call s path
  if tr.1.1 ≠ 0 then ((tr.1.1, []), tr.2)
  else
    let inode := tr.1.2.1
    if inode.mode &&& S_IFREG = 0 then ((-EISDIR, []), tr.2)
    else if offset ≥ inode.size then ((0, []), tr.2)
    else
      let size1 := if offset + size > inode.size then inode.size - offset else size
      let r := wfs_read_loop_call inode size1 size1 offset [] tr.2
      (((r.1.length : Int), r.1), r.2)

/-- The loop `for (i = 0; i < N_BLOCKS; i++)` of `wfs_readdir` as a call. -/
def wfs_readdir_blocks (dir_inode : wfs_inode) :
    List Nat → List (List Nat) → FS → List (List Nat) × FS
  | [], acc, s => (acc, s)
  | i :: rest, acc, s =>
    if dir_inode.blocks i = 0 then wfs_readdir_blocks dir_inode rest acc s
    else
      let r := raid_read_call s (dir_inode.blocks i) BLOCK_SIZE
      wfs_readdir_blocks dir_inode rest (readdir_block r.1 acc) r.2

/-- Function `wfs_readdir` as a call. -/
def wfs_readdir_call (s : FS) (path : List Nat) : (Int × List (List Nat)) × FS :=
  let tr := traverse_path_call s path
  if tr.1.1 ≠ 0 then ((tr.1.1, []), tr.2)
  else
    let dir_inode := tr.1.2.1
    if dir_inode.mode &&& S_IFDIR = 0 then ((-ENOTDIR, []), tr.2)
    else
      let r := wfs_readdir_blocks dir_inode (List.range N_BLOCKS) [[DOT], [DOT, DOT]] tr.2
      ((0, r.1), r.2)

/-! ## The image as one byte array, and the C integer types

The definitions above keep the four regions of an image apart and take block
numbers, indices and byte offsets in `ℕ`.  They are the C functions as long as
every index stays inside the region it is meant for and every `int` value fits
32 bits (theorems `free_data_block_int_eq`, `raid_write_int_eq`,
`raid_read_int_eq`).  The definitions of this section embed the same functions
without that restriction: an offset is computed with the C types of `wfs.c`,
and the byte it names is looked up in the image as one array, in whichever
region it lies. -/

/-- The value of an `int` expression whose mathematical value is `z`: the low
32 bits in two's complement (what the compiled 32-bit arithmetic yields when
the C operation overflows). -/
def wrap_int (z : Int) : Int := to_int (z % 2 ^ 32).toNat

/-- The value of an `off_t` (64 bits, two's complement) whose mathematical
value is `z`. -/
def to_off_t (z : Int) : Int := (z + 2 ^ 63) % 2 ^ 64 - 2 ^ 63

/-- Byte `k` of `struct wfs_inode` as laid out on x86-64: `num` at 0, `mode` at
4, `uid` at 8, `gid` at 12, `size` at 16, `nlinks` at 24, `atim` at 32, `mtim`
at 40, `ctim` at 48, `blocks[8]` at 56; the padding bytes 28 to 31 and the rest
of the 512-byte slot from byte 120 on are not stored in the model and read as
0. -/
def inode_byte (x : wfs_inode) (k : Nat) : Nat :=
  if k < 4 then le_byte x.num k
  else if k < 8 then le_byte x.mode (k - 4)
  else if k < 12 then le_byte x.uid (k - 8)
  else if k < 16 then le_byte x.gid (k - 12)
  else if k < 24 then le_byte x.size (k - 16)
  else if k < 28 then le_byte (x.nlinks % 2 ^ 32).toNat (k - 24)
  else if k < 32 then 0
  else if k < 40 then le_byte x.atim (k - 32)
  else if k < 48 then le_byte x.mtim (k - 40)
  else if k < 56 then le_byte x.ctim (k - 48)
  else if k < 56 + 8 * N_BLOCKS then le_byte (x.blocks ((k - 56) / 8)) ((k - 56) % 8)
  else 0

/-- The record held by the bytes `f 0 .. f 119`. -/
def inode_of_bytes (f : Nat → Nat) : wfs_inode :=
  { num := le_decode f 0 4, mode := le_decode f 4 4, uid := le_decode f 8 4,
    gid := le_decode f 12 4, size := le_decode f 16 8, nlinks := to_int (le_decode f 24 4),
    atim := le_decode f 32 8, mtim := le_decode f 40 8, ctim := le_decode f 48 8,
    blocks := fun i => if i < N_BLOCKS then le_decode f (56 + 8 * i) 8 else 0 }

/-- The byte at offset `a` of a mapped image, with the regions at the offsets
of the superblock `sb`.  The superblock copy at the start of the image (below
`i_bitmap_ptr`) is not read by the mounted program and is not part of this
view: it reads as 0. -/
def image_byte (sb : wfs_sb) (d : Disk) (a : Nat) : Nat :=
  if a < sb.i_bitmap_ptr then 0
  else if a < sb.d_bitmap_ptr then d.i_bitmap (a - sb.i_bitmap_ptr)
  else if a < sb.i_blocks_ptr then d.d_bitmap (a - sb.d_bitmap_ptr)
  else if a < sb.d_blocks_ptr then
    inode_byte (d.inodes ((a - sb.i_blocks_ptr) / INODE_SIZE)) ((a - sb.i_blocks_ptr) % INODE_SIZE)
  else d.data (a - sb.d_blocks_ptr)

/-- The image after `memcpy(image + a, buf, size)`: every byte of the range is
stored in the region in which it lies (`i_bitmap_ptr ≤ a`). -/
def image_write (sb : wfs_sb) (d : Disk) (a : Nat) (buf : Nat → Nat) (size : Nat) : Disk :=
  { sb := d.sb,
    i_bitmap := fun k =>
      if a ≤ sb.i_bitmap_ptr + k ∧ sb.i_bitmap_ptr + k < a + size ∧
          sb.i_bitmap_ptr + k < sb.d_bitmap_ptr then buf (sb.i_bitmap_ptr + k - a)
      else d.i_bitmap k,
    d_bitmap := fun k =>
      if a ≤ sb.d_bitmap_ptr + k ∧ sb.d_bitmap_ptr + k < a + size ∧
          sb.d_bitmap_ptr + k < sb.i_blocks_ptr then buf (sb.d_bitmap_ptr + k - a)
      else d.d_bitmap k,
    inodes := fun n =>
      if a < sb.i_blocks_ptr + INODE_SIZE * (n + 1) ∧ sb.i_blocks_ptr + INODE_SIZE * n < a + size ∧
          sb.i_blocks_ptr + INODE_SIZE * n < sb.d_blocks_ptr ∧ a < sb.d_blocks_ptr then
        inode_of_bytes (fun k =>
          if a ≤ sb.i_blocks_ptr + INODE_SIZE * n + k ∧
              sb.i_blocks_ptr + INODE_SIZE * n + k < a + size ∧
              sb.i_blocks_ptr + INODE_SIZE * n + k < sb.d_blocks_ptr then
            buf (sb.i_blocks_ptr + INODE_SIZE * n + k - a)
          else inode_byte (d.inodes n) k)
      else d.inodes n,
    data := fun k =>
      if a ≤ sb.d_blocks_ptr + k ∧ sb.d_blocks_ptr + k < a + size then
        buf (sb.d_blocks_ptr + k - a)
      else d.data k }

/-- The value of `disk_offset` in the stripe branch of `raid_read` and
`raid_write`: `int stripe_index = block_number / num_disks;
off_t disk_offset = superblock.d_blocks_ptr + stripe_index * BLOCK_SIZE;` with
the quotient narrowed to `int` and the product taken in `int`. -/
def stripe_disk_offset (s : FS) (block_number : Nat) : Int :=
  let stripe_index : Int := to_int (block_number / s.num_disks)
  to_off_t ((s.superblock.d_blocks_ptr : Int) + wrap_int (stripe_index * BLOCK_SIZE))

/-- The offset `superblock.d_blocks_ptr + block_number * BLOCK_SIZE` of the
mirror branches, an `off_t` product. -/
def mirror_disk_offset (s : FS) (block_number : Nat) : Int :=
  to_off_t ((s.superblock.d_blocks_ptr : Int) + to_off_t ((block_number : Int) * BLOCK_SIZE))

/-- Function `raid_write` with the C integer types, on the image as one byte
array.  `none` stands for the cases that the model does not follow: the
division by `num_disks = 0`, and an offset below `i_bitmap_ptr` (the write
starts in the superblock copy or before the mapping). -/
def raid_write_int (s : FS) (buf : Nat → Nat) (block_number size : Nat) : Option FS :=
  if s.raid_mode = 0 then
    if s.num_disks = 0 then none
    else
      let disk_idx := block_number % s.num_disks
      let disk_offset := stripe_disk_offset s block_number
      if disk_offset < s.superblock.i_bitmap_ptr then none
      else
        some { s with disk_maps := fun i =>
          if i = disk_idx then
            image_write s.superblock (s.disk_maps i) disk_offset.toNat buf size
          else s.disk_maps i }
  else if s.raid_mode = 1 ∨ s.raid_mode = 2 then
    let disk_offset := mirror_disk_offset s block_number
    if disk_offset < s.superblock.i_bitmap_ptr then none
    else
      some { s with disk_maps := fun i =>
        if i < s.num_disks then
          image_write s.superblock (s.disk_maps i) disk_offset.toNat buf size
        else s.disk_maps i }
  else some s

/-- The bytes `image[a .. a + size)` copied into a fresh buffer. -/
def image_read (sb : wfs_sb) (d : Disk) (a size : Nat) : Nat → Nat :=
  fun k => if k < size then image_byte sb d (a + k) else 0

/-- Function `raid_read` with the C integer types, on the image as one byte
array: the content of `buf`; `none` as for `raid_write_int`. -/
def raid_read_int (s : FS) (block_number size : Nat) : Option (Nat → Nat) :=
  if s.raid_mode = 0 then
    if s.num_disks = 0 then none
    else
      let disk_idx := block_number % s.num_disks
      let disk_offset := stripe_disk_offset s block_number
      if disk_offset < s.superblock.i_bitmap_ptr then none
      else some (image_read s.superblock (s.disk_maps disk_idx) disk_offset.toNat size)
  else if s.raid_mode = 1 then
    let disk_offset := mirror_disk_offset s block_number
    if disk_offset < s.superblock.i_bitmap_ptr then none
    else some (image_read s.superblock (s.disk_maps 0) disk_offset.toNat size)
  else if s.raid_mode = 2 then
    let disk_offset := mirror_disk_offset s block_number
    if disk_offset < s.superblock.i_bitmap_ptr then none
    else
      let temp_buf := fun i => image_read s.superblock (s.disk_maps i) disk_offset.toNat size
      let counts := vote_counts (fun i j => memcmp_eq (temp_buf i) (temp_buf j) size) s.num_disks
      some (temp_buf (vote_max counts s.num_disks))
  else some (fun _ => 0)

/-- Function `free_data_block` with the index as the C `int` (the block number
is an `off_t` at every call), on the image as one byte array: `clear_bit`
changes the byte that lies `index / 8` bytes after `d_bitmap_ptr`, in whichever
region that is; there is no check of `index` against `num_data_blocks`.  For a
negative `index` the shift count `index % 8` of `clear_bit` can be negative
(undefined in C); the model changes nothing then. -/
def free_data_block_int (s : FS) (block_num : Nat) : FS :=
  if to_int block_num < 0 then s
  else
    let index := (to_int block_num).toNat
    { s with disk_maps := fun i =>
        if i = 0 ∨ ((s.raid_mode = 1 ∨ s.raid_mode = 2) ∧ i < s.num_disks) then
          image_write s.superblock (s.disk_maps i) (s.superblock.d_bitmap_ptr + index / 8)
              (fun _ =>
                image_byte s.superblock (s.disk_maps i) (s.superblock.d_bitmap_ptr + index / 8)
                  &&& (255 - (1 <<< (index % 8)))) 1
        else s.disk_maps i }

/-- The loops of `free_block_slots`, with the function that frees a block as a
parameter. -/
def free_block_slots_with (free_block : FS → Nat → FS) (s : FS) (inode : wfs_inode) (count : Nat) :
    FS :=
  (List.range count).foldl
    (fun t i => if inode.blocks i ≠ 0 then free_block t (inode.blocks i) else t) s

/-- Function `free_indirect_blocks`, with the function that frees a block as a
parameter. -/
def free_indirect_blocks_with (free_block : FS → Nat → FS) (s : FS) (inode : wfs_inode) :
    Int × wfs_inode × FS :=
  if inode.blocks IND_BLOCK = 0 then (0, inode, s)
  else
    let rp := read_indirect_pointers s inode
    if rp.1 ≠ 0 then (rp.1, inode, s)
    else
      let s1 := (List.range INDIRECT_BLOCK_ENTRIES).foldl
        (fun t i => if rp.2 i ≠ 0 then free_block t (rp.2 i) else t) s
      let s2 := raid_write s1 (fun _ => 0) (inode.blocks IND_BLOCK) BLOCK_SIZE
      let s3 := free_block s2 (inode.blocks IND_BLOCK)
      let inode1 := { inode with blocks := update inode.blocks IND_BLOCK 0 }
      (0, inode1, store_inode s3 inode1.num inode1)

/-- Function `wfs_unlink`, with the function that frees a block as a parameter:
`wfs_unlink_with free_data_block` is `wfs_unlink`, and
`wfs_unlink_with free_data_block_int` is the same code with `free_data_block`
on the image as one byte array. -/
def wfs_unlink_with (free_block : FS → Nat → FS) (env : Env) (s : FS) (path : List Nat) : Int × FS :=
  let dir_path := dirname path
  let base_name := basename path
  let tr := traverse_path s dir_path
  if tr.1 ≠ 0 then (tr.1, s)
  else
    let parent_inode := tr.2.1
    let parent_inode_num := tr.2.2
    let f := find_dentry s parent_inode base_name
    if f.1 ≠ 0 then (f.1, s)
    else
      let target_inode := load_inode s f.2.num
      if target_inode.mode &&& S_IFDIR ≠ 0 then (-EISDIR, s)
      else
        let rm := remove_dentry s parent_inode base_name
        if rm.1 ≠ 0 then (rm.1, rm.2)
        else
          let s1 := free_block_slots_with free_block rm.2 target_inode D_BLOCK
          let target1 : wfs_inode :=
            { target_inode with
              blocks := fun i => if i < D_BLOCK then 0 else target_inode.blocks i }
          let fi := free_indirect_blocks_with free_block s1 target1
          let s2 := free_inode fi.2.2 fi.2.1.num
          (0, store_inode s2 parent_inode_num
            { parent_inode with mtim := env.time 0, ctim := env.time 0 })

/-- The top-level operations that write to the disks. -/
inductive Op where
  | init : Op
  | mknod (path : List Nat) (mode : Nat) : Op
  | mkdir (path : List Nat) (mode : Nat) : Op
  | unlink (path : List Nat) : Op
  | rmdir (path : List Nat) : Op
  | write (path : List Nat) (buf : List Nat) (offset : Nat) : Op

/-- The state after one top-level operation. -/
def Op.run (env : Env) (s : FS) : Op → FS
  | .init => wfs_init env s
  | .mknod path mode => (wfs_mknod env s path mode).2
  | .mkdir path mode => (wfs_mkdir env s path mode).2
  | .unlink path => (wfs_unlink env s path).2
  | .rmdir path => (wfs_rmdir env s path).2
  | .write path buf offset => (wfs_write env s path buf offset).2

/-! ## Formatter (`mkfs.c`) and mount -/

/-- Function `round_up_blocks` of `mkfs.c`. -/
def round_up_blocks (num_blocks : Nat) : Nat :=
  let remainder := num_blocks % 32
  if remainder ≠ 0 then num_blocks + (32 - remainder) else num_blocks

/-- The value of `sizeof(struct wfs_sb)`: six `uint64_t`, two `int32_t`, 8 bytes
of padding and 10 tags of 28 bytes. -/
def SB_SIZE : Nat := 6 * 8 + 2 * 4 + 8 + MAX_DISKS * MAX_NAME

/-- Function `generate_disk_id`: the string `DISK_%04d` of `index + 1`
(four digits for the at most `MAX_DISKS` disks). -/
def generate_disk_id (index : Nat) : List Nat :=
  [68, 73, 83, 75, 95] ++
    [48 + (index + 1) / 1000 % 10, 48 + (index + 1) / 100 % 10,
     48 + (index + 1) / 10 % 10, 48 + (index + 1) % 10]

/-- The value of an `int` after its conversion to `size_t` (64 bits, the value
modulo 2^64). -/
def to_size_t (z : Int) : Nat := (z % 2 ^ 64).toNat

/-- The product `a * b` of two non-negative `int` values, as an `int`.  When the
product does not fit, the C multiplication overflows (undefined behaviour); the
model takes the low 32 bits in two's complement, which is what the compiled
32-bit multiplication yields. -/
def int_mul (a b : Nat) : Int := to_int (a * b)

/-- The offsets and sizes that `mkfs` computes under `// Calculate sizes`. -/
structure mkfs_sizes where
  i_bitmap_ptr : Nat
  i_bitmap_size : Nat
  d_bitmap_ptr : Nat
  d_bitmap_size : Nat
  i_blocks_ptr : Nat
  inode_region_size : Nat
  d_blocks_ptr : Nat
  data_region_size : Nat
  fs_size : Nat

/-- The layout computed by `mkfs` from the rounded counts: `offset` is a
`size_t`, and the region sizes `num_inodes * INODE_SIZE` and
`num_data_blocks * BLOCK_SIZE` are `int` products converted to `size_t`. -/
def mkfs_layout (num_inodes num_data_blocks : Nat) : mkfs_sizes :=
  let i_bitmap_ptr := SB_SIZE
  let i_bitmap_size := (num_inodes + 8 - 1) / 8
  let d_bitmap_ptr := (i_bitmap_ptr + i_bitmap_size) % 2 ^ 64
  let d_bitmap_size := (num_data_blocks + 8 - 1) / 8
  let offset := (d_bitmap_ptr + d_bitmap_size) % 2 ^ 64
  let i_blocks_ptr :=
    if offset % BLOCK_SIZE ≠ 0 then (offset + (BLOCK_SIZE - offset % BLOCK_SIZE)) % 2 ^ 64
    else offset
  let inode_region_size := to_size_t (int_mul num_inodes INODE_SIZE)
  let d_blocks_ptr := (i_blocks_ptr + inode_region_size) % 2 ^ 64
  let data_region_size := to_size_t (int_mul num_data_blocks BLOCK_SIZE)
  { i_bitmap_ptr := i_bitmap_ptr, i_bitmap_size := i_bitmap_size,
    d_bitmap_ptr := d_bitmap_ptr, d_bitmap_size := d_bitmap_size,
    i_blocks_ptr := i_blocks_ptr, inode_region_size := inode_region_size,
    d_blocks_ptr := d_blocks_ptr, data_region_size := data_region_size,
    fs_size := (d_blocks_ptr + data_region_size) % 2 ^ 64 }

/-- The superblock computed by `mkfs` from the rounded counts. -/
def mkfs_superblock (raid_mode : Int) (num_disks num_inodes num_data_blocks : Nat) : wfs_sb :=
  { num_inodes := num_inodes, num_data_blocks := num_data_blocks,
    i_bitmap_ptr := (mkfs_layout num_inodes num_data_blocks).i_bitmap_ptr,
    d_bitmap_ptr := (mkfs_layout num_inodes num_data_blocks).d_bitmap_ptr,
    i_blocks_ptr := (mkfs_layout num_inodes num_data_blocks).i_blocks_ptr,
    d_blocks_ptr := (mkfs_layout num_inodes num_data_blocks).d_blocks_ptr,
    raid_mode := raid_mode, num_disks := (num_disks : Int),
    disk_order := (List.range num_disks).map generate_disk_id }

/-- The disk images after a successful run of `mkfs -r raid_mode -d ... -i
num_inodes -b num_data_blocks` on the images `images` (large enough, at least
two of them).  The inode bitmap is zeroed and bit 0 set, the root inode is
written to slot 0; the data bitmap and the data region are not written. -/
def mkfs (env : Env) (raid_mode : Int) (num_disks num_inodes num_data_blocks : Nat)
    (images : Nat → Disk) : Nat → Disk :=
  let ni := round_up_blocks num_inodes
  let nd := round_up_blocks num_data_blocks
  let i_bitmap_size := (ni + 8 - 1) / 8
  let root_inode : wfs_inode :=
    { zero_inode with
      num := 0, mode := S_IFDIR ||| 0o755, uid := env.uid, gid := env.gid, size := 0,
      nlinks := 2, atim := env.time 0, mtim := env.time 0, ctim := env.time 0,
      blocks := fun _ => 0 }
  fun i =>
    if i < num_disks then
      { sb := mkfs_superblock raid_mode num_disks ni nd,
        i_bitmap := fun a =>
          if a = 0 then (if a < i_bitmap_size then 0 else (images i).i_bitmap a) ||| 1
          else if a < i_bitmap_size then 0 else (images i).i_bitmap a,
        d_bitmap := (images i).d_bitmap,
        inodes := update (images i).inodes 0 root_inode,
        data := (images i).data }
    else images i

/-- Function `main` of `mkfs.c`, after option parsing: `raid_mode` is -1 when no
`-r` was given, the counts are the values of `-i` and `-b` (0 when absent; at
most `INT_MAX - 31`, so that `round_up_blocks` does not overflow), `sizes i` is
the `st_size` of image `i`.  The exit status and the images; `open`, `fstat`
and `mmap` are taken to succeed. -/
def mkfs_main (env : Env) (raid_mode : Int) (num_disks num_inodes num_data_blocks : Nat)
    (sizes : Nat → Nat) (images : Nat → Disk) : Int × (Nat → Disk) :=
  if ¬ (raid_mode = 0 ∨ raid_mode = 1 ∨ raid_mode = 2) then (1, images)
  else if num_disks > MAX_DISKS then (1, images)
  else if num_disks = 0 then (1, images)
  else if num_inodes = 0 then (1, images)
  else if num_data_blocks = 0 then (1, images)
  else if num_disks < 2 then (1, images)
  else
    let fs_size :=
      (mkfs_layout (round_up_blocks num_inodes) (round_up_blocks num_data_blocks)).fs_size
    if (List.range num_disks).any (fun i => decide (sizes i < fs_size)) then (-1, images)
    else (0, mkfs env raid_mode num_disks num_inodes num_data_blocks images)

/-- The globals of `wfs.c` after `main` has mapped `num_disks` images that carry
the same superblock, passed in their format-time order. -/
def mount_disks (images : Nat → Disk) (num_disks : Nat) : FS :=
  { superblock := (images 0).sb, num_disks := num_disks,
    raid_mode := (images 0).sb.raid_mode, disk_maps := images }

/-- The C string in `disk_order[i]` of a superblock; the entries that `mkfs` did
not write are empty (the struct was zeroed). -/
def sb_disk_order (sb : wfs_sb) (i : Nat) : List Nat := sb.disk_order.getD i []

/-- The test `memcmp(&temp_sb, &superblock, sizeof(struct wfs_sb)) == 0` of
`main`. -/
def sb_same (a b : wfs_sb) : Bool :=
  decide (a.num_inodes = b.num_inodes) && decide (a.num_data_blocks = b.num_data_blocks) &&
  decide (a.i_bitmap_ptr = b.i_bitmap_ptr) && decide (a.d_bitmap_ptr = b.d_bitmap_ptr) &&
  decide (a.i_blocks_ptr = b.i_blocks_ptr) && decide (a.d_blocks_ptr = b.d_blocks_ptr) &&
  decide (a.raid_mode = b.raid_mode) && decide (a.num_disks = b.num_disks) &&
  (List.range MAX_DISKS).all (fun i => decide (sb_disk_order a i = sb_disk_order b i))

/-- The string `disk_ids[j]` of `main`: `strncpy` of `MAX_NAME` bytes from
`disk_order[j]` of the superblock found on the `j`-th image of the command
line, terminated at `MAX_NAME - 1`. -/
def disk_id (images : Nat → Disk) (j : Nat) : List Nat :=
  (sb_disk_order (images j).sb j).take (MAX_NAME - 1)

/-- The inner loop of the reordering in `main`: the first `j < num_disks` with
`strncmp(superblock.disk_order[i], disk_ids[j], MAX_NAME) == 0`. -/
def find_disk (images : Nat → Disk) (num_disks : Nat) (sb : wfs_sb) (i : Nat) : Option Nat :=
  (List.range num_disks).find?
    (fun j => decide ((sb_disk_order sb i).take MAX_NAME = (disk_id images j).take MAX_NAME))

/-- Function `main` of `wfs.c` up to the call of `fuse_main`, for the images
given on the command line in this order: the globals `superblock`,
`num_disks`, `raid_mode` and `disk_maps`, or `none` when `main` exits with
`EXIT_FAILURE`.  (`open`, `fstat`, `mmap` and `malloc` are taken to succeed.) -/
def wfs_main (images : Nat → Disk) (num_disks : Nat) : Option FS :=
  if num_disks = 0 ∨ num_disks > MAX_DISKS then none
  else if !(List.range num_disks).all (fun i => sb_same (images i).sb (images 0).sb) then none
  else if (num_disks : Int) ≠ (images 0).sb.num_disks then none
  else if !(List.range num_disks).all
      (fun i => (find_disk images num_disks (images 0).sb i).isSome) then none
  else
    some
      { superblock := (images 0).sb, num_disks := num_disks,
        raid_mode := (images 0).sb.raid_mode,
        disk_maps := fun i =>
          if i < num_disks then images ((find_disk images num_disks (images 0).sb i).getD 0)
          else images i }

/-- A disk image file filled with zero bytes. -/
def zero_disk : Disk :=
  { sb := { num_inodes := 0, num_data_blocks := 0, i_bitmap_ptr := 0, d_bitmap_ptr := 0,
            i_blocks_ptr := 0, d_blocks_ptr := 0, raid_mode := 0, num_disks := 0,
            disk_order := [] },
    i_bitmap := fun _ => 0, d_bitmap := fun _ => 0, inodes := fun _ => zero_inode,
    data := fun _ => 0 }

/-- An environment: uid 1000, gid 1000, the clock at 1700000000. -/
def env0 : Env := { uid := 1000, gid := 1000, time := fun _ => 1700000000 }

/-- A volume formatted on zero-filled images with `-i 32 -b 64`, mounted and
initialised by `wfs_init`. -/
def fresh_volume (raid_mode : Int) (num_disks : Nat) : FS :=
  wfs_init env0 (mount_disks (mkfs env0 raid_mode num_disks 32 64 (fun _ => zero_disk)) num_disks)

/-- The volume `fresh_volume 1 2` after `mkdir /d`. -/
def ex_mkdir_d : FS := (wfs_mkdir env0 (fresh_volume 1 2) [47, 100] 0o755).2

/-- The volume `ex_mkdir_d` after `mknod /d/x`. -/
def ex_d_x : FS := (wfs_mknod env0 ex_mkdir_d [47, 100, 47, 120] (S_IFREG ||| 0o644)).2

/-- The path `/a`. -/
def path_a : List Nat := [47, 97]

/-- The path `/` followed by 28 bytes `a`: a basename of 28 bytes. -/
def long_path : List Nat := 47 :: List.replicate 28 97

/-- The path `/` followed by 27 bytes `a`: the basename of `long_path` cut to the
27 bytes that fit a directory entry. -/
def trunc_path : List Nat := 47 :: List.replicate 27 97

/-- The volume `fresh_volume 1 2` after `mknod long_path`. -/
def ex_long1 : FS := (wfs_mknod env0 (fresh_volume 1 2) long_path (S_IFREG ||| 0o644)).2

/-- The volume `ex_long1` after a second `mknod long_path`. -/
def ex_long2 : FS := (wfs_mknod env0 ex_long1 long_path (S_IFREG ||| 0o644)).2

/-- A volume formatted on zero-filled images with `-i 32 -b 32` (31 usable data
blocks), mounted and initialised by `wfs_init`. -/
def small_volume (raid_mode : Int) (num_disks : Nat) : FS :=
  wfs_init env0 (mount_disks (mkfs env0 raid_mode num_disks 32 32 (fun _ => zero_disk)) num_disks)

/-- The state after `mknod /c` for the one-byte name `c` and a write of 3072
bytes (six blocks) to it at offset 0. -/
def add_file (s : FS) (c : Nat) : FS :=
  (wfs_write env0 (wfs_mknod env0 s [47, c] (S_IFREG ||| 0o644)).2 [47, c]
    (List.replicate 3072 65) 0).2

/-- The volume `small_volume 1 2` after `mkdir /d` and after five six-block files
`/a`, `/b`, `/c`, `/e`, `/f` were written: the root uses block 1 and the files
use blocks 2 to 31, so that no data block is free. -/
def ex_full : FS :=
  add_file (add_file (add_file (add_file (add_file
    (wfs_mkdir env0 (small_volume 1 2) [47, 100] 0o755).2 97) 98) 99) 101) 102

/-- The path `/d/x`. -/
def path_d_x : List Nat := [47, 100, 47, 120]

/-- The path `/d/e`. -/
def path_d_e : List Nat := [47, 100, 47, 101]

/-- File content of 64 bytes whose bytes 32 to 63 have the layout of a
directory entry: the name `e` and the inode number 2. -/
def forged_block : List Nat :=
  List.replicate 32 0 ++ [101] ++ List.replicate 27 0 ++ [2, 0, 0, 0]

/-- The volume `fresh_volume 1 2` after `mknod /a`. -/
def ex_stale1 : FS := (wfs_mknod env0 (fresh_volume 1 2) path_a (S_IFREG ||| 0o644)).2

/-- Then `forged_block` is written to `/a` at offset 0 (it lands in data block 2). -/
def ex_stale2 : FS := (wfs_write env0 ex_stale1 path_a forged_block 0).2

/-- Then `unlink /a`: data block 2 is free again and keeps its bytes. -/
def ex_stale3 : FS := (wfs_unlink env0 ex_stale2 path_a).2

/-- Then `mkdir /d`. -/
def ex_stale4 : FS := (wfs_mkdir env0 ex_stale3 [47, 100] 0o755).2

/-- Then `mknod /d/x`: `add_dentry` takes data block 2 for `/d` and writes slot 0. -/
def ex_stale5 : FS := (wfs_mknod env0 ex_stale4 path_d_x (S_IFREG ||| 0o644)).2

/-- Then one byte is written to `/d/x` at offset 512 (its `blocks[1]`). -/
def ex_stale6 : FS := (wfs_write env0 ex_stale5 path_d_x [7] 512).2

/-- Then `unlink /d/e`. -/
def ex_stale7 : FS := (wfs_unlink env0 ex_stale6 path_d_e).2

/-- A buffer of 513 bytes: 1, then 511 zero bytes, then 2. -/
def two_block_buf : List Nat := 1 :: (List.replicate 511 0 ++ [2])

/-- A volume formatted on zero-filled images with `-i 32 -b 96` (95 usable data
blocks), 2 disks in mirror mode, mounted and initialised by `wfs_init`. -/
def big_volume : FS :=
  wfs_init env0 (mount_disks (mkfs env0 1 2 32 96 (fun _ => zero_disk)) 2)

/-- The volume `big_volume` after `mknod /f`: an empty regular file, inode 1. -/
def big_f : FS := (wfs_mknod env0 big_volume [47, 102] (S_IFREG ||| 0o644)).2

/-- The path `/g`. -/
def path_g : List Nat := [47, 103]

/-- The volume `small_volume 1 2` after four six-block files `/a`, `/b`, `/c`,
`/e` were written: the root uses block 1 and the files use blocks 2 to 25, so
that six data blocks (26 to 31) are free. -/
def ex_four : FS := add_file (add_file (add_file (add_file (small_volume 1 2) 97) 98) 99) 101

/-- The volume `ex_four` after `mknod /g`: an empty regular file, inode 5. -/
def ex_four_g : FS := (wfs_mknod env0 ex_four path_g (S_IFREG ||| 0o644)).2

/-- The path `/big`. -/
def path_big : List Nat := [47, 98, 105, 103]

/-- A buffer of 1600 bytes: 512 bytes `A`, 512 bytes `B`, 512 bytes `C` and 64
bytes `D`. -/
def abcd_buf : List Nat :=
  List.replicate 512 65 ++ List.replicate 512 66 ++ List.replicate 512 67 ++ List.replicate 64 68

/-- The volume `fresh_volume 0 3` (RAID 0 on three disks) after `mknod /big`. -/
def ex_stripe1 : FS := (wfs_mknod env0 (fresh_volume 0 3) path_big (S_IFREG ||| 0o644)).2

/-- Then `abcd_buf` is written to `/big` at offset 0. -/
def ex_stripe2 : FS := (wfs_write env0 ex_stripe1 path_big abcd_buf 0).2

/-- The state in which byte `a` of the data region of disk `d` has been set to
`v` from outside the filesystem. -/
def poke_data (s : FS) (d a v : Nat) : FS :=
  { s with disk_maps := fun i =>
      if i = d then { s.disk_maps i with data := update (s.disk_maps i).data a v }
      else s.disk_maps i }

/-- A disk image file with prior content: every byte of the two bitmap regions
is `0xFF`. -/
def used_disk : Disk :=
  { zero_disk with i_bitmap := fun _ => 255, d_bitmap := fun _ => 255 }

/-- Two images with prior content after `mkfs -r 1 -i 32 -b 64`, mounted. -/
def reformatted_volume : FS :=
  mount_disks (mkfs env0 1 2 32 64 (fun _ => used_disk)) 2

/-- Two images, the first filled with zero bytes and the second with a data
region of bytes 1, formatted in this order by `mkfs -r 0 -i 32 -b 64`:
`two_formatted 0` is disk 0 and `two_formatted 1` is disk 1 of the volume. -/
def two_formatted : Nat → Disk :=
  mkfs env0 0 2 32 64 (fun i => if i = 0 then zero_disk else { zero_disk with data := fun _ => 1 })

/-- The two formatted images as given to the mount driver in the other order. -/
def two_swapped : Nat → Disk :=
  fun i => if i = 0 then two_formatted 1 else if i = 1 then two_formatted 0 else two_formatted i

/-- The path `/f`. -/
def path_f : List Nat := [47, 102]

/-- Three 8-byte little-endian block numbers: 1, 50 and 4. -/
def forged_pointers : List Nat :=
  [1, 0, 0, 0, 0, 0, 0, 0, 50, 0, 0, 0, 0, 0, 0, 0, 4, 0, 0, 0, 0, 0, 0, 0]

/-- A sequence of top-level operations: `/a` is created, filled with the bytes
of a directory entry `e` for inode 2 and unlinked; `/d` and `/d/x` are created
(`/d` takes the block that `/a` had, so `/d/e` and `/d/x` both name inode 2);
`/f` is created; one byte is written to `/d/x`; `/d/e` is unlinked (which frees
inode 2 and its block 3 while `/d/x` still names the record); one byte is
written to `/f` at offset 3072 (block 3 becomes the indirect block of `/f`);
24 bytes are written to `/d/x` at offset 8. -/
def share_ops : List Op :=
  [Op.mknod path_a (S_IFREG ||| 0o644),
   Op.write path_a forged_block 0,
   Op.unlink path_a,
   Op.mkdir [47, 100] 0o755,
   Op.mknod path_d_x (S_IFREG ||| 0o644),
   Op.mknod path_f (S_IFREG ||| 0o644),
   Op.write path_d_x [7] 0,
   Op.unlink path_d_e,
   Op.write path_f [9] 3072,
   Op.write path_d_x forged_pointers 8]

/-- The volume `fresh_volume 1 2` after the operations `share_ops`. -/
def ex_share : FS := share_ops.foldl (fun s op => op.run env0 s) (fresh_volume 1 2)

/-- A 3-disk volume in mode 2 on which block 5 was written with bytes 7 and byte
0 of the copy on disk 0 was then changed to 9. -/
def ex_vote : FS :=
  poke_data (raid_write (fresh_volume 2 3) (fun _ => 7) 5 512) 0 (5 * 512) 9

/-- Two zero-filled images after `mkfs -r 1 -i 32 -b 64`, mounted, before
`wfs_init` has run. -/
def formatted_volume : FS :=
  mount_disks (mkfs env0 1 2 32 64 (fun _ => zero_disk)) 2

/-- A name of 32 bytes `A`. -/
def name_a32 : List Nat := List.replicate 32 65

/-- File content of 96 bytes: 32 zero bytes, then 64 bytes `A`. -/
def unterminated_block : List Nat := List.replicate 32 0 ++ List.replicate 64 65

/-- The volume `ex_stale1` (a fresh volume with `/a`) after `unterminated_block`
was written to `/a` at offset 0 (it lands in data block 2). -/
def ex_unterm2 : FS := (wfs_write env0 ex_stale1 path_a unterminated_block 0).2

/-- Then `unlink /a`. -/
def ex_unterm3 : FS := (wfs_unlink env0 ex_unterm2 path_a).2

/-- Then `mkdir /d`. -/
def ex_unterm4 : FS := (wfs_mkdir env0 ex_unterm3 [47, 100] 0o755).2

/-- Then `mknod /d/x`: `add_dentry` takes data block 2 for `/d` and writes slot 0. -/
def ex_unterm5 : FS := (wfs_mknod env0 ex_unterm4 path_d_x (S_IFREG ||| 0o644)).2

/-- A name of 28 bytes `b`. -/
def name_b28 : List Nat := List.replicate 28 98

/-- The path `/h`. -/
def path_h : List Nat := [47, 104]

/-- A sequence of top-level operations: `/a` is created, filled with the bytes
of a directory entry `e` for inode 2 and unlinked; `/d` and `/d/x` are created
(`/d` takes the block that `/a` had, so `/d/e` and `/d/x` both name inode 2);
`/f` is created; one byte is written to `/d/x` (data block 3); `/d/e` is
unlinked (which frees inode 2 and block 3); two writes to `/f` at offsets 3072
and 3584 take block 3 as its indirect block and blocks 4 and 5 as data; a
one-byte write through `/d/x` at offset 8 changes byte 8 of block 3, entry 1 of
the indirect block of `/f`, from 5 to 6; then `/h` is created (it takes inode
2, with a new record). -/
def reuse_ops : List Op :=
  [Op.mknod path_a (S_IFREG ||| 0o644),
   Op.write path_a forged_block 0,
   Op.unlink path_a,
   Op.mkdir [47, 100] 0o755,
   Op.mknod path_d_x (S_IFREG ||| 0o644),
   Op.mknod path_f (S_IFREG ||| 0o644),
   Op.write path_d_x [7] 0,
   Op.unlink path_d_e,
   Op.write path_f [8] 3072,
   Op.write path_f [8] 3584,
   Op.write path_d_x [6] 8,
   Op.mknod path_h (S_IFREG ||| 0o644)]

/-- The volume `fresh_volume 1 2` after the operations `reuse_ops`. -/
def ex_reuse : FS := reuse_ops.foldl (fun s op => op.run env0 s) (fresh_volume 1 2)

/-- A volume formatted on zero-filled images with `-r 0 -i 32 -b 16777248`
(2^24 + 32 data blocks) on 2 disks, mounted and initialised by `wfs_init`. -/
def wide_volume : FS :=
  wfs_init env0 (mount_disks (mkfs env0 0 2 32 16777248 (fun _ => zero_disk)) 2)

/-- The volume `wide_volume` after `raid_write` of 512 bytes 7 to block 2^24. -/
def wide_written : FS :=
  (raid_write_int wide_volume (fun _ => 7) (2 ^ 24) 512).getD wide_volume

/-- The volume `wide_volume` after `raid_write` of 512 bytes 7 to block 2. -/
def wide_written2 : FS :=
  (raid_write_int wide_volume (fun _ => 7) 2 512).getD wide_volume

/-- A sequence of top-level operations on a stripe volume: `/a` is created,
filled with the bytes of a directory entry `e` for inode 2 and unlinked; `/d`
and `/d/x` are created (`/d` takes the block that `/a` had, so `/d/e` and `/d/x`
both name inode 2); `/f` is created; one byte is written to `/d/x` (data block
3); `/d/e` is unlinked (which frees inode 2 and block 3); a write to `/f` at
offset 3072 takes block 3 as its indirect block and block 4 as data; a two-byte
write through `/d/x` at offset 8 sets bytes 8 and 9 of block 3, entry 1 of the
indirect block of `/f`, to the number 5454 = 78 + 256 * 21. -/
def spill_ops : List Op :=
  [Op.mknod path_a (S_IFREG ||| 0o644),
   Op.write path_a forged_block 0,
   Op.unlink path_a,
   Op.mkdir [47, 100] 0o755,
   Op.mknod path_d_x (S_IFREG ||| 0o644),
   Op.mknod path_f (S_IFREG ||| 0o644),
   Op.write path_d_x [7] 0,
   Op.unlink path_d_e,
   Op.write path_f [8] 3072,
   Op.write path_d_x [78, 21] 8]

/-- The 2-disk stripe volume `fresh_volume 0 2` after the operations `spill_ops`. -/
def ex_spill : FS := spill_ops.foldl (fun s op => op.run env0 s) (fresh_volume 0 2)

/-- The volume `ex_stale1` (a fresh volume with the empty file `/a`) after one
byte was written to `/a` at offset 2^42. -/
def ex_far : FS := (wfs_write env0 ex_stale1 path_a [7] (2 ^ 42)).2

/-! ## Predicates used in the statements -/

/-- All mounted disk images are identical (region by region). -/
def mirrored (s : FS) : Prop :=
  ∀ i, i < s.num_disks → s.disk_maps i = s.disk_maps 0

/-- A mirror-mode state (mode 1 or 2) whose mounted disk images are identical. -/
def mirror_ok (s : FS) : Prop :=
  (s.raid_mode = 1 ∨ s.raid_mode = 2) ∧ mirrored s

/-- The resolution that `wfs_unlink` and `wfs_rmdir` perform before they look at
the target: the parent by `traverse_path(dirname(path))`, then the entry by
`find_dentry(parent, basename(path))`; the status and the entry's inode number. -/
def resolve_child (s : FS) (path : List Nat) : Int × Nat :=
  let tr := traverse_path s (dirname path)
  if tr.1 ≠ 0 then (tr.1, 0)
  else
    let f := find_dentry s tr.2.1 (basename path)
    if f.1 ≠ 0 then (f.1, 0) else (0, f.2.num)

/-- The inode numbers that `traverse_path` examines (directory bit, then search
by `find_dentry`) while it walks the remaining tokens from the current inode;
the inode it ends on is not examined. -/
def traverse_visits (s : FS) : List (List Nat) → wfs_inode → Nat → List Nat
  | [], _, _ => []
  | token :: rest, current_inode, current_inode_num =>
    if token = [] then traverse_visits s rest current_inode current_inode_num
    else if current_inode.mode &&& S_IFDIR = 0 then [current_inode_num]
    else
      let f := find_dentry s current_inode token
      if f.1 ≠ 0 then [current_inode_num]
      else current_inode_num :: traverse_visits s rest (load_inode s f.2.num) f.2.num

/-- The inode numbers examined by `traverse_path(path)` on its way. -/
def path_dirs (s : FS) (path : List Nat) : List Nat :=
  if path = [SLASH] then []
  else traverse_visits s (strsep_tokens path) (load_inode s 0) 0

/-- The bitmap bit of inode `i` on disk `d`. -/
def inode_bit (s : FS) (d i : Nat) : Nat := get_bit (s.disk_maps d).i_bitmap i

/-- The bitmap bit of data block `b` on disk `d`. -/
def data_bit (s : FS) (d b : Nat) : Nat := get_bit (s.disk_maps d).d_bitmap b

/-! ## The blocks of a regular file -/

/-- The array `indirect_pointers` that `read_indirect_pointers` returns for an
inode whose indirect block is allocated. -/
def indirect_pointers (s : FS) (inode : wfs_inode) : Nat → Nat :=
  pointers_of_block (raid_read s (inode.blocks IND_BLOCK) BLOCK_SIZE)

/-- Number of block references of a regular file: the `D_BLOCK` direct slots,
the indirect pointer, and the entries of the indirect block. -/
def FILE_SLOTS : Nat := D_BLOCK + 1 + INDIRECT_BLOCK_ENTRIES

/-- The block references of a regular file, numbered `0 .. FILE_SLOTS - 1`:
reference `x < 6` is the direct slot `blocks[x]`, reference 6 is the indirect
pointer `blocks[IND_BLOCK]`, and reference `7 + i` is entry `i` of the indirect
block (0 when there is no indirect block). -/
def file_ref (s : FS) (inode : wfs_inode) (x : Nat) : Nat :=
  if x < D_BLOCK then inode.blocks x
  else if x = D_BLOCK then inode.blocks IND_BLOCK
  else if inode.blocks IND_BLOCK = 0 then 0
  else indirect_pointers s inode (x - (D_BLOCK + 1))

/-- The data block that holds the file's logical block `block_index`, as
`wfs_read` and `wfs_write` look it up; 0 when it is not allocated. -/
def file_block (s : FS) (inode : wfs_inode) (block_index : Nat) : Nat :=
  file_ref s inode (if block_index < D_BLOCK then block_index else block_index + 1)

/-- The byte at offset `a` of the file, read from its data block. -/
def file_byte (s : FS) (inode : wfs_inode) (a : Nat) : Nat :=
  raid_read s (file_block s inode (a / BLOCK_SIZE)) BLOCK_SIZE (a % BLOCK_SIZE)

/-- The block references of the file are marked in disk 0's data bitmap and no
block is referenced twice. -/
def file_wf (s : FS) (inode : wfs_inode) : Prop :=
  (∀ x, x < FILE_SLOTS → file_ref s inode x ≠ 0 → data_bit s 0 (file_ref s inode x) ≠ 0) ∧
  (∀ x y, x < FILE_SLOTS → y < FILE_SLOTS → file_ref s inode x ≠ 0 →
    file_ref s inode x = file_ref s inode y → x = y)

/-- A change of state and in-memory inode made on behalf of one file, as the
stages of `wfs_write` make it: configuration and other inode records are kept,
allocated blocks stay allocated, existing references are kept and new ones are
blocks that were free, and allocated blocks that are not the file's read as
before. -/
structure file_step (s : FS) (inode : wfs_inode) (t : FS) (inode' : wfs_inode) : Prop where
  raid_mode : t.raid_mode = s.raid_mode
  num_disks : t.num_disks = s.num_disks
  superblock : t.superblock = s.superblock
  num : inode'.num = inode.num
  mode : inode'.mode = inode.mode
  size : inode'.size = inode.size
  inodes : ∀ m, m ≠ inode.num → load_inode t m = load_inode s m
  bits : ∀ b, data_bit s 0 b ≠ 0 → data_bit t 0 b ≠ 0
  refs_keep : ∀ y, y < FILE_SLOTS → file_ref s inode y ≠ 0 →
    file_ref t inode' y = file_ref s inode y
  refs_new : ∀ y, y < FILE_SLOTS → file_ref s inode y = 0 → file_ref t inode' y ≠ 0 →
    data_bit s 0 (file_ref t inode' y) = 0
  wf : file_wf s inode → file_wf t inode'
  foreign : ∀ b, data_bit s 0 b ≠ 0 → (∀ y, y < FILE_SLOTS → file_ref s inode y ≠ b) →
    raid_read t b BLOCK_SIZE = raid_read s b BLOCK_SIZE

/-- The bytes of the file outside `[lo, hi)` that were allocated in `s` read the
same in `t`. -/
def file_keeps (s : FS) (inode : wfs_inode) (t : FS) (lo hi : Nat) : Prop :=
  ∀ a, ¬ (lo ≤ a ∧ a < hi) → a / BLOCK_SIZE < D_BLOCK + INDIRECT_BLOCK_ENTRIES →
    file_block s inode (a / BLOCK_SIZE) ≠ 0 →
    raid_read t (file_block s inode (a / BLOCK_SIZE)) BLOCK_SIZE (a % BLOCK_SIZE)
      = raid_read s (file_block s inode (a / BLOCK_SIZE)) BLOCK_SIZE (a % BLOCK_SIZE)

/-- The bytes `[lo, hi)` of the file are allocated in `t` and hold
`buf[bw ..]`. -/
def file_written (t : FS) (inode' : wfs_inode) (buf : List Nat) (bw lo hi : Nat) : Prop :=
  ∀ a, lo ≤ a → a < hi →
    file_block t inode' (a / BLOCK_SIZE) ≠ 0 ∧
    file_byte t inode' a = buf.getD (bw + (a - lo)) 0

/-- What the stages of `wfs_write` keep of the inode table and of the
in-memory inode: the number, size and mode of the in-memory inode, the number
of disks, and every stored record, except that the record of the file itself
may have been stored again with the same number, size and mode. -/
def inode_frame (s : FS) (inode : wfs_inode) (t : FS) (inode' : wfs_inode) : Prop :=
  inode'.num = inode.num ∧ inode'.size = inode.size ∧ inode'.mode = inode.mode ∧
  t.num_disks = s.num_disks ∧
  ∀ m, load_inode t m = load_inode s m ∨
    (m = inode.num ∧ (load_inode t m).size = inode.size ∧
      (load_inode t m).mode = inode.mode ∧ (load_inode t m).num = inode.num)

/-- The reference resolver's components of a path: the path split on `/`, empty
components skipped. -/
def path_components (path : List Nat) : List (List Nat) :=
  (path.splitOn SLASH).filter (fun c => !c.isEmpty)

/-- The reference resolver's walk over the components that are left, from the
current inode: `-ENOTDIR` if the current inode lacks the directory bit,
`-ENOENT` if `find_dentry` does not find the component in it, otherwise on at the
found entry's inode number. -/
def resolve_from (s : FS) : List (List Nat) → wfs_inode → Nat → Int × wfs_inode × Nat
  | [], current_inode, current_inode_num => (0, current_inode, current_inode_num)
  | component :: rest, current_inode, current_inode_num =>
    if current_inode.mode &&& S_IFDIR = 0 then (-ENOTDIR, current_inode, current_inode_num)
    else if (find_dentry s current_inode component).1 ≠ 0 then
      (-ENOENT, current_inode, current_inode_num)
    else
      resolve_from s rest (load_inode s (find_dentry s current_inode component).2.num)
        (find_dentry s current_inode component).2.num

/-- The reference resolver: start at inode 0 and walk the non-empty components
of the path in order. -/
def resolve_reference (s : FS) (path : List Nat) : Int × wfs_inode × Nat :=
  resolve_from s (path_components path) (load_inode s 0) 0

/-- The stored names of a directory that a listing shows: block slots in
ascending order, entry slots in ascending order within each allocated block,
every name that is not empty, not `.` and not `..`. -/
def listed_names (s : FS) (dir_inode : wfs_inode) : List (List Nat) :=
  (List.range N_BLOCKS).flatMap (fun i =>
    if dir_inode.blocks i = 0 then []
    else
      ((List.range entries_per_block).filter (fun j =>
          decide (entry_name (raid_read s (dir_inode.blocks i) BLOCK_SIZE) j ≠ [] ∧
            entry_name (raid_read s (dir_inode.blocks i) BLOCK_SIZE) j ≠ [DOT] ∧
            entry_name (raid_read s (dir_inode.blocks i) BLOCK_SIZE) j ≠ [DOT, DOT]))).map
        (entry_name (raid_read s (dir_inode.blocks i) BLOCK_SIZE)))

/-- The file's logical block `b` exists and is allocated: `b` is one of the 70
block indices and the lookup of `wfs_read` finds a non-zero block number. -/
def block_allocated (s : FS) (inode : wfs_inode) (b : Nat) : Prop :=
  b < D_BLOCK + INDIRECT_BLOCK_ENTRIES ∧ file_block s inode b ≠ 0

/-- The indirect block of the file is block `X`, its entry 0 is block `Y`, both
marked in disk 0's data bitmap, byte 0 of `Y` is `v`, and the entries from
`next` on are empty; the volume is in one of the three RAID modes, with a disk,
and block numbers fit the 8 bytes of an entry. -/
def indirect_started (s : FS) (inode : wfs_inode) (X Y v next : Nat) : Prop :=
  (s.raid_mode = 0 ∨ s.raid_mode = 1 ∨ s.raid_mode = 2) ∧ 0 < s.num_disks ∧
  s.superblock.num_data_blocks ≤ 2 ^ 64 ∧
  inode.blocks IND_BLOCK = X ∧ X ≠ 0 ∧ Y ≠ 0 ∧ X ≠ Y ∧
  data_bit s 0 X ≠ 0 ∧ data_bit s 0 Y ≠ 0 ∧
  indirect_pointers s inode 0 = Y ∧ raid_read s Y BLOCK_SIZE 0 = v ∧
  ∀ j, next ≤ j → j < INDIRECT_BLOCK_ENTRIES → indirect_pointers s inode j = 0

/-- The inode bitmap and the inode table of every mounted disk are the same as
those of disk 0. -/
def inode_regions_identical (s : FS) : Prop :=
  ∀ i, i < s.num_disks →
    (s.disk_maps i).i_bitmap = (s.disk_maps 0).i_bitmap ∧
    (s.disk_maps i).inodes = (s.disk_maps 0).inodes

/-- The score of disk `i` for a block in mode 2: the number of mounted disks
`j ≠ i` whose copy of the first `size` bytes of the block equals that of disk
`i`. -/
def vote_score (s : FS) (block_number size i : Nat) : Nat :=
  ((Finset.range s.num_disks).filter (fun j => j ≠ i ∧
    ∀ k, k < size → (s.disk_maps j).data (block_number * BLOCK_SIZE + k)
      = (s.disk_maps i).data (block_number * BLOCK_SIZE + k))).card

/-- Slot `j` of the block in slot `i` of the directory holds a non-empty name
equal to `name`, as `find_dentry` and `remove_dentry` test it. -/
def entry_matches (s : FS) (dir : wfs_inode) (name : List Nat) (i j : Nat) : Prop :=
  i < N_BLOCKS ∧ dir.blocks i ≠ 0 ∧ j < entries_per_block ∧
  name_nonempty (raid_read s (dir.blocks i) BLOCK_SIZE) j = true ∧
  strcmp_eq (raid_read s (dir.blocks i) BLOCK_SIZE) (DENTRY_SIZE * j) name = true

/-- The number of data blocks that `allocate_data_block` can still hand out:
the blocks from 1 to `num_data_blocks - 1` whose bit is clear in the data
bitmap of disk 0. -/
def free_data_blocks (s : FS) : Nat :=
  ((List.range' 1 (s.superblock.num_data_blocks - 1)).filter
    (fun i => decide (get_bit (s.disk_maps 0).d_bitmap i = 0))).length

/-- A predicate on states that is kept by each of the four primitives through
which `wfs.c` writes data blocks, inode records and the data bitmap. -/
structure data_invariant (Q : FS → Prop) : Prop where
  raid_write : ∀ s buf b size, Q s → Q (raid_write s buf b size)
  store_inode : ∀ s n x, Q s → Q (store_inode s n x)
  free_data_block : ∀ s n, Q s → Q (free_data_block s n)
  allocate_data_block : ∀ s, Q s → Q (allocate_data_block s).2

/-- A predicate on states that is kept by each of the six primitives through
which `wfs.c` writes to the disks. -/
structure prim_invariant (Q : FS → Prop) extends data_invariant Q : Prop where
  free_inode : ∀ s n, Q s → Q (free_inode s n)
  allocate_inode : ∀ s, Q s → Q (allocate_inode s).2

/-! # Theorems -/

/-! ## Array stores -/

theorem update_apply {β : Type} (f : Nat → β) (a : Nat) (v : β) (x : Nat) :
    update f a v x = if x = a then v else f x := rfl

@[simp] theorem update_same {β : Type} (a : Nat) (v : β) (f : Nat → β) :
    update f a v a = v := by
  simp [update]

@[simp] theorem update_eq_self {β : Type} (a : Nat) (f : Nat → β) :
    update f a (f a) = f := by
  funext x
  by_cases h : x = a
  · simp [update, h]
  · simp [update, h]

@[simp] theorem update_noteq {β : Type} {a b : Nat} (h : a ≠ b) (v : β) (f : Nat → β) :
    update f b v a = f a := by
  simp [update, h]

/-! ## Bit-array helpers -/

theorem get_bit_testBit (bm : Nat → Nat) (i : Nat) :
    get_bit bm i = if (bm (i / 8)).testBit (i % 8) then 1 else 0 := by
  unfold get_bit
  rw [Nat.testBit, Nat.and_comm]
  cases h : (1 &&& bm (i / 8) >>> (i % 8)) with
  | zero => simp
  | succ k =>
    have : 1 &&& bm (i / 8) >>> (i % 8) ≤ 1 := Nat.and_le_left
    have : k = 0 := by omega
    subst this; simp

theorem index_split {i j : Nat} (h : j ≠ i) : j / 8 ≠ i / 8 ∨ (j / 8 = i / 8 ∧ j % 8 ≠ i % 8) := by
  omega

theorem get_bit_set_same (bm : Nat → Nat) (i : Nat) : get_bit (set_bit bm i) i = 1 := by
  rw [get_bit_testBit]
  simp [set_bit, Nat.testBit_or, Nat.one_shiftLeft, Nat.testBit_two_pow]

theorem get_bit_set_other (bm : Nat → Nat) {i j : Nat} (h : j ≠ i) :
    get_bit (set_bit bm i) j = get_bit bm j := by
  rw [get_bit_testBit, get_bit_testBit]
  rcases index_split h with h1 | ⟨h1, h2⟩
  · simp [set_bit, h1]
  · have h3 : ¬ (i % 8 = j % 8) := by omega
    simp [set_bit, h1, Nat.testBit_or, Nat.one_shiftLeft, Nat.testBit_two_pow, h3]

theorem testBit_clear_mask (x k j : Nat) (hk : k < 8) (hj : j < 8) :
    (x &&& (255 - 1 <<< k)).testBit j = (x.testBit j && decide (j ≠ k)) := by
  rw [Nat.testBit_and]
  congr 1
  interval_cases k <;> interval_cases j <;> decide

theorem get_bit_clear_same (bm : Nat → Nat) (i : Nat) : get_bit (clear_bit bm i) i = 0 := by
  rw [get_bit_testBit]
  have := testBit_clear_mask (bm (i / 8)) (i % 8) (i % 8) (Nat.mod_lt _ (by norm_num)) (Nat.mod_lt _ (by norm_num))
  simp [clear_bit, this]

theorem get_bit_clear_other (bm : Nat → Nat) {i j : Nat} (h : j ≠ i) :
    get_bit (clear_bit bm i) j = get_bit bm j := by
  rw [get_bit_testBit, get_bit_testBit]
  rcases index_split h with h1 | ⟨h1, h2⟩
  · simp [clear_bit, h1]
  · have := testBit_clear_mask (bm (i / 8)) (i % 8) (j % 8) (Nat.mod_lt _ (by norm_num)) (Nat.mod_lt _ (by norm_num))
    simp [clear_bit, h1, this, h2]

theorem get_bit_le_one (bm : Nat → Nat) (i : Nat) : get_bit bm i = 0 ∨ get_bit bm i = 1 := by
  rw [get_bit_testBit]; split <;> simp

/-! ## RAID layer, stripe mode -/

/-- With the stripe offset taken in `ℕ` (for the C functions: while the stripe
index is below 2^22, see `raid_write_int_eq`): in stripe mode (`raid_mode = 0`),
`raid_write(buf, b, len)` with `len ≤ 512` leaves every disk other than
`b mod num_disks` untouched, changes on that disk only the bytes
`[(b div num_disks) * 512, + len)` of the data region (they now hold `buf`),
and `raid_read(b, len)` returns exactly those bytes of that one disk. -/
theorem raid0_write_read_one_stripe (s : FS) (buf : Nat → Nat) (b len : Nat)
    (hmode : s.raid_mode = 0) (hn : 0 < s.num_disks) (hlen : len ≤ BLOCK_SIZE) :
    (∀ i, i ≠ b % s.num_disks → (raid_write s buf b len).disk_maps i = s.disk_maps i) ∧
    (∀ a, ¬ (b / s.num_disks * BLOCK_SIZE ≤ a ∧ a < b / s.num_disks * BLOCK_SIZE + len) →
      ((raid_write s buf b len).disk_maps (b % s.num_disks)).data a
        = (s.disk_maps (b % s.num_disks)).data a) ∧
    ((raid_write s buf b len).disk_maps (b % s.num_disks)).sb
        = (s.disk_maps (b % s.num_disks)).sb ∧
    ((raid_write s buf b len).disk_maps (b % s.num_disks)).i_bitmap
        = (s.disk_maps (b % s.num_disks)).i_bitmap ∧
    ((raid_write s buf b len).disk_maps (b % s.num_disks)).d_bitmap
        = (s.disk_maps (b % s.num_disks)).d_bitmap ∧
    ((raid_write s buf b len).disk_maps (b % s.num_disks)).inodes
        = (s.disk_maps (b % s.num_disks)).inodes ∧
    (∀ k, k < len →
      ((raid_write s buf b len).disk_maps (b % s.num_disks)).data
        (b / s.num_disks * BLOCK_SIZE + k) = buf k) ∧
    (∀ k, k < len →
      raid_read (raid_write s buf b len) b len k
        = ((raid_write s buf b len).disk_maps (b % s.num_disks)).data
            (b / s.num_disks * BLOCK_SIZE + k)) ∧
    (∀ k, k < len →
      raid_read s b len k
        = (s.disk_maps (b % s.num_disks)).data (b / s.num_disks * BLOCK_SIZE + k)) := by
  have _ := hn
  have _ := hlen
  refine ⟨?_, ?_, ?_, ?_, ?_, ?_, ?_, ?_, ?_⟩
  · intro i hi; simp [raid_write, hmode, hi]
  · intro a ha; simp [raid_write, hmode, memcpy_to, ha]
  · simp [raid_write, hmode]
  · simp [raid_write, hmode]
  · simp [raid_write, hmode]
  · simp [raid_write, hmode]
  · intro k hk; simp [raid_write, hmode, memcpy_to, hk]
  · intro k hk; simp [raid_read, raid_write, hmode, memcpy_from, hk]
  · intro k hk; simp [raid_read, hmode, memcpy_from, hk]


/-! ## RAID layer, majority vote -/

theorem vote_step_fold (eq : Nat → Nat → Bool) (i : Nat) (L : List Nat) :
    ∀ (c : Nat → Nat) (k : Nat), i ∉ L → L.Nodup →
    (L.foldl (fun c j => if eq i j then
        update (update c i (c i + 1)) j
          (update c i (c i + 1) j + 1)
      else c) c) k
    = c k + (if k = i then L.countP (fun j => eq i j)
             else if k ∈ L ∧ eq i k = true then 1 else 0) := by
  induction L with
  | nil => intro c k _ _; simp
  | cons j L ih =>
    intro c k hi hnd
    have hji : j ≠ i := fun h => hi (by simp [h])
    have hi' : i ∉ L := fun h => hi (by simp [h])
    have hnd' : L.Nodup := (List.nodup_cons.mp hnd).2
    have hjL : j ∉ L := (List.nodup_cons.mp hnd).1
    rw [List.foldl_cons, ih _ k hi' hnd']
    by_cases hk : k = i
    · subst hk
      by_cases he : eq k j = true
      · simp [he, update_apply, hji.symm, List.countP_cons]; omega
      · simp [he, List.countP_cons]
    · by_cases hkj : k = j
      · subst hkj
        have : ¬ (k ∈ L) := hjL
        by_cases he : eq i k = true
        · simp [he, hk, this, update_apply]
        · simp [he, hk, this]
      · by_cases he : eq i j = true
        · simp [he, hk, hkj, update_apply]
        · simp [he, hk, hkj]

theorem vote_inner_apply (eq : Nat → Nat → Bool) (n i : Nat) (c : Nat → Nat) (k : Nat) :
    vote_inner eq n i c k
    = c k + (if k = i then ((Finset.range n).filter (fun j => i < j ∧ eq i j = true)).card
             else if (i < k ∧ k < n) ∧ eq i k = true then 1 else 0) := by
  unfold vote_inner
  rw [vote_step_fold eq i _ c k (by simp [List.mem_range'_1]) (List.nodup_range' _ _)]
  congr 1
  by_cases hk : k = i
  · simp only [hk, if_true]
    rw [List.countP_eq_length_filter]
    rw [← List.toFinset_card_of_nodup ((List.nodup_range' _ _).filter _)]
    congr 1
    ext j
    simp [List.mem_range'_1]
    constructor
    · rintro ⟨⟨h1, h2⟩, h3⟩; exact ⟨by omega, by omega, h3⟩
    · rintro ⟨h1, h2, h3⟩; exact ⟨⟨by omega, by omega⟩, h3⟩
  · simp only [hk, if_false, List.mem_range'_1]
    have : (i + 1 ≤ k ∧ k < i + 1 + (n - (i + 1))) ↔ (i < k ∧ k < n) := by omega
    simp only [this]

/-- Contribution of the outer iteration `i` to `counts[k]`. -/
theorem vote_counts_upto (eq : Nat → Nat → Bool) (n : Nat) (k : Nat) (hk : k < n) :
    ∀ m, m ≤ n →
    ((List.range m).foldl (fun c i => vote_inner eq n i c) (fun _ => 0)) k
    = (if k < m then ((Finset.range n).filter (fun j => k < j ∧ eq k j = true)).card else 0)
      + ((Finset.range m).filter (fun i => i < k ∧ eq i k = true)).card := by
  intro m
  induction m with
  | zero => intro _; simp
  | succ m ih =>
    intro hm
    rw [List.range_succ, List.foldl_append, List.foldl_cons, List.foldl_nil,
      vote_inner_apply, ih (by omega)]
    rw [Finset.range_succ, Finset.filter_insert]
    by_cases h1 : k = m
    · subst h1; simp; omega
    · by_cases h2 : k < m
      · have h3 : k < m + 1 := by omega
        have h4 : ¬ (m < k) := by omega
        simp [h1, h2, h3, h4]
      · have h3 : ¬ (k < m + 1) := by omega
        have h4 : m < k := by omega
        by_cases he : eq m k = true
        · have : m ∉ Finset.filter (fun i => i < k ∧ eq i k = true) (Finset.range m) := by simp
          simp [h1, h2, h3, h4, he, hk, Finset.card_insert_of_not_mem this]
        · simp [h1, h2, h3, h4, he]

theorem vote_counts_apply (eq : Nat → Nat → Bool) (hsymm : ∀ i j, eq i j = eq j i)
    (n k : Nat) (hk : k < n) :
    vote_counts eq n k
      = ((Finset.range n).filter (fun j => j ≠ k ∧ eq k j = true)).card := by
  unfold vote_counts
  rw [vote_counts_upto eq n k hk n le_rfl, if_pos hk, ← Finset.card_union_of_disjoint]
  · congr 1
    ext j
    simp only [Finset.mem_union, Finset.mem_filter, Finset.mem_range]
    rw [hsymm j k]
    constructor
    · rintro (⟨h1, h2, h3⟩ | ⟨h1, h2, h3⟩)
      · exact ⟨h1, by omega, h3⟩
      · exact ⟨h1, by omega, h3⟩
    · rintro ⟨h1, h2, h3⟩
      rcases Nat.lt_or_gt_of_ne h2 with h | h
      · exact Or.inr ⟨h1, h, h3⟩
      · exact Or.inl ⟨h1, h, h3⟩
  · rw [Finset.disjoint_left]
    intro j h1 h2
    simp only [Finset.mem_filter, Finset.mem_range] at h1 h2
    omega

theorem vote_max_fold (counts : Nat → Nat) (L : List Nat) :
    ∀ m0, (L.foldl (fun max_idx i => if counts i > counts max_idx then i else max_idx) m0
            ∈ m0 :: L) ∧
      (∀ i ∈ m0 :: L, counts i ≤ counts
        (L.foldl (fun max_idx i => if counts i > counts max_idx then i else max_idx) m0)) := by
  induction L with
  | nil => intro m0; simp
  | cons a L ih =>
    intro m0
    rw [List.foldl_cons]
    obtain ⟨h1, h2⟩ := ih (if counts a > counts m0 then a else m0)
    constructor
    · rcases List.mem_cons.mp h1 with h | h
      · rw [h]; split <;> simp
      · simp [h]
    · intro i hi
      have ha := h2 (if counts a > counts m0 then a else m0) (by simp)
      rcases List.mem_cons.mp hi with h | h
      · subst h
        refine le_trans ?_ ha
        split <;> omega
      · rcases List.mem_cons.mp h with h | h
        · subst h
          refine le_trans ?_ ha
          split <;> omega
        · exact h2 i (by simp [h])

theorem vote_max_spec (counts : Nat → Nat) (n : Nat) (hn : 0 < n) :
    vote_max counts n < n ∧ ∀ i, i < n → counts i ≤ counts (vote_max counts n) := by
  unfold vote_max
  obtain ⟨h1, h2⟩ := vote_max_fold counts (List.range' 1 (n - 1)) 0
  constructor
  · rcases List.mem_cons.mp h1 with h | h
    · rw [h]; exact hn
    · rw [List.mem_range'_1] at h; omega
  · intro i hi
    apply h2
    rcases Nat.eq_zero_or_pos i with h | h
    · simp [h]
    · simp [List.mem_range'_1]; omega


theorem memcmp_eq_iff (a b : Nat → Nat) (size : Nat) :
    memcmp_eq a b size = true ↔ ∀ k, k < size → a k = b k := by
  simp [memcmp_eq]

theorem memcmp_eq_symm (a b : Nat → Nat) (size : Nat) :
    memcmp_eq a b size = memcmp_eq b a size := by
  rw [Bool.eq_iff_iff, memcmp_eq_iff, memcmp_eq_iff]
  exact ⟨fun h k hk => (h k hk).symm, fun h k hk => (h k hk).symm⟩

theorem raid_vote_lt (s : FS) (b size : Nat) (hn : 0 < s.num_disks) :
    raid_vote s b size < s.num_disks :=
  (vote_max_spec _ _ hn).1

/-- The disk chosen by the vote holds the content of any strict majority. -/
theorem raid_vote_majority (s : FS) (b size : Nat) (X : Nat → Nat) (good : Finset Nat)
    (hsub : good ⊆ Finset.range s.num_disks) (hmaj : s.num_disks < 2 * good.card)
    (hX : ∀ i ∈ good, ∀ k, k < size → (s.disk_maps i).data (b * BLOCK_SIZE + k) = X k) :
    ∀ k, k < size → (s.disk_maps (raid_vote s b size)).data (b * BLOCK_SIZE + k) = X k := by
  set n := s.num_disks with hn_def
  set eq : Nat → Nat → Bool := fun i j => memcmp_eq
        (memcpy_from (s.disk_maps i).data (b * BLOCK_SIZE) size)
        (memcpy_from (s.disk_maps j).data (b * BLOCK_SIZE) size) size with heq_def
  have hsymm : ∀ i j, eq i j = eq j i := fun i j => memcmp_eq_symm _ _ _
  have heq_iff : ∀ i j, eq i j = true ↔
      ∀ k, k < size → (s.disk_maps i).data (b * BLOCK_SIZE + k)
        = (s.disk_maps j).data (b * BLOCK_SIZE + k) := by
    intro i j
    simp only [heq_def, memcmp_eq_iff, memcpy_from]
    constructor
    · intro h k hk; have := h k hk; simpa [hk] using this
    · intro h k hk; simpa [hk] using h k hk
  have hcard_pos : 0 < good.card := by omega
  obtain ⟨g, hg⟩ := Finset.card_pos.mp hcard_pos
  have hgn : g < n := Finset.mem_range.mp (hsub hg)
  have hn : 0 < n := by omega
  have hm := vote_max_spec (vote_counts eq n) n hn
  have hvote : raid_vote s b size = vote_max (vote_counts eq n) n := rfl
  rw [hvote]
  set m := vote_max (vote_counts eq n) n with hm_def
  -- the count of a good disk
  have hlow : good.card - 1 ≤ vote_counts eq n g := by
    rw [vote_counts_apply eq hsymm n g hgn, ← Finset.card_erase_of_mem hg]
    apply Finset.card_le_card
    intro j hj
    rw [Finset.mem_erase] at hj
    rw [Finset.mem_filter]
    refine ⟨hsub hj.2, hj.1, ?_⟩
    rw [heq_iff]
    intro k hk
    rw [hX g hg k hk, hX j hj.2 k hk]
  by_cases hmg : eq m g = true
  · intro k hk
    rw [(heq_iff m g).mp hmg k hk, hX g hg k hk]
  · exfalso
    have hupp : vote_counts eq n m ≤ n - good.card - 1 := by
      rw [vote_counts_apply eq hsymm n m hm.1]
      have hsubset : (Finset.range n).filter (fun j => j ≠ m ∧ eq m j = true)
          ⊆ ((Finset.range n) \ good).erase m := by
        intro j hj
        rw [Finset.mem_filter] at hj
        rw [Finset.mem_erase, Finset.mem_sdiff]
        refine ⟨hj.2.1, hj.1, ?_⟩
        intro hjg
        apply hmg
        rw [heq_iff]
        intro k hk
        rw [(heq_iff m j).mp hj.2.2 k hk, hX j hjg k hk, hX g hg k hk]
      have hmem : m ∈ (Finset.range n) \ good := by
        rw [Finset.mem_sdiff]
        refine ⟨Finset.mem_range.mpr hm.1, ?_⟩
        intro hmgood
        apply hmg
        rw [heq_iff]
        intro k hk
        rw [hX m hmgood k hk, hX g hg k hk]
      calc _ ≤ (((Finset.range n) \ good).erase m).card := Finset.card_le_card hsubset
        _ = ((Finset.range n) \ good).card - 1 := Finset.card_erase_of_mem hmem
        _ = n - good.card - 1 := by
            rw [Finset.card_sdiff hsub, Finset.card_range]
    have hmax := hm.2 g hgn
    have hmem : m ∉ good := by
      intro hmgood
      apply hmg
      rw [heq_iff]
      intro k hk
      rw [hX m hmgood k hk, hX g hg k hk]
    have hle : good.card + 1 ≤ n := by
      have : (insert m good).card ≤ (Finset.range n).card := by
        apply Finset.card_le_card
        intro j hj
        rcases Finset.mem_insert.mp hj with h | h
        · rw [h]; exact Finset.mem_range.mpr hm.1
        · exact hsub h
      rw [Finset.card_insert_of_not_mem hmem, Finset.card_range] at this
      exact this
    omega


/-- A state in which the data region of disk `j` has been replaced by `d`. -/
theorem raid_read_mode2 (s : FS) (b size : Nat) (hmode : s.raid_mode = 2) (k : Nat)
    (hk : k < size) :
    raid_read s b size k = (s.disk_maps (raid_vote s b size)).data (b * BLOCK_SIZE + k) := by
  have h0 : s.raid_mode ≠ 0 := by rw [hmode]; decide
  have h1 : s.raid_mode ≠ 1 := by rw [hmode]; decide
  simp [raid_read, h0, h1, hmode, memcpy_from, hk]

/-- C3. In mode 2 (mirror with vote): `raid_read` returns the content held by
any strict majority of the disks; hence with at least 3 disks, when every disk
holds the same bytes `X` for a block (as after `raid_write`) and the data of one
disk `j` is then replaced arbitrarily, `raid_read` still returns `X`. -/
theorem raid2_read_returns_majority (s : FS) (b size : Nat) (X : Nat → Nat)
    (hmode : s.raid_mode = 2) :
    (∀ good : Finset Nat, good ⊆ Finset.range s.num_disks →
      s.num_disks < 2 * good.card →
      (∀ i ∈ good, ∀ k, k < size → (s.disk_maps i).data (b * BLOCK_SIZE + k) = X k) →
      ∀ k, k < size → raid_read s b size k = X k) ∧
    (3 ≤ s.num_disks →
      (∀ i, i < s.num_disks → ∀ k, k < size →
        (s.disk_maps i).data (b * BLOCK_SIZE + k) = X k) →
      ∀ (j : Nat) (d : Nat → Nat) (k : Nat), k < size →
        raid_read
          { s with disk_maps := fun i =>
              if i = j then { s.disk_maps i with data := d } else s.disk_maps i }
          b size k = X k) ∧
    (∀ (i : Nat), i < s.num_disks → ∀ k, k < size →
      ((raid_write s X b size).disk_maps i).data (b * BLOCK_SIZE + k) = X k) := by
  have hgen : ∀ t : FS, t.raid_mode = 2 → ∀ good : Finset Nat,
      good ⊆ Finset.range t.num_disks → t.num_disks < 2 * good.card →
      (∀ i ∈ good, ∀ k, k < size → (t.disk_maps i).data (b * BLOCK_SIZE + k) = X k) →
      ∀ k, k < size → raid_read t b size k = X k := by
    intro t ht good hsub hmaj hX k hk
    rw [raid_read_mode2 t b size ht k hk]
    exact raid_vote_majority t b size X good hsub hmaj hX k hk
  refine ⟨hgen s hmode, ?_, ?_⟩
  · intro hn hall j d k hk
    refine hgen { s with disk_maps := fun i =>
              if i = j then { s.disk_maps i with data := d } else s.disk_maps i } hmode
      ((Finset.range s.num_disks).erase j) (Finset.erase_subset _ _) ?_ ?_ k hk
    · have h1 : (Finset.range s.num_disks).card - 1 ≤ ((Finset.range s.num_disks).erase j).card :=
        Finset.pred_card_le_card_erase
      rw [Finset.card_range] at h1
      show s.num_disks < 2 * ((Finset.range s.num_disks).erase j).card
      omega
    · intro i hi k' hk'
      rw [Finset.mem_erase, Finset.mem_range] at hi
      simp only [hi.1, if_false]
      exact hall i hi.2 k' hk'
  · intro i hi k hk
    have h0 : s.raid_mode ≠ 0 := by rw [hmode]; decide
    simp [raid_write, h0, hmode, hi, memcpy_to, hk]

theorem raid2_read_returns_majority_witness :
    (fresh_volume 2 3).raid_mode = 2 ∧
    raid_read
      { raid_write (fresh_volume 2 3) (fun _ => 7) 5 8 with
        disk_maps := fun i =>
          if i = 1 then
            { (raid_write (fresh_volume 2 3) (fun _ => 7) 5 8).disk_maps i with
              data := fun _ => 9 }
          else (raid_write (fresh_volume 2 3) (fun _ => 7) 5 8).disk_maps i }
      5 8 0 = 7 :=
  ⟨by decide,
   (raid2_read_returns_majority (raid_write (fresh_volume 2 3) (fun _ => 7) 5 8) 5 8
      (fun _ => 7) (by decide)).2.1 (by decide) (by decide) 1 (fun _ => 9) 0 (by decide)⟩

/-! ## Frame lemmas for the primitives -/

section frame
variable (s : FS)

@[simp] theorem raid_write_raid_mode (buf : Nat → Nat) (b size : Nat) :
    (raid_write s buf b size).raid_mode = s.raid_mode := by
  unfold raid_write; split_ifs <;> rfl
@[simp] theorem raid_write_num_disks (buf : Nat → Nat) (b size : Nat) :
    (raid_write s buf b size).num_disks = s.num_disks := by
  unfold raid_write; split_ifs <;> rfl
@[simp] theorem raid_write_superblock (buf : Nat → Nat) (b size : Nat) :
    (raid_write s buf b size).superblock = s.superblock := by
  unfold raid_write; split_ifs <;> rfl
@[simp] theorem raid_write_inodes (buf : Nat → Nat) (b size i : Nat) :
    ((raid_write s buf b size).disk_maps i).inodes = (s.disk_maps i).inodes := by
  unfold raid_write; split_ifs <;> simp <;> split_ifs <;> rfl
@[simp] theorem raid_write_i_bitmap (buf : Nat → Nat) (b size i : Nat) :
    ((raid_write s buf b size).disk_maps i).i_bitmap = (s.disk_maps i).i_bitmap := by
  unfold raid_write; split_ifs <;> simp <;> split_ifs <;> rfl
@[simp] theorem raid_write_d_bitmap (buf : Nat → Nat) (b size i : Nat) :
    ((raid_write s buf b size).disk_maps i).d_bitmap = (s.disk_maps i).d_bitmap := by
  unfold raid_write; split_ifs <;> simp <;> split_ifs <;> rfl
@[simp] theorem raid_write_sb (buf : Nat → Nat) (b size i : Nat) :
    ((raid_write s buf b size).disk_maps i).sb = (s.disk_maps i).sb := by
  unfold raid_write; split_ifs <;> simp <;> split_ifs <;> rfl

@[simp] theorem store_inode_raid_mode (n : Nat) (x : wfs_inode) :
    (store_inode s n x).raid_mode = s.raid_mode := rfl
@[simp] theorem store_inode_num_disks (n : Nat) (x : wfs_inode) :
    (store_inode s n x).num_disks = s.num_disks := rfl
@[simp] theorem store_inode_superblock (n : Nat) (x : wfs_inode) :
    (store_inode s n x).superblock = s.superblock := rfl
@[simp] theorem store_inode_data (n : Nat) (x : wfs_inode) (i : Nat) :
    ((store_inode s n x).disk_maps i).data = (s.disk_maps i).data := by
  unfold store_inode; simp; split_ifs <;> rfl
@[simp] theorem store_inode_i_bitmap (n : Nat) (x : wfs_inode) (i : Nat) :
    ((store_inode s n x).disk_maps i).i_bitmap = (s.disk_maps i).i_bitmap := by
  unfold store_inode; simp; split_ifs <;> rfl
@[simp] theorem store_inode_d_bitmap (n : Nat) (x : wfs_inode) (i : Nat) :
    ((store_inode s n x).disk_maps i).d_bitmap = (s.disk_maps i).d_bitmap := by
  unfold store_inode; simp; split_ifs <;> rfl
@[simp] theorem store_inode_sb (n : Nat) (x : wfs_inode) (i : Nat) :
    ((store_inode s n x).disk_maps i).sb = (s.disk_maps i).sb := by
  unfold store_inode; simp; split_ifs <;> rfl
theorem store_inode_inodes (n : Nat) (x : wfs_inode) (i : Nat) :
    ((store_inode s n x).disk_maps i).inodes
      = if i < s.num_disks then update (s.disk_maps i).inodes n x
        else (s.disk_maps i).inodes := by
  unfold store_inode; simp; split_ifs <;> rfl

@[simp] theorem free_inode_raid_mode (n : Nat) : (free_inode s n).raid_mode = s.raid_mode := rfl
@[simp] theorem free_inode_num_disks (n : Nat) : (free_inode s n).num_disks = s.num_disks := rfl
@[simp] theorem free_inode_superblock (n : Nat) :
    (free_inode s n).superblock = s.superblock := rfl
@[simp] theorem free_inode_data (n i : Nat) :
    ((free_inode s n).disk_maps i).data = (s.disk_maps i).data := by
  unfold free_inode; simp; split_ifs <;> rfl
@[simp] theorem free_inode_inodes (n i : Nat) :
    ((free_inode s n).disk_maps i).inodes = (s.disk_maps i).inodes := by
  unfold free_inode; simp; split_ifs <;> rfl
@[simp] theorem free_inode_d_bitmap (n i : Nat) :
    ((free_inode s n).disk_maps i).d_bitmap = (s.disk_maps i).d_bitmap := by
  unfold free_inode; simp; split_ifs <;> rfl
@[simp] theorem free_inode_sb (n i : Nat) :
    ((free_inode s n).disk_maps i).sb = (s.disk_maps i).sb := by
  unfold free_inode; simp; split_ifs <;> rfl
theorem free_inode_i_bitmap (n i : Nat) :
    ((free_inode s n).disk_maps i).i_bitmap
      = if i = 0 ∨ i < s.num_disks then clear_bit (s.disk_maps i).i_bitmap n
        else (s.disk_maps i).i_bitmap := by
  unfold free_inode; simp; split_ifs <;> rfl

@[simp] theorem free_data_block_raid_mode (n : Nat) :
    (free_data_block s n).raid_mode = s.raid_mode := rfl
@[simp] theorem free_data_block_num_disks (n : Nat) :
    (free_data_block s n).num_disks = s.num_disks := rfl
@[simp] theorem free_data_block_superblock (n : Nat) :
    (free_data_block s n).superblock = s.superblock := rfl
@[simp] theorem free_data_block_data (n i : Nat) :
    ((free_data_block s n).disk_maps i).data = (s.disk_maps i).data := by
  unfold free_data_block; simp; split_ifs <;> rfl
@[simp] theorem free_data_block_inodes (n i : Nat) :
    ((free_data_block s n).disk_maps i).inodes = (s.disk_maps i).inodes := by
  unfold free_data_block; simp; split_ifs <;> rfl
@[simp] theorem free_data_block_i_bitmap (n i : Nat) :
    ((free_data_block s n).disk_maps i).i_bitmap = (s.disk_maps i).i_bitmap := by
  unfold free_data_block; simp; split_ifs <;> rfl
@[simp] theorem free_data_block_sb (n i : Nat) :
    ((free_data_block s n).disk_maps i).sb = (s.disk_maps i).sb := by
  unfold free_data_block; simp; split_ifs <;> rfl
theorem free_data_block_d_bitmap (n i : Nat) :
    ((free_data_block s n).disk_maps i).d_bitmap
      = if i = 0 ∨ ((s.raid_mode = 1 ∨ s.raid_mode = 2) ∧ i < s.num_disks) then
          clear_bit (s.disk_maps i).d_bitmap n
        else (s.disk_maps i).d_bitmap := by
  unfold free_data_block; simp; split_ifs <;> rfl

@[simp] theorem allocate_inode_raid_mode : (allocate_inode s).2.raid_mode = s.raid_mode := by
  unfold allocate_inode; split <;> rfl
@[simp] theorem allocate_inode_num_disks : (allocate_inode s).2.num_disks = s.num_disks := by
  unfold allocate_inode; split <;> rfl
@[simp] theorem allocate_inode_superblock :
    (allocate_inode s).2.superblock = s.superblock := by
  unfold allocate_inode; split <;> rfl
@[simp] theorem allocate_inode_data (i : Nat) :
    ((allocate_inode s).2.disk_maps i).data = (s.disk_maps i).data := by
  unfold allocate_inode; split <;> simp; split_ifs <;> rfl
@[simp] theorem allocate_inode_inodes (i : Nat) :
    ((allocate_inode s).2.disk_maps i).inodes = (s.disk_maps i).inodes := by
  unfold allocate_inode; split <;> simp; split_ifs <;> rfl
@[simp] theorem allocate_inode_d_bitmap (i : Nat) :
    ((allocate_inode s).2.disk_maps i).d_bitmap = (s.disk_maps i).d_bitmap := by
  unfold allocate_inode; split <;> simp; split_ifs <;> rfl
@[simp] theorem allocate_inode_sb (i : Nat) :
    ((allocate_inode s).2.disk_maps i).sb = (s.disk_maps i).sb := by
  unfold allocate_inode; split <;> simp; split_ifs <;> rfl

@[simp] theorem allocate_data_block_raid_mode :
    (allocate_data_block s).2.raid_mode = s.raid_mode := by
  unfold allocate_data_block; split <;> rfl
@[simp] theorem allocate_data_block_num_disks :
    (allocate_data_block s).2.num_disks = s.num_disks := by
  unfold allocate_data_block; split <;> rfl
@[simp] theorem allocate_data_block_superblock :
    (allocate_data_block s).2.superblock = s.superblock := by
  unfold allocate_data_block; split <;> rfl
@[simp] theorem allocate_data_block_data (i : Nat) :
    ((allocate_data_block s).2.disk_maps i).data = (s.disk_maps i).data := by
  unfold allocate_data_block; split <;> simp; split_ifs <;> rfl
@[simp] theorem allocate_data_block_inodes (i : Nat) :
    ((allocate_data_block s).2.disk_maps i).inodes = (s.disk_maps i).inodes := by
  unfold allocate_data_block; split <;> simp; split_ifs <;> rfl
@[simp] theorem allocate_data_block_i_bitmap (i : Nat) :
    ((allocate_data_block s).2.disk_maps i).i_bitmap = (s.disk_maps i).i_bitmap := by
  unfold allocate_data_block; split <;> simp; split_ifs <;> rfl
@[simp] theorem allocate_data_block_sb (i : Nat) :
    ((allocate_data_block s).2.disk_maps i).sb = (s.disk_maps i).sb := by
  unfold allocate_data_block; split <;> simp; split_ifs <;> rfl

end frame

theorem find_range'_some (p : Nat → Bool) :
    ∀ (len a i : Nat), (List.range' a len).find? p = some i →
      a ≤ i ∧ i < a + len ∧ p i = true ∧ ∀ j, a ≤ j → j < i → p j = false := by
  intro len
  induction len with
  | zero => intro a i h; simp at h
  | succ len ih =>
    intro a i h
    rw [List.range'_succ, List.find?_cons] at h
    cases hp : p a with
    | true =>
      rw [hp] at h
      simp only [Option.some.injEq] at h
      subst h
      exact ⟨le_rfl, by omega, hp, fun j h1 h2 => by omega⟩
    | false =>
      rw [hp] at h
      obtain ⟨h1, h2, h3, h4⟩ := ih (a + 1) i h
      refine ⟨by omega, by omega, h3, ?_⟩
      intro j hj1 hj2
      rcases Nat.eq_or_lt_of_le hj1 with h5 | h5
      · rw [← h5]; exact hp
      · exact h4 j h5 hj2

theorem find_range'_none (p : Nat → Bool) (len a : Nat)
    (h : (List.range' a len).find? p = none) :
    ∀ j, a ≤ j → j < a + len → p j = false := by
  intro j h1 h2
  have := List.find?_eq_none.mp h j (by rw [List.mem_range'_1]; exact ⟨h1, h2⟩)
  simpa using this

/-- Outcome of `allocate_inode`: either no bit below `num_inodes` is clear on
disk 0 and nothing changes, or the first clear bit `i` is returned and set on
disk 0 and on every mounted disk. -/
theorem allocate_inode_cases (s : FS) :
    ((allocate_inode s).1 = -ENOSPC ∧ (allocate_inode s).2 = s ∧
      ∀ i, i < s.superblock.num_inodes → get_bit (s.disk_maps 0).i_bitmap i ≠ 0) ∨
    (∃ i : Nat, (allocate_inode s).1 = (i : Int) ∧ i < s.superblock.num_inodes ∧
      get_bit (s.disk_maps 0).i_bitmap i = 0 ∧
      (∀ j, j < i → get_bit (s.disk_maps 0).i_bitmap j ≠ 0) ∧
      ∀ d, ((allocate_inode s).2.disk_maps d).i_bitmap
        = if d = 0 ∨ d < s.num_disks then set_bit (s.disk_maps d).i_bitmap i
          else (s.disk_maps d).i_bitmap) := by
  unfold allocate_inode
  rw [List.range_eq_range']
  cases h : (List.range' 0 s.superblock.num_inodes).find?
      (fun i => get_bit (s.disk_maps 0).i_bitmap i = 0) with
  | none =>
    left
    refine ⟨rfl, rfl, ?_⟩
    intro i hi
    have := find_range'_none _ _ _ h i (Nat.zero_le _) (by omega)
    simpa using this
  | some i =>
    right
    obtain ⟨_, h2, h3, h4⟩ := find_range'_some _ _ _ _ h
    refine ⟨i, rfl, by omega, by simpa using h3, ?_, ?_⟩
    · intro j hj
      simpa using h4 j (Nat.zero_le _) hj
    · intro d; simp; split_ifs <;> rfl

/-- Outcome of `allocate_data_block`: either every bit `1 .. num_data_blocks - 1`
is set on disk 0 and nothing changes, or the first clear bit `i ≥ 1` is returned
and set on disk 0 (and on every mounted disk in modes 1 and 2). -/
theorem allocate_data_block_cases (s : FS) :
    ((allocate_data_block s).1 = -ENOSPC ∧ (allocate_data_block s).2 = s ∧
      ∀ i, 1 ≤ i → i < s.superblock.num_data_blocks →
        get_bit (s.disk_maps 0).d_bitmap i ≠ 0) ∨
    (∃ i : Nat, (allocate_data_block s).1 = (i : Int) ∧ 1 ≤ i ∧
      i < s.superblock.num_data_blocks ∧
      get_bit (s.disk_maps 0).d_bitmap i = 0 ∧
      (∀ j, 1 ≤ j → j < i → get_bit (s.disk_maps 0).d_bitmap j ≠ 0) ∧
      ∀ d, ((allocate_data_block s).2.disk_maps d).d_bitmap
        = if d = 0 ∨ ((s.raid_mode = 1 ∨ s.raid_mode = 2) ∧ d < s.num_disks) then
            set_bit (s.disk_maps d).d_bitmap i
          else (s.disk_maps d).d_bitmap) := by
  unfold allocate_data_block
  cases h : (List.range' 1 (s.superblock.num_data_blocks - 1)).find?
      (fun i => get_bit (s.disk_maps 0).d_bitmap i = 0) with
  | none =>
    left
    refine ⟨rfl, rfl, ?_⟩
    intro i hi1 hi2
    have := find_range'_none _ _ _ h i hi1 (by omega)
    simpa using this
  | some i =>
    right
    obtain ⟨h1, h2, h3, h4⟩ := find_range'_some _ _ _ _ h
    refine ⟨i, rfl, h1, by omega, by simpa using h3, ?_, ?_⟩
    · intro j hj1 hj2
      simpa using h4 j hj1 hj2
    · intro d; simp; split_ifs <;> rfl


/-! ## Mirror modes keep the disks identical -/

theorem mirror_ok_map (s t : FS) (f : Disk → Disk) (hmode : t.raid_mode = s.raid_mode)
    (hn : t.num_disks = s.num_disks)
    (hf : ∀ i, i < s.num_disks → t.disk_maps i = f (s.disk_maps i))
    (h : mirror_ok s) : mirror_ok t := by
  refine ⟨by rw [hmode]; exact h.1, ?_⟩
  intro i hi
  rw [hn] at hi
  have h0 : 0 < s.num_disks := by omega
  rw [hf i hi, hf 0 h0, h.2 i hi]

theorem mirror_ok_raid_write (s : FS) (buf : Nat → Nat) (b size : Nat) (h : mirror_ok s) :
    mirror_ok (raid_write s buf b size) := by
  have h0 : s.raid_mode ≠ 0 := by rcases h.1 with h | h <;> rw [h] <;> decide
  refine mirror_ok_map s _
    (fun d => { d with data := memcpy_to d.data (b * BLOCK_SIZE) buf size }) (by simp) (by simp) ?_ h
  intro i hi
  simp [raid_write, h0, h.1, hi]

theorem mirror_ok_store_inode (s : FS) (n : Nat) (x : wfs_inode) (h : mirror_ok s) :
    mirror_ok (store_inode s n x) := by
  refine mirror_ok_map s _
    (fun d => { d with inodes := update d.inodes n x }) rfl rfl ?_ h
  intro i hi
  simp [store_inode, hi]

theorem mirror_ok_free_inode (s : FS) (n : Nat) (h : mirror_ok s) :
    mirror_ok (free_inode s n) := by
  refine mirror_ok_map s _
    (fun d => { d with i_bitmap := clear_bit d.i_bitmap n }) rfl rfl ?_ h
  intro i hi
  simp [free_inode, hi]

theorem mirror_ok_free_data_block (s : FS) (n : Nat) (h : mirror_ok s) :
    mirror_ok (free_data_block s n) := by
  refine mirror_ok_map s _
    (fun d => { d with d_bitmap := clear_bit d.d_bitmap n }) rfl rfl ?_ h
  intro i hi
  simp [free_data_block, hi, h.1]

theorem mirror_ok_allocate_inode (s : FS) (h : mirror_ok s) :
    mirror_ok (allocate_inode s).2 := by
  unfold allocate_inode
  split
  · rename_i i _
    refine mirror_ok_map s _
      (fun d => { d with i_bitmap := set_bit d.i_bitmap i }) rfl rfl ?_ h
    intro j hj
    simp [hj]
  · exact h

theorem mirror_ok_allocate_data_block (s : FS) (h : mirror_ok s) :
    mirror_ok (allocate_data_block s).2 := by
  unfold allocate_data_block
  split
  · rename_i i _
    refine mirror_ok_map s _
      (fun d => { d with d_bitmap := set_bit d.d_bitmap i }) rfl rfl ?_ h
    intro j hj
    simp [hj, h.1]
  · exact h


theorem mirror_ok_prim_invariant : prim_invariant mirror_ok :=
  { raid_write := mirror_ok_raid_write
    store_inode := mirror_ok_store_inode
    free_data_block := mirror_ok_free_data_block
    allocate_data_block := mirror_ok_allocate_data_block
    free_inode := mirror_ok_free_inode
    allocate_inode := mirror_ok_allocate_inode }

/-! ## Every operation is a composition of the primitives -/

theorem inv_allocate_indirect_block {Q : FS → Prop} (hQ : data_invariant Q) (s : FS) (inode : wfs_inode) (h : Q s) :
    Q (allocate_indirect_block s inode).2.2 := by
  unfold allocate_indirect_block
  simp only
  split_ifs
  · exact h
  · exact hQ.allocate_data_block s h
  · exact hQ.store_inode _ _ _
      (hQ.raid_write _ _ _ _ (hQ.allocate_data_block s h))

theorem inv_write_indirect_pointers {Q : FS → Prop} (hQ : data_invariant Q) (s : FS) (inode : wfs_inode) (p : Nat → Nat)
    (h : Q s) : Q (write_indirect_pointers s inode p).2 := by
  unfold write_indirect_pointers
  split_ifs
  · exact h
  · exact hQ.raid_write _ _ _ _ h

theorem inv_allocate_indirect_data_block {Q : FS → Prop} (hQ : data_invariant Q) (s : FS) (inode : wfs_inode) (idx : Nat)
    (h : Q s) : Q (allocate_indirect_data_block s inode idx).2 := by
  unfold allocate_indirect_data_block
  simp only
  split_ifs
  · exact h
  · exact h
  · exact h
  · exact hQ.allocate_data_block s h
  · exact hQ.free_data_block _ _
      (inv_write_indirect_pointers hQ _ _ _ (hQ.allocate_data_block s h))
  · exact inv_write_indirect_pointers hQ _ _ _ (hQ.allocate_data_block s h)

theorem inv_free_fold {Q : FS → Prop} (hQ : data_invariant Q) (f : Nat → Nat) (L : List Nat) :
    ∀ s : FS, Q s →
      Q (L.foldl (fun t i => if f i ≠ 0 then free_data_block t (f i) else t) s) := by
  induction L with
  | nil => intro s h; exact h
  | cons a L ih =>
    intro s h
    rw [List.foldl_cons]
    apply ih
    split_ifs
    · exact hQ.free_data_block _ _ h
    · exact h

theorem inv_free_block_slots {Q : FS → Prop} (hQ : data_invariant Q) (s : FS) (inode : wfs_inode) (count : Nat)
    (h : Q s) : Q (free_block_slots s inode count) :=
  inv_free_fold hQ _ _ s h

theorem inv_free_indirect_blocks {Q : FS → Prop} (hQ : data_invariant Q) (s : FS) (inode : wfs_inode) (h : Q s) :
    Q (free_indirect_blocks s inode).2.2 := by
  unfold free_indirect_blocks
  simp only
  split_ifs
  · exact h
  · exact h
  · exact hQ.store_inode _ _ _ (hQ.free_data_block _ _
      (hQ.raid_write _ _ _ _ (inv_free_fold hQ _ _ s h)))

theorem inv_add_dentry {Q : FS → Prop} (hQ : data_invariant Q) (s : FS) (dir : wfs_inode) (name : List Nat) (n : Nat)
    (h : Q s) : Q (add_dentry s dir name n).2.2 := by
  unfold add_dentry
  simp only
  split_ifs
  all_goals first
    | exact h
    | exact hQ.allocate_data_block s h
    | exact hQ.store_inode _ _ _ (hQ.raid_write _ _ _ _
        (hQ.allocate_data_block s h))
    | exact hQ.store_inode _ _ _ (hQ.raid_write _ _ _ _ h)

theorem inv_remove_dentry {Q : FS → Prop} (hQ : data_invariant Q) (s : FS) (dir : wfs_inode) (name : List Nat)
    (h : Q s) : Q (remove_dentry s dir name).2 := by
  unfold remove_dentry
  split
  · exact hQ.raid_write _ _ _ _ h
  · exact h

theorem inv_wfs_init {Q : FS → Prop} (hQ : data_invariant Q) (env : Env) (s : FS) (h : Q s) :
    Q (wfs_init env s) := by
  unfold wfs_init
  simp only
  split_ifs
  · exact hQ.store_inode _ _ _ (hQ.raid_write _ _ _ _ h)
  · exact h

theorem inv_wfs_mknod {Q : FS → Prop} (hQ : prim_invariant Q) (env : Env) (s : FS) (path : List Nat) (mode : Nat)
    (h : Q s) : Q (wfs_mknod env s path mode).2 := by
  unfold wfs_mknod
  simp only
  split_ifs
  all_goals first
    | exact h
    | exact hQ.allocate_inode s h
    | exact hQ.store_inode _ _ _ (hQ.free_inode _ _ (inv_add_dentry hQ.todata_invariant _ _ _ _
        (hQ.store_inode _ _ _ (hQ.allocate_inode s h))))
    | exact hQ.free_inode _ _ (inv_add_dentry hQ.todata_invariant _ _ _ _
        (hQ.store_inode _ _ _ (hQ.allocate_inode s h)))
    | exact hQ.store_inode _ _ _ (inv_add_dentry hQ.todata_invariant _ _ _ _
        (hQ.store_inode _ _ _ (hQ.allocate_inode s h)))

theorem inv_wfs_unlink {Q : FS → Prop} (hQ : prim_invariant Q) (env : Env) (s : FS) (path : List Nat)
    (h : Q s) : Q (wfs_unlink env s path).2 := by
  unfold wfs_unlink
  simp only
  split_ifs
  all_goals first
    | exact h
    | exact inv_remove_dentry hQ.todata_invariant _ _ _ h
    | exact hQ.store_inode _ _ _ (hQ.free_inode _ _
        (inv_free_indirect_blocks hQ.todata_invariant _ _ (inv_free_block_slots hQ.todata_invariant _ _ _
          (inv_remove_dentry hQ.todata_invariant _ _ _ h))))

theorem inv_wfs_rmdir {Q : FS → Prop} (hQ : prim_invariant Q) (env : Env) (s : FS) (path : List Nat)
    (h : Q s) : Q (wfs_rmdir env s path).2 := by
  unfold wfs_rmdir
  simp only
  split_ifs
  all_goals first
    | exact h
    | exact inv_remove_dentry hQ.todata_invariant _ _ _ h
    | exact hQ.store_inode _ _ _ (hQ.free_inode _ _
        (inv_free_block_slots hQ.todata_invariant _ _ _ (inv_remove_dentry hQ.todata_invariant _ _ _ h)))

theorem inv_wfs_write_loop {Q : FS → Prop} (hQ : data_invariant Q) (buf : List Nat) :
    ∀ (fuel : Nat) (s : FS) (inode : wfs_inode) (size offset bw : Nat), Q s →
      Q (wfs_write_loop buf fuel s inode size offset bw).fs := by
  intro fuel
  induction fuel with
  | zero => intro s inode size offset bw h; exact h
  | succ fuel ih =>
    intro s inode size offset bw h
    unfold wfs_write_loop
    simp only
    split_ifs
    all_goals first
      | exact h
      | exact hQ.allocate_data_block s h
      | exact ih _ _ _ _ _ (hQ.raid_write _ _ _ _ (hQ.allocate_data_block s h))
      | exact ih _ _ _ _ _ (hQ.raid_write _ _ _ _ h)
      | exact inv_allocate_indirect_block hQ _ _ h
      | exact inv_allocate_indirect_data_block hQ _ _ _
          (inv_allocate_indirect_block hQ _ _ h)
      | exact ih _ _ _ _ _ (hQ.raid_write _ _ _ _
          (inv_allocate_indirect_data_block hQ _ _ _
            (inv_allocate_indirect_block hQ _ _ h)))

theorem inv_wfs_write {Q : FS → Prop} (hQ : data_invariant Q) (env : Env) (s : FS) (path buf : List Nat) (offset : Nat)
    (h : Q s) : Q (wfs_write env s path buf offset).2 := by
  unfold wfs_write
  simp only
  split_ifs
  all_goals first
    | exact h
    | exact inv_wfs_write_loop hQ _ _ _ _ _ _ _ h
    | exact hQ.store_inode _ _ _ (inv_wfs_write_loop hQ _ _ _ _ _ _ _ h)


theorem inv_op_run {Q : FS → Prop} (hQ : prim_invariant Q) (env : Env) (s : FS) (op : Op)
    (h : Q s) : Q (op.run env s) := by
  cases op with
  | init => exact inv_wfs_init hQ.todata_invariant env s h
  | mknod path mode => exact inv_wfs_mknod hQ env s path mode h
  | mkdir path mode => exact inv_wfs_mknod hQ env s path _ h
  | unlink path => exact inv_wfs_unlink hQ env s path h
  | rmdir path => exact inv_wfs_rmdir hQ env s path h
  | write path buf offset => exact inv_wfs_write hQ.todata_invariant env s path buf offset h

/-- The configuration (`raid_mode`, `num_disks`, `superblock`) and the
superblock stored on each disk never change. -/
theorem config_prim_invariant (s0 : FS) :
    prim_invariant (fun t => t.raid_mode = s0.raid_mode ∧ t.num_disks = s0.num_disks ∧
      t.superblock = s0.superblock ∧ ∀ i, (t.disk_maps i).sb = (s0.disk_maps i).sb) :=
  { raid_write := fun s buf b size h => by simpa using h
    store_inode := fun s n x h => by simpa using h
    free_data_block := fun s n h => by simpa using h
    allocate_data_block := fun s h => by simpa using h
    free_inode := fun s n h => by simpa using h
    allocate_inode := fun s h => by simpa using h }

/-- C2. In RAID modes 1 and 2: if all mounted disk images are identical before
a top-level operation (init, mknod, mkdir, unlink, rmdir, write), they are
identical after it (the mode and the number of disks do not change); in
particular every byte of every data block is the same on every mounted disk. -/
theorem mirror_modes_keep_disks_identical (env : Env) (s : FS) (op : Op)
    (hmode : s.raid_mode = 1 ∨ s.raid_mode = 2) (hsame : mirrored s) :
    mirrored (op.run env s) ∧
    (op.run env s).raid_mode = s.raid_mode ∧
    (op.run env s).num_disks = s.num_disks ∧
    ∀ i, i < s.num_disks → ∀ b k,
      ((op.run env s).disk_maps i).data (b * BLOCK_SIZE + k)
        = ((op.run env s).disk_maps 0).data (b * BLOCK_SIZE + k) := by
  have key : mirror_ok (op.run env s) :=
    inv_op_run mirror_ok_prim_invariant env s op ⟨hmode, hsame⟩
  have cfg := inv_op_run (config_prim_invariant s) env s op ⟨rfl, rfl, rfl, fun _ => rfl⟩
  refine ⟨key.2, cfg.1, cfg.2.1, ?_⟩
  intro i hi b k
  rw [key.2 i (by rw [cfg.2.1]; exact hi)]

theorem mirror_modes_keep_disks_identical_witness :
    ((fresh_volume 1 2).raid_mode = 1 ∨ (fresh_volume 1 2).raid_mode = 2) ∧
    mirrored (fresh_volume 1 2) ∧
    mirrored ((Op.mknod [47, 97] S_IFREG).run env0 (fresh_volume 1 2)) :=
  have h1 : (fresh_volume 1 2).raid_mode = 1 ∨ (fresh_volume 1 2).raid_mode = 2 :=
    Or.inl (by decide)
  have h2 : mirrored (fresh_volume 1 2) := by
    intro i hi
    have hi' : i < 2 := hi
    interval_cases i <;> rfl
  ⟨h1, h2, (mirror_modes_keep_disks_identical env0 (fresh_volume 1 2)
      (Op.mknod [47, 97] S_IFREG) h1 h2).1⟩


/-! ## Names stored in directory blocks -/

theorem name_nonempty_iff (buf : Nat → Nat) (j : Nat) (hj : j < entries_per_block) :
    name_nonempty buf j = true ↔ entry_name buf j ≠ [] := by
  have h1 : BLOCK_SIZE - DENTRY_SIZE * j = (BLOCK_SIZE - DENTRY_SIZE * j - 1) + 1 := by
    simp only [entries_per_block, BLOCK_SIZE, DENTRY_SIZE, MAX_NAME] at *; omega
  unfold name_nonempty entry_name
  rw [h1, cstr]
  by_cases h : buf (DENTRY_SIZE * j) = 0 <;> simp [h]

theorem strcmp_eq_iff_cstr (buf : Nat → Nat) :
    ∀ (name : List Nat) (off fuel : Nat), (∀ c ∈ name, c ≠ 0) → name.length < fuel →
      (strcmp_eq buf off name = true ↔ cstr buf off fuel = name) := by
  intro name
  induction name with
  | nil =>
    intro off fuel _ hlen
    obtain ⟨f, rfl⟩ : ∃ f, fuel = f + 1 := ⟨fuel - 1, by simp at hlen; omega⟩
    simp only [strcmp_eq, cstr, beq_iff_eq]
    by_cases h : buf off = 0 <;> simp [h]
  | cons c cs ih =>
    intro off fuel hnz hlen
    obtain ⟨f, rfl⟩ : ∃ f, fuel = f + 1 := ⟨fuel - 1, by simp at hlen; omega⟩
    have hc : c ≠ 0 := hnz c (by simp)
    have hcs : ∀ x ∈ cs, x ≠ 0 := fun x hx => hnz x (by simp [hx])
    simp only [strcmp_eq, cstr, Bool.and_eq_true, beq_iff_eq]
    rw [ih (off + 1) f hcs (by simp at hlen; omega)]
    by_cases h : buf off = 0
    · simp [h]; intro h'; exact absurd h'.symm hc
    · simp [h]

theorem strcmp_eq_entry_name (buf : Nat → Nat) (j : Nat) (hj : j < entries_per_block)
    (name : List Nat) (hnz : ∀ c ∈ name, c ≠ 0) (hlen : name.length < DENTRY_SIZE) :
    strcmp_eq buf (DENTRY_SIZE * j) name = true ↔ entry_name buf j = name := by
  apply strcmp_eq_iff_cstr buf name _ _ hnz
  simp only [entries_per_block, BLOCK_SIZE, DENTRY_SIZE, MAX_NAME] at *; omega

/-- The emptiness scan of `wfs_rmdir` finds an entry exactly when some slot of an
allocated block holds a name other than the empty name, `.` and `..`. -/
theorem dir_has_entry_iff (s : FS) (target : wfs_inode) :
    dir_has_entry s target = true ↔
      ∃ i, i < N_BLOCKS ∧ target.blocks i ≠ 0 ∧ ∃ j, j < entries_per_block ∧
        entry_name (raid_read s (target.blocks i) BLOCK_SIZE) j ≠ [] ∧
        entry_name (raid_read s (target.blocks i) BLOCK_SIZE) j ≠ [DOT] ∧
        entry_name (raid_read s (target.blocks i) BLOCK_SIZE) j ≠ [DOT, DOT] := by
  unfold dir_has_entry
  simp only [List.any_eq_true, List.mem_range, Bool.and_eq_true, bne_iff_ne, ne_eq,
    Bool.not_eq_true', ← Bool.not_eq_true]
  constructor
  · rintro ⟨i, hi, hb, j, hj, hne, hd, hdd⟩
    refine ⟨i, hi, hb, j, hj, ?_, ?_, ?_⟩
    · exact (name_nonempty_iff _ j hj).mp hne
    · rw [← strcmp_eq_entry_name _ j hj [DOT] (by simp [DOT]) (by simp [DENTRY_SIZE, MAX_NAME])]
      exact hd
    · rw [← strcmp_eq_entry_name _ j hj [DOT, DOT] (by simp [DOT])
        (by simp [DENTRY_SIZE, MAX_NAME])]
      exact hdd
  · rintro ⟨i, hi, hb, j, hj, hne, hd, hdd⟩
    refine ⟨i, hi, hb, j, hj, ?_, ?_, ?_⟩
    · exact (name_nonempty_iff _ j hj).mpr hne
    · rw [strcmp_eq_entry_name _ j hj [DOT] (by simp [DOT]) (by simp [DENTRY_SIZE, MAX_NAME])]
      exact hd
    · rw [strcmp_eq_entry_name _ j hj [DOT, DOT] (by simp [DOT])
        (by simp [DENTRY_SIZE, MAX_NAME])]
      exact hdd

theorem remove_dentry_of_found (s : FS) (dir : wfs_inode) (name : List Nat)
    (h : (find_dentry s dir name).1 = 0) : (remove_dentry s dir name).1 = 0 := by
  unfold find_dentry at h
  unfold remove_dentry
  cases hs : find_slot s dir name with
  | none => rw [hs] at h; simp [ENOENT] at h
  | some p => rfl

/-- C10. For a path that `wfs_rmdir` resolves to a directory (the parent is
found by `traverse_path`, the entry by `find_dentry`, and the target inode has
the directory bit): the call returns `-ENOTEMPTY` exactly when some entry slot in
one of the directory's allocated blocks holds a non-empty name other than `.`
and `..`, and then no disk is changed; otherwise it returns 0. -/
theorem rmdir_notempty_iff (env : Env) (s : FS) (path : List Nat)
    (hres : (resolve_child s path).1 = 0)
    (hdir : (load_inode s (resolve_child s path).2).mode &&& S_IFDIR ≠ 0) :
    ((wfs_rmdir env s path).1 = -ENOTEMPTY ↔
      ∃ i, i < N_BLOCKS ∧ (load_inode s (resolve_child s path).2).blocks i ≠ 0 ∧
        ∃ j, j < entries_per_block ∧
          entry_name (raid_read s ((load_inode s (resolve_child s path).2).blocks i)
            BLOCK_SIZE) j ≠ [] ∧
          entry_name (raid_read s ((load_inode s (resolve_child s path).2).blocks i)
            BLOCK_SIZE) j ≠ [DOT] ∧
          entry_name (raid_read s ((load_inode s (resolve_child s path).2).blocks i)
            BLOCK_SIZE) j ≠ [DOT, DOT]) ∧
    ((wfs_rmdir env s path).1 = -ENOTEMPTY → (wfs_rmdir env s path).2 = s) ∧
    ((wfs_rmdir env s path).1 ≠ -ENOTEMPTY → (wfs_rmdir env s path).1 = 0) := by
  unfold resolve_child at hres hdir
  simp only at hres hdir
  by_cases htr : (traverse_path s (dirname path)).1 = 0
  · simp only [htr, ne_eq, not_true_eq_false, if_false] at hres hdir
    by_cases hf : (find_dentry s (traverse_path s (dirname path)).2.1 (basename path)).1 = 0
    · simp only [hf, ne_eq, not_true_eq_false, if_false] at hres hdir
      have hrm := remove_dentry_of_found s _ _ hf
      rw [← dir_has_entry_iff]
      unfold resolve_child
      simp only [htr, hf, ne_eq, not_true_eq_false, if_false]
      unfold wfs_rmdir
      simp only [htr, hf, hrm, ne_eq, not_true_eq_false, if_false]
      rw [if_neg hdir]
      by_cases he : dir_has_entry s
          (load_inode s (find_dentry s (traverse_path s (dirname path)).2.1
            (basename path)).2.num) = true
      · simp [he]
      · simp [he, ENOTEMPTY]
    · simp [hf] at hres
  · simp [htr] at hres

theorem rmdir_notempty_iff_witness :
    (resolve_child ex_d_x [47, 100]).1 = 0 ∧
    (load_inode ex_d_x (resolve_child ex_d_x [47, 100]).2).mode &&& S_IFDIR ≠ 0 ∧
    (wfs_rmdir env0 ex_d_x [47, 100]).2 = ex_d_x ∧
    (wfs_rmdir env0 ex_mkdir_d [47, 100]).1 = 0 :=
  ⟨by decide!, by decide!,
   (rmdir_notempty_iff env0 ex_d_x [47, 100] (by decide!) (by decide!)).2.1 (by decide!),
   (rmdir_notempty_iff env0 ex_mkdir_d [47, 100] (by decide!) (by decide!)).2.2 (by decide!)⟩

/-! ## Reading blocks back -/

theorem raid_read_congr_data (s t : FS) (hmode : t.raid_mode = s.raid_mode)
    (hn : t.num_disks = s.num_disks)
    (hdata : ∀ i, (t.disk_maps i).data = (s.disk_maps i).data) (b size : Nat) :
    raid_read t b size = raid_read s b size := by
  unfold raid_read raid_vote
  simp only [hmode, hn, hdata]

@[simp] theorem raid_read_store_inode (s : FS) (n : Nat) (x : wfs_inode) (b size : Nat) :
    raid_read (store_inode s n x) b size = raid_read s b size :=
  raid_read_congr_data s (store_inode s n x) rfl rfl (fun i => store_inode_data s n x i) b size

@[simp] theorem raid_read_free_inode (s : FS) (n : Nat) (b size : Nat) :
    raid_read (free_inode s n) b size = raid_read s b size :=
  raid_read_congr_data s (free_inode s n) rfl rfl (fun i => free_inode_data s n i) b size

@[simp] theorem raid_read_free_data_block (s : FS) (n : Nat) (b size : Nat) :
    raid_read (free_data_block s n) b size = raid_read s b size :=
  raid_read_congr_data s (free_data_block s n) rfl rfl (fun i => free_data_block_data s n i) b size

@[simp] theorem raid_read_allocate_inode (s : FS) (b size : Nat) :
    raid_read (allocate_inode s).2 b size = raid_read s b size :=
  raid_read_congr_data s _ (by simp) (by simp) (fun i => allocate_inode_data s i) b size

@[simp] theorem raid_read_allocate_data_block (s : FS) (b size : Nat) :
    raid_read (allocate_data_block s).2 b size = raid_read s b size :=
  raid_read_congr_data s _ (by simp) (by simp) (fun i => allocate_data_block_data s i) b size

theorem raid_write_data_stripe (s : FS) (buf : Nat → Nat) (b size i : Nat)
    (h : s.raid_mode = 0) :
    ((raid_write s buf b size).disk_maps i).data
      = if i = b % s.num_disks then
          memcpy_to (s.disk_maps i).data (b / s.num_disks * BLOCK_SIZE) buf size
        else (s.disk_maps i).data := by
  unfold raid_write; simp only [h, if_true]; split_ifs <;> rfl

theorem raid_write_data_mirror (s : FS) (buf : Nat → Nat) (b size i : Nat)
    (h : s.raid_mode = 1 ∨ s.raid_mode = 2) :
    ((raid_write s buf b size).disk_maps i).data
      = if i < s.num_disks then memcpy_to (s.disk_maps i).data (b * BLOCK_SIZE) buf size
        else (s.disk_maps i).data := by
  have h0 : s.raid_mode ≠ 0 := by rcases h with h | h <;> rw [h] <;> decide
  unfold raid_write; simp only [h0, h, if_true, if_false]; split_ifs <;> rfl

theorem raid_write_other_mode (s : FS) (buf : Nat → Nat) (b size : Nat)
    (h0 : s.raid_mode ≠ 0) (h1 : s.raid_mode ≠ 1) (h2 : s.raid_mode ≠ 2) :
    raid_write s buf b size = s := by
  unfold raid_write; simp [h0, h1, h2]

/-- In the three RAID modes, with at least one disk, a block that was just
written reads back as written. -/
theorem raid_read_write_same (s : FS) (buf : Nat → Nat) (b size : Nat)
    (hmode : s.raid_mode = 0 ∨ s.raid_mode = 1 ∨ s.raid_mode = 2) (hn : 0 < s.num_disks) :
    raid_read (raid_write s buf b size) b size = fun k => if k < size then buf k else 0 := by
  funext k
  by_cases hk : k < size
  · rcases hmode with h | h | h
    · simp [raid_read, raid_write_data_stripe, h, memcpy_from, memcpy_to, hk]
    · simp [raid_read, raid_write_data_mirror, h, memcpy_from, memcpy_to, hn, hk]
    · rw [raid_read_mode2 _ b size (by simpa using h) k hk]
      have hv : raid_vote (raid_write s buf b size) b size < s.num_disks := by
        have := raid_vote_lt (raid_write s buf b size) b size (by simpa using hn)
        simpa using this
      rw [raid_write_data_mirror s buf b size _ (Or.inr h), if_pos hv]
      simp [memcpy_to, hk]
  · simp only [hk, if_false]
    unfold raid_read memcpy_from
    split_ifs <;> simp [hk]

theorem stripe_disjoint (n b b' : Nat) (hb : b' ≠ b) (h : b' % n = b % n) :
    b' / n ≠ b / n := by
  intro h2
  apply hb
  rw [← Nat.div_add_mod b' n, ← Nat.div_add_mod b n, h, h2]

theorem memcpy_to_outside (dst buf : Nat → Nat) (off size a : Nat)
    (h : a < off ∨ off + size ≤ a) : memcpy_to dst off buf size a = dst a := by
  unfold memcpy_to
  rw [if_neg]
  omega

/-- A write to block `b` does not change what is read for another block. -/
theorem raid_read_write_other (s : FS) (buf : Nat → Nat) (b b' size size' : Nat)
    (hb : b' ≠ b) (hs : size ≤ BLOCK_SIZE) (hs' : size' ≤ BLOCK_SIZE) :
    raid_read (raid_write s buf b size) b' size' = raid_read s b' size' := by
  by_cases h0 : s.raid_mode = 0
  · funext k
    unfold raid_read
    simp only [raid_write_raid_mode, raid_write_num_disks, h0, if_true, memcpy_from]
    by_cases hk : k < size'
    · simp only [hk, if_true]
      rw [raid_write_data_stripe s buf b size _ h0]
      by_cases hd : b' % s.num_disks = b % s.num_disks
      · rw [if_pos hd]
        apply memcpy_to_outside
        have := stripe_disjoint s.num_disks b b' hb hd
        rcases Nat.lt_or_gt_of_ne this with h | h
        · left
          have : (b' / s.num_disks + 1) * BLOCK_SIZE ≤ b / s.num_disks * BLOCK_SIZE :=
            Nat.mul_le_mul_right _ h
          rw [Nat.add_mul] at this
          simp only [BLOCK_SIZE] at *
          omega
        · right
          have : (b / s.num_disks + 1) * BLOCK_SIZE ≤ b' / s.num_disks * BLOCK_SIZE :=
            Nat.mul_le_mul_right _ h
          rw [Nat.add_mul] at this
          simp only [BLOCK_SIZE] at *
          omega
      · rw [if_neg hd]
    · simp only [hk, if_false]
  · by_cases h12 : s.raid_mode = 1 ∨ s.raid_mode = 2
    · have key : ∀ i, memcpy_from ((raid_write s buf b size).disk_maps i).data
          (b' * BLOCK_SIZE) size' = memcpy_from (s.disk_maps i).data (b' * BLOCK_SIZE) size' := by
        intro i
        funext k
        unfold memcpy_from
        by_cases hk : k < size'
        · simp only [hk, if_true]
          rw [raid_write_data_mirror s buf b size _ h12]
          split_ifs
          · apply memcpy_to_outside
            rcases Nat.lt_or_gt_of_ne hb with h | h
            · left
              have : (b' + 1) * BLOCK_SIZE ≤ b * BLOCK_SIZE := Nat.mul_le_mul_right _ h
              rw [Nat.add_mul] at this
              simp only [BLOCK_SIZE] at *
              omega
            · right
              have : (b + 1) * BLOCK_SIZE ≤ b' * BLOCK_SIZE := Nat.mul_le_mul_right _ h
              rw [Nat.add_mul] at this
              simp only [BLOCK_SIZE] at *
              omega
          · rfl
        · simp only [hk, if_false]
      unfold raid_read raid_vote
      simp only [raid_write_raid_mode, raid_write_num_disks, key, h0, if_false]
    · push_neg at h12
      rw [raid_write_other_mode s buf b size h0 h12.1 h12.2]


/-! ## Inode records -/

theorem load_inode_store_inode (s : FS) (n m : Nat) (x : wfs_inode) (hn : 0 < s.num_disks) :
    load_inode (store_inode s n x) m = if m = n then x else load_inode s m := by
  unfold load_inode
  rw [store_inode_inodes, if_pos hn, update_apply]

@[simp] theorem load_inode_raid_write (s : FS) (buf : Nat → Nat) (b size m : Nat) :
    load_inode (raid_write s buf b size) m = load_inode s m := by
  unfold load_inode; rw [raid_write_inodes]
@[simp] theorem load_inode_free_inode (s : FS) (n m : Nat) :
    load_inode (free_inode s n) m = load_inode s m := by
  unfold load_inode; rw [free_inode_inodes]
@[simp] theorem load_inode_free_data_block (s : FS) (n m : Nat) :
    load_inode (free_data_block s n) m = load_inode s m := by
  unfold load_inode; rw [free_data_block_inodes]
@[simp] theorem load_inode_allocate_inode (s : FS) (m : Nat) :
    load_inode (allocate_inode s).2 m = load_inode s m := by
  unfold load_inode; rw [allocate_inode_inodes]
@[simp] theorem load_inode_allocate_data_block (s : FS) (m : Nat) :
    load_inode (allocate_data_block s).2 m = load_inode s m := by
  unfold load_inode; rw [allocate_data_block_inodes]

/-! ## Little-endian fields -/

theorem le_decode_le_byte (buf : Nat → Nat) (v : Nat) :
    ∀ (n off t0 : Nat), (∀ t, t < n → buf (off + t) = le_byte v (t0 + t)) →
      le_decode buf off n = v / 256 ^ t0 % 256 ^ n := by
  intro n
  induction n with
  | zero => intro off t0 _; simp [le_decode, Nat.mod_one]
  | succ n ih =>
    intro off t0 h
    rw [le_decode, ih (off + 1) (t0 + 1) (fun t ht => by
      have := h (t + 1) (by omega)
      rw [show off + 1 + t = off + (t + 1) by omega, this]
      congr 1; omega)]
    have h0 := h 0 (by omega)
    simp only [Nat.add_zero] at h0
    rw [h0, le_byte, Nat.mod_mod, pow_succ' 256 n, Nat.mod_mul, pow_succ, Nat.div_div_eq_div_mul]

theorem pointers_of_block_of_pointers (buf ptrs : Nat → Nat)
    (hbuf : ∀ k, k < BLOCK_SIZE → buf k = block_of_pointers ptrs k) (i : Nat)
    (hi : i < INDIRECT_BLOCK_ENTRIES) :
    pointers_of_block buf i = ptrs i % 2 ^ 64 := by
  unfold pointers_of_block
  rw [if_pos hi, le_decode_le_byte buf (ptrs i) 8 (8 * i) 0]
  · norm_num
  · intro t ht
    have hk : 8 * i + t < BLOCK_SIZE := by
      simp only [INDIRECT_BLOCK_ENTRIES, BLOCK_SIZE] at *; omega
    rw [hbuf _ hk, block_of_pointers, if_pos hk]
    have h1 : (8 * i + t) / 8 = i := by omega
    have h2 : (8 * i + t) % 8 = t := by omega
    rw [h1, h2, Nat.zero_add]

theorem pointers_of_block_lt (buf : Nat → Nat) (i : Nat) :
    pointers_of_block buf i < 2 ^ 64 := by
  unfold pointers_of_block
  split_ifs
  · have : ∀ n off, le_decode buf off n < 256 ^ n := by
      intro n
      induction n with
      | zero => intro off; simp [le_decode]
      | succ n ih =>
        intro off
        rw [le_decode, pow_succ]
        have := ih (off + 1)
        have h2 : buf off % 256 < 256 := Nat.mod_lt _ (by norm_num)
        nlinarith
    have := this 8 (8 * i)
    norm_num at this ⊢
    exact this
  · norm_num

theorem pointers_of_block_zero (i : Nat) : pointers_of_block (fun _ => 0) i = 0 := by
  unfold pointers_of_block
  split_ifs <;> simp [le_decode]

/-! ## Entries in a directory block -/

theorem findSome?_congr {α β : Type} (L : List α) (f g : α → Option β)
    (h : ∀ x ∈ L, f x = g x) : L.findSome? f = L.findSome? g := by
  induction L with
  | nil => rfl
  | cons a L ih =>
    rw [List.findSome?_cons, List.findSome?_cons, h a (by simp),
      ih (fun x hx => h x (by simp [hx]))]

/-- The search of `find_dentry` depends only on the block pointers of the
directory inode and on what `raid_read` returns for its allocated blocks. -/
theorem find_slot_congr (s t : FS) (dir dir' : wfs_inode) (name : List Nat)
    (hblocks : ∀ i, i < N_BLOCKS → dir'.blocks i = dir.blocks i)
    (hread : ∀ i, i < N_BLOCKS → dir.blocks i ≠ 0 →
      raid_read t (dir.blocks i) BLOCK_SIZE = raid_read s (dir.blocks i) BLOCK_SIZE) :
    find_slot t dir' name = find_slot s dir name := by
  unfold find_slot
  apply findSome?_congr
  intro i hi
  rw [List.mem_range] at hi
  rw [hblocks i hi]
  by_cases h : dir.blocks i = 0
  · simp [h]
  · simp only [h, if_false, hread i hi h]

theorem find_dentry_congr (s t : FS) (dir dir' : wfs_inode) (name : List Nat)
    (hblocks : ∀ i, i < N_BLOCKS → dir'.blocks i = dir.blocks i)
    (hread : ∀ i, i < N_BLOCKS → dir.blocks i ≠ 0 →
      raid_read t (dir.blocks i) BLOCK_SIZE = raid_read s (dir.blocks i) BLOCK_SIZE) :
    find_dentry t dir' name = find_dentry s dir name := by
  unfold find_dentry
  rw [find_slot_congr s t dir dir' name hblocks hread]
  cases h : find_slot s dir name with
  | none => rfl
  | some p =>
    obtain ⟨i, j⟩ := p
    have hi : i < N_BLOCKS ∧ dir.blocks i ≠ 0 := by
      unfold find_slot at h
      obtain ⟨a, ha, hfa⟩ := List.exists_of_findSome?_eq_some h
      rw [List.mem_range] at ha
      by_cases hz : dir.blocks a = 0
      · simp [hz] at hfa
      · simp only [hz, if_false, Option.map_eq_some'] at hfa
        obtain ⟨j', _, hj'⟩ := hfa
        have : a = i := by simpa using congrArg Prod.fst hj'
        subst this
        exact ⟨ha, hz⟩
    simp only [hblocks i hi.1, hread i hi.1 hi.2]

/-- Where `find_slot` finds an entry: an allocated block slot `i`, an entry slot
`j` whose name is non-empty and equal to `name`. -/
theorem find_slot_some (s : FS) (dir : wfs_inode) (name : List Nat) (i j : Nat)
    (h : find_slot s dir name = some (i, j)) :
    i < N_BLOCKS ∧ dir.blocks i ≠ 0 ∧ j < entries_per_block ∧
    name_nonempty (raid_read s (dir.blocks i) BLOCK_SIZE) j = true ∧
    strcmp_eq (raid_read s (dir.blocks i) BLOCK_SIZE) (DENTRY_SIZE * j) name = true := by
  unfold find_slot at h
  obtain ⟨a, ha, hfa⟩ := List.exists_of_findSome?_eq_some h
  rw [List.mem_range] at ha
  by_cases hz : dir.blocks a = 0
  · simp [hz] at hfa
  · simp only [hz, if_false, Option.map_eq_some'] at hfa
    obtain ⟨j', hfind, hj'⟩ := hfa
    have h1 : a = i := by simpa using congrArg Prod.fst hj'
    have h2 : j' = j := by simpa using congrArg Prod.snd hj'
    subst h1; subst h2
    unfold find_in_block at hfind
    have hp := List.find?_some hfind
    have hm := List.mem_of_find?_eq_some hfind
    rw [List.mem_range] at hm
    simp only [Bool.and_eq_true] at hp
    exact ⟨ha, hz, hm, hp.1, hp.2⟩

/-- When `find_slot` finds nothing, no slot of an allocated block matches. -/
theorem find_slot_none (s : FS) (dir : wfs_inode) (name : List Nat)
    (h : find_slot s dir name = none) (i j : Nat) (hi : i < N_BLOCKS)
    (hb : dir.blocks i ≠ 0) (hj : j < entries_per_block) :
    ¬ (name_nonempty (raid_read s (dir.blocks i) BLOCK_SIZE) j = true ∧
      strcmp_eq (raid_read s (dir.blocks i) BLOCK_SIZE) (DENTRY_SIZE * j) name = true) := by
  unfold find_slot at h
  rw [List.findSome?_eq_none_iff] at h
  have := h i (List.mem_range.mpr hi)
  simp only [hb, if_false, Option.map_eq_none'] at this
  unfold find_in_block at this
  have h2 := List.find?_eq_none.mp this j (List.mem_range.mpr hj)
  simpa using h2


/-! ## Path resolution -/

/-- On success `traverse_loop` returns the record of the inode it ends on. -/
theorem traverse_loop_inode (s : FS) :
    ∀ (tokens : List (List Nat)) (n : Nat),
      (traverse_loop s tokens (load_inode s n) n).1 = 0 →
      (traverse_loop s tokens (load_inode s n) n).2.1
        = load_inode s (traverse_loop s tokens (load_inode s n) n).2.2 := by
  intro tokens
  induction tokens with
  | nil => intro n _; rfl
  | cons token rest ih =>
    intro n h
    unfold traverse_loop at h ⊢
    by_cases ht : token = []
    · simp only [ht, if_true] at h ⊢
      exact ih n h
    · simp only [ht, if_false] at h ⊢
      by_cases hd : (load_inode s n).mode &&& S_IFDIR = 0
      · simp [hd, ENOTDIR] at h
      · simp only [hd, if_false] at h ⊢
        by_cases hf : (find_dentry s (load_inode s n) token).1 = 0
        · simp only [hf, ne_eq, not_true_eq_false, if_false] at h ⊢
          exact ih _ h
        · simp [hf, ENOENT] at h

theorem traverse_path_inode (s : FS) (path : List Nat) (h : (traverse_path s path).1 = 0) :
    (traverse_path s path).2.1 = load_inode s (traverse_path s path).2.2 := by
  unfold traverse_path at h ⊢
  split_ifs at h ⊢
  · rfl
  · exact traverse_loop_inode s _ 0 h

/-- Every inode examined by a successful walk has the directory bit. -/
theorem traverse_visits_dirs (s : FS) :
    ∀ (tokens : List (List Nat)) (n : Nat),
      (traverse_loop s tokens (load_inode s n) n).1 = 0 →
      ∀ d ∈ traverse_visits s tokens (load_inode s n) n,
        (load_inode s d).mode &&& S_IFDIR ≠ 0 := by
  intro tokens
  induction tokens with
  | nil => intro n _ d hd; simp [traverse_visits] at hd
  | cons token rest ih =>
    intro n h d hd
    unfold traverse_loop at h
    unfold traverse_visits at hd
    by_cases ht : token = []
    · simp only [ht, if_true] at h hd
      exact ih n h d hd
    · simp only [ht, if_false] at h hd
      by_cases hdir : (load_inode s n).mode &&& S_IFDIR = 0
      · simp [hdir, ENOTDIR] at h
      · simp only [hdir, if_false] at h hd
        by_cases hf : (find_dentry s (load_inode s n) token).1 = 0
        · simp only [hf, ne_eq, not_true_eq_false, if_false] at h hd
          rcases List.mem_cons.mp hd with h1 | h1
          · rw [h1]; exact hdir
          · exact ih _ h d h1
        · simp [hf, ENOENT] at h

/-- The walk gives the same status and inode number in two states that agree,
for every inode examined on the way, on the inode record and on the content of
its allocated blocks. -/
theorem traverse_loop_stable (s t : FS) :
    ∀ (tokens : List (List Nat)) (n : Nat),
      (∀ d ∈ traverse_visits s tokens (load_inode s n) n,
        load_inode t d = load_inode s d ∧
        ∀ i, i < N_BLOCKS → (load_inode s d).blocks i ≠ 0 →
          raid_read t ((load_inode s d).blocks i) BLOCK_SIZE
            = raid_read s ((load_inode s d).blocks i) BLOCK_SIZE) →
      (traverse_loop t tokens (load_inode t n) n).1
        = (traverse_loop s tokens (load_inode s n) n).1 ∧
      (traverse_loop t tokens (load_inode t n) n).2.2
        = (traverse_loop s tokens (load_inode s n) n).2.2 := by
  intro tokens
  induction tokens with
  | nil => intro n _; exact ⟨rfl, rfl⟩
  | cons token rest ih =>
    intro n h
    unfold traverse_visits at h
    unfold traverse_loop
    by_cases ht : token = []
    · simp only [ht, if_true] at h ⊢
      exact ih n h
    · simp only [ht, if_false] at h ⊢
      by_cases hdir : (load_inode s n).mode &&& S_IFDIR = 0
      · simp only [hdir, if_true] at h ⊢
        have h1 := (h n (by simp)).1
        rw [h1]
        simp [hdir]
      · simp only [hdir, if_false] at h ⊢
        have hn : n ∈ (if (find_dentry s (load_inode s n) token).1 ≠ 0 then [n]
            else n :: traverse_visits s rest
              (load_inode s (find_dentry s (load_inode s n) token).2.num)
              (find_dentry s (load_inode s n) token).2.num) := by
          split_ifs <;> simp
        have h1 := h n hn
        rw [h1.1]
        have hfd : find_dentry t (load_inode s n) token = find_dentry s (load_inode s n) token :=
          find_dentry_congr s t _ _ token (fun _ _ => rfl) h1.2
        rw [hfd]
        simp only [hdir, if_false]
        by_cases hf : (find_dentry s (load_inode s n) token).1 = 0
        · simp only [hf, ne_eq, not_true_eq_false, if_false] at h ⊢
          exact ih _ (fun d hd => h d (by simp [hd]))
        · simp [hf]

theorem traverse_path_stable (s t : FS) (path : List Nat)
    (h : ∀ d ∈ path_dirs s path,
        load_inode t d = load_inode s d ∧
        ∀ i, i < N_BLOCKS → (load_inode s d).blocks i ≠ 0 →
          raid_read t ((load_inode s d).blocks i) BLOCK_SIZE
            = raid_read s ((load_inode s d).blocks i) BLOCK_SIZE) :
    (traverse_path t path).1 = (traverse_path s path).1 ∧
    (traverse_path t path).2.2 = (traverse_path s path).2.2 := by
  unfold path_dirs at h
  unfold traverse_path
  split_ifs at h ⊢
  · exact ⟨rfl, rfl⟩
  · exact traverse_loop_stable s t _ 0 h

theorem path_dirs_are_dirs (s : FS) (path : List Nat) (h : (traverse_path s path).1 = 0) :
    ∀ d ∈ path_dirs s path, (load_inode s d).mode &&& S_IFDIR ≠ 0 := by
  unfold path_dirs
  unfold traverse_path at h
  split_ifs at h ⊢
  · intro d hd; simp at hd
  · exact traverse_visits_dirs s _ 0 h


/-! ## Adding a directory entry -/

/-- The inode and the state that a successful `add_dentry` produces: the entry is
spliced into block `B`, which is the block of slot `size / 32 / 16` when that
slot is allocated and a block taken by `allocate_data_block` otherwise. -/
theorem add_dentry_ok (s : FS) (dir : wfs_inode) (name : List Nat) (n : Nat)
    (h : (add_dentry s dir name n).1 = 0) :
    dir.size / DENTRY_SIZE / entries_per_block < N_BLOCKS ∧
    ∃ (B : Nat) (sA : FS),
      ((dir.blocks (dir.size / DENTRY_SIZE / entries_per_block) ≠ 0 ∧
          B = dir.blocks (dir.size / DENTRY_SIZE / entries_per_block) ∧ sA = s) ∨
       (dir.blocks (dir.size / DENTRY_SIZE / entries_per_block) = 0 ∧
          (allocate_data_block s).1 = (B : Int) ∧ sA = (allocate_data_block s).2)) ∧
      (add_dentry s dir name n).2.1
        = { dir with
            blocks := update dir.blocks
              (dir.size / DENTRY_SIZE / entries_per_block) B,
            size := dir.size + DENTRY_SIZE } ∧
      (add_dentry s dir name n).2.2
        = store_inode
            (raid_write sA
              (memcpy_to (raid_read sA B BLOCK_SIZE)
                (DENTRY_SIZE * (dir.size / DENTRY_SIZE % entries_per_block))
                (new_dentry_bytes name n) DENTRY_SIZE)
              B BLOCK_SIZE)
            dir.num
            { dir with
              blocks := update dir.blocks
                (dir.size / DENTRY_SIZE / entries_per_block) B,
              size := dir.size + DENTRY_SIZE } := by
  unfold add_dentry at h ⊢
  simp only at h ⊢
  by_cases hidx : dir.size / DENTRY_SIZE / entries_per_block ≥ N_BLOCKS
  · simp [hidx, ENOSPC] at h
  · simp only [hidx, if_false] at h ⊢
    refine ⟨by omega, ?_⟩
    by_cases hb : dir.blocks (dir.size / DENTRY_SIZE / entries_per_block) = 0
    · simp only [hb, if_true] at h ⊢
      rcases allocate_data_block_cases s with ⟨h1, _, _⟩ | ⟨i, h1, h2, _, _, _, _⟩
      · simp [h1, ENOSPC] at h
      · have hneg : ¬ ((allocate_data_block s).1 < 0) := by rw [h1]; omega
        have htn : (allocate_data_block s).1.toNat = i := by rw [h1]; simp
        simp only [hneg, if_false, htn] at h ⊢
        refine ⟨i, (allocate_data_block s).2, Or.inr ⟨trivial, h1, rfl⟩, ?_, ?_⟩
        · simp
        · simp
    · simp only [hb, if_false] at h ⊢
      refine ⟨dir.blocks (dir.size / DENTRY_SIZE / entries_per_block), s,
        Or.inl ⟨hb, rfl, rfl⟩, ?_, ?_⟩
      · simp
      · simp


/-! ## Creating a node -/

/-- What a successful `wfs_mknod` did: the parent was resolved, it is a
directory without an entry named by the basename, `allocate_inode` returned
`n`, the new record was stored, `add_dentry` succeeded and the parent record was
stored again with the new times. -/
theorem wfs_mknod_ok (env : Env) (s : FS) (path : List Nat) (mode : Nat)
    (h : (wfs_mknod env s path mode).1 = 0) :
    (traverse_path s (dirname path)).1 = 0 ∧
    (traverse_path s (dirname path)).2.1.mode &&& S_IFDIR ≠ 0 ∧
    (find_dentry s (traverse_path s (dirname path)).2.1 (basename path)).1 ≠ 0 ∧
    ∃ n : Nat, (allocate_inode s).1 = (n : Int) ∧
      (add_dentry (store_inode (allocate_inode s).2 n (new_inode_record env n mode))
        (traverse_path s (dirname path)).2.1 (basename path) n).1 = 0 ∧
      (wfs_mknod env s path mode).2
        = store_inode
            (add_dentry (store_inode (allocate_inode s).2 n (new_inode_record env n mode))
              (traverse_path s (dirname path)).2.1 (basename path) n).2.2
            (traverse_path s (dirname path)).2.2
            { (add_dentry (store_inode (allocate_inode s).2 n (new_inode_record env n mode))
                (traverse_path s (dirname path)).2.1 (basename path) n).2.1 with
              mtim := env.time 1, ctim := env.time 1 } := by
  have h' := h
  unfold wfs_mknod at h
  simp only at h
  have htr : (traverse_path s (dirname path)).1 = 0 := by
    by_contra htr
    simp only [ne_eq, htr, not_false_eq_true, if_true] at h
  simp only [htr, ne_eq, not_true_eq_false, if_false] at h
  have hdir : ¬ ((traverse_path s (dirname path)).2.1.mode &&& S_IFDIR = 0) := by
    intro hdir; simp [hdir, ENOTDIR] at h
  simp only [hdir, if_false] at h
  have hf : ¬ ((find_dentry s (traverse_path s (dirname path)).2.1 (basename path)).1 = 0) := by
    intro hf; simp [hf, EEXIST] at h
  simp only [hf, if_false] at h
  refine ⟨htr, hdir, hf, ?_⟩
  rcases allocate_inode_cases s with ⟨h1, _, _⟩ | ⟨i, h1, _, _, _, _⟩
  · simp [h1, ENOSPC] at h
  · have hneg : ¬ ((allocate_inode s).1 < 0) := by rw [h1]; omega
    have htn : (allocate_inode s).1.toNat = i := by rw [h1]; simp
    simp only [hneg, if_false, htn] at h
    have had : (add_dentry (store_inode (allocate_inode s).2 i (new_inode_record env i mode))
        (traverse_path s (dirname path)).2.1 (basename path) i).1 = 0 := by
      by_contra had
      simp only [ne_eq, had, not_false_eq_true, if_true] at h
      split_ifs at h <;> exact had h
    refine ⟨i, h1, had, ?_⟩
    unfold wfs_mknod
    simp only [htr, hdir, hf, hneg, htn, had, ne_eq, not_true_eq_false, if_false]


theorem strcmp_eq_of_bytes (buf : Nat → Nat) :
    ∀ (l : List Nat) (off : Nat), (∀ k, k < l.length → buf (off + k) = l.getD k 0) →
      buf (off + l.length) = 0 → strcmp_eq buf off l = true := by
  intro l
  induction l with
  | nil => intro off _ h0; simpa [strcmp_eq] using h0
  | cons c cs ih =>
    intro off h h0
    simp only [strcmp_eq, Bool.and_eq_true, beq_iff_eq]
    refine ⟨by simpa using h 0 (by simp), ih (off + 1) ?_ ?_⟩
    · intro k hk
      have := h (k + 1) (by simp; omega)
      simpa [Nat.add_assoc, Nat.add_comm 1 k] using this
    · simpa [Nat.add_assoc, Nat.add_comm 1] using h0

/-- The name stored by `add_dentry` reads back as the first 27 bytes of `name`. -/
theorem entry_name_new_dentry (buf : Nat → Nat) (j : Nat) (hj : j < entries_per_block)
    (name : List Nat) (n : Nat) (hnz : ∀ c ∈ name, c ≠ 0)
    (hbuf : ∀ k, k < DENTRY_SIZE → buf (DENTRY_SIZE * j + k) = new_dentry_bytes name n k) :
    entry_name buf j = name.take (MAX_NAME - 1) := by
  have hlen : (name.take (MAX_NAME - 1)).length ≤ 27 := by
    simp [MAX_NAME]
  rw [← strcmp_eq_entry_name buf j hj _ (fun c hc => hnz c (List.mem_of_mem_take hc))
    (by simp only [DENTRY_SIZE, MAX_NAME] at *; omega)]
  apply strcmp_eq_of_bytes
  · intro k hk
    have hk27 : k < 27 := by omega
    rw [hbuf k (by simp only [DENTRY_SIZE, MAX_NAME]; omega)]
    unfold new_dentry_bytes
    simp only [MAX_NAME, show k < 28 by omega, show k < 28 - 1 by omega, if_true]
    rw [List.getD_eq_getElem?_getD, List.getD_eq_getElem?_getD, List.getElem?_take]
    simp [hk27]
  · rw [hbuf _ (by simp only [DENTRY_SIZE, MAX_NAME] at *; omega)]
    unfold new_dentry_bytes
    simp only [MAX_NAME] at hlen ⊢
    have h28 : (List.take (28 - 1) name).length < 28 := by omega
    simp only [h28, if_true]
    split_ifs with h27
    · rw [List.getD_eq_getElem?_getD, List.getElem?_eq_none]
      · rfl
      · simp only [List.length_take] at h27 ⊢
        omega
    · rfl

/-- The inode number stored by `add_dentry` reads back. -/
theorem dentry_num_new_dentry (buf : Nat → Nat) (j : Nat) (name : List Nat) (n : Nat)
    (hn : n < 2 ^ 32)
    (hbuf : ∀ k, k < DENTRY_SIZE → buf (DENTRY_SIZE * j + k) = new_dentry_bytes name n k) :
    (dentry_at buf j).num = n := by
  unfold dentry_at
  simp only
  rw [le_decode_le_byte buf n 4 _ 0]
  · simp only [pow_zero, Nat.div_one]
    exact Nat.mod_eq_of_lt (by norm_num at hn ⊢; exact hn)
  · intro t ht
    rw [Nat.add_assoc, hbuf _ (by simp only [DENTRY_SIZE, MAX_NAME]; omega)]
    unfold new_dentry_bytes
    simp [MAX_NAME]


/-- The value returned by `allocate_data_block` depends only on the superblock
and on disk 0's data bitmap. -/
theorem allocate_data_block_fst_congr (s t : FS) (hsb : t.superblock = s.superblock)
    (hdb : (t.disk_maps 0).d_bitmap = (s.disk_maps 0).d_bitmap) :
    (allocate_data_block t).1 = (allocate_data_block s).1 := by
  unfold allocate_data_block
  rw [hsb, hdb]
  generalize (List.range' 1 (s.superblock.num_data_blocks - 1)).find?
    (fun i => get_bit (s.disk_maps 0).d_bitmap i = 0) = o
  cases o <;> rfl

/-- The state after a successful `wfs_mknod`, step by step: inode `n` is the
first clear bit, its record is stored (`s1`), then either the parent's block of
slot `size / 32 / 16` is used (`sA = s1`) or a block `B` is allocated
(`sA = (allocate_data_block s1).2`), the entry is spliced into block `B`, and
the parent record is stored under its `num` field and under its number. -/
theorem wfs_mknod_state (env : Env) (s : FS) (path : List Nat) (mode : Nat)
    (hok : (wfs_mknod env s path mode).1 = 0) :
    (traverse_path s (dirname path)).1 = 0 ∧
    (traverse_path s (dirname path)).2.1.mode &&& S_IFDIR ≠ 0 ∧
    (find_dentry s (traverse_path s (dirname path)).2.1 (basename path)).1 ≠ 0 ∧
    (traverse_path s (dirname path)).2.1.size / DENTRY_SIZE / entries_per_block < N_BLOCKS ∧
    ∃ (n B : Nat) (sA : FS),
      (allocate_inode s).1 = (n : Int) ∧
      n < s.superblock.num_inodes ∧ get_bit (s.disk_maps 0).i_bitmap n = 0 ∧
      (∀ j, j < n → get_bit (s.disk_maps 0).i_bitmap j ≠ 0) ∧
      (∀ d, (sA.disk_maps d).i_bitmap
        = if d = 0 ∨ d < s.num_disks then set_bit (s.disk_maps d).i_bitmap n
          else (s.disk_maps d).i_bitmap) ∧
      (∀ d, (sA.disk_maps d).inodes
        = if d < s.num_disks then
            update (s.disk_maps d).inodes n (new_inode_record env n mode)
          else (s.disk_maps d).inodes) ∧
      (∀ b, raid_read sA b BLOCK_SIZE = raid_read s b BLOCK_SIZE) ∧
      sA.raid_mode = s.raid_mode ∧ sA.num_disks = s.num_disks ∧
      sA.superblock = s.superblock ∧
      B ≠ 0 ∧
      (((traverse_path s (dirname path)).2.1.blocks
            ((traverse_path s (dirname path)).2.1.size / DENTRY_SIZE / entries_per_block) ≠ 0 ∧
          B = (traverse_path s (dirname path)).2.1.blocks
            ((traverse_path s (dirname path)).2.1.size / DENTRY_SIZE / entries_per_block) ∧
          ∀ d, (sA.disk_maps d).d_bitmap = (s.disk_maps d).d_bitmap) ∨
       ((traverse_path s (dirname path)).2.1.blocks
            ((traverse_path s (dirname path)).2.1.size / DENTRY_SIZE / entries_per_block) = 0 ∧
          (allocate_data_block s).1 = (B : Int) ∧
          get_bit (s.disk_maps 0).d_bitmap B = 0 ∧
          ∀ d, (sA.disk_maps d).d_bitmap
            = if d = 0 ∨ ((s.raid_mode = 1 ∨ s.raid_mode = 2) ∧ d < s.num_disks) then
                set_bit (s.disk_maps d).d_bitmap B
              else (s.disk_maps d).d_bitmap)) ∧
      (wfs_mknod env s path mode).2
        = store_inode
            (store_inode
              (raid_write sA
                (memcpy_to (raid_read sA B BLOCK_SIZE)
                  (DENTRY_SIZE * ((traverse_path s (dirname path)).2.1.size / DENTRY_SIZE
                    % entries_per_block))
                  (new_dentry_bytes (basename path) n) DENTRY_SIZE)
                B BLOCK_SIZE)
              (traverse_path s (dirname path)).2.1.num
              { (traverse_path s (dirname path)).2.1 with
                blocks := update (traverse_path s (dirname path)).2.1.blocks
                  ((traverse_path s (dirname path)).2.1.size / DENTRY_SIZE / entries_per_block) B,
                size := (traverse_path s (dirname path)).2.1.size + DENTRY_SIZE })
            (traverse_path s (dirname path)).2.2
            { (traverse_path s (dirname path)).2.1 with
              blocks := update (traverse_path s (dirname path)).2.1.blocks
                ((traverse_path s (dirname path)).2.1.size / DENTRY_SIZE / entries_per_block) B,
              size := (traverse_path s (dirname path)).2.1.size + DENTRY_SIZE,
              mtim := env.time 1, ctim := env.time 1 } := by
  obtain ⟨htr, hdir, hf, n, hn1, had, hs'⟩ := wfs_mknod_ok env s path mode hok
  set p := (traverse_path s (dirname path)).2.1 with hp
  set pn := (traverse_path s (dirname path)).2.2 with hpn
  set s1 := store_inode (allocate_inode s).2 n (new_inode_record env n mode) with hs1
  obtain ⟨hidx, B, sA, hcase, hdir2, hsad⟩ := add_dentry_ok s1 p (basename path) n had
  rw [hdir2, hsad] at hs'
  have halloc : n < s.superblock.num_inodes ∧ get_bit (s.disk_maps 0).i_bitmap n = 0 ∧
      (∀ j, j < n → get_bit (s.disk_maps 0).i_bitmap j ≠ 0) ∧
      ∀ d, ((allocate_inode s).2.disk_maps d).i_bitmap
        = if d = 0 ∨ d < s.num_disks then set_bit (s.disk_maps d).i_bitmap n
          else (s.disk_maps d).i_bitmap := by
    rcases allocate_inode_cases s with ⟨h1, _, _⟩ | ⟨i, h1, h2, h3, h4, h5⟩
    · rw [hn1] at h1; simp [ENOSPC] at h1
    · have : i = n := by rw [hn1] at h1; exact_mod_cast h1.symm
      subst this
      exact ⟨h2, h3, h4, h5⟩
  refine ⟨htr, hdir, hf, hidx, n, B, sA, hn1, halloc.1, halloc.2.1, halloc.2.2.1, ?_, ?_, ?_, ?_,
    ?_, ?_, ?_, ?_, hs'⟩
  · intro d
    rw [← halloc.2.2.2 d]
    rcases hcase with ⟨_, _, h⟩ | ⟨_, _, h⟩ <;> rw [h] <;> simp [hs1]
  · intro d
    have : (sA.disk_maps d).inodes = (s1.disk_maps d).inodes := by
      rcases hcase with ⟨_, _, h⟩ | ⟨_, _, h⟩ <;> rw [h] <;> simp
    rw [this, hs1, store_inode_inodes]
    simp
  · intro b
    rcases hcase with ⟨_, _, h⟩ | ⟨_, _, h⟩ <;> rw [h] <;> simp [hs1]
  · rcases hcase with ⟨_, _, h⟩ | ⟨_, _, h⟩ <;> rw [h] <;> simp [hs1]
  · rcases hcase with ⟨_, _, h⟩ | ⟨_, _, h⟩ <;> rw [h] <;> simp [hs1]
  · rcases hcase with ⟨_, _, h⟩ | ⟨_, _, h⟩ <;> rw [h] <;> simp [hs1]
  · rcases hcase with ⟨h1, h2, _⟩ | ⟨_, h2, _⟩
    · rw [h2]; exact h1
    · rcases allocate_data_block_cases s1 with ⟨h1, _, _⟩ | ⟨i, h1, h3, _⟩
      · rw [h2] at h1; simp [ENOSPC] at h1
      · have : i = B := by rw [h2] at h1; exact_mod_cast h1.symm
        omega
  · rcases hcase with ⟨h1, h2, h3⟩ | ⟨h1, h2, h3⟩
    · left
      refine ⟨h1, h2, ?_⟩
      intro d; rw [h3]; simp [hs1]
    · right
      have hs1a : allocate_data_block s1 = ((allocate_data_block s1).1, (allocate_data_block s1).2) :=
        rfl
      rcases allocate_data_block_cases s1 with ⟨h4, _, _⟩ | ⟨i, h4, h5, h6, h7, h8, h9⟩
      · rw [h2] at h4; simp [ENOSPC] at h4
      · have hi : i = B := by rw [h2] at h4; exact_mod_cast h4.symm
        subst hi
        have hdb : ∀ d, (s1.disk_maps d).d_bitmap = (s.disk_maps d).d_bitmap := by
          intro d; simp [hs1]
        have h1st : (allocate_data_block s1).1 = (allocate_data_block s).1 :=
          allocate_data_block_fst_congr s s1 (by simp [hs1]) (hdb 0)
        refine ⟨h1, by rw [← h1st]; exact h2, by rw [← hdb 0]; exact h7, ?_⟩
        intro d
        rw [h3, h9 d, hdb d]
        simp [hs1]


theorem basename_ne_nil (path : List Nat) : basename path ≠ [] := by
  unfold basename
  split_ifs with h1 h2
  · simp
  · simp
  · intro h
    rw [List.reverse_eq_nil_iff] at h
    unfold strip_slashes at h h2
    rw [List.reverse_reverse] at h
    rw [List.reverse_eq_nil_iff] at h2
    have hhead := List.head_dropWhile_not (fun c => decide (c = SLASH)) path.reverse h2
    cases hd : List.dropWhile (fun c => decide (c = SLASH)) path.reverse with
    | nil => exact h2 hd
    | cons a l =>
      simp only [hd, List.head_cons] at hhead
      rw [hd, List.takeWhile_cons] at h
      have : decide (a ≠ SLASH) = true := by simpa using hhead
      rw [this] at h
      simp at h

theorem strcmp_eq_congr (buf1 buf2 : Nat → Nat) :
    ∀ (name : List Nat) (off : Nat),
      (∀ k, k ≤ name.length → buf1 (off + k) = buf2 (off + k)) →
      strcmp_eq buf1 off name = strcmp_eq buf2 off name := by
  intro name
  induction name with
  | nil =>
    intro off h
    have h0 := h 0 (by simp)
    simp only [Nat.add_zero] at h0
    simp only [strcmp_eq, h0]
  | cons c cs ih =>
    intro off h
    simp only [strcmp_eq]
    have h0 := h 0 (by simp)
    simp only [Nat.add_zero] at h0
    rw [h0, ih (off + 1) (fun k hk => by
      have := h (k + 1) (by simp; omega)
      simpa [Nat.add_assoc, Nat.add_comm 1 k] using this)]

/-- Where `find_slot` finds an entry, no earlier slot of the same block matches. -/
theorem find_slot_some_first (s : FS) (dir : wfs_inode) (name : List Nat) (i j : Nat)
    (h : find_slot s dir name = some (i, j)) :
    ∀ j', j' < j →
      ¬ (name_nonempty (raid_read s (dir.blocks i) BLOCK_SIZE) j' = true ∧
        strcmp_eq (raid_read s (dir.blocks i) BLOCK_SIZE) (DENTRY_SIZE * j') name = true) := by
  unfold find_slot at h
  obtain ⟨a, ha, hfa⟩ := List.exists_of_findSome?_eq_some h
  by_cases hz : dir.blocks a = 0
  · simp [hz] at hfa
  · simp only [hz, if_false, Option.map_eq_some'] at hfa
    obtain ⟨j0, hfind, hj0⟩ := hfa
    have h1 : a = i := by simpa using congrArg Prod.fst hj0
    have h2 : j0 = j := by simpa using congrArg Prod.snd hj0
    subst h1; subst h2
    unfold find_in_block at hfind
    rw [List.range_eq_range'] at hfind
    obtain ⟨_, _, _, hmin⟩ := find_range'_some _ _ _ _ hfind
    intro j' hj'
    have := hmin j' (Nat.zero_le _) hj'
    simpa using this

theorem find_dentry_none (s : FS) (dir : wfs_inode) (name : List Nat)
    (h : (find_dentry s dir name).1 ≠ 0) : find_slot s dir name = none := by
  unfold find_dentry at h
  cases hs : find_slot s dir name with
  | none => rfl
  | some p => rw [hs] at h; exact absurd rfl h

theorem find_dentry_some (s : FS) (dir : wfs_inode) (name : List Nat) (i j : Nat)
    (h : find_slot s dir name = some (i, j)) :
    find_dentry s dir name = (0, dentry_at (raid_read s (dir.blocks i) BLOCK_SIZE) j) := by
  unfold find_dentry
  rw [h]

theorem free_block_slots_zero (s : FS) (inode : wfs_inode) (count : Nat)
    (h : ∀ i, i < count → inode.blocks i = 0) : free_block_slots s inode count = s := by
  unfold free_block_slots
  have : ∀ (L : List Nat) (t : FS), (∀ i ∈ L, inode.blocks i = 0) →
      L.foldl (fun t i => if inode.blocks i ≠ 0 then free_data_block t (inode.blocks i) else t) t
        = t := by
    intro L
    induction L with
    | nil => intro t _; rfl
    | cons a L ih =>
      intro t hL
      rw [List.foldl_cons]
      have ha := hL a (by simp)
      simp only [ha, ne_eq, not_true_eq_false, if_false]
      exact ih t (fun i hi => hL i (by simp [hi]))
  exact this _ s (fun i hi => h i (List.mem_range.mp hi))

theorem remove_dentry_frame (s : FS) (dir : wfs_inode) (name : List Nat) :
    (remove_dentry s dir name).2.raid_mode = s.raid_mode ∧
    (remove_dentry s dir name).2.num_disks = s.num_disks ∧
    (remove_dentry s dir name).2.superblock = s.superblock ∧
    (∀ d, ((remove_dentry s dir name).2.disk_maps d).i_bitmap = (s.disk_maps d).i_bitmap) ∧
    (∀ d, ((remove_dentry s dir name).2.disk_maps d).d_bitmap = (s.disk_maps d).d_bitmap) ∧
    (∀ d, ((remove_dentry s dir name).2.disk_maps d).inodes = (s.disk_maps d).inodes) := by
  unfold remove_dentry
  split <;> simp

theorem free_indirect_blocks_none (s : FS) (inode : wfs_inode) (h : inode.blocks IND_BLOCK = 0) :
    free_indirect_blocks s inode = (0, inode, s) := by
  unfold free_indirect_blocks
  simp [h]


/-- What `wfs_unlink` does to a file whose record has no blocks: when the parent
resolves to `(p, pn)`, the entry is found with number `n`, and the record of `n`
is not a directory and has no block pointers, the call returns 0 and the state
is `remove_dentry`, then `free_inode n'` (`n'` the record's `num`), then the
parent record stored with the new times. -/
theorem wfs_unlink_empty_file (env : Env) (s : FS) (path : List Nat)
    (htr : (traverse_path s (dirname path)).1 = 0)
    (hf : (find_dentry s (traverse_path s (dirname path)).2.1 (basename path)).1 = 0)
    (hreg : (load_inode s
      (find_dentry s (traverse_path s (dirname path)).2.1 (basename path)).2.num).mode
        &&& S_IFDIR = 0)
    (hblocks : ∀ k, (load_inode s
      (find_dentry s (traverse_path s (dirname path)).2.1 (basename path)).2.num).blocks k = 0) :
    wfs_unlink env s path
      = (0, store_inode
          (free_inode (remove_dentry s (traverse_path s (dirname path)).2.1 (basename path)).2
            (load_inode s
              (find_dentry s (traverse_path s (dirname path)).2.1 (basename path)).2.num).num)
          (traverse_path s (dirname path)).2.2
          { (traverse_path s (dirname path)).2.1 with
            mtim := env.time 0, ctim := env.time 0 }) := by
  have hrm := remove_dentry_of_found s _ _ hf
  unfold wfs_unlink
  simp only [htr, hf, hreg, hrm, ne_eq, not_true_eq_false, if_false]
  rw [free_block_slots_zero _ _ _ (fun i _ => hblocks i)]
  rw [free_indirect_blocks_none _ _ (by simp [IND_BLOCK, D_BLOCK, hblocks])]


@[simp] theorem data_bit_raid_write (s : FS) (buf : Nat → Nat) (b size d x : Nat) :
    data_bit (raid_write s buf b size) d x = data_bit s d x := by
  unfold data_bit; rw [raid_write_d_bitmap]
@[simp] theorem data_bit_store_inode (s : FS) (n : Nat) (i : wfs_inode) (d x : Nat) :
    data_bit (store_inode s n i) d x = data_bit s d x := by
  unfold data_bit; rw [store_inode_d_bitmap]

theorem file_step_refl (s : FS) (inode : wfs_inode) : file_step s inode s inode :=
  { raid_mode := rfl, num_disks := rfl, superblock := rfl, num := rfl, mode := rfl, size := rfl,
    inodes := fun _ _ => rfl, bits := fun _ h => h, refs_keep := fun _ _ _ => rfl,
    refs_new := fun _ _ h h' => absurd h h', wf := fun h => h, foreign := fun _ _ _ => rfl }

theorem file_step_trans {s t u : FS} {i j k : wfs_inode}
    (h1 : file_step s i t j) (h2 : file_step t j u k) : file_step s i u k := by
  have href : ∀ y, y < FILE_SLOTS → ∀ b, data_bit s 0 b ≠ 0 →
      (∀ y, y < FILE_SLOTS → file_ref s i y ≠ b) → file_ref t j y ≠ b := by
    intro y hy b hb hnot hEq
    by_cases h0 : file_ref s i y = 0
    · by_cases h0' : file_ref t j y = 0
      · exact hnot y hy (by rw [h0, ← hEq, h0'])
      · have := h1.refs_new y hy h0 h0'
        rw [hEq] at this
        exact hb this
    · rw [h1.refs_keep y hy h0] at hEq
      exact hnot y hy hEq
  exact
  { raid_mode := h2.raid_mode.trans h1.raid_mode
    num_disks := h2.num_disks.trans h1.num_disks
    superblock := h2.superblock.trans h1.superblock
    num := h2.num.trans h1.num
    mode := h2.mode.trans h1.mode
    size := h2.size.trans h1.size
    inodes := fun m hm => (h2.inodes m (by rw [h1.num]; exact hm)).trans (h1.inodes m hm)
    bits := fun b hb => h2.bits b (h1.bits b hb)
    refs_keep := fun y hy h0 => by
      rw [h2.refs_keep y hy (by rw [h1.refs_keep y hy h0]; exact h0), h1.refs_keep y hy h0]
    refs_new := fun y hy h0 h0' => by
      by_cases h3 : file_ref t j y = 0
      · have := h2.refs_new y hy h3 h0'
        by_contra hb
        exact h1.bits _ hb this
      · rw [h2.refs_keep y hy h3] at h0' ⊢
        exact h1.refs_new y hy h0 h0'
    wf := fun h => h2.wf (h1.wf h)
    foreign := fun b hb hnot => by
      rw [h2.foreign b (h1.bits b hb) (fun y hy => href y hy b hb hnot), h1.foreign b hb hnot] }

theorem file_block_lt_slots (bi : Nat) (h : bi < D_BLOCK + INDIRECT_BLOCK_ENTRIES) :
    (if bi < D_BLOCK then bi else bi + 1) < FILE_SLOTS := by
  unfold FILE_SLOTS
  split_ifs <;> simp only [D_BLOCK, INDIRECT_BLOCK_ENTRIES, BLOCK_SIZE] at * <;> omega

theorem file_block_keep {s t : FS} {i j : wfs_inode} (h : file_step s i t j) (bi : Nat)
    (hbi : bi < D_BLOCK + INDIRECT_BLOCK_ENTRIES) (h0 : file_block s i bi ≠ 0) :
    file_block t j bi = file_block s i bi :=
  h.refs_keep _ (file_block_lt_slots bi hbi) h0

theorem file_keeps_trans {s t u : FS} {i j k : wfs_inode} {lo mid hi : Nat}
    (h1 : file_step s i t j) (k1 : file_keeps s i t lo mid)
    (k2 : file_keeps t j u mid hi) (hlo : lo ≤ mid) (hhi : mid ≤ hi) :
    file_keeps s i u lo hi := by
  intro a ha hbi h0
  have hk1 := k1 a (by omega) hbi h0
  have hb := file_block_keep h1 _ hbi h0
  have hk2 := k2 a (by omega) hbi (by rw [hb]; exact h0)
  rw [hb] at hk2
  rw [hk2, hk1]

theorem file_written_trans {s t u : FS} {i j k : wfs_inode} {buf : List Nat}
    {bw lo mid hi : Nat}
    (w1 : file_written t j buf bw lo mid) (h2 : file_step t j u k)
    (k2 : file_keeps t j u mid hi) (w2 : file_written u k buf (bw + (mid - lo)) mid hi)
    (hlo : lo ≤ mid) (hmax : hi ≤ (D_BLOCK + INDIRECT_BLOCK_ENTRIES) * BLOCK_SIZE) :
    file_written u k buf bw lo hi := by
  intro a ha1 ha2
  have hbi : a / BLOCK_SIZE < D_BLOCK + INDIRECT_BLOCK_ENTRIES := by
    rw [Nat.div_lt_iff_lt_mul (by decide)]
    omega
  by_cases hmid : a < mid
  · obtain ⟨h0, hbyte⟩ := w1 a ha1 hmid
    have hb := file_block_keep h2 _ hbi h0
    refine ⟨by rw [hb]; exact h0, ?_⟩
    unfold file_byte at hbyte ⊢
    rw [hb, k2 a (by omega) hbi h0, hbyte]
  · obtain ⟨h0, hbyte⟩ := w2 a (by omega) ha2
    refine ⟨h0, ?_⟩
    rw [hbyte]
    congr 1
    omega

/-- A step that leaves every reference and every bitmap bit as it was. -/
theorem file_step_same_refs (s t : FS) (inode : wfs_inode)
    (hmode : t.raid_mode = s.raid_mode) (hn : t.num_disks = s.num_disks)
    (hsb : t.superblock = s.superblock)
    (hino : ∀ m, m ≠ inode.num → load_inode t m = load_inode s m)
    (hbits : ∀ b, data_bit t 0 b = data_bit s 0 b)
    (href : ∀ y, y < FILE_SLOTS → file_ref t inode y = file_ref s inode y)
    (hforeign : ∀ b, data_bit s 0 b ≠ 0 → (∀ y, y < FILE_SLOTS → file_ref s inode y ≠ b) →
      raid_read t b BLOCK_SIZE = raid_read s b BLOCK_SIZE) :
    file_step s inode t inode :=
  { raid_mode := hmode, num_disks := hn, superblock := hsb, num := rfl, mode := rfl, size := rfl,
    inodes := hino
    bits := fun b hb => by rw [hbits]; exact hb
    refs_keep := fun y hy _ => href y hy
    refs_new := fun y hy h0 h0' => by rw [href y hy] at h0'; exact absurd h0 h0'
    wf := fun h => by
      refine ⟨fun x hx h0 => ?_, fun x y hx hy h0 hEq => ?_⟩
      · rw [href x hx] at h0 ⊢
        rw [hbits]; exact h.1 x hx h0
      · rw [href x hx] at h0 hEq
        rw [href y hy] at hEq
        exact h.2 x y hx hy h0 hEq
    foreign := hforeign }

/-- A step that fills one empty reference `x0` with a block `B` that was free,
marks `B` in the bitmap and leaves the other references as they were. -/
theorem file_step_new_ref (s t : FS) (inode inode' : wfs_inode) (x0 B : Nat)
    (hx0 : x0 < FILE_SLOTS) (hB0 : B ≠ 0) (hfree : data_bit s 0 B = 0)
    (hmode : t.raid_mode = s.raid_mode) (hn : t.num_disks = s.num_disks)
    (hsb : t.superblock = s.superblock)
    (hnum : inode'.num = inode.num) (himode : inode'.mode = inode.mode)
    (hsize : inode'.size = inode.size)
    (hino : ∀ m, m ≠ inode.num → load_inode t m = load_inode s m)
    (hbits : ∀ b, data_bit t 0 b = if b = B then 1 else data_bit s 0 b)
    (hold : file_ref s inode x0 = 0)
    (href : ∀ y, y < FILE_SLOTS →
      file_ref t inode' y = if y = x0 then B else file_ref s inode y)
    (hforeign : ∀ b, data_bit s 0 b ≠ 0 → (∀ y, y < FILE_SLOTS → file_ref s inode y ≠ b) →
      raid_read t b BLOCK_SIZE = raid_read s b BLOCK_SIZE) :
    file_step s inode t inode' :=
  { raid_mode := hmode, num_disks := hn, superblock := hsb, num := hnum, mode := himode,
    size := hsize, inodes := hino
    bits := fun b hb => by
      rw [hbits]; split_ifs
      · decide
      · exact hb
    refs_keep := fun y hy h0 => by
      rw [href y hy, if_neg]
      intro h; rw [h] at h0; exact h0 hold
    refs_new := fun y hy h0 h0' => by
      rw [href y hy] at h0' ⊢
      split_ifs at h0' ⊢ with h
      · exact hfree
      · exact absurd h0 h0'
    wf := fun h => by
      have hne : ∀ y, y < FILE_SLOTS → file_ref s inode y ≠ 0 → file_ref s inode y ≠ B := by
        intro y hy h0 hEq
        have := h.1 y hy h0
        rw [hEq] at this
        exact this hfree
      refine ⟨fun x hx h0 => ?_, fun x y hx hy h0 hEq => ?_⟩
      · rw [href x hx] at h0 ⊢
        rw [hbits]
        split_ifs at h0 ⊢ with h1 h2 h2
        · decide
        · exact absurd rfl h2
        · decide
        · exact h.1 x hx h0
      · rw [href x hx] at h0 hEq
        rw [href y hy] at hEq
        by_cases h1 : x = x0
        · by_cases h2 : y = x0
          · rw [h1, h2]
          · rw [if_pos h1, if_neg h2] at hEq
            by_cases h3 : file_ref s inode y = 0
            · rw [h3] at hEq; exact absurd hEq hB0
            · exact absurd hEq.symm (hne y hy h3)
        · rw [if_neg h1] at h0 hEq
          by_cases h2 : y = x0
          · rw [if_pos h2] at hEq
            exact absurd hEq (hne x hx h0)
          · rw [if_neg h2] at hEq
            exact h.2 x y hx hy h0 hEq
    foreign := hforeign }


/-- C12. For a path that `wfs_unlink` / `wfs_rmdir` resolve (the parent by
`traverse_path(dirname(path))`, the entry by `find_dentry(parent,
basename(path))`): when the target inode has the directory bit `wfs_unlink`
returns `-EISDIR`, when it has not `wfs_rmdir` returns `-ENOTDIR`, and in both
cases the state after the call is the state before it (every region of every
disk image: data blocks, inode table and both bitmaps). -/
theorem unlink_dir_rmdir_file_rejected (env : Env) (s : FS) (path : List Nat)
    (hres : (resolve_child s path).1 = 0) :
    ((load_inode s (resolve_child s path).2).mode &&& S_IFDIR ≠ 0 →
      wfs_unlink env s path = (-EISDIR, s)) ∧
    ((load_inode s (resolve_child s path).2).mode &&& S_IFDIR = 0 →
      wfs_rmdir env s path = (-ENOTDIR, s)) := by
  unfold resolve_child at hres ⊢
  simp only at hres ⊢
  by_cases htr : (traverse_path s (dirname path)).1 = 0
  · simp only [htr, ne_eq, not_true_eq_false, if_false] at hres ⊢
    by_cases hf : (find_dentry s (traverse_path s (dirname path)).2.1 (basename path)).1 = 0
    · simp only [hf, ne_eq, not_true_eq_false, if_false] at hres ⊢
      constructor
      · intro hdir
        unfold wfs_unlink
        simp only [htr, hf, ne_eq, not_true_eq_false, if_false]
        rw [if_pos hdir]
      · intro hdir
        unfold wfs_rmdir
        simp only [htr, hf, ne_eq, not_true_eq_false, if_false]
        rw [if_pos hdir]
    · simp [hf] at hres
  · simp [htr] at hres

theorem unlink_dir_rmdir_file_rejected_witness :
    (resolve_child ex_d_x [47, 100]).1 = 0 ∧
    (resolve_child ex_d_x [47, 100, 47, 120]).1 = 0 ∧
    wfs_unlink env0 ex_d_x [47, 100] = (-EISDIR, ex_d_x) ∧
    wfs_rmdir env0 ex_d_x [47, 100, 47, 120] = (-ENOTDIR, ex_d_x) :=
  ⟨by decide!, by decide!,
   (unlink_dir_rmdir_file_rejected env0 ex_d_x [47, 100] (by decide!)).1 (by decide!),
   (unlink_dir_rmdir_file_rejected env0 ex_d_x [47, 100, 47, 120] (by decide!)).2 (by decide!)⟩

/-! ## The loop of `wfs_write` -/

theorem to_int_of_lt (v : Nat) (h : v < 2 ^ 31) : to_int v = (v : Int) := by
  unfold to_int
  have h1 : v % 2 ^ 32 = v := Nat.mod_eq_of_lt (by omega)
  rw [h1, if_pos h]

theorem to_int_block_index (offset : Nat) (h : offset ≤ 35840) :
    to_int (offset / BLOCK_SIZE) = ((offset / BLOCK_SIZE : Nat) : Int) := by
  apply to_int_of_lt
  unfold BLOCK_SIZE
  omega

theorem block_step_le (offset size : Nat)
    (hb : offset / BLOCK_SIZE < D_BLOCK + INDIRECT_BLOCK_ENTRIES) :
    offset + min (BLOCK_SIZE - offset % BLOCK_SIZE) size ≤ 35840 := by
  unfold D_BLOCK INDIRECT_BLOCK_ENTRIES BLOCK_SIZE at hb
  unfold BLOCK_SIZE
  have := Nat.div_add_mod offset 512
  have := Nat.mod_lt offset (by norm_num : 512 > 0)
  omega

theorem block_index_ge (offset : Nat)
    (hb : ¬ offset / BLOCK_SIZE < D_BLOCK + INDIRECT_BLOCK_ENTRIES) : 35840 ≤ offset := by
  unfold D_BLOCK INDIRECT_BLOCK_ENTRIES BLOCK_SIZE at hb
  have := Nat.div_add_mod offset 512
  omega

theorem write_bounds_step {w : write_state} {size offset bw tw : Nat} (htw : tw ≤ size)
    (h : bw + tw ≤ w.bytes_written ∧ w.bytes_written ≤ bw + tw + (size - tw) ∧
      w.offset + (bw + tw) = offset + tw + w.bytes_written ∧
      (w.efbig = true → 35840 < offset + tw + (size - tw)) ∧
      (w.efbig = false → w.offset ≤ 35840)) :
    bw ≤ w.bytes_written ∧ w.bytes_written ≤ bw + size ∧
      w.offset + bw = offset + w.bytes_written ∧
      (w.efbig = true → 35840 < offset + size) ∧
      (w.efbig = false → w.offset ≤ 35840) := by
  obtain ⟨a, b, c, d, e⟩ := h
  refine ⟨by omega, by omega, by omega, fun hE => ?_, e⟩
  have := d hE
  omega

/-- Bounds on the state in which the loop of `wfs_write` is left when it is
entered at an offset of at most 35840: the count of bytes written and the
offset advance together, by at most `size`; the loop is left by `return
-EFBIG` only if the range reaches beyond byte 35840, and otherwise the offset
reached is at most 35840. -/
theorem wfs_write_loop_bounds (buf : List Nat) :
    ∀ (fuel : Nat) (s : FS) (inode : wfs_inode) (size offset bw : Nat), offset ≤ 35840 →
      bw ≤ (wfs_write_loop buf fuel s inode size offset bw).bytes_written ∧
      (wfs_write_loop buf fuel s inode size offset bw).bytes_written ≤ bw + size ∧
      (wfs_write_loop buf fuel s inode size offset bw).offset + bw
        = offset + (wfs_write_loop buf fuel s inode size offset bw).bytes_written ∧
      ((wfs_write_loop buf fuel s inode size offset bw).efbig = true → 35840 < offset + size) ∧
      ((wfs_write_loop buf fuel s inode size offset bw).efbig = false →
        (wfs_write_loop buf fuel s inode size offset bw).offset ≤ 35840) := by
  intro fuel
  induction fuel with
  | zero =>
    intro s inode size offset bw h
    simp [wfs_write_loop, h]
  | succ fuel ih =>
    intro s inode size offset bw h
    have hti := to_int_block_index offset h
    have hnn : ¬ (((offset / BLOCK_SIZE : Nat) : Int) < 0) :=
      Int.not_lt.mpr (Int.ofNat_nonneg _)
    unfold wfs_write_loop
    simp only [hti, hnn, if_false, Int.toNat_ofNat]
    have hd : offset / BLOCK_SIZE < D_BLOCK →
        offset / BLOCK_SIZE < D_BLOCK + INDIRECT_BLOCK_ENTRIES := by
      intro h; omega
    split_ifs with h1 h2 h3 h4 h5 h6 h7 h8
    all_goals first
      | exact write_bounds_step (Nat.min_le_right _ _)
          (ih _ _ _ _ _ (block_step_le offset size (by first | assumption | exact hd (by assumption))))
      | (refine ⟨?_, ?_, ?_, ?_, ?_⟩ <;> simp <;> omega)
      | (refine ⟨?_, ?_, ?_, ?_, ?_⟩ <;> simp <;>
          (have hge := block_index_ge offset (by assumption); omega))


/-- The result of `wfs_write` on a path that resolves to a regular file, in
terms of the state in which its loop is left. -/
theorem wfs_write_of_regular (env : Env) (s : FS) (path buf : List Nat) (offset : Nat)
    (htr : (traverse_path s path).1 = 0)
    (hreg : (traverse_path s path).2.1.mode &&& S_IFREG ≠ 0) :
    wfs_write env s path buf offset =
      if (wfs_write_loop buf buf.length s (traverse_path s path).2.1 buf.length offset 0).efbig
      then (-EFBIG,
        (wfs_write_loop buf buf.length s (traverse_path s path).2.1 buf.length offset 0).fs)
      else
        (((wfs_write_loop buf buf.length s (traverse_path s path).2.1 buf.length offset
            0).bytes_written : Int),
          store_inode
            (wfs_write_loop buf buf.length s (traverse_path s path).2.1 buf.length offset 0).fs
            (wfs_write_loop buf buf.length s (traverse_path s path).2.1 buf.length offset
              0).inode.num
            { (wfs_write_loop buf buf.length s (traverse_path s path).2.1 buf.length offset
                0).inode with
              size :=
                if (wfs_write_loop buf buf.length s (traverse_path s path).2.1 buf.length
                    offset 0).offset >
                  (wfs_write_loop buf buf.length s (traverse_path s path).2.1 buf.length
                    offset 0).inode.size
                then (wfs_write_loop buf buf.length s (traverse_path s path).2.1 buf.length
                    offset 0).offset
                else (wfs_write_loop buf buf.length s (traverse_path s path).2.1 buf.length
                    offset 0).inode.size,
              mtim := env.time 0, ctim := env.time 0 }) := by
  unfold wfs_write
  simp only [htr, ne_eq, not_true_eq_false, if_false, hreg]

/-- When `wfs_write` returns `-EFBIG`: for a regular file and a start offset of at
most 35840, not when the range ends at or before byte 35840; and a range that
reaches beyond byte 35840 is never written in full. -/
theorem wfs_write_capacity (env : Env) (s : FS) (path buf : List Nat) (offset : Nat)
    (htr : (traverse_path s path).1 = 0)
    (hreg : (traverse_path s path).2.1.mode &&& S_IFREG ≠ 0)
    (hoff : offset ≤ 35840) :
    (offset + buf.length ≤ 35840 →
      0 ≤ (wfs_write env s path buf offset).1 ∧ (wfs_write env s path buf offset).1 ≠ -EFBIG) ∧
    (35840 < offset + buf.length →
      (wfs_write env s path buf offset).1 = -EFBIG ∨
      (0 ≤ (wfs_write env s path buf offset).1 ∧
        (offset : Int) + (wfs_write env s path buf offset).1 ≤ 35840)) := by
  rw [wfs_write_of_regular env s path buf offset htr hreg]
  obtain ⟨h1, h2, h3, h4, h5⟩ :=
    wfs_write_loop_bounds buf buf.length s (traverse_path s path).2.1 buf.length offset 0 hoff
  constructor
  · intro hle
    have hE : (wfs_write_loop buf buf.length s (traverse_path s path).2.1 buf.length offset
        0).efbig = false := by
      cases hc : (wfs_write_loop buf buf.length s (traverse_path s path).2.1 buf.length offset
        0).efbig with
      | false => rfl
      | true => have := h4 hc; omega
    rw [hE]
    simp only [Bool.false_eq_true, if_false]
    refine ⟨Int.ofNat_nonneg _, ?_⟩
    unfold EFBIG
    omega
  · intro hgt
    cases hc : (wfs_write_loop buf buf.length s (traverse_path s path).2.1 buf.length offset
        0).efbig with
    | true => left; simp
    | false =>
      right
      have := h5 hc
      simp only [Bool.false_eq_true, if_false]
      refine ⟨Int.ofNat_nonneg _, ?_⟩
      omega
theorem inode_frame_refl (s : FS) (inode : wfs_inode) : inode_frame s inode s inode :=
  ⟨rfl, rfl, rfl, rfl, fun _ => Or.inl rfl⟩

theorem inode_frame_trans {s t u : FS} {i j k : wfs_inode}
    (h1 : inode_frame s i t j) (h2 : inode_frame t j u k) : inode_frame s i u k := by
  obtain ⟨a1, b1, c1, d1, e1⟩ := h1
  obtain ⟨a2, b2, c2, d2, e2⟩ := h2
  refine ⟨a2.trans a1, b2.trans b1, c2.trans c1, d2.trans d1, fun m => ?_⟩
  rcases e2 m with h | ⟨hm, hs, hmo, hnu⟩
  · rcases e1 m with h' | ⟨hm', hs', hmo', hnu'⟩
    · exact Or.inl (h.trans h')
    · exact Or.inr ⟨hm', by rw [h]; exact hs', by rw [h]; exact hmo', by rw [h]; exact hnu'⟩
  · exact Or.inr ⟨hm.trans a1, hs.trans b1, hmo.trans c1, hnu.trans a1⟩

theorem inode_frame_of_load {s t : FS} {i j : wfs_inode}
    (hnum : j.num = i.num) (hsize : j.size = i.size) (hmode : j.mode = i.mode)
    (hn : t.num_disks = s.num_disks) (h : ∀ m, load_inode t m = load_inode s m) :
    inode_frame s i t j :=
  ⟨hnum, hsize, hmode, hn, fun m => Or.inl (h m)⟩

theorem inode_frame_store (s : FS) (i j : wfs_inode)
    (hnum : j.num = i.num) (hsize : j.size = i.size) (hmode : j.mode = i.mode) :
    inode_frame s i (store_inode s j.num j) j := by
  refine ⟨hnum, hsize, hmode, by simp, fun m => ?_⟩
  by_cases hn : 0 < s.num_disks
  · rw [load_inode_store_inode s j.num m j hn]
    by_cases hm : m = j.num
    · rw [if_pos hm]
      exact Or.inr ⟨hm.trans hnum, hsize, hmode, hnum⟩
    · rw [if_neg hm]
      exact Or.inl rfl
  · left
    unfold load_inode
    rw [store_inode_inodes]
    have : ¬ (0 < s.num_disks) := hn
    rw [if_neg this]

theorem inode_frame_allocate_indirect_block (s : FS) (inode : wfs_inode) :
    inode_frame s inode (allocate_indirect_block s inode).2.2
      (allocate_indirect_block s inode).2.1 := by
  unfold allocate_indirect_block
  simp only
  split_ifs
  · exact inode_frame_refl s inode
  · exact inode_frame_of_load rfl rfl rfl (by simp) (fun m => by simp)
  · refine inode_frame_trans (t := raid_write (allocate_data_block s).2 (fun _ => 0)
        (allocate_data_block s).1.toNat BLOCK_SIZE)
      (j := { inode with
        blocks := update inode.blocks IND_BLOCK (allocate_data_block s).1.toNat })
      (inode_frame_of_load rfl rfl rfl (by simp) (fun m => by simp)) ?_
    exact inode_frame_store _ _ _ rfl rfl rfl

theorem load_inode_allocate_indirect_data_block (s : FS) (inode : wfs_inode) (idx m : Nat) :
    load_inode (allocate_indirect_data_block s inode idx).2 m = load_inode s m ∧
    (allocate_indirect_data_block s inode idx).2.num_disks = s.num_disks := by
  unfold allocate_indirect_data_block write_indirect_pointers
  simp only
  split_ifs <;> simp

/-- The loop of `wfs_write` keeps the number, size and mode of the in-memory
inode and every stored record other than the file's own, which it stores again
only with the same number, size and mode. -/
theorem wfs_write_loop_frame (buf : List Nat) :
    ∀ (fuel : Nat) (s : FS) (inode : wfs_inode) (size offset bw : Nat),
      inode_frame s inode (wfs_write_loop buf fuel s inode size offset bw).fs
        (wfs_write_loop buf fuel s inode size offset bw).inode := by
  intro fuel
  induction fuel with
  | zero => intro s inode size offset bw; exact inode_frame_refl s inode
  | succ fuel ih =>
    intro s inode size offset bw
    unfold wfs_write_loop
    simp only
    have hai := inode_frame_allocate_indirect_block s inode
    have had := fun idx => load_inode_allocate_indirect_data_block
      (allocate_indirect_block s inode).2.2 (allocate_indirect_block s inode).2.1 idx
    split_ifs
    all_goals first
      | exact inode_frame_refl s inode
      | exact inode_frame_of_load rfl rfl rfl (by simp) (fun m => by simp)
      | exact inode_frame_trans
          (inode_frame_of_load rfl rfl rfl (by simp) (fun m => by simp)) (ih _ _ _ _ _)
      | exact hai
      | exact inode_frame_trans hai
          (inode_frame_of_load rfl rfl rfl (had _ 0).2 (fun m => (had _ m).1))
      | exact inode_frame_trans hai (inode_frame_trans
          (inode_frame_of_load (t := raid_write _ _ _ _) rfl rfl rfl
            (by simp [(had _ 0).2]) (fun m => by simp [(had _ m).1])) (ih _ _ _ _ _))

/-- The stored size of a regular file after `wfs_write` at an offset of at most
35840: unchanged when the call returns a negative value, and the larger of the
old size and the offset reached when it returns a count. -/
theorem wfs_write_stored_size (env : Env) (s : FS) (path buf : List Nat) (offset : Nat)
    (htr : (traverse_path s path).1 = 0)
    (hreg : (traverse_path s path).2.1.mode &&& S_IFREG ≠ 0)
    (hnum : (traverse_path s path).2.1.num = (traverse_path s path).2.2)
    (hn : 0 < s.num_disks) (hoff : offset ≤ 35840) :
    ((wfs_write env s path buf offset).1 < 0 →
      (load_inode (wfs_write env s path buf offset).2 (traverse_path s path).2.2).size
        = (load_inode s (traverse_path s path).2.2).size) ∧
    (0 ≤ (wfs_write env s path buf offset).1 →
      (load_inode (wfs_write env s path buf offset).2 (traverse_path s path).2.2).size
        = max (load_inode s (traverse_path s path).2.2).size
            (offset + (wfs_write env s path buf offset).1.toNat)) := by
  have hino := traverse_path_inode s path htr
  rw [wfs_write_of_regular env s path buf offset htr hreg]
  obtain ⟨h1, h2, h3, h4, h5⟩ :=
    wfs_write_loop_bounds buf buf.length s (traverse_path s path).2.1 buf.length offset 0 hoff
  obtain ⟨f1, f2, f3, f4, f5⟩ :=
    wfs_write_loop_frame buf buf.length s (traverse_path s path).2.1 buf.length offset 0
  have hsz : (traverse_path s path).2.1.size = (load_inode s (traverse_path s path).2.2).size := by
    rw [← hino]
  cases hc : (wfs_write_loop buf buf.length s (traverse_path s path).2.1 buf.length offset
      0).efbig with
  | true =>
    simp only [if_true]
    constructor
    · intro _
      rcases f5 (traverse_path s path).2.2 with h | ⟨_, h, _, _⟩
      · rw [h]
      · rw [h, hsz]
    · intro h
      unfold EFBIG at h
      omega
  | false =>
    simp only [Bool.false_eq_true, if_false]
    constructor
    · intro h
      have := Int.ofNat_nonneg (wfs_write_loop buf buf.length s (traverse_path s path).2.1
        buf.length offset 0).bytes_written
      omega
    · intro _
      rw [load_inode_store_inode _ _ _ _ (by rw [f4]; exact hn), f1, hnum, if_pos rfl]
      simp only [Int.toNat_ofNat, f2, hsz]
      have : (wfs_write_loop buf buf.length s (traverse_path s path).2.1 buf.length offset
          0).offset = offset + (wfs_write_loop buf buf.length s (traverse_path s path).2.1
          buf.length offset 0).bytes_written := by omega
      rw [this]
      split_ifs with hgt
      · rw [max_eq_right (by omega)]
      · rw [max_eq_left (by omega)]

/-- In mode 0 a block reads the same after a byte was changed on another disk or
outside the block's stripe. -/
theorem raid_read_poke_data (s : FS) (d a v b size : Nat) (hmode : s.raid_mode = 0)
    (h : ¬ (d = b % s.num_disks ∧ b / s.num_disks * BLOCK_SIZE ≤ a ∧
      a < b / s.num_disks * BLOCK_SIZE + size)) :
    raid_read (poke_data s d a v) b size = raid_read s b size := by
  unfold raid_read poke_data memcpy_from
  simp only [hmode, if_true]
  funext k
  by_cases hk : k < size
  · simp only [hk, if_true]
    by_cases hd : b % s.num_disks = d
    · simp only [hd, if_true]
      rw [update_noteq]
      intro ha
      apply h
      exact ⟨hd.symm, by omega, by omega⟩
    · simp only [hd, if_false]
  · simp only [hk, if_false]

/-- Counterexample to C18 as stated: on a fresh 3-disk RAID 0 volume, after
`mknod /big` and a write of 1600 bytes at offset 0 (both succeed), the first
logical block of the file (inode 1) is data block 2, which `raid_write` stores
on disk 2 mod 3 = 2, not on disk 0: the 512 bytes `A` are at the start of the
data region of disk 2, and the data region of disk 0 starts with the block of
`.` and `..` that `wfs_init` wrote. -/
theorem first_file_block_on_disk_two :
    (wfs_mknod env0 (fresh_volume 0 3) path_big (S_IFREG ||| 0o644)).1 = 0 ∧
    (wfs_write env0 ex_stripe1 path_big abcd_buf 0).1 = 1600 ∧
    (traverse_path ex_stripe2 path_big).1 = 0 ∧
    (traverse_path ex_stripe2 path_big).2.2 = 1 ∧
    ex_stripe2.raid_mode = 0 ∧ ex_stripe2.num_disks = 3 ∧
    (load_inode ex_stripe2 1).blocks 0 = 2 ∧
    (load_inode ex_stripe2 1).blocks 0 % ex_stripe2.num_disks = 2 ∧
    (load_inode ex_stripe2 1).blocks 0 / ex_stripe2.num_disks = 0 ∧
    (List.range 4).map (ex_stripe2.disk_maps 2).data = [65, 65, 65, 65] ∧
    (List.range 4).map (ex_stripe2.disk_maps 0).data = [46, 0, 0, 0] := by
  decide!

/-- Amended C18. On a fresh 3-disk RAID 0 volume, after `mknod /big` and a write
of 1600 bytes at offset 0: the file's logical blocks 0, 1, 2, 3 are the data
blocks 2, 3, 4, 5 (block 1 holds the root directory), stored on the disks 2, 0,
1, 2 (the block number modulo 3), each on the disk after the one of its
predecessor; and after one byte of the data region of one disk is changed, at
least three of the four blocks of the file read as before. -/
theorem raid0_file_blocks_placement :
    (List.range 4).map (load_inode ex_stripe2 1).blocks = [2, 3, 4, 5] ∧
    (List.range 4).map (fun k => (load_inode ex_stripe2 1).blocks k % ex_stripe2.num_disks)
      = [2, 0, 1, 2] ∧
    (ex_stripe2.disk_maps 2).data 0 = 65 ∧
    (ex_stripe2.disk_maps 0).data 512 = 66 ∧
    (ex_stripe2.disk_maps 1).data 512 = 67 ∧
    (ex_stripe2.disk_maps 2).data 512 = 68 ∧
    ∀ d a v : Nat,
      (raid_read (poke_data ex_stripe2 d a v) ((load_inode ex_stripe2 1).blocks 1) BLOCK_SIZE
          = raid_read ex_stripe2 ((load_inode ex_stripe2 1).blocks 1) BLOCK_SIZE ∧
        raid_read (poke_data ex_stripe2 d a v) ((load_inode ex_stripe2 1).blocks 2) BLOCK_SIZE
          = raid_read ex_stripe2 ((load_inode ex_stripe2 1).blocks 2) BLOCK_SIZE ∧
        raid_read (poke_data ex_stripe2 d a v) ((load_inode ex_stripe2 1).blocks 3) BLOCK_SIZE
          = raid_read ex_stripe2 ((load_inode ex_stripe2 1).blocks 3) BLOCK_SIZE) ∨
      (raid_read (poke_data ex_stripe2 d a v) ((load_inode ex_stripe2 1).blocks 0) BLOCK_SIZE
          = raid_read ex_stripe2 ((load_inode ex_stripe2 1).blocks 0) BLOCK_SIZE ∧
        raid_read (poke_data ex_stripe2 d a v) ((load_inode ex_stripe2 1).blocks 2) BLOCK_SIZE
          = raid_read ex_stripe2 ((load_inode ex_stripe2 1).blocks 2) BLOCK_SIZE ∧
        raid_read (poke_data ex_stripe2 d a v) ((load_inode ex_stripe2 1).blocks 3) BLOCK_SIZE
          = raid_read ex_stripe2 ((load_inode ex_stripe2 1).blocks 3) BLOCK_SIZE) ∨
      (raid_read (poke_data ex_stripe2 d a v) ((load_inode ex_stripe2 1).blocks 0) BLOCK_SIZE
          = raid_read ex_stripe2 ((load_inode ex_stripe2 1).blocks 0) BLOCK_SIZE ∧
        raid_read (poke_data ex_stripe2 d a v) ((load_inode ex_stripe2 1).blocks 1) BLOCK_SIZE
          = raid_read ex_stripe2 ((load_inode ex_stripe2 1).blocks 1) BLOCK_SIZE ∧
        raid_read (poke_data ex_stripe2 d a v) ((load_inode ex_stripe2 1).blocks 3) BLOCK_SIZE
          = raid_read ex_stripe2 ((load_inode ex_stripe2 1).blocks 3) BLOCK_SIZE) ∨
      (raid_read (poke_data ex_stripe2 d a v) ((load_inode ex_stripe2 1).blocks 0) BLOCK_SIZE
          = raid_read ex_stripe2 ((load_inode ex_stripe2 1).blocks 0) BLOCK_SIZE ∧
        raid_read (poke_data ex_stripe2 d a v) ((load_inode ex_stripe2 1).blocks 1) BLOCK_SIZE
          = raid_read ex_stripe2 ((load_inode ex_stripe2 1).blocks 1) BLOCK_SIZE ∧
        raid_read (poke_data ex_stripe2 d a v) ((load_inode ex_stripe2 1).blocks 2) BLOCK_SIZE
          = raid_read ex_stripe2 ((load_inode ex_stripe2 1).blocks 2) BLOCK_SIZE) := by
  have hm : ex_stripe2.raid_mode = 0 := by decide!
  have hn : ex_stripe2.num_disks = 3 := by decide!
  have h0 : (load_inode ex_stripe2 1).blocks 0 = 2 := by decide!
  have h1 : (load_inode ex_stripe2 1).blocks 1 = 3 := by decide!
  have h2 : (load_inode ex_stripe2 1).blocks 2 = 4 := by decide!
  have h3 : (load_inode ex_stripe2 1).blocks 3 = 5 := by decide!
  refine ⟨by decide!, by decide!, by decide!, by decide!, by decide!, by decide!, ?_⟩
  intro d a v
  rw [h0, h1, h2, h3]
  have key : ∀ b, ¬ (d = b % 3 ∧ b / 3 * BLOCK_SIZE ≤ a ∧ a < b / 3 * BLOCK_SIZE + BLOCK_SIZE) →
      raid_read (poke_data ex_stripe2 d a v) b BLOCK_SIZE = raid_read ex_stripe2 b BLOCK_SIZE := by
    intro b hb
    apply raid_read_poke_data _ _ _ _ _ _ hm
    rw [hn]
    exact hb
  by_cases c0 : d = 2 ∧ a < 512
  · left
    refine ⟨key 3 ?_, key 4 ?_, key 5 ?_⟩ <;> unfold BLOCK_SIZE <;> omega
  · right
    by_cases c1 : d = 0 ∧ 512 ≤ a ∧ a < 1024
    · left
      refine ⟨key 2 ?_, key 4 ?_, key 5 ?_⟩ <;> unfold BLOCK_SIZE <;> omega
    · right
      by_cases c2 : d = 1 ∧ 512 ≤ a ∧ a < 1024
      · left
        refine ⟨key 2 ?_, key 3 ?_, key 5 ?_⟩ <;> unfold BLOCK_SIZE <;> omega
      · right
        refine ⟨key 2 ?_, key 3 ?_, key 4 ?_⟩ <;> unfold BLOCK_SIZE <;> omega

/-! ## Path resolution against the reference resolver -/

theorem strsep_tokens_eq_splitOn (path : List Nat) :
    strsep_tokens path = path.splitOn SLASH := by
  induction path with
  | nil => rfl
  | cons c cs ih =>
    rw [strsep_tokens, ih]
    unfold List.splitOn
    rw [List.splitOnP_cons]
    by_cases hc : c = SLASH
    · simp [hc]
    · simp only [hc, if_false, beq_iff_eq]
      cases hts : List.splitOnP (fun x => x == SLASH) cs with
      | nil => exact absurd hts (List.splitOnP_ne_nil _ _)
      | cons t ts => rfl

theorem traverse_loop_eq_resolve_from (s : FS) :
    ∀ (tokens : List (List Nat)) (cur : wfs_inode) (n : Nat),
      traverse_loop s tokens cur n
        = resolve_from s (tokens.filter (fun c => !c.isEmpty)) cur n := by
  intro tokens
  induction tokens with
  | nil => intro cur n; rfl
  | cons t ts ih =>
    intro cur n
    unfold traverse_loop
    by_cases ht : t = []
    · simp [ht, ih]
    · have hf : (t :: ts).filter (fun c => !c.isEmpty)
          = t :: ts.filter (fun c => !c.isEmpty) := by
        simp [List.filter_cons, ht]
      rw [hf]
      unfold resolve_from
      simp only [ht, if_false]
      split_ifs
      · rfl
      · rfl
      · exact ih _ _

theorem traverse_path_eq_reference (s : FS) (path : List Nat) :
    traverse_path s path = resolve_reference s path := by
  unfold traverse_path resolve_reference path_components
  rw [← strsep_tokens_eq_splitOn]
  split_ifs with h
  · rw [h]
    rfl
  · exact traverse_loop_eq_resolve_from s _ _ _

theorem path_components_slashes (path : List Nat) (h : ∀ c ∈ path, c = SLASH) :
    path_components path = [] := by
  unfold path_components
  rw [← strsep_tokens_eq_splitOn]
  induction path with
  | nil => rfl
  | cons c cs ih =>
    have hc : c = SLASH := h c (List.mem_cons_self _ _)
    have := ih (fun x hx => h x (List.mem_cons_of_mem _ hx))
    unfold strsep_tokens
    simp [hc, this]

/-- C19. `traverse_path` equals the reference resolver (start at inode 0; for
each non-empty `/`-separated component in order: `-ENOTDIR` if the current inode
lacks the directory bit, `-ENOENT` if `find_dentry` does not find the component,
otherwise on at the found entry's inode number).  So a path made only of
slashes, the empty path and `/` included, resolves to the root inode 0, and two
paths with the same non-empty components, whatever slashes they have besides,
resolve alike. -/
theorem traverse_path_refines_reference (s : FS) (path : List Nat) :
    traverse_path s path = resolve_reference s path ∧
    ((∀ c ∈ path, c = SLASH) → traverse_path s path = (0, load_inode s 0, 0)) ∧
    (∀ q, path_components q = path_components path →
      traverse_path s q = traverse_path s path) := by
  refine ⟨traverse_path_eq_reference s path, fun h => ?_, fun q hq => ?_⟩
  · rw [traverse_path_eq_reference]
    unfold resolve_reference
    rw [path_components_slashes path h]
    rfl
  · rw [traverse_path_eq_reference, traverse_path_eq_reference]
    unfold resolve_reference
    rw [hq]

theorem traverse_path_refines_reference_witness :
    traverse_path ex_d_x [47, 100, 47, 120] = resolve_reference ex_d_x [47, 100, 47, 120] ∧
    traverse_path ex_d_x [47, 47, 47] = (0, load_inode ex_d_x 0, 0) ∧
    traverse_path ex_d_x [] = (0, load_inode ex_d_x 0, 0) ∧
    traverse_path ex_d_x [47, 47, 100, 47, 47, 47, 120, 47]
      = traverse_path ex_d_x [47, 100, 47, 120] ∧
    (traverse_path ex_d_x [47, 100, 47, 120]).1 = 0 ∧
    (traverse_path ex_d_x [47, 100, 47, 120]).2.2 = 2 :=
  ⟨(traverse_path_refines_reference ex_d_x [47, 100, 47, 120]).1,
   (traverse_path_refines_reference ex_d_x [47, 47, 47]).2.1 (by decide),
   (traverse_path_refines_reference ex_d_x []).2.1 (by decide),
   (traverse_path_refines_reference ex_d_x [47, 100, 47, 120]).2.2
     [47, 47, 100, 47, 47, 47, 120, 47] (by decide),
   by decide!, by decide!⟩

/-! ## Listing a directory -/

theorem foldl_append_flatMap {α β : Type} (f : α → List β) (l : List α) (init : List β) :
    l.foldl (fun acc x => acc ++ f x) init = init ++ l.flatMap f := by
  induction l generalizing init with
  | nil => simp
  | cons x xs ih => simp [List.foldl_cons, ih, List.flatMap_cons, List.append_assoc]

theorem flatMap_filter_map {α β : Type} (p : α → Bool) (g : α → β) (l : List α) :
    l.flatMap (fun j => if p j then [g j] else []) = (l.filter p).map g := by
  induction l with
  | nil => rfl
  | cons x xs ih =>
    rw [List.flatMap_cons, ih]
    by_cases hx : p x = true
    · simp [hx]
    · simp [hx]

theorem foldl_congr_mem {α β : Type} (f g : β → α → β) (l : List α) (init : β)
    (h : ∀ acc, ∀ x ∈ l, f acc x = g acc x) : l.foldl f init = l.foldl g init := by
  induction l generalizing init with
  | nil => rfl
  | cons x xs ih =>
    rw [List.foldl_cons, List.foldl_cons, h init x (List.mem_cons_self _ _)]
    exact ih _ (fun acc y hy => h acc y (List.mem_cons_of_mem _ hy))

theorem readdir_block_eq (buf : Nat → Nat) (emitted : List (List Nat)) :
    readdir_block buf emitted = emitted ++
      ((List.range entries_per_block).filter (fun j =>
          decide (entry_name buf j ≠ [] ∧ entry_name buf j ≠ [DOT] ∧
            entry_name buf j ≠ [DOT, DOT]))).map (entry_name buf) := by
  unfold readdir_block
  rw [← flatMap_filter_map, ← foldl_append_flatMap]
  apply foldl_congr_mem
  intro acc j hj
  have hj' : j < entries_per_block := List.mem_range.mp hj
  have hne := name_nonempty_iff buf j hj'
  have hd1 := strcmp_eq_entry_name buf j hj' [DOT] (by simp [DOT]) (by decide)
  have hd2 := strcmp_eq_entry_name buf j hj' [DOT, DOT] (by simp [DOT]) (by decide)
  by_cases h0 : name_nonempty buf j = true
  · have e0 : entry_name buf j ≠ [] := hne.mp h0
    by_cases h1 : strcmp_eq buf (DENTRY_SIZE * j) [DOT] = true
    · have e1 : entry_name buf j = [DOT] := hd1.mp h1
      simp [h0, h1, e1]
    · have e1 : entry_name buf j ≠ [DOT] := fun e => h1 (hd1.mpr e)
      by_cases h2 : strcmp_eq buf (DENTRY_SIZE * j) [DOT, DOT] = true
      · have e2 : entry_name buf j = [DOT, DOT] := hd2.mp h2
        simp [h0, h1, h2, e2]
      · have e2 : entry_name buf j ≠ [DOT, DOT] := fun e => h2 (hd2.mpr e)
        simp [h0, h1, h2, e0, e1, e2]
  · have e0 : entry_name buf j = [] := by
      by_contra hc
      exact h0 (hne.mpr hc)
    simp [h0, e0]

/-- C20. For a path that `traverse_path` resolves: when the inode has the
directory bit `wfs_readdir` returns 0 and passes to `filler`, in this order,
`.`, `..`, and then, block slots in ascending order and entry slots in ascending
order within each allocated block, the name of every entry slot whose name is
not empty, not `.` and not `..`, once per slot; when the inode lacks the
directory bit it returns `-ENOTDIR` and passes nothing. -/
theorem readdir_lists_entries (s : FS) (path : List Nat)
    (htr : (traverse_path s path).1 = 0) :
    ((traverse_path s path).2.1.mode &&& S_IFDIR ≠ 0 →
      wfs_readdir s path
        = (0, [DOT] :: [DOT, DOT] :: listed_names s (traverse_path s path).2.1)) ∧
    ((traverse_path s path).2.1.mode &&& S_IFDIR = 0 →
      wfs_readdir s path = (-ENOTDIR, [])) := by
  unfold wfs_readdir
  simp only [htr, ne_eq, not_true_eq_false, if_false]
  constructor
  · intro hdir
    rw [if_neg hdir]
    unfold listed_names
    have : ∀ (l : List Nat) (init : List (List Nat)),
        l.foldl (fun acc i =>
          if (traverse_path s path).2.1.blocks i = 0 then acc
          else readdir_block (raid_read s ((traverse_path s path).2.1.blocks i) BLOCK_SIZE) acc)
          init
        = init ++ l.flatMap (fun i =>
          if (traverse_path s path).2.1.blocks i = 0 then []
          else
            ((List.range entries_per_block).filter (fun j =>
              decide (entry_name (raid_read s ((traverse_path s path).2.1.blocks i)
                  BLOCK_SIZE) j ≠ [] ∧
                entry_name (raid_read s ((traverse_path s path).2.1.blocks i)
                  BLOCK_SIZE) j ≠ [DOT] ∧
                entry_name (raid_read s ((traverse_path s path).2.1.blocks i)
                  BLOCK_SIZE) j ≠ [DOT, DOT]))).map
              (entry_name (raid_read s ((traverse_path s path).2.1.blocks i) BLOCK_SIZE))) := by
      intro l init
      rw [← foldl_append_flatMap]
      apply foldl_congr_mem
      intro acc i _
      by_cases hb : (traverse_path s path).2.1.blocks i = 0
      · simp [hb]
      · simp only [hb, if_false]
        exact readdir_block_eq _ _
    rw [this]
    rfl
  · intro hdir
    rw [if_pos hdir]

theorem readdir_lists_entries_witness :
    (traverse_path ex_d_x [47, 100]).1 = 0 ∧
    (traverse_path ex_d_x [47, 100, 47, 120]).1 = 0 ∧
    wfs_readdir ex_d_x [47, 100]
      = (0, [DOT] :: [DOT, DOT] :: listed_names ex_d_x (traverse_path ex_d_x [47, 100]).2.1) ∧
    listed_names ex_d_x (traverse_path ex_d_x [47, 100]).2.1 = [[120]] ∧
    wfs_readdir ex_d_x [47, 100, 47, 120] = (-ENOTDIR, []) :=
  ⟨by decide!, by decide!,
   (readdir_lists_entries ex_d_x [47, 100] (by decide!)).1 (by decide!),
   by decide!,
   (readdir_lists_entries ex_d_x [47, 100, 47, 120] (by decide!)).2 (by decide!)⟩

/-! ## The loop of `wfs_read` -/

theorem file_block_direct (s : FS) (inode : wfs_inode) (b : Nat) (h : b < D_BLOCK) :
    file_block s inode b = inode.blocks b := by
  unfold file_block file_ref
  simp only [h, if_true]

theorem file_block_indirect (s : FS) (inode : wfs_inode) (b : Nat) (h : ¬ b < D_BLOCK) :
    file_block s inode b
      = if inode.blocks IND_BLOCK = 0 then 0 else indirect_pointers s inode (b - D_BLOCK) := by
  unfold file_block file_ref
  have h1 : ¬ (b + 1 < D_BLOCK) := by omega
  have h2 : ¬ (b + 1 = D_BLOCK) := by omega
  have h3 : b + 1 - (D_BLOCK + 1) = b - D_BLOCK := by omega
  simp only [h, if_false, h1, h2, h3]

theorem copy_out_length (buf : Nat → Nat) (off n : Nat) : (copy_out buf off n).length = n := by
  unfold copy_out
  simp

/-- One more block read: the count of the rest of the loop, entered after the
`tw` bytes copied from the current block, gives the count of the whole. -/
theorem read_count_step (s : FS) (inode : wfs_inode) (size offset len0 len1 tw : Nat)
    (htw : tw = min (BLOCK_SIZE - offset % BLOCK_SIZE) size)
    (hok : block_allocated s inode (offset / BLOCK_SIZE))
    (ih : ∃ r, len1 = len0 + tw + r ∧ r ≤ size - tw ∧
      (r < size - tw →
        ∃ b, (offset + tw) / BLOCK_SIZE ≤ b ∧ b * BLOCK_SIZE < offset + tw + (size - tw) ∧
          ¬ block_allocated s inode b ∧
          (∀ b', (offset + tw) / BLOCK_SIZE ≤ b' → b' < b → block_allocated s inode b') ∧
          offset + tw + r = max (offset + tw) (b * BLOCK_SIZE))) :
    ∃ r, len1 = len0 + r ∧ r ≤ size ∧
      (r < size →
        ∃ b, offset / BLOCK_SIZE ≤ b ∧ b * BLOCK_SIZE < offset + size ∧
          ¬ block_allocated s inode b ∧
          (∀ b', offset / BLOCK_SIZE ≤ b' → b' < b → block_allocated s inode b') ∧
          offset + r = max offset (b * BLOCK_SIZE)) := by
  obtain ⟨r, h1, h2, h3⟩ := ih
  have hB : BLOCK_SIZE = 512 := rfl
  have hmod := Nat.mod_lt offset (by norm_num : 512 > 0)
  have hdm := Nat.div_add_mod offset 512
  rw [hB] at htw h3 ⊢
  have htw1 : tw ≤ size := by clear h3; omega
  refine ⟨tw + r, by clear h3; omega, by clear h3; omega, fun hlt => ?_⟩
  have hr : r < size - tw := by clear h3; omega
  have hfull : tw = 512 - offset % 512 := by clear h3; omega
  obtain ⟨b, hb1, hb2, hb3, hb4, hb5⟩ := h3 hr
  clear h3
  have hoff : offset + tw = (offset / 512 + 1) * 512 := by omega
  have hnext : (offset + tw) / 512 = offset / 512 + 1 := by
    rw [hoff, Nat.mul_div_cancel _ (by norm_num)]
  rw [hnext] at hb1 hb4
  have hbm : (offset / 512 + 1) * 512 ≤ b * 512 := Nat.mul_le_mul_right _ hb1
  have hmax : max (offset + tw) (b * 512) = b * 512 := max_eq_right (by omega)
  rw [hmax] at hb5
  refine ⟨b, by omega, by omega, hb3, fun b' hb'1 hb'2 => ?_, ?_⟩
  · by_cases hbb : b' = offset / 512
    · rw [hbb, ← hB]; exact hok
    · exact hb4 b' (by omega) hb'2
  · rw [max_eq_right (by omega)]
    omega

theorem read_count_stop (s : FS) (inode : wfs_inode) (size offset len0 : Nat)
    (hno : ¬ block_allocated s inode (offset / BLOCK_SIZE)) :
    ∃ r, len0 = len0 + r ∧ r ≤ size ∧
      (r < size →
        ∃ b, offset / BLOCK_SIZE ≤ b ∧ b * BLOCK_SIZE < offset + size ∧
          ¬ block_allocated s inode b ∧
          (∀ b', offset / BLOCK_SIZE ≤ b' → b' < b → block_allocated s inode b') ∧
          offset + r = max offset (b * BLOCK_SIZE)) := by
  have hle : offset / BLOCK_SIZE * BLOCK_SIZE ≤ offset := Nat.div_mul_le_self _ _
  refine ⟨0, rfl, Nat.zero_le _, fun _ => ⟨offset / BLOCK_SIZE, le_rfl, by omega, hno,
    fun b' h1 h2 => by omega, ?_⟩⟩
  rw [max_eq_left hle]
  rfl

/-- The number of bytes that the loop of `wfs_read` appends: all `size` bytes,
or the bytes up to the first block of the range that is not allocated. -/
theorem wfs_read_loop_count (s : FS) (inode : wfs_inode) :
    ∀ (fuel size offset : Nat) (out : List Nat), size ≤ fuel → offset + size ≤ 2 ^ 40 →
      ∃ r, (wfs_read_loop s inode fuel size offset out).length = out.length + r ∧ r ≤ size ∧
        (r < size →
          ∃ b, offset / BLOCK_SIZE ≤ b ∧ b * BLOCK_SIZE < offset + size ∧
            ¬ block_allocated s inode b ∧
            (∀ b', offset / BLOCK_SIZE ≤ b' → b' < b → block_allocated s inode b') ∧
            offset + r = max offset (b * BLOCK_SIZE)) := by
  intro fuel
  induction fuel with
  | zero =>
    intro size offset out h _
    have : size = 0 := by omega
    exact ⟨0, by simp [wfs_read_loop], by omega, fun h => by omega⟩
  | succ fuel ih =>
    intro size offset out hfuel hrange
    unfold wfs_read_loop
    by_cases hs : size = 0
    · exact ⟨0, by simp [hs], by omega, fun h => by omega⟩
    have hti : to_int (offset / BLOCK_SIZE) = ((offset / BLOCK_SIZE : Nat) : Int) := by
      apply to_int_of_lt
      unfold BLOCK_SIZE
      omega
    have hnn : ¬ (((offset / BLOCK_SIZE : Nat) : Int) < 0) :=
      Int.not_lt.mpr (Int.ofNat_nonneg _)
    simp only [hs, if_false, hti, hnn, Int.toNat_ofNat]
    have htw1 : 1 ≤ min (BLOCK_SIZE - offset % BLOCK_SIZE) size := by
      have := Nat.mod_lt offset (by unfold BLOCK_SIZE; norm_num : BLOCK_SIZE > 0)
      omega
    have hcont : ∀ (buf : Nat → Nat), block_allocated s inode (offset / BLOCK_SIZE) →
        ∃ r, (wfs_read_loop s inode fuel (size - min (BLOCK_SIZE - offset % BLOCK_SIZE) size)
            (offset + min (BLOCK_SIZE - offset % BLOCK_SIZE) size)
            (out ++ copy_out buf (offset % BLOCK_SIZE)
              (min (BLOCK_SIZE - offset % BLOCK_SIZE) size))).length = out.length + r ∧
          r ≤ size ∧
          (r < size →
            ∃ b, offset / BLOCK_SIZE ≤ b ∧ b * BLOCK_SIZE < offset + size ∧
              ¬ block_allocated s inode b ∧
              (∀ b', offset / BLOCK_SIZE ≤ b' → b' < b → block_allocated s inode b') ∧
              offset + r = max offset (b * BLOCK_SIZE)) := by
      intro buf hok
      apply read_count_step s inode size offset out.length _
        (min (BLOCK_SIZE - offset % BLOCK_SIZE) size) rfl hok
      obtain ⟨r, h1, h2, h3⟩ := ih (size - min (BLOCK_SIZE - offset % BLOCK_SIZE) size)
        (offset + min (BLOCK_SIZE - offset % BLOCK_SIZE) size)
        (out ++ copy_out buf (offset % BLOCK_SIZE) (min (BLOCK_SIZE - offset % BLOCK_SIZE) size))
        (by omega) (by omega)
      refine ⟨r, ?_, h2, h3⟩
      rw [h1, List.length_append, copy_out_length]
    by_cases hd : offset / BLOCK_SIZE < D_BLOCK
    · simp only [hd, if_true]
      by_cases hb : inode.blocks (offset / BLOCK_SIZE) = 0
      · simp only [hb, if_true]
        apply read_count_stop s inode size offset out.length
        intro hok
        exact hok.2 (by rw [file_block_direct s inode _ hd]; exact hb)
      · simp only [hb, if_false]
        apply hcont
        exact ⟨by omega, by rw [file_block_direct s inode _ hd]; exact hb⟩
    · simp only [hd, if_false]
      by_cases hi : offset / BLOCK_SIZE < D_BLOCK + INDIRECT_BLOCK_ENTRIES
      · simp only [hi, if_true]
        by_cases hind : inode.blocks IND_BLOCK = 0
        · simp only [hind, if_true]
          apply read_count_stop s inode size offset out.length
          intro hok
          exact hok.2 (by rw [file_block_indirect s inode _ hd, if_pos hind])
        · have hrp1 : (read_indirect_pointers s inode).1 = 0 := by
            unfold read_indirect_pointers; simp [hind]
          have hrp2 : (read_indirect_pointers s inode).2 = indirect_pointers s inode := by
            unfold read_indirect_pointers indirect_pointers; simp [hind]
          simp only [hind, if_false, hrp1, ne_eq, not_true_eq_false, hrp2]
          by_cases hp : indirect_pointers s inode (offset / BLOCK_SIZE - D_BLOCK) = 0
          · simp only [hp, if_true]
            apply read_count_stop s inode size offset out.length
            intro hok
            exact hok.2 (by rw [file_block_indirect s inode _ hd, if_neg hind]; exact hp)
          · simp only [hp, if_false]
            apply hcont
            exact ⟨hi, by rw [file_block_indirect s inode _ hd, if_neg hind]; exact hp⟩
      · simp only [hi, if_false]
        apply read_count_stop s inode size offset out.length
        intro hok
        exact hi hok.1

/-- For a path that resolves to a regular file of a size of at most 2^40 bytes,
so that every block index fits the `int` of the code: `wfs_read` returns
0 and no bytes when `offset >= inode.size`; otherwise the value returned is the
number of bytes delivered, at most `min(size, inode.size - offset)`; it is exactly
that many when every block that covers the range is allocated; and when it is
less, the read stopped at the first block `b` of the range that is not allocated
(one of the 70 block indices whose lookup gives block number 0, or an index
beyond them): the bytes delivered end where block `b` starts. -/
theorem read_returns_bytes_up_to_first_gap (s : FS) (path : List Nat) (size offset : Nat)
    (htr : (traverse_path s path).1 = 0)
    (hreg : (traverse_path s path).2.1.mode &&& S_IFREG ≠ 0)
    (hsz : (traverse_path s path).2.1.size ≤ 2 ^ 40) :
    ((traverse_path s path).2.1.size ≤ offset → wfs_read s path size offset = (0, [])) ∧
    (offset < (traverse_path s path).2.1.size →
      (wfs_read s path size offset).1 = ((wfs_read s path size offset).2.length : Int) ∧
      (wfs_read s path size offset).2.length
        ≤ min size ((traverse_path s path).2.1.size - offset) ∧
      ((∀ b, offset / BLOCK_SIZE ≤ b →
          b * BLOCK_SIZE < offset + min size ((traverse_path s path).2.1.size - offset) →
          block_allocated s (traverse_path s path).2.1 b) →
        (wfs_read s path size offset).2.length
          = min size ((traverse_path s path).2.1.size - offset)) ∧
      ((wfs_read s path size offset).2.length
          < min size ((traverse_path s path).2.1.size - offset) →
        ∃ b, offset / BLOCK_SIZE ≤ b ∧
          b * BLOCK_SIZE < offset + min size ((traverse_path s path).2.1.size - offset) ∧
          ¬ block_allocated s (traverse_path s path).2.1 b ∧
          (∀ b', offset / BLOCK_SIZE ≤ b' → b' < b →
            block_allocated s (traverse_path s path).2.1 b') ∧
          offset + (wfs_read s path size offset).2.length = max offset (b * BLOCK_SIZE))) := by
  unfold wfs_read
  simp only [htr, ne_eq, not_true_eq_false, if_false, hreg]
  constructor
  · intro h
    have : offset ≥ (traverse_path s path).2.1.size := h
    rw [if_pos this]
  · intro h
    have hge : ¬ (offset ≥ (traverse_path s path).2.1.size) := by omega
    have hmin : (if offset + size > (traverse_path s path).2.1.size
        then (traverse_path s path).2.1.size - offset else size)
        = min size ((traverse_path s path).2.1.size - offset) := by
      split_ifs <;> omega
    simp only [hge, if_false, hmin]
    obtain ⟨r, h1, h2, h3⟩ := wfs_read_loop_count s (traverse_path s path).2.1
      (min size ((traverse_path s path).2.1.size - offset))
      (min size ((traverse_path s path).2.1.size - offset)) offset [] le_rfl (by omega)
    rw [List.length_nil, Nat.zero_add] at h1
    rw [h1]
    refine ⟨trivial, h2, fun hall => ?_, fun hlt => ?_⟩
    · by_contra hne
      obtain ⟨b, hb1, hb2, hb3, _, _⟩ := h3 (lt_of_le_of_ne h2 hne)
      exact hb3 (hall b hb1 hb2)
    · exact h3 hlt

theorem read_returns_bytes_up_to_first_gap_witness :
    (traverse_path ex_stripe2 path_big).1 = 0 ∧
    (traverse_path ex_stripe2 path_big).2.1.mode &&& S_IFREG ≠ 0 ∧
    (traverse_path ex_stripe2 path_big).2.1.size = 1600 ∧
    wfs_read ex_stripe2 path_big 10 1600 = (0, []) ∧
    (wfs_read ex_stripe2 path_big 2000 100).2.length
      ≤ min 2000 ((traverse_path ex_stripe2 path_big).2.1.size - 100) :=
  ⟨by decide!, by decide!, by decide!,
   (read_returns_bytes_up_to_first_gap ex_stripe2 path_big 10 1600 (by decide!) (by decide!)
      (by decide!)).1 (by decide!),
   ((read_returns_bytes_up_to_first_gap ex_stripe2 path_big 2000 100 (by decide!) (by decide!)
      (by decide!)).2 (by decide!)).2.1⟩

/-! ## The indirect block during `wfs_write` -/

theorem allocate_data_block_ok (s : FS) (h : ¬ (allocate_data_block s).1 < 0) :
    ∃ B : Nat, (allocate_data_block s).1 = (B : Int) ∧ (allocate_data_block s).1.toNat = B ∧
      B ≠ 0 ∧ B < s.superblock.num_data_blocks ∧ data_bit s 0 B = 0 ∧
      ∀ b, data_bit (allocate_data_block s).2 0 b = if b = B then 1 else data_bit s 0 b := by
  rcases allocate_data_block_cases s with ⟨h1, _, _⟩ | ⟨i, h1, h2, h3, h4, _, h6⟩
  · rw [h1] at h; simp [ENOSPC] at h
  · refine ⟨i, h1, by rw [h1]; simp, by omega, h3, h4, ?_⟩
    intro b
    unfold data_bit
    rw [h6]
    simp only [true_or, if_true]
    by_cases hb : b = i
    · rw [hb, get_bit_set_same]; simp
    · rw [get_bit_set_other _ hb]; simp [hb]

theorem allocate_data_block_fail (s : FS) (h : (allocate_data_block s).1 < 0) :
    (allocate_data_block s).2 = s := by
  rcases allocate_data_block_cases s with ⟨_, h2, _⟩ | ⟨i, h1, _⟩
  · exact h2
  · rw [h1] at h
    exact absurd h (Int.not_lt.mpr (Int.ofNat_nonneg _))

/-- The three outcomes of `allocate_indirect_data_block` on an inode with an
indirect block and an index in range. -/
theorem allocate_indirect_data_block_eq (s : FS) (inode : wfs_inode) (idx : Nat)
    (hind : inode.blocks IND_BLOCK ≠ 0) (hidx : idx < INDIRECT_BLOCK_ENTRIES) :
    allocate_indirect_data_block s inode idx
      = if indirect_pointers s inode idx ≠ 0 then ((indirect_pointers s inode idx : Int), s)
        else if (allocate_data_block s).1 < 0 then
          ((allocate_data_block s).1, (allocate_data_block s).2)
        else
          (((allocate_data_block s).1.toNat : Int),
            raid_write (allocate_data_block s).2
              (block_of_pointers
                (update (indirect_pointers s inode) idx (allocate_data_block s).1.toNat))
              (inode.blocks IND_BLOCK) BLOCK_SIZE) := by
  have hge : ¬ (idx ≥ INDIRECT_BLOCK_ENTRIES) := by omega
  have hrp1 : (read_indirect_pointers s inode).1 = 0 := by
    unfold read_indirect_pointers; simp [hind]
  have hrp2 : (read_indirect_pointers s inode).2 = indirect_pointers s inode := by
    unfold read_indirect_pointers indirect_pointers; simp [hind]
  unfold allocate_indirect_data_block
  simp only [hge, if_false, hrp1, ne_eq, not_true_eq_false, hrp2]
  unfold write_indirect_pointers
  simp only [hind, if_false, not_true_eq_false]

/-- What `allocate_indirect_data_block` does for an empty entry `idx` of an
allocated indirect block `X` whose bit is set: on failure the state is kept; on
success a block `B` that was free, so other than `X`, is marked, entry `idx`
becomes `B`, and no other entry and no block other than `X` changes. -/
theorem alloc_pointer_fresh (s : FS) (inode : wfs_inode) (idx : Nat)
    (hmode : s.raid_mode = 0 ∨ s.raid_mode = 1 ∨ s.raid_mode = 2) (hn : 0 < s.num_disks)
    (hsb : s.superblock.num_data_blocks ≤ 2 ^ 64)
    (hind : inode.blocks IND_BLOCK ≠ 0) (hidx : idx < INDIRECT_BLOCK_ENTRIES)
    (hp : indirect_pointers s inode idx = 0) :
    ((allocate_indirect_data_block s inode idx).1 < 0 →
      (allocate_indirect_data_block s inode idx).2 = s) ∧
    (¬ (allocate_indirect_data_block s inode idx).1 < 0 →
      ∃ B : Nat, (allocate_indirect_data_block s inode idx).1.toNat = B ∧ B ≠ 0 ∧
        data_bit s 0 B = 0 ∧
        (∀ b, data_bit (allocate_indirect_data_block s inode idx).2 0 b
          = if b = B then 1 else data_bit s 0 b) ∧
        (∀ b, b ≠ inode.blocks IND_BLOCK →
          raid_read (allocate_indirect_data_block s inode idx).2 b BLOCK_SIZE
            = raid_read s b BLOCK_SIZE) ∧
        (∀ j, j < INDIRECT_BLOCK_ENTRIES →
          indirect_pointers (allocate_indirect_data_block s inode idx).2 inode j
            = if j = idx then B else indirect_pointers s inode j) ∧
        (allocate_indirect_data_block s inode idx).2.raid_mode = s.raid_mode ∧
        (allocate_indirect_data_block s inode idx).2.num_disks = s.num_disks ∧
        (allocate_indirect_data_block s inode idx).2.superblock = s.superblock) := by
  rw [allocate_indirect_data_block_eq s inode idx hind hidx]
  have hp0 : ¬ (indirect_pointers s inode idx ≠ 0) := by simp [hp]
  rw [if_neg hp0]
  by_cases hf : (allocate_data_block s).1 < 0
  · rw [if_pos hf]
    exact ⟨fun _ => allocate_data_block_fail s hf, fun h => absurd hf h⟩
  · rw [if_neg hf]
    obtain ⟨B, hB1, hB2, hB3, hB4, hB5, hB6⟩ := allocate_data_block_ok s hf
    refine ⟨fun h => ?_, fun _ => ?_⟩
    · exact absurd h (Int.not_lt.mpr (Int.ofNat_nonneg _))
    · refine ⟨B, ?_, hB3, hB5, ?_, ?_, ?_, by simp, by simp, by simp⟩
      · simp only [Int.toNat_ofNat]; exact hB2
      · intro b
        simp only [data_bit_raid_write]
        exact hB6 b
      · intro b hb
        simp only
        rw [raid_read_write_other _ _ _ _ _ _ hb (le_refl _) (le_refl _),
          raid_read_allocate_data_block]
      · intro j hj
        simp only
        unfold indirect_pointers
        rw [raid_read_write_same _ _ _ _ (by simpa using hmode) (by simpa using hn)]
        rw [pointers_of_block_of_pointers _
          (update (pointers_of_block (raid_read s (inode.blocks IND_BLOCK) BLOCK_SIZE)) idx
            (allocate_data_block s).1.toNat)
          (fun k hk => by simp only [hk, if_true]) j hj]
        rw [hB2]
        by_cases hji : j = idx
        · rw [hji, update_same, if_pos rfl]
          exact Nat.mod_eq_of_lt (by omega)
        · rw [update_noteq hji, if_neg hji]
          exact Nat.mod_eq_of_lt (pointers_of_block_lt _ _)

/-- What `allocate_indirect_block` does for an inode without an indirect block
when it returns 0: a block `X` is marked and recorded in `blocks[IND_BLOCK]`,
and every entry read from it is 0. -/
theorem alloc_indirect_fresh (s : FS) (inode : wfs_inode)
    (hmode : s.raid_mode = 0 ∨ s.raid_mode = 1 ∨ s.raid_mode = 2) (hn : 0 < s.num_disks)
    (h0 : inode.blocks IND_BLOCK = 0) (hok : ¬ (allocate_indirect_block s inode).1 ≠ 0) :
    ∃ X : Nat, X ≠ 0 ∧ (allocate_indirect_block s inode).2.1.blocks IND_BLOCK = X ∧
      (∀ b, data_bit (allocate_indirect_block s inode).2.2 0 b
        = if b = X then 1 else data_bit s 0 b) ∧
      (∀ j, indirect_pointers (allocate_indirect_block s inode).2.2
        (allocate_indirect_block s inode).2.1 j = 0) ∧
      (allocate_indirect_block s inode).2.2.raid_mode = s.raid_mode ∧
      (allocate_indirect_block s inode).2.2.num_disks = s.num_disks ∧
      (allocate_indirect_block s inode).2.2.superblock = s.superblock := by
  have h0n : ¬ (inode.blocks IND_BLOCK ≠ 0) := by simp [h0]
  unfold allocate_indirect_block at hok ⊢
  simp only [h0n, if_false] at hok ⊢
  by_cases hf : (allocate_data_block s).1 < 0
  · rw [if_pos hf] at hok
    simp only [ne_eq, not_not] at hok
    omega
  · rw [if_neg hf]
    obtain ⟨B, hB1, hB2, hB3, hB4, hB5, hB6⟩ := allocate_data_block_ok s hf
    refine ⟨B, hB3, ?_, ?_, ?_, by simp, by simp, by simp⟩
    · simp only [update_same]; exact hB2
    · intro b
      simp only [data_bit_store_inode, data_bit_raid_write]
      exact hB6 b
    · intro j
      unfold indirect_pointers
      simp only [update_same, raid_read_store_inode]
      rw [raid_read_write_same _ _ _ _ (by simpa using hmode) (by simpa using hn)]
      have : (fun k => if k < BLOCK_SIZE then (0 : Nat) else 0) = fun _ => 0 := by
        funext k; simp
      rw [this]
      exact pointers_of_block_zero j

/-- One iteration of the loop of `wfs_write` on a direct block. -/
theorem wfs_write_loop_direct_eq (buf : List Nat) (fuel : Nat) (s : FS) (inode : wfs_inode)
    (size offset bw : Nat) (hsize : size ≠ 0) (hb : offset / BLOCK_SIZE < D_BLOCK) :
    wfs_write_loop buf (fuel + 1) s inode size offset bw =
      if inode.blocks (offset / BLOCK_SIZE) = 0 then
        if (allocate_data_block s).1 < 0 then
          ⟨false, (allocate_data_block s).2, inode, offset, bw⟩
        else
          wfs_write_loop buf fuel
            (raid_write (allocate_data_block s).2
              (memcpy_to
                (raid_read (allocate_data_block s).2 (allocate_data_block s).1.toNat BLOCK_SIZE)
                (offset % BLOCK_SIZE) (fun k => buf.getD (bw + k) 0)
                (min (BLOCK_SIZE - offset % BLOCK_SIZE) size))
              (allocate_data_block s).1.toNat BLOCK_SIZE)
            { inode with
              blocks := update inode.blocks (offset / BLOCK_SIZE) (allocate_data_block s).1.toNat }
            (size - min (BLOCK_SIZE - offset % BLOCK_SIZE) size)
            (offset + min (BLOCK_SIZE - offset % BLOCK_SIZE) size)
            (bw + min (BLOCK_SIZE - offset % BLOCK_SIZE) size)
      else
        wfs_write_loop buf fuel
          (raid_write s
            (memcpy_to (raid_read s (inode.blocks (offset / BLOCK_SIZE)) BLOCK_SIZE)
              (offset % BLOCK_SIZE) (fun k => buf.getD (bw + k) 0)
              (min (BLOCK_SIZE - offset % BLOCK_SIZE) size))
            (inode.blocks (offset / BLOCK_SIZE)) BLOCK_SIZE)
          inode
          (size - min (BLOCK_SIZE - offset % BLOCK_SIZE) size)
          (offset + min (BLOCK_SIZE - offset % BLOCK_SIZE) size)
          (bw + min (BLOCK_SIZE - offset % BLOCK_SIZE) size) := by
  have hoff : offset ≤ 35840 := by
    unfold BLOCK_SIZE D_BLOCK at hb
    omega
  have hti := to_int_block_index offset hoff
  have hnn : ¬ (((offset / BLOCK_SIZE : Nat) : Int) < 0) :=
    Int.not_lt.mpr (Int.ofNat_nonneg _)
  rw [wfs_write_loop]
  simp only [hti, hnn, hsize, hb, if_false, if_true, Int.toNat_ofNat]
  by_cases h0 : inode.blocks (offset / BLOCK_SIZE) = 0
  · by_cases hf : (allocate_data_block s).1 < 0
    · simp only [h0, hf, if_true]
    · simp only [h0, hf, if_true, if_false, lt_self_iff_false, update_same]
  · simp only [h0, if_false, lt_self_iff_false]

/-- One iteration of the loop of `wfs_write` on a block of the indirect range. -/
theorem wfs_write_loop_indirect_eq (buf : List Nat) (fuel : Nat) (s : FS) (inode : wfs_inode)
    (size offset bw : Nat) (hsize : size ≠ 0) (hb : ¬ offset / BLOCK_SIZE < D_BLOCK)
    (hb2 : offset / BLOCK_SIZE < D_BLOCK + INDIRECT_BLOCK_ENTRIES) :
    wfs_write_loop buf (fuel + 1) s inode size offset bw =
      if (allocate_indirect_block s inode).1 ≠ 0 then
        ⟨false, (allocate_indirect_block s inode).2.2, (allocate_indirect_block s inode).2.1,
          offset, bw⟩
      else if (allocate_indirect_data_block (allocate_indirect_block s inode).2.2
          (allocate_indirect_block s inode).2.1 (offset / BLOCK_SIZE - D_BLOCK)).1 < 0 then
        ⟨false,
          (allocate_indirect_data_block (allocate_indirect_block s inode).2.2
            (allocate_indirect_block s inode).2.1 (offset / BLOCK_SIZE - D_BLOCK)).2,
          (allocate_indirect_block s inode).2.1, offset, bw⟩
      else
        wfs_write_loop buf fuel
          (raid_write
            (allocate_indirect_data_block (allocate_indirect_block s inode).2.2
              (allocate_indirect_block s inode).2.1 (offset / BLOCK_SIZE - D_BLOCK)).2
            (memcpy_to
              (raid_read
                (allocate_indirect_data_block (allocate_indirect_block s inode).2.2
                  (allocate_indirect_block s inode).2.1 (offset / BLOCK_SIZE - D_BLOCK)).2
                (allocate_indirect_data_block (allocate_indirect_block s inode).2.2
                  (allocate_indirect_block s inode).2.1
                  (offset / BLOCK_SIZE - D_BLOCK)).1.toNat BLOCK_SIZE)
              (offset % BLOCK_SIZE) (fun k => buf.getD (bw + k) 0)
              (min (BLOCK_SIZE - offset % BLOCK_SIZE) size))
            (allocate_indirect_data_block (allocate_indirect_block s inode).2.2
              (allocate_indirect_block s inode).2.1 (offset / BLOCK_SIZE - D_BLOCK)).1.toNat
            BLOCK_SIZE)
          (allocate_indirect_block s inode).2.1
          (size - min (BLOCK_SIZE - offset % BLOCK_SIZE) size)
          (offset + min (BLOCK_SIZE - offset % BLOCK_SIZE) size)
          (bw + min (BLOCK_SIZE - offset % BLOCK_SIZE) size) := by
  have hoff : offset ≤ 35840 := by
    unfold BLOCK_SIZE D_BLOCK INDIRECT_BLOCK_ENTRIES BLOCK_SIZE at hb2
    omega
  have hti := to_int_block_index offset hoff
  have hnn : ¬ (((offset / BLOCK_SIZE : Nat) : Int) < 0) :=
    Int.not_lt.mpr (Int.ofNat_nonneg _)
  rw [wfs_write_loop]
  simp only [hti, hnn, hsize, hb, hb2, if_false, if_true, Int.toNat_ofNat]

/-- A write that ends at or before byte 3072 leaves `blocks[IND_BLOCK]` of the
in-memory inode as it was: only the direct branch of the loop runs. -/
theorem wfs_write_loop_direct_range (buf : List Nat) :
    ∀ (fuel : Nat) (s : FS) (inode : wfs_inode) (size offset bw : Nat),
      offset + size ≤ 3072 →
      (wfs_write_loop buf fuel s inode size offset bw).inode.blocks IND_BLOCK
        = inode.blocks IND_BLOCK := by
  intro fuel
  induction fuel with
  | zero => intro s inode size offset bw _; rw [wfs_write_loop]
  | succ fuel ih =>
    intro s inode size offset bw h
    by_cases hs : size = 0
    · rw [wfs_write_loop]; simp only [hs, if_true]
    · have hb : offset / BLOCK_SIZE < D_BLOCK := by
        unfold BLOCK_SIZE D_BLOCK; omega
      have hstep : offset + min (BLOCK_SIZE - offset % BLOCK_SIZE) size
          + (size - min (BLOCK_SIZE - offset % BLOCK_SIZE) size) ≤ 3072 := by omega
      have hne : IND_BLOCK ≠ offset / BLOCK_SIZE := by
        unfold IND_BLOCK; omega
      rw [wfs_write_loop_direct_eq buf fuel s inode size offset bw hs hb]
      split_ifs
      · rfl
      · rw [ih _ _ _ _ _ hstep]
        exact update_noteq hne _ _
      · exact ih _ _ _ _ _ hstep

/-- Once entry 0 of the indirect block is in place, the rest of the loop of
`wfs_write` keeps the indirect block, its entry 0 and byte 0 of that block:
every later iteration takes a block that was free for an entry that was empty. -/
theorem wfs_write_loop_indirect_kept (buf : List Nat) :
    ∀ (fuel : Nat) (s : FS) (inode : wfs_inode) (size offset bw X Y v next : Nat),
      indirect_started s inode X Y v next →
      (size ≠ 0 → next + D_BLOCK ≤ offset / BLOCK_SIZE ∧ D_BLOCK < offset / BLOCK_SIZE) →
      offset ≤ 35840 →
      ∃ next', indirect_started (wfs_write_loop buf fuel s inode size offset bw).fs
        (wfs_write_loop buf fuel s inode size offset bw).inode X Y v next' := by
  intro fuel
  induction fuel with
  | zero =>
    intro s inode size offset bw X Y v next h _ _
    rw [wfs_write_loop]
    exact ⟨next, h⟩
  | succ fuel ih =>
    intro s inode size offset bw X Y v next h hpre hoff
    by_cases hs : size = 0
    · rw [wfs_write_loop]; simp only [hs, if_true]
      exact ⟨next, h⟩
    · obtain ⟨hnx, h6⟩ := hpre hs
      have hb : ¬ offset / BLOCK_SIZE < D_BLOCK := by omega
      by_cases h70 : offset / BLOCK_SIZE < D_BLOCK + INDIRECT_BLOCK_ENTRIES
      · obtain ⟨hmode, hn, hsb, hX, hX0, hY0, hXY, hbX, hbY, hY, hv, hz⟩ := h
        have hind : inode.blocks IND_BLOCK ≠ 0 := by rw [hX]; exact hX0
        have hai : allocate_indirect_block s inode = (0, inode, s) := by
          unfold allocate_indirect_block; rw [if_pos hind]
        rw [wfs_write_loop_indirect_eq buf fuel s inode size offset bw hs hb h70, hai]
        simp only [ne_eq, not_true_eq_false, if_false]
        obtain ⟨hfail, hsucc⟩ := alloc_pointer_fresh s inode (offset / BLOCK_SIZE - D_BLOCK)
          hmode hn hsb hind (by omega) (hz _ (by omega) (by omega))
        by_cases hf : (allocate_indirect_data_block s inode (offset / BLOCK_SIZE - D_BLOCK)).1 < 0
        · rw [if_pos hf]
          simp only
          rw [hfail hf]
          exact ⟨next, hmode, hn, hsb, hX, hX0, hY0, hXY, hbX, hbY, hY, hv, hz⟩
        · rw [if_neg hf]
          obtain ⟨B, hB, hB0, hBfree, hbits, hother, hptr, c1, c2, c3⟩ := hsucc hf
          rw [hB]
          have hXB : X ≠ B := fun e => hbX (by rw [e]; exact hBfree)
          have hYB : Y ≠ B := fun e => hbY (by rw [e]; exact hBfree)
          have key : ∀ t j, indirect_pointers
              (raid_write (allocate_indirect_data_block s inode
                (offset / BLOCK_SIZE - D_BLOCK)).2 t B BLOCK_SIZE) inode j
              = indirect_pointers (allocate_indirect_data_block s inode
                (offset / BLOCK_SIZE - D_BLOCK)).2 inode j := by
            intro t j
            unfold indirect_pointers
            rw [raid_read_write_other _ _ _ _ _ _ (by rw [hX]; exact hXB) (le_refl _)
              (le_refl _)]
          apply ih _ _ _ _ _ X Y v (offset / BLOCK_SIZE - D_BLOCK + 1)
          · refine ⟨by rw [raid_write_raid_mode, c1]; exact hmode,
              by rw [raid_write_num_disks, c2]; exact hn,
              by rw [raid_write_superblock, c3]; exact hsb, hX, hX0, hY0, hXY, ?_, ?_, ?_, ?_, ?_⟩
            · rw [data_bit_raid_write, hbits]
              split_ifs
              · exact Nat.one_ne_zero
              · exact hbX
            · rw [data_bit_raid_write, hbits]
              split_ifs
              · exact Nat.one_ne_zero
              · exact hbY
            · rw [key, hptr 0 (by decide), if_neg (by omega)]
              exact hY
            · rw [raid_read_write_other _ _ _ _ _ _ hYB (le_refl _) (le_refl _),
                hother Y (by rw [hX]; exact fun e => hXY e.symm)]
              exact hv
            · intro j hj1 hj2
              rw [key, hptr j hj2, if_neg (by omega)]
              exact hz j (by omega) hj2
          · intro hs2
            unfold BLOCK_SIZE D_BLOCK at *
            have := Nat.div_add_mod offset 512
            have := Nat.mod_lt offset (by norm_num : 512 > 0)
            constructor <;> omega
          · exact block_step_le offset size h70
      · have hti := to_int_block_index offset hoff
        have hnn : ¬ (((offset / BLOCK_SIZE : Nat) : Int) < 0) :=
          Int.not_lt.mpr (Int.ofNat_nonneg _)
        rw [wfs_write_loop]
        simp only [hti, hnn, hs, hb, h70, if_false, Int.toNat_ofNat]
        exact ⟨next, h⟩

/-- A loop of `wfs_write` that starts at or before byte 3072 on an inode without
an indirect block and is left beyond byte 3072 has allocated the indirect block
and its entry 0, and byte 0 of that data block is the byte of the buffer that
belongs to offset 3072. -/
theorem wfs_write_loop_reaches_indirect (buf : List Nat) :
    ∀ (fuel : Nat) (s : FS) (inode : wfs_inode) (size offset bw : Nat),
      (s.raid_mode = 0 ∨ s.raid_mode = 1 ∨ s.raid_mode = 2) → 0 < s.num_disks →
      s.superblock.num_data_blocks ≤ 2 ^ 64 →
      inode.blocks IND_BLOCK = 0 → offset ≤ 3072 →
      3072 < (wfs_write_loop buf fuel s inode size offset bw).offset →
      ∃ X Y next, indirect_started (wfs_write_loop buf fuel s inode size offset bw).fs
        (wfs_write_loop buf fuel s inode size offset bw).inode X Y
        (buf.getD (bw + (3072 - offset)) 0) next := by
  intro fuel
  induction fuel with
  | zero =>
    intro s inode size offset bw _ _ _ _ hoff hgt
    rw [wfs_write_loop] at hgt
    simp only at hgt
    omega
  | succ fuel ih =>
    intro s inode size offset bw hmode hn hsb h0 hoff hgt
    by_cases hs : size = 0
    · rw [wfs_write_loop] at hgt
      simp only [hs, if_true] at hgt
      omega
    · by_cases hb : offset / BLOCK_SIZE < D_BLOCK
      · have hstep : offset + min (BLOCK_SIZE - offset % BLOCK_SIZE) size ≤ 3072 := by
          unfold BLOCK_SIZE D_BLOCK at *
          have := Nat.div_add_mod offset 512
          omega
        have hne : IND_BLOCK ≠ offset / BLOCK_SIZE := by
          unfold IND_BLOCK; omega
        have e : bw + min (BLOCK_SIZE - offset % BLOCK_SIZE) size
            + (3072 - (offset + min (BLOCK_SIZE - offset % BLOCK_SIZE) size))
            = bw + (3072 - offset) := by omega
        rw [wfs_write_loop_direct_eq buf fuel s inode size offset bw hs hb] at hgt ⊢
        split_ifs at hgt ⊢
        · simp only at hgt
          omega
        · have := ih _ _ _ _ _ (by simpa using hmode) (by simpa using hn) (by simpa using hsb)
            (by simp only [update_noteq hne]; exact h0) hstep hgt
          rw [e] at this
          exact this
        · have := ih _ _ _ _ _ (by simpa using hmode) (by simpa using hn) (by simpa using hsb)
            h0 hstep hgt
          rw [e] at this
          exact this
      · have ho : offset = 3072 := by
          unfold BLOCK_SIZE D_BLOCK at hb
          omega
        have hb2 : offset / BLOCK_SIZE < D_BLOCK + INDIRECT_BLOCK_ENTRIES := by
          rw [ho]; decide
        have hidx : offset / BLOCK_SIZE - D_BLOCK = 0 := by rw [ho]; decide
        have hmod : offset % BLOCK_SIZE = 0 := by rw [ho]; decide
        have htw : 0 < min (BLOCK_SIZE - 0) size := by
          unfold BLOCK_SIZE; omega
        have hpre : size - min (BLOCK_SIZE - 0) size ≠ 0 →
            1 + D_BLOCK ≤ (offset + min (BLOCK_SIZE - 0) size) / BLOCK_SIZE ∧
            D_BLOCK < (offset + min (BLOCK_SIZE - 0) size) / BLOCK_SIZE := by
          intro hs2
          unfold BLOCK_SIZE D_BLOCK at *
          constructor <;> omega
        have hoff2 : offset + min (BLOCK_SIZE - 0) size ≤ 35840 := by
          unfold BLOCK_SIZE at *; omega
        rw [wfs_write_loop_indirect_eq buf fuel s inode size offset bw hs hb hb2] at hgt ⊢
        rw [hidx, hmod] at hgt ⊢
        by_cases hai : (allocate_indirect_block s inode).1 ≠ 0
        · rw [if_pos hai] at hgt
          simp only at hgt
          omega
        · rw [if_neg hai] at hgt ⊢
          obtain ⟨X, hX0, hXb, hXbits, hXptr, c1, c2, c3⟩ :=
            alloc_indirect_fresh s inode hmode hn h0 hai
          have hmode1 := hmode
          rw [← c1] at hmode1
          have hn1 := hn
          rw [← c2] at hn1
          have hsb1 := hsb
          rw [← c3] at hsb1
          obtain ⟨hfail, hsucc⟩ := alloc_pointer_fresh (allocate_indirect_block s inode).2.2
            (allocate_indirect_block s inode).2.1 0 hmode1 hn1 hsb1 (by rw [hXb]; exact hX0)
            (by decide) (hXptr 0)
          by_cases hf : (allocate_indirect_data_block (allocate_indirect_block s inode).2.2
              (allocate_indirect_block s inode).2.1 0).1 < 0
          · rw [if_pos hf] at hgt
            simp only at hgt
            omega
          · rw [if_neg hf] at hgt ⊢
            obtain ⟨B, hB, hB0, hBfree, hbits, hother, hptr, d1, d2, d3⟩ := hsucc hf
            rw [hB] at hgt ⊢
            have hbX1 : data_bit (allocate_indirect_block s inode).2.2 0 X = 1 := by
              rw [hXbits, if_pos rfl]
            have hXB : X ≠ B := by
              intro e
              rw [e, hBfree] at hbX1
              exact absurd hbX1 (by decide)
            have hmode2 := hmode1
            rw [← d1] at hmode2
            have hn2 := hn1
            rw [← d2] at hn2
            have hsb2 := hsb1
            rw [← d3] at hsb2
            have key : ∀ t j, indirect_pointers
                (raid_write (allocate_indirect_data_block (allocate_indirect_block s inode).2.2
                  (allocate_indirect_block s inode).2.1 0).2 t B BLOCK_SIZE)
                (allocate_indirect_block s inode).2.1 j
                = indirect_pointers (allocate_indirect_data_block
                  (allocate_indirect_block s inode).2.2
                  (allocate_indirect_block s inode).2.1 0).2
                  (allocate_indirect_block s inode).2.1 j := by
              intro t j
              unfold indirect_pointers
              rw [raid_read_write_other _ _ _ _ _ _ (by rw [hXb]; exact hXB) (le_refl _)
                (le_refl _)]
            refine ⟨X, B, ?_⟩
            apply wfs_write_loop_indirect_kept buf fuel _ _ _ _ _ X B _ 1
            · refine ⟨by rw [raid_write_raid_mode]; exact hmode2,
                by rw [raid_write_num_disks]; exact hn2,
                by rw [raid_write_superblock]; exact hsb2, hXb, hX0, hB0, hXB, ?_, ?_, ?_, ?_, ?_⟩
              · rw [data_bit_raid_write, hbits]
                split_ifs
                · exact Nat.one_ne_zero
                · rw [hbX1]; exact Nat.one_ne_zero
              · rw [data_bit_raid_write, hbits, if_pos rfl]; exact Nat.one_ne_zero
              · rw [key, hptr 0 (by decide), if_pos rfl]
              · rw [raid_read_write_same _ _ _ _ hmode2 hn2]
                have h512 : (0 : Nat) < BLOCK_SIZE := by decide
                simp only [h512, if_true]
                unfold memcpy_to
                rw [if_pos ⟨le_refl _, by omega⟩, ho]
              · intro j hj1 hj2
                rw [key, hptr j hj2, if_neg (by omega)]
                exact hXptr j
            · exact hpre
            · exact hoff2

theorem indirect_pointers_store_inode (t : FS) (m : Nat) (x i : wfs_inode) :
    indirect_pointers (store_inode t m x) i = indirect_pointers t i := by
  unfold indirect_pointers
  rw [raid_read_store_inode]

theorem indirect_pointers_congr_blocks (t : FS) (i j : wfs_inode)
    (h : i.blocks IND_BLOCK = j.blocks IND_BLOCK) :
    indirect_pointers t i = indirect_pointers t j := by
  unfold indirect_pointers
  rw [h]

/-- The indirect block of a regular file after `wfs_write`, for a file that had
none: a write that ends at or before byte 3072 leaves `blocks[IND_BLOCK]` at 0;
a write in one of the three RAID modes that starts at or before byte 3072 and
whose count reaches beyond it leaves `blocks[IND_BLOCK]` and entry 0 of the
indirect block non-zero, both marked in disk 0's bitmap, and byte 0 of the block
of entry 0 is the byte of the buffer written at offset 3072. -/
theorem wfs_write_indirect_threshold (env : Env) (s : FS) (path buf : List Nat) (offset : Nat)
    (htr : (traverse_path s path).1 = 0)
    (hreg : (traverse_path s path).2.1.mode &&& S_IFREG ≠ 0)
    (hnum : (traverse_path s path).2.1.num = (traverse_path s path).2.2)
    (hn : 0 < s.num_disks)
    (hind : (load_inode s (traverse_path s path).2.2).blocks IND_BLOCK = 0) :
    (offset + buf.length ≤ 3072 →
      (load_inode (wfs_write env s path buf offset).2
        (traverse_path s path).2.2).blocks IND_BLOCK = 0) ∧
    ((s.raid_mode = 0 ∨ s.raid_mode = 1 ∨ s.raid_mode = 2) →
      s.superblock.num_data_blocks ≤ 2 ^ 64 → offset ≤ 3072 →
      (3072 : Int) < (offset : Int) + (wfs_write env s path buf offset).1 →
      (load_inode (wfs_write env s path buf offset).2
        (traverse_path s path).2.2).blocks IND_BLOCK ≠ 0 ∧
      data_bit (wfs_write env s path buf offset).2 0
        ((load_inode (wfs_write env s path buf offset).2
          (traverse_path s path).2.2).blocks IND_BLOCK) ≠ 0 ∧
      indirect_pointers (wfs_write env s path buf offset).2
        (load_inode (wfs_write env s path buf offset).2 (traverse_path s path).2.2) 0 ≠ 0 ∧
      data_bit (wfs_write env s path buf offset).2 0
        (indirect_pointers (wfs_write env s path buf offset).2
          (load_inode (wfs_write env s path buf offset).2 (traverse_path s path).2.2) 0) ≠ 0 ∧
      file_block (wfs_write env s path buf offset).2
        (load_inode (wfs_write env s path buf offset).2 (traverse_path s path).2.2) D_BLOCK
        = indirect_pointers (wfs_write env s path buf offset).2
          (load_inode (wfs_write env s path buf offset).2 (traverse_path s path).2.2) 0 ∧
      file_byte (wfs_write env s path buf offset).2
        (load_inode (wfs_write env s path buf offset).2 (traverse_path s path).2.2) 3072
        = buf.getD (3072 - offset) 0) := by
  have hino := traverse_path_inode s path htr
  have hind0 : (traverse_path s path).2.1.blocks IND_BLOCK = 0 := by rw [hino]; exact hind
  rw [wfs_write_of_regular env s path buf offset htr hreg]
  generalize hw : wfs_write_loop buf buf.length s (traverse_path s path).2.1 buf.length offset 0
    = w
  obtain ⟨f1, f2, f3, f4, f5⟩ :=
    wfs_write_loop_frame buf buf.length s (traverse_path s path).2.1 buf.length offset 0
  rw [hw] at f1 f2 f3 f4 f5
  have hload : ∀ x : wfs_inode, load_inode (store_inode w.fs w.inode.num x)
      (traverse_path s path).2.2 = x := by
    intro x
    rw [load_inode_store_inode _ _ _ _ (by rw [f4]; exact hn), f1, hnum, if_pos rfl]
  constructor
  · intro hlen
    obtain ⟨h1, h2, h3, h4, h5⟩ :=
      wfs_write_loop_bounds buf buf.length s (traverse_path s path).2.1 buf.length offset 0
        (by omega)
    have hr := wfs_write_loop_direct_range buf buf.length s (traverse_path s path).2.1
      buf.length offset 0 hlen
    rw [hw] at h4 hr
    cases hc : w.efbig with
    | true =>
      have := h4 hc
      omega
    | false =>
      simp only [Bool.false_eq_true, if_false]
      rw [hload]
      simp only
      rw [hr]
      exact hind0
  · intro hmode hsb hoff hgt
    obtain ⟨h1, h2, h3, h4, h5⟩ :=
      wfs_write_loop_bounds buf buf.length s (traverse_path s path).2.1 buf.length offset 0
        (by omega)
    rw [hw] at h1 h2 h3 h4 h5
    cases hc : w.efbig with
    | true =>
      rw [hc] at hgt
      simp only [if_true] at hgt
      unfold EFBIG at hgt
      omega
    | false =>
      rw [hc] at hgt
      simp only [Bool.false_eq_true, if_false] at hgt ⊢
      have hgt2 : 3072 < w.offset := by omega
      have hJ := wfs_write_loop_reaches_indirect buf buf.length s (traverse_path s path).2.1
        buf.length offset 0 hmode hn hsb hind0 hoff (by rw [hw]; exact hgt2)
      rw [hw] at hJ
      obtain ⟨X, Y, next, _, _, _, hX, hX0, hY0, hXY, hbX, hbY, hY, hv, hz⟩ := hJ
      rw [hload]
      have main : ∀ x : wfs_inode, x.blocks = w.inode.blocks →
          x.blocks IND_BLOCK ≠ 0 ∧
          data_bit (store_inode w.fs w.inode.num x) 0 (x.blocks IND_BLOCK) ≠ 0 ∧
          indirect_pointers (store_inode w.fs w.inode.num x) x 0 ≠ 0 ∧
          data_bit (store_inode w.fs w.inode.num x) 0
            (indirect_pointers (store_inode w.fs w.inode.num x) x 0) ≠ 0 ∧
          file_block (store_inode w.fs w.inode.num x) x D_BLOCK
            = indirect_pointers (store_inode w.fs w.inode.num x) x 0 ∧
          file_byte (store_inode w.fs w.inode.num x) x 3072 = buf.getD (3072 - offset) 0 := by
        intro x hx
        have hxI : x.blocks IND_BLOCK = X := by rw [hx]; exact hX
        have hp : indirect_pointers (store_inode w.fs w.inode.num x) x 0 = Y := by
          rw [indirect_pointers_store_inode,
            indirect_pointers_congr_blocks w.fs x w.inode (by rw [hx])]
          exact hY
        have hfb := file_block_indirect (store_inode w.fs w.inode.num x) x D_BLOCK (by decide)
        rw [if_neg (by rw [hxI]; exact hX0), Nat.sub_self] at hfb
        refine ⟨by rw [hxI]; exact hX0, ?_, by rw [hp]; exact hY0, ?_, hfb, ?_⟩
        · rw [data_bit_store_inode, hxI]; exact hbX
        · rw [hp, data_bit_store_inode]; exact hbY
        · unfold file_byte
          have e1 : 3072 / BLOCK_SIZE = D_BLOCK := by decide
          have e2 : 3072 % BLOCK_SIZE = 0 := by decide
          rw [e1, e2, hfb, hp, raid_read_store_inode, hv, Nat.zero_add]
      exact main _ rfl

/-- C21. In a state whose inode count fits an `int`: when bit `i` is the first
clear bit of disk 0's inode bitmap below `num_inodes`, `allocate_inode` returns
`i`, sets bit `i` on disk 0 and on every mounted disk whatever the RAID mode,
keeps every other bit of every inode bitmap and writes nothing else; when no bit
below `num_inodes` is clear it returns `-ENOSPC` and the state is unchanged; and
after `free_inode k`, with every bit below `k` set, the next allocation returns
`k`. -/
theorem allocate_inode_first_clear_bit (s : FS) (hint : s.superblock.num_inodes < 2 ^ 31) :
    (∀ i, i < s.superblock.num_inodes → inode_bit s 0 i = 0 →
      (∀ j, j < i → inode_bit s 0 j ≠ 0) →
      (allocate_inode s).1 = (i : Int) ∧
      (∀ d, d < s.num_disks → inode_bit (allocate_inode s).2 d i = 1) ∧
      inode_bit (allocate_inode s).2 0 i = 1 ∧
      (∀ d b, b ≠ i → inode_bit (allocate_inode s).2 d b = inode_bit s d b) ∧
      (∀ d, ((allocate_inode s).2.disk_maps d).d_bitmap = (s.disk_maps d).d_bitmap ∧
        ((allocate_inode s).2.disk_maps d).inodes = (s.disk_maps d).inodes ∧
        ((allocate_inode s).2.disk_maps d).data = (s.disk_maps d).data ∧
        ((allocate_inode s).2.disk_maps d).sb = (s.disk_maps d).sb)) ∧
    ((∀ i, i < s.superblock.num_inodes → inode_bit s 0 i ≠ 0) →
      (allocate_inode s).1 = -ENOSPC ∧ (allocate_inode s).2 = s) ∧
    (∀ k, k < s.superblock.num_inodes → (∀ j, j < k → inode_bit s 0 j ≠ 0) →
      (allocate_inode (free_inode s k)).1 = (k : Int)) := by
  have first : ∀ (t : FS) (i : Nat), i < t.superblock.num_inodes → inode_bit t 0 i = 0 →
      (∀ j, j < i → inode_bit t 0 j ≠ 0) →
      (allocate_inode t).1 = (i : Int) ∧
      ∀ d, ((allocate_inode t).2.disk_maps d).i_bitmap
        = if d = 0 ∨ d < t.num_disks then set_bit (t.disk_maps d).i_bitmap i
          else (t.disk_maps d).i_bitmap := by
    intro t i hi h0 hlow
    rcases allocate_inode_cases t with ⟨_, _, hall⟩ | ⟨i', h1, h2, h3, h4, h5⟩
    · exact absurd h0 (hall i hi)
    · have hii : i' = i := by
        rcases Nat.lt_trichotomy i' i with h | h | h
        · exact absurd h3 (hlow i' h)
        · exact h
        · exact absurd h0 (h4 i h)
      subst hii
      exact ⟨h1, h5⟩
  refine ⟨fun i hi h0 hlow => ?_, fun hall => ?_, fun k hk hlow => ?_⟩
  · obtain ⟨h1, h5⟩ := first s i hi h0 hlow
    refine ⟨h1, fun d hd => ?_, ?_, fun d b hb => ?_, fun d => ⟨by simp, by simp, by simp, by simp⟩⟩
    · unfold inode_bit
      rw [h5, if_pos (Or.inr hd), get_bit_set_same]
    · unfold inode_bit
      rw [h5, if_pos (Or.inl rfl), get_bit_set_same]
    · unfold inode_bit
      rw [h5]
      split_ifs
      · rw [get_bit_set_other _ hb]
      · rfl
  · rcases allocate_inode_cases s with ⟨h1, h2, _⟩ | ⟨i', _, h2, h3, _, _⟩
    · exact ⟨h1, h2⟩
    · exact absurd h3 (hall i' h2)
  · have hbm : ((free_inode s k).disk_maps 0).i_bitmap = clear_bit (s.disk_maps 0).i_bitmap k := by
      rw [free_inode_i_bitmap, if_pos (Or.inl rfl)]
    refine (first (free_inode s k) k (by simpa using hk) ?_ ?_).1
    · unfold inode_bit
      rw [hbm, get_bit_clear_same]
    · intro j hj
      unfold inode_bit
      rw [hbm, get_bit_clear_other _ (by omega)]
      exact hlow j hj

theorem allocate_inode_first_clear_bit_witness :
    (fresh_volume 1 2).superblock.num_inodes < 2 ^ 31 ∧
    1 < (fresh_volume 1 2).superblock.num_inodes ∧
    inode_bit (fresh_volume 1 2) 0 1 = 0 ∧
    (allocate_inode (fresh_volume 1 2)).1 = ((1 : Nat) : Int) ∧
    (allocate_inode (free_inode (fresh_volume 1 2) 0)).1 = ((0 : Nat) : Int) :=
  ⟨by decide!, by decide!, by decide!,
   ((allocate_inode_first_clear_bit (fresh_volume 1 2) (by decide!)).1 1 (by decide!)
      (by decide!) (by decide!)).1,
   (allocate_inode_first_clear_bit (fresh_volume 1 2) (by decide!)).2.2 0 (by decide!)
      (fun j hj => absurd hj (Nat.not_lt_zero j))⟩

/-- C22. In a state whose data-block count fits an `int`: when bit `i ≥ 1` is the
first clear bit of disk 0's data bitmap in `1 .. num_data_blocks - 1`,
`allocate_data_block` returns `i` (never 0, whatever bit 0 is), sets bit `i` on
disk 0, sets it on the other mounted disks in modes 1 and 2 and leaves their
data bitmaps unchanged in any other mode, keeps every other bit and writes
nothing else; when every bit `1 .. num_data_blocks - 1` is set it returns
`-ENOSPC` and the state is unchanged, whatever bit 0 is. -/
theorem allocate_data_block_first_clear_bit (s : FS)
    (hint : s.superblock.num_data_blocks < 2 ^ 31) :
    (∀ i, 1 ≤ i → i < s.superblock.num_data_blocks → data_bit s 0 i = 0 →
      (∀ j, 1 ≤ j → j < i → data_bit s 0 j ≠ 0) →
      (allocate_data_block s).1 = (i : Int) ∧
      data_bit (allocate_data_block s).2 0 i = 1 ∧
      (s.raid_mode = 1 ∨ s.raid_mode = 2 →
        ∀ d, d < s.num_disks → data_bit (allocate_data_block s).2 d i = 1) ∧
      (¬ (s.raid_mode = 1 ∨ s.raid_mode = 2) →
        ∀ d, d ≠ 0 → (allocate_data_block s).2.disk_maps d = s.disk_maps d) ∧
      (∀ d b, b ≠ i → data_bit (allocate_data_block s).2 d b = data_bit s d b) ∧
      (∀ d, ((allocate_data_block s).2.disk_maps d).i_bitmap = (s.disk_maps d).i_bitmap ∧
        ((allocate_data_block s).2.disk_maps d).inodes = (s.disk_maps d).inodes ∧
        ((allocate_data_block s).2.disk_maps d).data = (s.disk_maps d).data ∧
        ((allocate_data_block s).2.disk_maps d).sb = (s.disk_maps d).sb)) ∧
    (allocate_data_block s).1 ≠ 0 ∧
    ((∀ i, 1 ≤ i → i < s.superblock.num_data_blocks → data_bit s 0 i ≠ 0) →
      (allocate_data_block s).1 = -ENOSPC ∧ (allocate_data_block s).2 = s) := by
  refine ⟨fun i hi1 hi h0 hlow => ?_, ?_, fun hall => ?_⟩
  · rcases allocate_data_block_cases s with ⟨_, _, hall⟩ | ⟨i', h1, h1', h2, h3, h4, h5⟩
    · exact absurd h0 (hall i hi1 hi)
    · have hii : i' = i := by
        rcases Nat.lt_trichotomy i' i with h | h | h
        · exact absurd h3 (hlow i' h1' h)
        · exact h
        · exact absurd h0 (h4 i hi1 h)
      subst hii
      refine ⟨h1, ?_, fun hm d hd => ?_, fun hm d hd => ?_, fun d b hb => ?_,
        fun d => ⟨by simp, by simp, by simp, by simp⟩⟩
      · unfold data_bit
        rw [h5, if_pos (Or.inl rfl), get_bit_set_same]
      · unfold data_bit
        rw [h5, if_pos (Or.inr ⟨hm, hd⟩), get_bit_set_same]
      · unfold allocate_data_block
        split
        · simp only
          rw [if_neg]
          rintro (h | ⟨h, _⟩)
          · exact hd h
          · exact hm h
        · rfl
      · unfold data_bit
        rw [h5]
        split_ifs
        · rw [get_bit_set_other _ hb]
        · rfl
  · rcases allocate_data_block_cases s with ⟨h1, _, _⟩ | ⟨i', h1, h1', _⟩
    · rw [h1]; decide
    · rw [h1]
      exact_mod_cast (by omega : i' ≠ 0)
  · rcases allocate_data_block_cases s with ⟨h1, h2, _⟩ | ⟨i', _, h1', h2, h3, _, _⟩
    · exact ⟨h1, h2⟩
    · exact absurd h3 (hall i' h1' h2)

theorem allocate_data_block_first_clear_bit_witness :
    (fresh_volume 0 3).superblock.num_data_blocks < 2 ^ 31 ∧
    1 < (fresh_volume 0 3).superblock.num_data_blocks ∧
    data_bit (fresh_volume 0 3) 0 1 = 0 ∧
    (allocate_data_block (fresh_volume 0 3)).1 = ((1 : Nat) : Int) ∧
    (allocate_data_block (fresh_volume 0 3)).2.disk_maps 1 = (fresh_volume 0 3).disk_maps 1 ∧
    (∀ d, d < (fresh_volume 1 2).num_disks →
      data_bit (allocate_data_block (fresh_volume 1 2)).2 d 1 = 1) :=
  ⟨by decide!, by decide!, by decide!,
   ((allocate_data_block_first_clear_bit (fresh_volume 0 3) (by decide!)).1 1 (by decide)
      (by decide!) (by decide!) (fun j h1 h2 => absurd h1 (by omega))).1,
   ((allocate_data_block_first_clear_bit (fresh_volume 0 3) (by decide!)).1 1 (by decide)
      (by decide!) (by decide!) (fun j h1 h2 => absurd h1 (by omega))).2.2.2.1
      (by decide!) 1 (by decide),
   ((allocate_data_block_first_clear_bit (fresh_volume 1 2) (by decide!)).1 1 (by decide)
      (by decide!) (by decide!) (fun j h1 h2 => absurd h1 (by omega))).2.2.1
      (Or.inl (by decide!))⟩

/-! ## The block-pointer slots of an inode -/

/-- Counterexample to C27 as stated: `wfs.h` defines `IND_BLOCK` as
`D_BLOCK + 1 = 7` and `N_BLOCKS` as `IND_BLOCK + 1 = 8`, not 6 and 7. -/
theorem inode_has_eight_block_slots :
    IND_BLOCK = 7 ∧ N_BLOCKS = 8 ∧ IND_BLOCK ≠ 6 ∧ N_BLOCKS ≠ 7 := by
  decide

/-- The loop of `wfs_write` never changes slot `D_BLOCK = 6` of the inode: it
assigns the direct slots below `D_BLOCK` and slot `IND_BLOCK = 7` only. -/
theorem wfs_write_loop_slot_six (buf : List Nat) :
    ∀ (fuel : Nat) (s : FS) (inode : wfs_inode) (size offset bw : Nat),
      (wfs_write_loop buf fuel s inode size offset bw).inode.blocks D_BLOCK
        = inode.blocks D_BLOCK := by
  intro fuel
  induction fuel with
  | zero => intro s inode size offset bw; rw [wfs_write_loop]
  | succ fuel ih =>
    intro s inode size offset bw
    have hai : (allocate_indirect_block s inode).2.1.blocks D_BLOCK = inode.blocks D_BLOCK := by
      unfold allocate_indirect_block
      simp only
      split_ifs
      · rfl
      · rfl
      · dsimp only
        exact update_noteq (show D_BLOCK ≠ IND_BLOCK by decide) _ _
    rw [wfs_write_loop]
    simp only
    split_ifs with h1 h2 h3 h4 h5 h6 h7 h8
    all_goals first
      | rfl
      | exact hai
      | (rw [ih]; exact hai)
      | exact ih _ _ _ _ _
      | (dsimp only
         exact update_noteq (show D_BLOCK ≠ (to_int (offset / BLOCK_SIZE)).toNat by omega) _ _)
      | (rw [ih]
         dsimp only
         exact update_noteq (show D_BLOCK ≠ (to_int (offset / BLOCK_SIZE)).toNat by omega) _ _)

/-- Amended C27. An inode record has `N_BLOCKS = 8` block-pointer slots; for a
regular file slots `0 .. 5` are direct (`D_BLOCK = 6`), the indirect-block
pointer is slot `IND_BLOCK = 7`, and slot 6 is never assigned by the loop of
`wfs_write`; an indirect block holds `BLOCK_SIZE / 8 = 64` entries and a
directory block holds `512 / 32 = 16` entries. -/
theorem inode_block_slot_layout :
    D_BLOCK = 6 ∧ IND_BLOCK = 7 ∧ N_BLOCKS = 8 ∧
    INDIRECT_BLOCK_ENTRIES = 64 ∧ BLOCK_SIZE / 8 = 64 ∧
    entries_per_block = 16 ∧ BLOCK_SIZE = 512 ∧ DENTRY_SIZE = 32 ∧
    ∀ (buf : List Nat) (fuel : Nat) (s : FS) (inode : wfs_inode) (size offset bw : Nat),
      (wfs_write_loop buf fuel s inode size offset bw).inode.blocks 6 = inode.blocks 6 :=
  ⟨rfl, rfl, rfl, rfl, rfl, rfl, rfl, rfl, fun buf => wfs_write_loop_slot_six buf⟩

/-! ## Rounding of the counts in `mkfs` -/

/-- C29. For every `n` with `0 < n ≤ INT_MAX - 31`, `round_up_blocks n` is the
least multiple of 32 that is at least `n`; it fits an `int` (the addition in the
C code does not overflow); it is `n` itself when `n` is a multiple of 32, and
applying the function again changes nothing. -/
theorem round_up_blocks_least_multiple (n : Nat) (h0 : 0 < n) (h : n ≤ 2147483647 - 31) :
    32 ∣ round_up_blocks n ∧ n ≤ round_up_blocks n ∧
    (∀ m, 32 ∣ m → n ≤ m → round_up_blocks n ≤ m) ∧
    round_up_blocks n ≤ 2147483647 ∧
    (32 ∣ n → round_up_blocks n = n) ∧
    round_up_blocks (round_up_blocks n) = round_up_blocks n := by
  have key : ∀ k, round_up_blocks k = if k % 32 ≠ 0 then k + (32 - k % 32) else k := by
    intro k; rfl
  have hd : 32 ∣ round_up_blocks n := by
    rw [key]
    split_ifs <;> omega
  refine ⟨hd, ?_, ?_, ?_, ?_, ?_⟩
  · rw [key]; split_ifs <;> omega
  · intro m hm hnm
    rw [key]
    split_ifs <;> omega
  · rw [key]; split_ifs <;> omega
  · intro hn
    rw [key, if_neg]
    omega
  · rw [key (round_up_blocks n), if_neg]
    omega

theorem round_up_blocks_least_multiple_witness :
    0 < 33 ∧ 33 ≤ 2147483647 - 31 ∧ round_up_blocks 33 ≤ 64 ∧
    round_up_blocks (round_up_blocks 33) = round_up_blocks 33 :=
  ⟨by decide, by decide,
   (round_up_blocks_least_multiple 33 (by decide) (by decide)).2.2.1 64 (by decide) (by decide),
   (round_up_blocks_least_multiple 33 (by decide) (by decide)).2.2.2.2.2⟩

/-! ## The inode bitmap and the inode table are mirrored in every mode -/

theorem inode_regions_prim_invariant : prim_invariant inode_regions_identical :=
  { raid_write := fun s buf b size h i hi => by
      have := h i (by simpa using hi)
      simpa using this
    store_inode := fun s n x h i hi => by
      have hi' : i < s.num_disks := by simpa using hi
      have := h i hi'
      refine ⟨by simpa using this.1, ?_⟩
      rw [store_inode_inodes, store_inode_inodes, if_pos hi', if_pos (by omega), this.2]
    free_data_block := fun s n h i hi => by
      have := h i (by simpa using hi)
      simpa using this
    allocate_data_block := fun s h i hi => by
      have := h i (by simpa using hi)
      simpa using this
    free_inode := fun s n h i hi => by
      have hi' : i < s.num_disks := by simpa using hi
      have := h i hi'
      refine ⟨?_, by simpa using this.2⟩
      rw [free_inode_i_bitmap, free_inode_i_bitmap, if_pos (Or.inr hi'), if_pos (Or.inl rfl),
        this.1]
    allocate_inode := fun s h i hi => by
      have hi' : i < s.num_disks := by simpa using hi
      have := h i hi'
      refine ⟨?_, by simpa using this.2⟩
      rcases allocate_inode_cases s with ⟨_, h2, _⟩ | ⟨k, _, _, _, _, h5⟩
      · rw [h2]; exact this.1
      · rw [h5, h5, if_pos (Or.inr hi'), if_pos (Or.inl rfl), this.1] }

/-! ## The layout computed by `mkfs` -/

theorem to_size_t_ofNat (x : Nat) (h : x < 2 ^ 64) : to_size_t (x : Int) = x := by
  unfold to_size_t
  have : ((x : Int) % 2 ^ 64) = (x : Int) := Int.emod_eq_of_lt (Int.ofNat_nonneg _) (by exact_mod_cast h)
  rw [this, Int.toNat_ofNat]

theorem int_mul_of_lt (a b : Nat) (h : a * b < 2 ^ 31) :
    to_size_t (int_mul a b) = a * b := by
  unfold int_mul
  rw [to_int_of_lt _ h, to_size_t_ofNat _ (by omega)]

/-- The layout of `mkfs` for rounded counts whose region sizes `512 * ni` and
`512 * nd` fit an `int`: the five regions follow each other in the order
superblock, inode bitmap, data bitmap, inode table, data region, without
overlap, the inode table starts at the least multiple of 512 that is at or
after the end of the data bitmap, and the required size is the end of the data
region. -/
theorem mkfs_layout_in_range (ni nd : Nat) (hi : ni * INODE_SIZE < 2 ^ 31)
    (hd : nd * BLOCK_SIZE < 2 ^ 31) :
    (mkfs_layout ni nd).i_bitmap_ptr = SB_SIZE ∧
    (mkfs_layout ni nd).d_bitmap_ptr = SB_SIZE + (ni + 7) / 8 ∧
    (mkfs_layout ni nd).i_blocks_ptr % 512 = 0 ∧
    (mkfs_layout ni nd).d_bitmap_ptr + (nd + 7) / 8 ≤ (mkfs_layout ni nd).i_blocks_ptr ∧
    (∀ m, m % 512 = 0 → (mkfs_layout ni nd).d_bitmap_ptr + (nd + 7) / 8 ≤ m →
      (mkfs_layout ni nd).i_blocks_ptr ≤ m) ∧
    (mkfs_layout ni nd).d_blocks_ptr = (mkfs_layout ni nd).i_blocks_ptr + 512 * ni ∧
    (mkfs_layout ni nd).fs_size = (mkfs_layout ni nd).d_blocks_ptr + 512 * nd := by
  have e1 := int_mul_of_lt ni INODE_SIZE hi
  have e2 := int_mul_of_lt nd BLOCK_SIZE hd
  unfold mkfs_layout
  simp only [e1, e2]
  unfold INODE_SIZE BLOCK_SIZE SB_SIZE MAX_DISKS MAX_NAME at *
  norm_num at hi hd ⊢
  have ha : (ni + 7) / 8 ≤ 524288 := by omega
  have hb : (nd + 7) / 8 ≤ 524288 := by omega
  generalize (ni + 7) / 8 = a at ha ⊢
  generalize (nd + 7) / 8 = b at hb ⊢
  refine ⟨by omega, ?_, ?_, ?_, ?_, ?_⟩
  · split_ifs <;> omega
  · split_ifs <;> omega
  · intro m hm hle
    split_ifs <;> omega
  · split_ifs <;> omega
  · split_ifs <;> omega

/-- With valid options, `mkfs` exits with status -1 and writes nothing when one
of the images is smaller than the size it computed. -/
theorem mkfs_main_too_small (env : Env) (raid_mode : Int)
    (num_disks num_inodes num_data_blocks : Nat) (sizes : Nat → Nat) (images : Nat → Disk)
    (hmode : raid_mode = 0 ∨ raid_mode = 1 ∨ raid_mode = 2)
    (hn : 2 ≤ num_disks) (hn' : num_disks ≤ MAX_DISKS) (hi : 0 < num_inodes)
    (hd : 0 < num_data_blocks) (i : Nat) (hlt : i < num_disks)
    (hsmall : sizes i
      < (mkfs_layout (round_up_blocks num_inodes) (round_up_blocks num_data_blocks)).fs_size) :
    mkfs_main env raid_mode num_disks num_inodes num_data_blocks sizes images = (-1, images) := by
  unfold mkfs_main
  have h1 : ¬ (num_disks > MAX_DISKS) := by omega
  have h2 : ¬ (num_disks = 0) := by omega
  have h3 : ¬ (num_inodes = 0) := by omega
  have h4 : ¬ (num_data_blocks = 0) := by omega
  have h5 : ¬ (num_disks < 2) := by omega
  have h6 : (List.range num_disks).any (fun i => decide (sizes i
      < (mkfs_layout (round_up_blocks num_inodes)
          (round_up_blocks num_data_blocks)).fs_size)) = true := by
    rw [List.any_eq_true]
    exact ⟨i, List.mem_range.mpr hlt, by simpa using hsmall⟩
  simp only [hmode, not_true_eq_false, if_false, h1, h2, h3, h4, h5, h6, if_true]

/-- C28, failing input: `mkfs -r 1 -d a -d b -i 8388608 -b 32` on two images of
2 MiB.  The count 8388608 is a multiple of 32 and is kept by `round_up_blocks`;
the `int` product `num_inodes * INODE_SIZE` is 2^32 and wraps to 0, so the
layout has `d_blocks_ptr = i_blocks_ptr = 1049088` (the data region starts where
the inode table starts) and a required size of 1065472 bytes instead of
`1049088 + 512 * 8388608 + 512 * 32`; `mkfs` accepts the 2 MiB images, exits
with status 0 and writes this superblock. -/
theorem mkfs_inode_table_size_wraps :
    round_up_blocks 8388608 = 8388608 ∧ round_up_blocks 32 = 32 ∧
    (mkfs_layout 8388608 32).i_blocks_ptr = 1049088 ∧
    (mkfs_layout 8388608 32).d_blocks_ptr = 1049088 ∧
    (mkfs_layout 8388608 32).d_blocks_ptr ≠ (mkfs_layout 8388608 32).i_blocks_ptr + 512 * 8388608 ∧
    (mkfs_layout 8388608 32).fs_size = 1065472 ∧
    (2097152 : Nat) < 1049088 + 512 * 8388608 + 512 * 32 ∧
    (mkfs_main env0 1 2 8388608 32 (fun _ => 2097152) (fun _ => zero_disk)).1 = 0 ∧
    ((mkfs_main env0 1 2 8388608 32 (fun _ => 2097152) (fun _ => zero_disk)).2 0).sb.i_blocks_ptr
      = 1049088 ∧
    ((mkfs_main env0 1 2 8388608 32 (fun _ => 2097152) (fun _ => zero_disk)).2 0).sb.d_blocks_ptr
      = 1049088 := by
  decide!

/-! ## The bitmaps written by `mkfs` -/

/-- What `mkfs` leaves in the two bitmaps of each formatted disk, whatever the
images held before: bit 0 of the inode bitmap is set, the other bits below the
rounded inode count are clear, and the data bitmap is the one the image had. -/
theorem mkfs_bitmaps (env : Env) (raid_mode : Int) (num_disks num_inodes num_data_blocks : Nat)
    (images : Nat → Disk) (d : Nat) (hd : d < num_disks) :
    get_bit (mkfs env raid_mode num_disks num_inodes num_data_blocks images d).i_bitmap 0 = 1 ∧
    (∀ i, 0 < i → i < round_up_blocks num_inodes →
      get_bit (mkfs env raid_mode num_disks num_inodes num_data_blocks images d).i_bitmap i
        = 0) ∧
    (mkfs env raid_mode num_disks num_inodes num_data_blocks images d).d_bitmap
      = (images d).d_bitmap := by
  unfold mkfs
  simp only [hd, if_true]
  refine ⟨?_, fun i h0 hi => ?_, trivial⟩
  · rw [get_bit_testBit]
    simp [Nat.testBit_or]
  · have hsz : i / 8 < (round_up_blocks num_inodes + 7) / 8 := by omega
    rw [get_bit_testBit]
    by_cases h8 : i / 8 = 0
    · have hsz0 : 0 < (round_up_blocks num_inodes + 7) / 8 := by omega
      have hm : i % 8 ≠ 0 := by omega
      simp [h8, hsz0, Nat.testBit_one_eq_true_iff_self_eq_zero, hm]
    · simp [h8, hsz]

/-- C30, failing input: two images whose bitmap regions hold `0xFF` bytes are
formatted with `mkfs -r 1 -i 32 -b 64`.  The inode bitmap is as claimed (bit 0
set, bits 1 to 31 clear, on both disks), but every bit of the data bitmap is
still set on both disks: the loop that zeroes the data bitmap is commented out
in `mkfs.c`.  On the mounted and initialised volume no data block can be
allocated, and `mknod /a` fails with `-ENOSPC`. -/
theorem mkfs_keeps_old_data_bitmap :
    (∀ d, d < 2 → inode_bit reformatted_volume d 0 = 1) ∧
    (∀ d, d < 2 → ∀ i, i < 32 → i ≠ 0 → inode_bit reformatted_volume d i = 0) ∧
    (∀ d, d < 2 → ∀ b, b < 64 → data_bit reformatted_volume d b = 1) ∧
    (allocate_data_block (wfs_init env0 reformatted_volume)).1 = -ENOSPC ∧
    (wfs_mknod env0 (wfs_init env0 reformatted_volume) [47, 97] (S_IFREG ||| 0o644)).1
      = -ENOSPC := by
  decide!

/-! ## The order of the disks at mount time -/

/-- C26, failing input: two images are formatted by `mkfs -r 0` in the order
`a`, `b` (the data region of `a` holds bytes 0, that of `b` bytes 1) and mounted
as `wfs b a`.  `main` accepts them and its ordering step finds, for each `i`,
the image at position `i` of the command line, so `disk_maps[0]` is `b` and
`disk_maps[1]` is `a`: the format-time order is not restored.  (Mounted as
`wfs a b` the result is the same state as `mount_disks` gives.) -/
theorem mount_keeps_command_line_order :
    (two_formatted 0).data 0 = 0 ∧ (two_formatted 1).data 0 = 1 ∧
    find_disk two_swapped 2 (two_swapped 0).sb 0 = some 0 ∧
    find_disk two_swapped 2 (two_swapped 0).sb 1 = some 1 ∧
    (wfs_main two_swapped 2).map (fun s => ((s.disk_maps 0).data 0, (s.disk_maps 1).data 0))
      = some (1, 0) ∧
    (wfs_main two_formatted 2).map (fun s => ((s.disk_maps 0).data 0, (s.disk_maps 1).data 0))
      = some (0, 1) ∧
    (∀ i, i < 2 → ∀ j, j < 2 →
      sb_disk_order (two_formatted j).sb i = generate_disk_id i) := by
  decide!

theorem sb_same_disk_order (a b : wfs_sb) (h : sb_same a b = true) (i : Nat)
    (hi : i < MAX_DISKS) : sb_disk_order a i = sb_disk_order b i := by
  unfold sb_same at h
  simp only [Bool.and_eq_true, List.all_eq_true, List.mem_range, decide_eq_true_eq] at h
  exact h.2 i hi

/-- When `main` accepts the images and the tags of the superblock are pairwise
different (cut as `main` compares them), the ordering step changes nothing:
`disk_maps[i]` is the `i`-th image of the command line. -/
theorem wfs_main_keeps_order (images : Nat → Disk) (n : Nat) (s : FS)
    (h : wfs_main images n = some s)
    (htag : ∀ i, i < n → ∀ j, j < n →
      (sb_disk_order (images 0).sb i).take MAX_NAME
        = ((sb_disk_order (images 0).sb j).take (MAX_NAME - 1)).take MAX_NAME → j = i) :
    s.disk_maps = images ∧ s.num_disks = n ∧ s.superblock = (images 0).sb := by
  unfold wfs_main at h
  split_ifs at h with h1 h2 h3 h4
  simp only [Option.some.injEq] at h
  subst h
  refine ⟨?_, rfl, rfl⟩
  funext i
  simp only
  split_ifs with hi
  · have hn : n ≤ MAX_DISKS := by omega
    have hall : ∀ j, j < n → sb_same (images j).sb (images 0).sb = true := by
      intro j hj
      have := h2
      simp only [Bool.not_eq_true', Bool.not_eq_false] at this
      exact List.all_eq_true.mp this j (List.mem_range.mpr hj)
    have hsome : (find_disk images n (images 0).sb i).isSome = true := by
      have := h4
      simp only [Bool.not_eq_true', Bool.not_eq_false] at this
      exact List.all_eq_true.mp this i (List.mem_range.mpr hi)
    obtain ⟨j, hj⟩ := Option.isSome_iff_exists.mp hsome
    rw [hj]
    simp only [Option.getD_some]
    unfold find_disk at hj
    have hmem := List.mem_of_find?_eq_some hj
    have hP := List.find?_some hj
    simp only [decide_eq_true_eq] at hP
    have hjn : j < n := List.mem_range.mp hmem
    unfold disk_id at hP
    rw [sb_same_disk_order _ _ (hall j hjn) j (by omega)] at hP
    rw [htag i hi j hjn hP]
  · rfl

theorem generate_disk_id_distinct :
    ∀ i, i < MAX_DISKS → ∀ j, j < MAX_DISKS →
      (generate_disk_id i).take MAX_NAME
        = ((generate_disk_id j).take (MAX_NAME - 1)).take MAX_NAME → j = i := by
  decide

/-- Images formatted by `mkfs` and given to `main` in any arrangement `arr`
(position `i` of the command line holds format-time disk `arr i`): when `main`
accepts them, `disk_maps[i]` is format-time disk `arr i`. -/
theorem wfs_main_mkfs_any_order (env : Env) (raid_mode : Int) (n ni nd : Nat)
    (prior : Nat → Disk) (arr : Nat → Nat) (harr : ∀ i, i < n → arr i < n) (s : FS)
    (h : wfs_main (fun i => mkfs env raid_mode n ni nd prior (arr i)) n = some s) :
    ∀ i, s.disk_maps i = mkfs env raid_mode n ni nd prior (arr i) := by
  have hn : 0 < n ∧ n ≤ MAX_DISKS := by
    unfold wfs_main at h
    split_ifs at h with h1
    omega
  have hsb : (mkfs env raid_mode n ni nd prior (arr 0)).sb
      = mkfs_superblock raid_mode n (round_up_blocks ni) (round_up_blocks nd) := by
    unfold mkfs
    simp only [harr 0 hn.1, if_true]
  have htagv : ∀ i, i < n →
      sb_disk_order (mkfs_superblock raid_mode n (round_up_blocks ni) (round_up_blocks nd)) i
        = generate_disk_id i := by
    intro i hi
    unfold sb_disk_order mkfs_superblock
    simp only
    rw [List.getD_eq_getElem?_getD, List.getElem?_map, List.getElem?_range hi]
    rfl
  have := wfs_main_keeps_order _ n s h (fun i hi j hj heq => by
    simp only [hsb] at heq
    rw [htagv i hi, htagv j hj] at heq
    exact generate_disk_id_distinct i (by omega) j (by omega) heq)
  intro i
  rw [this.1]

/-! ## Block references on reachable volumes -/

/-- C23, failing input: on the volume reached from a fresh 2-disk mirror volume
by the operations `share_ops`, inode 3 (the file `/f`) is live, its indirect
block is block 3, and entry 2 of that block is 50, a block whose bit is clear
in the data bitmap of both disks.  (The last operation, the write through
`/d/x`, returns 24.) -/
theorem live_inode_references_free_block :
    (wfs_write env0 ((share_ops.take 9).foldl (fun s op => op.run env0 s) (fresh_volume 1 2))
      path_d_x forged_pointers 8).1 = 24 ∧
    inode_bit ex_share 0 3 = 1 ∧
    (traverse_path ex_share path_f).1 = 0 ∧ (traverse_path ex_share path_f).2.2 = 3 ∧
    (load_inode ex_share 3).mode &&& S_IFREG ≠ 0 ∧
    (load_inode ex_share 3).blocks IND_BLOCK = 3 ∧
    indirect_pointers ex_share (load_inode ex_share 3) 2 = 50 ∧
    data_bit ex_share 0 50 = 0 ∧ data_bit ex_share 1 50 = 0 := by
  decide!

/-- C24, failing input: on the volume reached from a fresh 2-disk mirror volume
by the operations `share_ops`, the root directory (inode 0) and the file `/f`
(inode 3) are live and both reference data block 1: it is slot 0 of the root
and entry 1 of the indirect block of `/f`; and `/f` references block 4 twice,
in entries 0 and 3 of its indirect block.  (The unlink of `/d/e` that frees
inode 2 returns 0, and `/d/x` still resolves to inode 2 afterwards.) -/
theorem live_inodes_share_block :
    (wfs_unlink env0 ((share_ops.take 7).foldl (fun s op => op.run env0 s) (fresh_volume 1 2))
      path_d_e).1 = 0 ∧
    (traverse_path ((share_ops.take 8).foldl (fun s op => op.run env0 s) (fresh_volume 1 2))
      path_d_x).2.2 = 2 ∧
    inode_bit ex_share 0 0 = 1 ∧ inode_bit ex_share 0 3 = 1 ∧
    (load_inode ex_share 0).blocks 0 = 1 ∧
    (load_inode ex_share 3).blocks IND_BLOCK = 3 ∧
    indirect_pointers ex_share (load_inode ex_share 3) 1 = 1 ∧
    indirect_pointers ex_share (load_inode ex_share 3) 0 = 4 ∧
    indirect_pointers ex_share (load_inode ex_share 3) 3 = 4 := by
  decide!

/-! ## The disk chosen by the vote -/

theorem vote_max_fold_first (counts : Nat → Nat) (L : List Nat) :
    ∀ m0, (∀ a ∈ L, m0 < a) → L.Pairwise (fun a b => a < b) →
      ∀ i ∈ m0 :: L,
        i < L.foldl (fun max_idx i => if counts i > counts max_idx then i else max_idx) m0 →
        counts i
          < counts (L.foldl (fun max_idx i => if counts i > counts max_idx then i else max_idx)
              m0) := by
  induction L with
  | nil =>
    intro m0 _ _ i hi hlt
    simp only [List.mem_singleton] at hi
    simp only [List.foldl_nil] at hlt
    omega
  | cons a L ih =>
    intro m0 hgt hpw i hi hlt
    rw [List.foldl_cons] at hlt ⊢
    have hpw' := List.pairwise_cons.mp hpw
    have hm0a : m0 < a := hgt a (by simp)
    by_cases hc : counts a > counts m0
    · rw [if_pos hc] at hlt ⊢
      have ih' := ih a (fun x hx => hpw'.1 x hx) hpw'.2
      obtain ⟨_, hmax⟩ := vote_max_fold counts L a
      rcases List.mem_cons.mp hi with h | h
      · subst h
        have := hmax a (by simp)
        omega
      · exact ih' i h hlt
    · rw [if_neg hc] at hlt ⊢
      have ih' := ih m0 (fun x hx => hgt x (by simp [hx])) hpw'.2
      obtain ⟨hmem, _⟩ := vote_max_fold counts L m0
      rcases List.mem_cons.mp hi with h | h
      · subst h
        exact ih' i (by simp) hlt
      · rcases List.mem_cons.mp h with h | h
        · subst h
          rcases List.mem_cons.mp hmem with hr | hr
          · rw [hr] at hlt; omega
          · have hlt0 : m0 < L.foldl
                (fun max_idx i => if counts i > counts max_idx then i else max_idx) m0 :=
              hgt _ (by simp [hr])
            have := ih' m0 (by simp) hlt0
            omega
        · exact ih' i (by simp [h]) hlt

theorem vote_max_first (counts : Nat → Nat) (n : Nat) :
    ∀ i, i < vote_max counts n → counts i < counts (vote_max counts n) := by
  intro i hi
  unfold vote_max at hi ⊢
  have hmem := (vote_max_fold counts (List.range' 1 (n - 1)) 0).1
  apply vote_max_fold_first counts (List.range' 1 (n - 1)) 0
    (fun a ha => by rw [List.mem_range'_1] at ha; omega)
    (List.pairwise_lt_range' 1 (n - 1)) i _ hi
  rcases Nat.eq_zero_or_pos i with h | h
  · simp [h]
  · rcases List.mem_cons.mp hmem with hr | hr
    · rw [hr] at hi; omega
    · rw [List.mem_range'_1] at hr
      simp only [List.mem_cons, List.mem_range'_1]
      right
      omega

theorem vote_counts_eq_score (s : FS) (b size i : Nat) (hi : i < s.num_disks) :
    vote_counts
      (fun i j => memcmp_eq
        (memcpy_from (s.disk_maps i).data (b * BLOCK_SIZE) size)
        (memcpy_from (s.disk_maps j).data (b * BLOCK_SIZE) size) size)
      s.num_disks i = vote_score s b size i := by
  rw [vote_counts_apply _ (fun i j => memcmp_eq_symm _ _ _) _ _ hi]
  unfold vote_score
  congr 1
  apply Finset.filter_congr
  intro j _
  simp only [memcmp_eq_iff, memcpy_from]
  constructor
  · rintro ⟨h1, h2⟩
    exact ⟨h1, fun k hk => by have := h2 k hk; simp only [hk, if_true] at this; exact this.symm⟩
  · rintro ⟨h1, h2⟩
    exact ⟨h1, fun k hk => by simp only [hk, if_true]; exact (h2 k hk).symm⟩

/-- C32. In mode 2, with between 1 and `MAX_DISKS` mounted disks and a size of at
most a block, `raid_read` returns the copy of disk `m = raid_vote`, where `m`
is a mounted disk whose score is the highest and every disk before `m` has a
strictly lower score (`m` is the smallest index that maximises the score). -/
theorem raid2_read_picks_first_best (s : FS) (b size : Nat) (hmode : s.raid_mode = 2)
    (hn : 0 < s.num_disks) (hmax : s.num_disks ≤ MAX_DISKS) (hsize : size ≤ BLOCK_SIZE) :
    raid_vote s b size < s.num_disks ∧
    (∀ i, i < s.num_disks → vote_score s b size i ≤ vote_score s b size (raid_vote s b size)) ∧
    (∀ i, i < raid_vote s b size →
      vote_score s b size i < vote_score s b size (raid_vote s b size)) ∧
    (∀ k, k < size →
      raid_read s b size k
        = (s.disk_maps (raid_vote s b size)).data (b * BLOCK_SIZE + k)) := by
  have hlt := raid_vote_lt s b size hn
  refine ⟨hlt, fun i hi => ?_, fun i hi => ?_, fun k hk => raid_read_mode2 s b size hmode k hk⟩
  · rw [← vote_counts_eq_score s b size i hi, ← vote_counts_eq_score s b size _ hlt]
    exact (vote_max_spec _ _ hn).2 i hi
  · rw [← vote_counts_eq_score s b size i (by omega), ← vote_counts_eq_score s b size _ hlt]
    exact vote_max_first _ _ i hi

theorem raid2_read_picks_first_best_witness :
    ex_vote.raid_mode = 2 ∧ 0 < ex_vote.num_disks ∧ ex_vote.num_disks ≤ MAX_DISKS ∧
    8 ≤ BLOCK_SIZE ∧ raid_vote ex_vote 5 8 = 1 ∧
    raid_read ex_vote 5 8 0 = (ex_vote.disk_maps (raid_vote ex_vote 5 8)).data (5 * BLOCK_SIZE + 0) :=
  ⟨by decide!, by decide!, by decide!, by decide, by decide!,
   (raid2_read_picks_first_best ex_vote 5 8 (by decide!) (by decide!) (by decide!)
      (by decide)).2.2.2 0 (by decide)⟩

/-! ## What `wfs_init` writes -/

/-- Counterexample to C31 as stated: on two freshly formatted zero-filled images
`wfs_init` writes the entries `.` and `..` into data block 0 of both disks:
bytes 0, 32 and 33 of the data region change from 0 to 46, and bytes 28 to 31
and 60 to 63 hold the inode number 0. -/
theorem init_writes_data_block_zero :
    (formatted_volume.disk_maps 0).data 0 = 0 ∧
    ((wfs_init env0 formatted_volume).disk_maps 0).data 0 = 46 ∧
    ((wfs_init env0 formatted_volume).disk_maps 1).data 0 = 46 ∧
    (formatted_volume.disk_maps 1).data 32 = 0 ∧
    ((wfs_init env0 formatted_volume).disk_maps 1).data 32 = 46 ∧
    ((wfs_init env0 formatted_volume).disk_maps 1).data 33 = 46 ∧
    wfs_init env0 formatted_volume = fresh_volume 1 2 := by
  refine ⟨?_, ?_, ?_, ?_, ?_, ?_, rfl⟩ <;> decide!

/-- Amended C31. `wfs_init` changes nothing outside inode slot 0 of the inode
table and the first `BLOCK_SIZE` bytes of the data region (data block 0, to
which it writes the entries `.` and `..` when the root record is not yet a
directory of size 64 or more): the bitmaps, the superblocks, every other inode
slot and every data byte from offset 512 on are the same on every disk; and
with at least one disk, `wfs_init` run a second time changes nothing at all. -/
theorem init_changes_root_record_and_block_zero (env : Env) (s : FS) :
    (wfs_init env s).raid_mode = s.raid_mode ∧
    (wfs_init env s).num_disks = s.num_disks ∧
    (wfs_init env s).superblock = s.superblock ∧
    (∀ d, ((wfs_init env s).disk_maps d).sb = (s.disk_maps d).sb ∧
      ((wfs_init env s).disk_maps d).i_bitmap = (s.disk_maps d).i_bitmap ∧
      ((wfs_init env s).disk_maps d).d_bitmap = (s.disk_maps d).d_bitmap ∧
      (∀ m, m ≠ 0 → ((wfs_init env s).disk_maps d).inodes m = (s.disk_maps d).inodes m) ∧
      (∀ a, BLOCK_SIZE ≤ a → ((wfs_init env s).disk_maps d).data a = (s.disk_maps d).data a)) ∧
    (0 < s.num_disks → wfs_init env (wfs_init env s) = wfs_init env s) := by
  have hdata : ∀ (buf : Nat → Nat) (d a : Nat), BLOCK_SIZE ≤ a →
      ((raid_write s buf 0 BLOCK_SIZE).disk_maps d).data a = (s.disk_maps d).data a := by
    intro buf d a ha
    by_cases h0 : s.raid_mode = 0
    · rw [raid_write_data_stripe s buf 0 BLOCK_SIZE d h0]
      split_ifs
      · exact memcpy_to_outside _ _ _ _ _ (by simp only [Nat.zero_div, Nat.zero_mul]; omega)
      · rfl
    · by_cases h1 : s.raid_mode = 1 ∨ s.raid_mode = 2
      · rw [raid_write_data_mirror s buf 0 BLOCK_SIZE d h1]
        split_ifs
        · exact memcpy_to_outside _ _ _ _ _ (by omega)
        · rfl
      · rw [raid_write_other_mode s buf 0 BLOCK_SIZE h0 (fun h => h1 (Or.inl h))
          (fun h => h1 (Or.inr h))]
  by_cases hc : (load_inode s 0).mode &&& S_IFDIR = 0 ∨ (load_inode s 0).size < DENTRY_SIZE * 2
  · have hinit : wfs_init env s = store_inode (raid_write s
        (memcpy_to (memcpy_to (fun _ => 0) 0 (new_dentry_bytes [DOT] 0) DENTRY_SIZE)
          DENTRY_SIZE (new_dentry_bytes [DOT, DOT] 0) DENTRY_SIZE) 0 BLOCK_SIZE) 0
        { load_inode s 0 with
          mode := S_IFDIR ||| 0o755, nlinks := 2, uid := env.uid, gid := env.gid,
          size := DENTRY_SIZE * 2, atim := env.time 0, mtim := env.time 0,
          ctim := env.time 0, blocks := fun _ => 0 } := by
      unfold wfs_init
      simp only [hc, if_true]
    refine ⟨by rw [hinit]; simp, by rw [hinit]; simp, by rw [hinit]; simp, fun d => ?_,
      fun hn => ?_⟩
    · rw [hinit]
      refine ⟨by simp, by simp, by simp, fun m hm => ?_, fun a ha => ?_⟩
      · rw [store_inode_inodes]
        split_ifs
        · rw [update_noteq hm, raid_write_inodes]
        · rw [raid_write_inodes]
      · rw [store_inode_data]
        exact hdata _ d a ha
    · have hload : load_inode (wfs_init env s) 0 =
          { load_inode s 0 with
            mode := S_IFDIR ||| 0o755, nlinks := 2, uid := env.uid, gid := env.gid,
            size := DENTRY_SIZE * 2, atim := env.time 0, mtim := env.time 0,
            ctim := env.time 0, blocks := fun _ => 0 } := by
        rw [hinit, load_inode_store_inode _ _ _ _ (by simpa using hn), if_pos rfl]
      have hnc : ¬ ((load_inode (wfs_init env s) 0).mode &&& S_IFDIR = 0 ∨
          (load_inode (wfs_init env s) 0).size < DENTRY_SIZE * 2) := by
        rw [hload]
        simp only [lt_self_iff_false, or_false]
        decide
      generalize wfs_init env s = t at hnc ⊢
      unfold wfs_init
      simp only [hnc, if_false]
  · have hinit : wfs_init env s = s := by
      unfold wfs_init
      simp only [hc, if_false]
    rw [hinit]
    exact ⟨rfl, rfl, rfl, fun d => ⟨rfl, rfl, rfl, fun _ _ => rfl, fun _ _ => rfl⟩,
      fun _ => hinit⟩

theorem init_changes_root_record_and_block_zero_witness :
    0 < formatted_volume.num_disks ∧
    wfs_init env0 (wfs_init env0 formatted_volume) = wfs_init env0 formatted_volume :=
  ⟨by decide, (init_changes_root_record_and_block_zero env0 formatted_volume).2.2.2.2
    (by decide)⟩

/-! ## A full directory -/

/-- Counterexample to C34 as stated: a directory record with 112 entries
(`size = 112 * 32`) on a fresh volume.  `add_dentry` does not return `-ENOSPC`:
it returns 0, takes data block 1 for slot 7 of the directory and stores the
record with that block and the size 3616. -/
theorem add_dentry_uses_eighth_block :
    (add_dentry (fresh_volume 1 2) { load_inode (fresh_volume 1 2) 0 with size := 112 * 32 }
      [97] 5).1 = 0 ∧
    (add_dentry (fresh_volume 1 2) { load_inode (fresh_volume 1 2) 0 with size := 112 * 32 }
      [97] 5).2.1.blocks 7 = 1 ∧
    (load_inode (add_dentry (fresh_volume 1 2)
      { load_inode (fresh_volume 1 2) 0 with size := 112 * 32 } [97] 5).2.2 0).size = 3616 ∧
    data_bit (fresh_volume 1 2) 0 1 = 0 ∧
    data_bit (add_dentry (fresh_volume 1 2)
      { load_inode (fresh_volume 1 2) 0 with size := 112 * 32 } [97] 5).2.2 0 1 = 1 := by
  decide!

/-- Amended C34. A directory has `N_BLOCKS = 8` block slots of 16 entries:
`add_dentry` returns `-ENOSPC` and leaves the directory inode and the state
unchanged as soon as `dir.size / 32 ≥ 8 * 16 = 128` (the entry count fitting an
`int`); below 128 entries, when the block slot of the next entry is allocated,
it returns 0. -/
theorem add_dentry_full_at_128 (s : FS) (dir : wfs_inode) (name : List Nat) (n : Nat)
    (hint : dir.size / DENTRY_SIZE < 2 ^ 31) :
    N_BLOCKS * entries_per_block = 128 ∧
    (128 ≤ dir.size / DENTRY_SIZE → add_dentry s dir name n = (-ENOSPC, dir, s)) ∧
    (dir.size / DENTRY_SIZE < 128 →
      dir.blocks (dir.size / DENTRY_SIZE / entries_per_block) ≠ 0 →
      (add_dentry s dir name n).1 = 0) := by
  refine ⟨by decide, fun h => ?_, fun h hb => ?_⟩
  · have hge : dir.size / DENTRY_SIZE / entries_per_block ≥ N_BLOCKS := by
      have h16 : entries_per_block = 16 := by decide
      have h8 : N_BLOCKS = 8 := by decide
      rw [h16, h8]
      omega
    unfold add_dentry
    simp only [hge, if_true]
  · have hge : ¬ (dir.size / DENTRY_SIZE / entries_per_block ≥ N_BLOCKS) := by
      have h16 : entries_per_block = 16 := by decide
      have h8 : N_BLOCKS = 8 := by decide
      rw [h16, h8]
      omega
    unfold add_dentry
    simp only [hge, if_false, hb, lt_self_iff_false]

theorem add_dentry_full_at_128_witness :
    (load_inode (fresh_volume 1 2) 0).size / DENTRY_SIZE < 2 ^ 31 ∧
    128 ≤ ({ load_inode (fresh_volume 1 2) 0 with size := 4096 } : wfs_inode).size / DENTRY_SIZE ∧
    add_dentry (fresh_volume 1 2) { load_inode (fresh_volume 1 2) 0 with size := 4096 } [97] 5
      = (-ENOSPC, { load_inode (fresh_volume 1 2) 0 with size := 4096 }, fresh_volume 1 2) :=
  ⟨by decide!, by decide,
   (add_dentry_full_at_128 (fresh_volume 1 2)
      { load_inode (fresh_volume 1 2) 0 with size := 4096 } [97] 5 (by decide)).2.1 (by decide)⟩

/-! ## The link count of the parent directory -/

theorem add_dentry_num_disks (s : FS) (dir : wfs_inode) (name : List Nat) (n : Nat) :
    (add_dentry s dir name n).2.2.num_disks = s.num_disks :=
  (inv_add_dentry (Q := fun t => t.num_disks = s.num_disks)
    { raid_write := fun t buf b size h => by simpa using h
      store_inode := fun t m x h => by simpa using h
      free_data_block := fun t m h => by simpa using h
      allocate_data_block := fun t h => by simpa using h } s dir name n rfl)

/-- The record of the parent after a successful `wfs_mknod`: the record that
`traverse_path` returned, with the block and size set by `add_dentry` and the
new times; its `nlinks` is the one it had. -/
theorem wfs_mknod_parent_nlinks (env : Env) (s : FS) (path : List Nat) (mode : Nat)
    (hn : 0 < s.num_disks) (h : (wfs_mknod env s path mode).1 = 0) :
    (load_inode (wfs_mknod env s path mode).2 (traverse_path s (dirname path)).2.2).nlinks
      = (load_inode s (traverse_path s (dirname path)).2.2).nlinks := by
  obtain ⟨htr, _, _, n, _, had, hst⟩ := wfs_mknod_ok env s path mode h
  obtain ⟨_, B, sA, _, hrec, _⟩ := add_dentry_ok _ _ _ _ had
  rw [hst, load_inode_store_inode _ _ _ _
    (by rw [add_dentry_num_disks]; simpa using hn), if_pos rfl, hrec,
    ← traverse_path_inode s (dirname path) htr]

/-- The record of the parent after a successful `wfs_rmdir`: its `nlinks` is one
lower than before. -/
theorem wfs_rmdir_parent_nlinks (env : Env) (s : FS) (path : List Nat)
    (hn : 0 < s.num_disks) (h : (wfs_rmdir env s path).1 = 0) :
    (load_inode (wfs_rmdir env s path).2 (traverse_path s (dirname path)).2.2).nlinks
      = (load_inode s (traverse_path s (dirname path)).2.2).nlinks - 1 := by
  have htr : (traverse_path s (dirname path)).1 = 0 := by
    by_contra htr
    unfold wfs_rmdir at h
    simp only [ne_eq, htr, not_false_eq_true, if_true] at h
  have hino := traverse_path_inode s (dirname path) htr
  have hcfg : ∀ (t : FS) (cnt : Nat) (x : wfs_inode),
      t.num_disks = s.num_disks → (free_block_slots t x cnt).num_disks = s.num_disks := by
    intro t cnt x ht
    exact inv_free_block_slots (Q := fun u => u.num_disks = s.num_disks)
      { raid_write := fun t buf b size h => by simpa using h
        store_inode := fun t m x h => by simpa using h
        free_data_block := fun t m h => by simpa using h
        allocate_data_block := fun t h => by simpa using h } t x cnt ht
  unfold wfs_rmdir at h ⊢
  simp only [htr, ne_eq, not_true_eq_false, if_false] at h ⊢
  split_ifs at h ⊢ with h1 h2 h3 h4
  all_goals try dsimp only at h ⊢
  all_goals first
    | exact absurd h (by assumption)
    | (simp [ENOTDIR] at h; done)
    | (simp [ENOTEMPTY] at h; done)
    | (rw [load_inode_store_inode _ _ _ _ (by
        simp only [free_inode_num_disks]
        rw [hcfg _ _ _ (remove_dentry_frame s _ _).2.1]
        exact hn), if_pos rfl]
       simp only
       rw [hino])

theorem or_dir_bit (mode : Nat) : (mode ||| S_IFDIR) &&& S_IFDIR ≠ 0 := by
  intro h
  have h1 := congrArg (fun x => x.testBit 14) h
  have h2 : Nat.testBit S_IFDIR 14 = true := by decide
  simp [Nat.testBit_and, Nat.testBit_or, h2] at h1

/-- The record of the new inode after a successful `wfs_mknod`, when its number
is neither the number under which the parent was found nor the number in the
parent's record. -/
theorem wfs_mknod_new_record (env : Env) (s : FS) (path : List Nat) (mode : Nat)
    (hn : 0 < s.num_disks) (h : (wfs_mknod env s path mode).1 = 0) :
    ∃ n : Nat, (allocate_inode s).1 = (n : Int) ∧
      (n ≠ (traverse_path s (dirname path)).2.2 →
        n ≠ (traverse_path s (dirname path)).2.1.num →
        load_inode (wfs_mknod env s path mode).2 n = new_inode_record env n mode) := by
  obtain ⟨htr, _, _, n, hal, had, hst⟩ := wfs_mknod_ok env s path mode h
  obtain ⟨_, B, sA, hsA, hrec, hstA⟩ := add_dentry_ok _ _ _ _ had
  refine ⟨n, hal, fun h1 h2 => ?_⟩
  have hn1 : 0 < (store_inode (allocate_inode s).2 n (new_inode_record env n mode)).num_disks := by
    simpa using hn
  have hsAn : sA.num_disks = s.num_disks := by
    rcases hsA with ⟨_, _, e⟩ | ⟨_, _, e⟩ <;> rw [e] <;> simp
  have hsAl : load_inode sA n = new_inode_record env n mode := by
    rcases hsA with ⟨_, _, e⟩ | ⟨_, _, e⟩
    · rw [e, load_inode_store_inode _ _ _ _ (by simpa using hn), if_pos rfl]
    · rw [e]
      unfold load_inode
      rw [allocate_data_block_inodes]
      exact (by
        have := load_inode_store_inode (allocate_inode s).2 n n (new_inode_record env n mode)
          (by simpa using hn)
        rw [if_pos rfl] at this
        exact this)
  rw [hst, load_inode_store_inode _ _ _ _ (by rw [add_dentry_num_disks]; simpa using hn),
    if_neg h1, hstA, load_inode_store_inode _ _ _ _ (by simpa [hsAn] using hn), if_neg h2]
  unfold load_inode
  rw [raid_write_inodes]
  exact hsAl

theorem findSome_range'_first {β : Type} (f : Nat → Option β) :
    ∀ (len a : Nat) (v : β), (List.range' a len).findSome? f = some v →
      ∃ i, a ≤ i ∧ i < a + len ∧ f i = some v ∧ ∀ i', a ≤ i' → i' < i → f i' = none := by
  intro len
  induction len with
  | zero => intro a v h; simp at h
  | succ len ih =>
    intro a v h
    rw [List.range'_succ, List.findSome?_cons] at h
    cases hfa : f a with
    | some w =>
      rw [hfa] at h
      simp only [Option.some.injEq] at h
      subst h
      exact ⟨a, le_rfl, by omega, hfa, fun i' h1 h2 => by omega⟩
    | none =>
      rw [hfa] at h
      obtain ⟨i, h1, h2, h3, h4⟩ := ih (a + 1) v h
      refine ⟨i, by omega, by omega, h3, fun i' hi1 hi2 => ?_⟩
      rcases Nat.eq_or_lt_of_le hi1 with e | e
      · rw [← e]; exact hfa
      · exact h4 i' e hi2

/-- The slot that `find_slot` returns is the first slot that matches: it
matches, no slot of an earlier block slot matches and no earlier slot of the
same block matches. -/
theorem find_slot_first_match (s : FS) (dir : wfs_inode) (name : List Nat) (i j : Nat)
    (h : find_slot s dir name = some (i, j)) :
    entry_matches s dir name i j ∧
    (∀ i' j', i' < i → ¬ entry_matches s dir name i' j') ∧
    (∀ j', j' < j → ¬ entry_matches s dir name i j') := by
  refine ⟨find_slot_some s dir name i j h, fun i' j' hi' hm => ?_, fun j' hj' hm => ?_⟩
  · obtain ⟨_, hb, hj, hne, heq⟩ := hm
    unfold find_slot at h
    rw [List.range_eq_range'] at h
    obtain ⟨a, _, _, hfa, hbefore⟩ := findSome_range'_first _ _ _ _ h
    have hai : a = i := by
      by_cases hz : dir.blocks a = 0
      · simp [hz] at hfa
      · simp only [hz, if_false, Option.map_eq_some'] at hfa
        obtain ⟨j0, _, hj0⟩ := hfa
        simpa using congrArg Prod.fst hj0
    subst hai
    have := hbefore i' (Nat.zero_le _) hi'
    simp only [hb, if_false, Option.map_eq_none'] at this
    unfold find_in_block at this
    have h2 := List.find?_eq_none.mp this j' (List.mem_range.mpr hj)
    simp [hne, heq] at h2
  · exact find_slot_some_first s dir name i j h j' hj' ⟨hm.2.2.2.1, hm.2.2.2.2⟩

/-- The state after `remove_dentry` when `find_slot` returns `(i, j)`. -/
theorem remove_dentry_some (s : FS) (dir : wfs_inode) (name : List Nat) (i j : Nat)
    (h : find_slot s dir name = some (i, j)) :
    remove_dentry s dir name
      = (0, raid_write s
          (memcpy_to (raid_read s (dir.blocks i) BLOCK_SIZE) (DENTRY_SIZE * j) (fun _ => 0)
            DENTRY_SIZE)
          (dir.blocks i) BLOCK_SIZE) := by
  unfold remove_dentry
  rw [h]

theorem remove_dentry_none (s : FS) (dir : wfs_inode) (name : List Nat)
    (h : find_slot s dir name = none) : remove_dentry s dir name = (-ENOENT, s) := by
  unfold remove_dentry
  rw [h]

/-- For a name shorter than a slot (at most 31 bytes): when `remove_dentry`
finds the name and no other slot of the directory holds it, no slot matches
afterwards. -/
theorem remove_dentry_find_slot_none (s : FS) (dir : wfs_inode) (name : List Nat) (i j : Nat)
    (hmode : s.raid_mode = 0 ∨ s.raid_mode = 1 ∨ s.raid_mode = 2) (hn : 0 < s.num_disks)
    (hlen : name.length < DENTRY_SIZE)
    (h : find_slot s dir name = some (i, j))
    (hdup : ∀ i' j', entry_matches s dir name i' j' → dir.blocks i' = dir.blocks i ∧ j' = j) :
    find_slot (remove_dentry s dir name).2 dir name = none := by
  rw [remove_dentry_some s dir name i j h]
  simp only
  obtain ⟨_, _, hj, _, _⟩ := find_slot_some s dir name i j h
  cases hf : find_slot (raid_write s
      (memcpy_to (raid_read s (dir.blocks i) BLOCK_SIZE) (DENTRY_SIZE * j) (fun _ => 0)
        DENTRY_SIZE) (dir.blocks i) BLOCK_SIZE) dir name with
  | none => rfl
  | some p =>
    exfalso
    obtain ⟨i', j'⟩ := p
    obtain ⟨hi', hb', hj', hne', heq'⟩ := find_slot_some _ dir name i' j' hf
    by_cases hbb : dir.blocks i' = dir.blocks i
    · rw [hbb, raid_read_write_same s _ _ _ hmode hn] at hne' heq'
      by_cases hjj : j' = j
      · subst hjj
        simp [name_nonempty, memcpy_to, DENTRY_SIZE, MAX_NAME, BLOCK_SIZE, entries_per_block]
          at hne' hj'
      · have hout : ∀ k, k ≤ name.length →
            (fun a => if a < BLOCK_SIZE then
                memcpy_to (raid_read s (dir.blocks i) BLOCK_SIZE) (DENTRY_SIZE * j)
                  (fun _ => 0) DENTRY_SIZE a else 0) (DENTRY_SIZE * j' + k)
              = raid_read s (dir.blocks i) BLOCK_SIZE (DENTRY_SIZE * j' + k) := by
          intro k hk
          have hlt : DENTRY_SIZE * j' + k < BLOCK_SIZE := by
            simp only [DENTRY_SIZE, MAX_NAME, BLOCK_SIZE, entries_per_block] at *
            omega
          simp only [hlt, if_true]
          apply memcpy_to_outside
          simp only [DENTRY_SIZE, MAX_NAME, BLOCK_SIZE, entries_per_block] at *
          omega
        have hm : entry_matches s dir name i' j' := by
          refine ⟨hi', hb', hj', ?_, ?_⟩
          · rw [hbb]
            have := hout 0 (Nat.zero_le _)
            simp only [Nat.add_zero] at this
            simp only [name_nonempty] at hne' ⊢
            rw [← this]
            exact hne'
          · rw [hbb, ← strcmp_eq_congr (fun a => if a < BLOCK_SIZE then
                memcpy_to (raid_read s (dir.blocks i) BLOCK_SIZE) (DENTRY_SIZE * j)
                  (fun _ => 0) DENTRY_SIZE a else 0) _ name (DENTRY_SIZE * j') hout]
            exact heq'
        exact hjj (hdup i' j' hm).2
    · rw [raid_read_write_other s _ _ _ _ _ hbb (le_refl _) (le_refl _)] at hne' heq'
      exact hbb (hdup i' j' ⟨hi', hb', hj', hne', heq'⟩).1

/-- The slot that `remove_dentry` clears reads as 32 zero bytes afterwards and
every other byte of that block, and every other block, reads as before. -/
theorem remove_dentry_bytes (s : FS) (dir : wfs_inode) (name : List Nat) (i j : Nat)
    (hmode : s.raid_mode = 0 ∨ s.raid_mode = 1 ∨ s.raid_mode = 2) (hn : 0 < s.num_disks)
    (h : find_slot s dir name = some (i, j)) :
    (remove_dentry s dir name).1 = 0 ∧
    (∀ k, k < BLOCK_SIZE →
      raid_read (remove_dentry s dir name).2 (dir.blocks i) BLOCK_SIZE k
        = if DENTRY_SIZE * j ≤ k ∧ k < DENTRY_SIZE * j + DENTRY_SIZE then 0
          else raid_read s (dir.blocks i) BLOCK_SIZE k) ∧
    (∀ b, b ≠ dir.blocks i →
      raid_read (remove_dentry s dir name).2 b BLOCK_SIZE = raid_read s b BLOCK_SIZE) := by
  rw [remove_dentry_some s dir name i j h]
  refine ⟨rfl, fun k hk => ?_, fun b hb => ?_⟩
  · simp only
    rw [raid_read_write_same s _ _ _ hmode hn]
    simp only [hk, if_true, memcpy_to]
  · exact raid_read_write_other s _ _ _ _ _ hb (le_refl _) (le_refl _)

/-- C35. A sequence of calls on a fresh 2-disk mirror volume after which
`find_dentry` still finds a name that `remove_dentry` has just removed, in a
directory without duplicate names.  `mknod /a`, a 96-byte write to `/a` (32 zero
bytes, then 64 bytes `A`), `unlink /a`: data block 2 is free and keeps the bytes.
`mkdir /d` and `mknod /d/x`: `add_dentry` takes block 2 for `/d` (inode 1) and
writes only slot 0.  The names in the block of `/d` are `x` (slot 0), 64 bytes
`A` (slot 1, the string runs on into slot 2), 32 bytes `A` (slot 2); slots 3 to
15 are empty.  For the name of 32 bytes `A`, `remove_dentry` finds slot 2,
returns 0 and zeroes it; now the string of slot 1 ends after 32 bytes and
`find_dentry` returns 0 for the same name. -/
theorem remove_dentry_then_find_unterminated :
    (wfs_write env0 ex_stale1 path_a unterminated_block 0).1 = 96 ∧
    (wfs_unlink env0 ex_unterm2 path_a).1 = 0 ∧
    (wfs_mkdir env0 ex_unterm3 [47, 100] 0o755).1 = 0 ∧
    (wfs_mknod env0 ex_unterm4 path_d_x (S_IFREG ||| 0o644)).1 = 0 ∧
    (traverse_path ex_unterm5 [47, 100]).1 = 0 ∧
    (traverse_path ex_unterm5 [47, 100]).2.2 = 1 ∧
    (load_inode ex_unterm5 1).blocks 0 = 2 ∧
    (∀ i, i < N_BLOCKS → 0 < i → (load_inode ex_unterm5 1).blocks i = 0) ∧
    entry_name (raid_read ex_unterm5 2 BLOCK_SIZE) 0 = [120] ∧
    entry_name (raid_read ex_unterm5 2 BLOCK_SIZE) 1 = List.replicate 64 65 ∧
    entry_name (raid_read ex_unterm5 2 BLOCK_SIZE) 2 = name_a32 ∧
    (∀ j, j < entries_per_block → 2 < j →
      name_nonempty (raid_read ex_unterm5 2 BLOCK_SIZE) j = false) ∧
    find_slot ex_unterm5 (load_inode ex_unterm5 1) name_a32 = some (0, 2) ∧
    (remove_dentry ex_unterm5 (load_inode ex_unterm5 1) name_a32).1 = 0 ∧
    (find_dentry (remove_dentry ex_unterm5 (load_inode ex_unterm5 1) name_a32).2
      (load_inode ex_unterm5 1) name_a32).1 = 0 := by
  decide!

/-! ## The effect of a successful `add_dentry` -/

/-- C36, failing input: a sequence of top-level calls on a fresh 2-disk mirror
volume (formatted on zero-filled images) after which a slot that no call wrote
as an entry is not zero and is seen as an entry.  `mknod /a`, a 64-byte write
to `/a` whose bytes 32 to 63 are `e`, 27 zero bytes and the number 2,
`unlink /a`, `mkdir /d` (then `/d/e` does not resolve), `mknod /d/x`: all
return success.  Afterwards `/d` (inode 1) has size 32 (one entry was added),
its block slot 0 is data block 2, allocated in the bitmap; byte 32 of that
block, the first byte of slot 1, is `e`; `find_dentry` finds the name `e` with
inode number 2, `/d/e` resolves, `readdir /d` lists `.`, `..`, `x`, `e`, and
after `unlink /d/x` the call `rmdir /d` returns `-ENOTEMPTY`. -/
theorem stale_slot_seen_as_entry :
    (wfs_mknod env0 (fresh_volume 1 2) path_a (S_IFREG ||| 0o644)).1 = 0 ∧
    (wfs_write env0 ex_stale1 path_a forged_block 0).1 = 64 ∧
    (wfs_unlink env0 ex_stale2 path_a).1 = 0 ∧
    (wfs_mkdir env0 ex_stale3 [47, 100] 0o755).1 = 0 ∧
    (traverse_path ex_stale4 path_d_e).1 = -ENOENT ∧
    (wfs_mknod env0 ex_stale4 path_d_x (S_IFREG ||| 0o644)).1 = 0 ∧
    (traverse_path ex_stale5 [47, 100]).1 = 0 ∧
    (traverse_path ex_stale5 [47, 100]).2.2 = 1 ∧
    (load_inode ex_stale5 1).size = 32 ∧
    (load_inode ex_stale5 1).blocks 0 = 2 ∧
    data_bit ex_stale5 0 2 = 1 ∧
    raid_read ex_stale5 2 BLOCK_SIZE (DENTRY_SIZE * 1) = 101 ∧
    entry_name (raid_read ex_stale5 2 BLOCK_SIZE) 1 = [101] ∧
    (find_dentry ex_stale5 (load_inode ex_stale5 1) [101]).1 = 0 ∧
    (find_dentry ex_stale5 (load_inode ex_stale5 1) [101]).2.num = 2 ∧
    (traverse_path ex_stale5 path_d_e).1 = 0 ∧
    wfs_readdir ex_stale5 [47, 100] = (0, [[46], [46, 46], [120], [101]]) ∧
    (wfs_unlink env0 ex_stale5 path_d_x).1 = 0 ∧
    (wfs_rmdir env0 (wfs_unlink env0 ex_stale5 path_d_x).2 [47, 100]).1 = -ENOTEMPTY := by
  decide!

/-! ## A write and the content of other files -/

theorem ex_reuse_indirect_low :
    ∀ k, k < 16 →
      indirect_pointers ex_reuse (load_inode ex_reuse 3) k
        = if k = 0 then 4 else if k = 1 then 6 else 0 := by
  decide!

theorem ex_reuse_indirect_16 :
    ∀ k, k < 32 → 16 ≤ k → indirect_pointers ex_reuse (load_inode ex_reuse 3) k = 0 := by
  decide!

theorem ex_reuse_indirect_32 :
    ∀ k, k < 48 → 32 ≤ k → indirect_pointers ex_reuse (load_inode ex_reuse 3) k = 0 := by
  decide!

theorem ex_reuse_indirect_48 :
    ∀ k, k < 64 → 48 ≤ k → indirect_pointers ex_reuse (load_inode ex_reuse 3) k = 0 := by
  decide!

/-- C38, failing input: on the volume reached from a fresh 2-disk mirror volume
by the operations `reuse_ops`, the live inodes are 0 (the root, block 1), 1
(`/d`, block 2), 2 (the regular file `/h`, no block) and 3 (the regular file
`/f`: indirect block 3 with entries 4 and 6), so that no two of them share a
data block; block 6 is free.  `wfs_read` of 1 byte of `/f` at offset 3584
returns the byte 0.  The write of the byte 9 to `/h` at offset 0 returns 1 (it
takes block 6), and afterwards the same `wfs_read` of `/f` returns the byte 9. -/
theorem write_changes_other_file :
    (∀ k, k < INDIRECT_BLOCK_ENTRIES →
      indirect_pointers ex_reuse (load_inode ex_reuse 3) k
        = if k = 0 then 4 else if k = 1 then 6 else 0) ∧
    (∀ i, i < 32 → inode_bit ex_reuse 0 i = if i < 4 then 1 else 0) ∧
    (∀ k, k < N_BLOCKS → (load_inode ex_reuse 0).blocks k = if k = 0 then 1 else 0) ∧
    (∀ k, k < N_BLOCKS → (load_inode ex_reuse 1).blocks k = if k = 0 then 2 else 0) ∧
    (∀ k, k < N_BLOCKS → (load_inode ex_reuse 2).blocks k = 0) ∧
    (∀ k, k < N_BLOCKS → (load_inode ex_reuse 3).blocks k = if k = IND_BLOCK then 3 else 0) ∧
    data_bit ex_reuse 0 6 = 0 ∧
    (traverse_path ex_reuse path_f).1 = 0 ∧ (traverse_path ex_reuse path_f).2.2 = 3 ∧
    (load_inode ex_reuse 3).mode &&& S_IFREG ≠ 0 ∧
    (traverse_path ex_reuse path_h).1 = 0 ∧ (traverse_path ex_reuse path_h).2.2 = 2 ∧
    (load_inode ex_reuse 2).mode &&& S_IFREG ≠ 0 ∧
    wfs_read ex_reuse path_f 1 3584 = (1, [0]) ∧
    (wfs_write env0 ex_reuse path_h [9] 0).1 = 1 ∧
    wfs_read (wfs_write env0 ex_reuse path_h [9] 0).2 path_f 1 3584 = (1, [9]) := by
  refine ⟨fun k hk => ?_, by decide!⟩
  have h64 : INDIRECT_BLOCK_ENTRIES = 64 := by decide
  rw [h64] at hk
  by_cases h16 : k < 16
  · exact ex_reuse_indirect_low k h16
  · have h0 : k ≠ 0 := by omega
    have h1 : k ≠ 1 := by omega
    rw [if_neg h0, if_neg h1]
    by_cases h32 : k < 32
    · exact ex_reuse_indirect_16 k h32 (by omega)
    · by_cases h48 : k < 48
      · exact ex_reuse_indirect_32 k h48 (by omega)
      · exact ex_reuse_indirect_48 k hk (by omega)

/-! ## The calls that only read -/

theorem load_inode_call_eq (s : FS) (n : Nat) : load_inode_call s n = (load_inode s n, s) := rfl

theorem raid_read_call_eq (s : FS) (b size : Nat) :
    raid_read_call s b size = (raid_read s b size, s) := rfl

theorem read_indirect_pointers_call_eq (s : FS) (inode : wfs_inode) :
    read_indirect_pointers_call s inode = (read_indirect_pointers s inode, s) := by
  unfold read_indirect_pointers_call read_indirect_pointers
  split_ifs <;> simp [raid_read_call_eq]

theorem find_dentry_blocks_eq (s : FS) (dir_inode : wfs_inode) (name : List Nat) :
    ∀ L : List Nat, find_dentry_blocks dir_inode name L s
      = (match L.findSome? (fun i =>
            if dir_inode.blocks i = 0 then none
            else (find_in_block (raid_read s (dir_inode.blocks i) BLOCK_SIZE) name).map
              (fun j => (i, j))) with
          | some (i, j) => (0, dentry_at (raid_read s (dir_inode.blocks i) BLOCK_SIZE) j)
          | none => (-ENOENT, { name := fun _ => 0, num := 0 }), s) := by
  intro L
  induction L with
  | nil => rfl
  | cons i rest ih =>
    rw [find_dentry_blocks, List.findSome?_cons]
    by_cases hz : dir_inode.blocks i = 0
    · simp only [hz, if_true]
      exact ih
    · simp only [hz, if_false, raid_read_call_eq]
      cases hf : find_in_block (raid_read s (dir_inode.blocks i) BLOCK_SIZE) name with
      | none => simpa using ih
      | some j => simp

theorem find_dentry_call_eq (s : FS) (dir_inode : wfs_inode) (name : List Nat) :
    find_dentry_call s dir_inode name = (find_dentry s dir_inode name, s) := by
  unfold find_dentry_call find_dentry find_slot
  rw [find_dentry_blocks_eq]

theorem traverse_loop_call_eq (s : FS) :
    ∀ (tokens : List (List Nat)) (x : wfs_inode) (n : Nat),
      traverse_loop_call tokens x n s = (traverse_loop s tokens x n, s) := by
  intro tokens
  induction tokens with
  | nil => intro x n; rfl
  | cons token rest ih =>
    intro x n
    rw [traverse_loop_call, traverse_loop]
    by_cases ht : token = []
    · simp only [ht, if_true]
      exact ih x n
    · simp only [ht, if_false, find_dentry_call_eq, load_inode_call_eq]
      split_ifs
      · rfl
      · rfl
      · exact ih _ _

theorem traverse_path_call_eq (s : FS) (path : List Nat) :
    traverse_path_call s path = (traverse_path s path, s) := by
  unfold traverse_path_call traverse_path
  simp only [load_inode_call_eq]
  split_ifs
  · rfl
  · exact traverse_loop_call_eq s _ _ _

theorem wfs_getattr_call_eq (s : FS) (path : List Nat) :
    wfs_getattr_call s path = (wfs_getattr s path, s) := by
  unfold wfs_getattr_call wfs_getattr
  simp only [traverse_path_call_eq]
  split_ifs <;> rfl

theorem wfs_read_loop_call_eq (s : FS) (inode : wfs_inode) :
    ∀ (fuel size offset : Nat) (out : List Nat),
      wfs_read_loop_call inode fuel size offset out s
        = (wfs_read_loop s inode fuel size offset out, s) := by
  intro fuel
  induction fuel with
  | zero => intro size offset out; rfl
  | succ fuel ih =>
    intro size offset out
    rw [wfs_read_loop_call, wfs_read_loop]
    simp only [raid_read_call_eq, read_indirect_pointers_call_eq]
    split_ifs <;> first | rfl | exact ih _ _ _

theorem wfs_read_call_eq (s : FS) (path : List Nat) (size offset : Nat) :
    wfs_read_call s path size offset = (wfs_read s path size offset, s) := by
  unfold wfs_read_call wfs_read
  simp only [traverse_path_call_eq, wfs_read_loop_call_eq]
  split_ifs <;> rfl

theorem wfs_readdir_blocks_eq (s : FS) (dir_inode : wfs_inode) :
    ∀ (L : List Nat) (acc : List (List Nat)),
      wfs_readdir_blocks dir_inode L acc s
        = (L.foldl (fun acc i =>
            if dir_inode.blocks i = 0 then acc
            else readdir_block (raid_read s (dir_inode.blocks i) BLOCK_SIZE) acc) acc, s) := by
  intro L
  induction L with
  | nil => intro acc; rfl
  | cons i rest ih =>
    intro acc
    rw [wfs_readdir_blocks, List.foldl_cons]
    by_cases hz : dir_inode.blocks i = 0
    · simp only [hz, if_true]
      exact ih acc
    · simp only [hz, if_false, raid_read_call_eq]
      exact ih _

theorem wfs_readdir_call_eq (s : FS) (path : List Nat) :
    wfs_readdir_call s path = (wfs_readdir s path, s) := by
  unfold wfs_readdir_call wfs_readdir
  simp only [traverse_path_call_eq, wfs_readdir_blocks_eq]
  split_ifs <;> rfl

/-- C39. Each of `wfs_getattr`, `wfs_read`, `wfs_readdir`, `traverse_path` and
`find_dentry`, run as a call that is handed the disk images and hands them back
after every step of its body, yields the value of the function and the images
exactly as they were, whatever status it returns; and when `wfs_getattr`
returns 0 it reports the size of the inode and the block count
`⌈size / 512⌉`, the least `k` with `size ≤ 512 * k`. -/
theorem read_only_calls_keep_images (s : FS) (path name : List Nat) (dir_inode : wfs_inode)
    (size offset : Nat) :
    wfs_getattr_call s path = (wfs_getattr s path, s) ∧
    wfs_read_call s path size offset = (wfs_read s path size offset, s) ∧
    wfs_readdir_call s path = (wfs_readdir s path, s) ∧
    traverse_path_call s path = (traverse_path s path, s) ∧
    find_dentry_call s dir_inode name = (find_dentry s dir_inode name, s) ∧
    ((wfs_getattr_call s path).1.1 = 0 →
      (wfs_getattr_call s path).1.2.st_size = (traverse_path_call s path).1.2.1.size ∧
      (wfs_getattr_call s path).1.2.st_size ≤ 512 * (wfs_getattr_call s path).1.2.st_blocks ∧
      (∀ k, (wfs_getattr_call s path).1.2.st_size ≤ 512 * k →
        (wfs_getattr_call s path).1.2.st_blocks ≤ k) ∧
      (wfs_getattr_call s path).1.2.st_blksize = 512) ∧
    ((wfs_getattr_call s path).1.1 ≠ 0 →
      (wfs_getattr_call s path).1.1 = (traverse_path_call s path).1.1) := by
  refine ⟨wfs_getattr_call_eq s path, wfs_read_call_eq s path size offset,
    wfs_readdir_call_eq s path, traverse_path_call_eq s path,
    find_dentry_call_eq s dir_inode name, fun h => ?_, fun h => ?_⟩
  · unfold wfs_getattr_call at h ⊢
    by_cases htr : (traverse_path_call s path).1.1 = 0
    · simp only [htr, ne_eq, not_true_eq_false, if_false]
      refine ⟨trivial, by omega, fun k hk => by omega, trivial⟩
    · simp only [ne_eq, htr, not_false_eq_true, if_true] at h
  · unfold wfs_getattr_call at h ⊢
    by_cases htr : (traverse_path_call s path).1.1 = 0
    · simp only [htr, ne_eq, not_true_eq_false, if_false] at h
    · simp only [ne_eq, htr, not_false_eq_true, if_true]

/-! ## The primitives with the C integer types -/

theorem wrap_int_of_lt (v : Nat) (h : v < 2 ^ 31) : wrap_int (v : Int) = (v : Int) := by
  unfold wrap_int
  have h1 : ((v : Int) % 2 ^ 32).toNat = v := by
    have : ((v : Int) % 2 ^ 32) = (v : Int) :=
      Int.emod_eq_of_lt (Int.ofNat_nonneg _) (by exact_mod_cast (by omega : v < 2 ^ 32))
    rw [this, Int.toNat_ofNat]
  rw [h1, to_int_of_lt v h]

theorem to_off_t_of_lt (v : Nat) (h : v < 2 ^ 63) : to_off_t (v : Int) = (v : Int) := by
  unfold to_off_t
  have h1 : ((v : Int) + 2 ^ 63) % 2 ^ 64 = (v : Int) + 2 ^ 63 :=
    Int.emod_eq_of_lt (by omega) (by omega)
  omega

/-- Where the stripe index times 512 fits an `int` (stripe index below 2^22)
the offset of the stripe branch is the one taken in `ℕ`. -/
theorem stripe_disk_offset_in_range (s : FS) (b : Nat)
    (hb : b / s.num_disks < 2 ^ 22) (hp : s.superblock.d_blocks_ptr < 2 ^ 62) :
    stripe_disk_offset s b
      = ((s.superblock.d_blocks_ptr + b / s.num_disks * BLOCK_SIZE : Nat) : Int) := by
  unfold stripe_disk_offset
  simp only
  rw [to_int_of_lt _ (by omega)]
  have h2 : ((b / s.num_disks : Nat) : Int) * (BLOCK_SIZE : Int)
      = ((b / s.num_disks * BLOCK_SIZE : Nat) : Int) := by push_cast; rfl
  have h3 : b / s.num_disks * BLOCK_SIZE < 2 ^ 31 := by unfold BLOCK_SIZE; omega
  rw [h2, wrap_int_of_lt _ h3]
  have h4 : (s.superblock.d_blocks_ptr : Int) + ((b / s.num_disks * BLOCK_SIZE : Nat) : Int)
      = ((s.superblock.d_blocks_ptr + b / s.num_disks * BLOCK_SIZE : Nat) : Int) := by
    push_cast; rfl
  rw [h4, to_off_t_of_lt _ (by omega)]

theorem mirror_disk_offset_in_range (s : FS) (b : Nat)
    (hb : b < 2 ^ 52) (hp : s.superblock.d_blocks_ptr < 2 ^ 62) :
    mirror_disk_offset s b = ((s.superblock.d_blocks_ptr + b * BLOCK_SIZE : Nat) : Int) := by
  unfold mirror_disk_offset
  have h2 : ((b : Nat) : Int) * (BLOCK_SIZE : Int) = ((b * BLOCK_SIZE : Nat) : Int) := by
    push_cast; rfl
  have h3 : b * BLOCK_SIZE < 2 ^ 62 := by unfold BLOCK_SIZE; omega
  rw [h2, to_off_t_of_lt _ (by omega)]
  have h4 : (s.superblock.d_blocks_ptr : Int) + ((b * BLOCK_SIZE : Nat) : Int)
      = ((s.superblock.d_blocks_ptr + b * BLOCK_SIZE : Nat) : Int) := by
    push_cast; rfl
  rw [h4, to_off_t_of_lt _ (by omega)]

/-- A write that starts in the data region changes the data region only. -/
theorem image_write_data (sb : wfs_sb) (d : Disk) (a : Nat) (buf : Nat → Nat) (size : Nat)
    (h1 : sb.d_bitmap_ptr ≤ sb.i_blocks_ptr) (h2 : sb.i_blocks_ptr ≤ sb.d_blocks_ptr)
    (ha : sb.d_blocks_ptr ≤ a) :
    image_write sb d a buf size
      = { d with data := memcpy_to d.data (a - sb.d_blocks_ptr) buf size } := by
  unfold image_write
  cases d with
  | mk dsb dib ddb din dda =>
    simp only [Disk.mk.injEq, true_and]
    refine ⟨?_, ?_, ?_, ?_⟩
    · funext k
      rw [if_neg]
      omega
    · funext k
      rw [if_neg]
      omega
    · funext n
      rw [if_neg]
      omega
    · funext k
      unfold memcpy_to
      by_cases hk : a ≤ sb.d_blocks_ptr + k ∧ sb.d_blocks_ptr + k < a + size
      · rw [if_pos hk, if_pos (by omega)]
        congr 1
        omega
      · rw [if_neg hk, if_neg (by omega)]

theorem image_read_data (sb : wfs_sb) (d : Disk) (a size : Nat)
    (h1 : sb.i_bitmap_ptr ≤ sb.d_bitmap_ptr)
    (h2 : sb.d_bitmap_ptr ≤ sb.i_blocks_ptr) (h3 : sb.i_blocks_ptr ≤ sb.d_blocks_ptr)
    (ha : sb.d_blocks_ptr ≤ a) :
    image_read sb d a size = memcpy_from d.data (a - sb.d_blocks_ptr) size := by
  funext k
  unfold image_read memcpy_from image_byte
  by_cases hk : k < size
  · simp only [hk, if_true]
    rw [if_neg (by omega), if_neg (by omega), if_neg (by omega), if_neg (by omega)]
    congr 1
    omega
  · simp only [hk, if_false]

/-- For a layout in the order of `wfs.h` and a block number whose offset fits
the C type (stripe index below 2^22 in mode 0, block number below 2^52 in the
mirror modes), `raid_write_int` is `raid_write`. -/
theorem raid_write_int_eq (s : FS) (buf : Nat → Nat) (b size : Nat)
    (h2 : s.superblock.d_bitmap_ptr ≤ s.superblock.i_blocks_ptr)
    (h3 : s.superblock.i_blocks_ptr ≤ s.superblock.d_blocks_ptr)
    (h1 : s.superblock.i_bitmap_ptr ≤ s.superblock.d_bitmap_ptr)
    (hp : s.superblock.d_blocks_ptr < 2 ^ 62)
    (hn : s.raid_mode = 0 → 0 < s.num_disks ∧ b / s.num_disks < 2 ^ 22)
    (hb : b < 2 ^ 52) :
    raid_write_int s buf b size = some (raid_write s buf b size) := by
  unfold raid_write_int raid_write
  by_cases h0 : s.raid_mode = 0
  · obtain ⟨hpos, hlt⟩ := hn h0
    have hne : s.num_disks ≠ 0 := by omega
    simp only [h0, if_true, hne, if_false, stripe_disk_offset_in_range s b hlt hp]
    rw [if_neg (by omega)]
    simp only [Int.toNat_ofNat, Option.some.injEq]
    congr 1
    funext i
    split_ifs
    · rw [image_write_data _ _ _ _ _ h2 h3 (by omega), Nat.add_sub_cancel_left]
    · rfl
  · simp only [h0, if_false]
    by_cases h12 : s.raid_mode = 1 ∨ s.raid_mode = 2
    · simp only [h12, if_true, mirror_disk_offset_in_range s b hb hp]
      rw [if_neg (by omega)]
      simp only [Int.toNat_ofNat, Option.some.injEq]
      congr 1
      funext i
      split_ifs
      · rw [image_write_data _ _ _ _ _ h2 h3 (by omega), Nat.add_sub_cancel_left]
      · rfl
    · simp only [h12, if_false]

/-- Under the same conditions `raid_read_int` is `raid_read`. -/
theorem raid_read_int_eq (s : FS) (b size : Nat)
    (h2 : s.superblock.d_bitmap_ptr ≤ s.superblock.i_blocks_ptr)
    (h3 : s.superblock.i_blocks_ptr ≤ s.superblock.d_blocks_ptr)
    (h1 : s.superblock.i_bitmap_ptr ≤ s.superblock.d_bitmap_ptr)
    (hp : s.superblock.d_blocks_ptr < 2 ^ 62)
    (hn : s.raid_mode = 0 → 0 < s.num_disks ∧ b / s.num_disks < 2 ^ 22)
    (hb : b < 2 ^ 52) :
    raid_read_int s b size = some (raid_read s b size) := by
  have hrd : ∀ i, image_read s.superblock (s.disk_maps i)
      (s.superblock.d_blocks_ptr + b * BLOCK_SIZE) size
      = memcpy_from (s.disk_maps i).data (b * BLOCK_SIZE) size := by
    intro i
    rw [image_read_data _ _ _ _ h1 h2 h3 (by omega), Nat.add_sub_cancel_left]
  unfold raid_read_int raid_read
  by_cases h0 : s.raid_mode = 0
  · obtain ⟨hpos, hlt⟩ := hn h0
    have hne : s.num_disks ≠ 0 := by omega
    simp only [h0, if_true, hne, if_false, stripe_disk_offset_in_range s b hlt hp]
    rw [if_neg (by omega)]
    simp only [Int.toNat_ofNat, Option.some.injEq]
    rw [image_read_data _ _ _ _ h1 h2 h3 (by omega), Nat.add_sub_cancel_left]
  · have hlt : ¬ (((s.superblock.d_blocks_ptr + b * BLOCK_SIZE : Nat) : Int)
        < (s.superblock.i_bitmap_ptr : Int)) := by omega
    simp only [h0, if_false, mirror_disk_offset_in_range s b hb hp, hlt, Int.toNat_ofNat, hrd]
    by_cases hm1 : s.raid_mode = 1
    · simp only [hm1, if_true]
    · simp only [hm1, if_false]
      by_cases hm2 : s.raid_mode = 2
      · simp only [hm2, if_true]
        rfl
      · simp only [hm2, if_false]

/-- A one-byte write into the data bitmap changes that byte only. -/
theorem image_write_d_bitmap (sb : wfs_sb) (d : Disk) (a : Nat) (buf : Nat → Nat)
    (h1 : sb.i_bitmap_ptr ≤ sb.d_bitmap_ptr) (h3 : sb.i_blocks_ptr ≤ sb.d_blocks_ptr)
    (ha : sb.d_bitmap_ptr ≤ a) (ha2 : a < sb.i_blocks_ptr) :
    image_write sb d a buf 1
      = { d with d_bitmap := update d.d_bitmap (a - sb.d_bitmap_ptr) (buf 0) } := by
  unfold image_write
  cases d with
  | mk dsb dib ddb din dda =>
    simp only [Disk.mk.injEq, true_and]
    refine ⟨?_, ?_, ?_, ?_⟩
    · funext k
      rw [if_neg]
      omega
    · funext k
      rw [update_apply]
      by_cases hk : k = a - sb.d_bitmap_ptr
      · rw [if_pos hk, if_pos (by omega)]
        congr 1
        omega
      · rw [if_neg hk, if_neg (by omega)]
    · funext n
      rw [if_neg]
      unfold INODE_SIZE
      omega
    · funext k
      rw [if_neg]
      omega

/-- For a layout in the order of `wfs.h` and a block number that fits an `int`
and whose bit lies in the data bitmap (its byte is before the inode table),
`free_data_block_int` is `free_data_block`. -/
theorem free_data_block_int_eq (s : FS) (b : Nat)
    (h1 : s.superblock.i_bitmap_ptr ≤ s.superblock.d_bitmap_ptr)
    (h3 : s.superblock.i_blocks_ptr ≤ s.superblock.d_blocks_ptr)
    (hb : b < 2 ^ 31)
    (hin : s.superblock.d_bitmap_ptr + b / 8 < s.superblock.i_blocks_ptr) :
    free_data_block_int s b = free_data_block s b := by
  unfold free_data_block_int free_data_block
  rw [to_int_of_lt b hb, if_neg (by omega)]
  simp only [Int.toNat_ofNat]
  congr 1
  funext i
  split_ifs
  · rw [image_write_d_bitmap _ _ _ _ h1 h3 (by omega) hin]
    unfold image_byte
    rw [if_neg (by omega), if_neg (by omega), if_pos hin]
    congr 1
    funext k
    rw [update_apply]
    unfold clear_bit
    simp only [Nat.add_sub_cancel_left]
    split_ifs with hk
    · rw [hk]
    · rfl
  · rfl

theorem free_block_slots_with_eq (s : FS) (inode : wfs_inode) (count : Nat) :
    free_block_slots_with free_data_block s inode count = free_block_slots s inode count := rfl

theorem free_indirect_blocks_with_eq (s : FS) (inode : wfs_inode) :
    free_indirect_blocks_with free_data_block s inode = free_indirect_blocks s inode := rfl

/-- With `free_data_block` as the function that frees a block,
`wfs_unlink_with` is `wfs_unlink`. -/
theorem wfs_unlink_with_eq (env : Env) (s : FS) (path : List Nat) :
    wfs_unlink_with free_data_block env s path = wfs_unlink env s path := rfl

theorem inv_ops_run {Q : FS → Prop} (hQ : prim_invariant Q) (env : Env) :
    ∀ (ops : List Op) (s : FS), Q s → Q (ops.foldl (fun s op => op.run env s) s) := by
  intro ops
  induction ops with
  | nil => intro s h; exact h
  | cons op rest ih =>
    intro s h
    rw [List.foldl_cons]
    exact ih _ (inv_op_run hQ env s op h)

/-- C4, failing input: a 2-disk stripe volume with 2^24 + 32 data blocks (what
`mkfs -r 0 -i 32 -b 16777248` makes, on images of 2130432 bytes, and `wfs_init`
initialises), `raid_write` of 512 bytes 7 to block `b` = 2^24.  The claim places
the bytes at offset `d_blocks_ptr + (b div 2) * 512 = d_blocks_ptr + 2^32` of
disk 0.  In the code `stripe_index * BLOCK_SIZE` is an `int` product, 2^23 * 512
= 2^32 wraps to 0 and `disk_offset` is `d_blocks_ptr` = 2114048: the 512 bytes
from there on disk 0, the place of data block 0 (whose first byte was 46, the
`.` of the root), now hold 7, the bytes at the claimed offset are as before,
and `raid_read` of block 0 returns the bytes written to block 2^24. -/
theorem raid0_write_wraps_stripe_offset :
    (mkfs_main env0 0 2 32 16777248 (fun _ => 2130432) (fun _ => zero_disk)).1 = 0 ∧
    wide_volume.raid_mode = 0 ∧ wide_volume.num_disks = 2 ∧
    wide_volume.superblock.num_data_blocks = 16777248 ∧
    wide_volume.superblock.d_blocks_ptr = 2114048 ∧
    2 ^ 24 < wide_volume.superblock.num_data_blocks ∧
    2 ^ 24 % wide_volume.num_disks = 0 ∧
    2 ^ 24 / wide_volume.num_disks * BLOCK_SIZE = 2 ^ 32 ∧
    stripe_disk_offset wide_volume (2 ^ 24) = 2114048 ∧
    (raid_write_int wide_volume (fun _ => 7) (2 ^ 24) 512).isSome = true ∧
    image_byte wide_volume.superblock (wide_volume.disk_maps 0) 2114048 = 46 ∧
    (∀ k, k < 512 →
      image_byte wide_volume.superblock (wide_written.disk_maps 0) (2114048 + k) = 7) ∧
    (∀ k, k < 512 →
      image_byte wide_volume.superblock (wide_written.disk_maps 0) (2114048 + 2 ^ 32 + k)
        = image_byte wide_volume.superblock (wide_volume.disk_maps 0)
            (2114048 + 2 ^ 32 + k)) ∧
    (raid_read_int wide_volume 0 512).map (fun f => f 0) = some 46 ∧
    (raid_read_int wide_written 0 512).map (fun f => (List.range 512).map f)
      = some (List.replicate 512 7) := by
  decide!

/-- C37, failing input: on the same 2-disk stripe volume with 2^24 + 32 data
blocks, the block numbers 2 and 2 + 2^24 are distinct and below
`num_data_blocks`, and the pairs (`b mod 2`, `b div 2`) differ; but the `int`
product `stripe_index * BLOCK_SIZE` gives both the same `disk_offset` on the
same disk.  `raid_read` of block 2 + 2^24 returns zero bytes before and the
bytes 7 after `raid_write` of 512 bytes 7 to block 2. -/
theorem raid0_distinct_blocks_share_offset :
    (mkfs_main env0 0 2 32 16777248 (fun _ => 2130432) (fun _ => zero_disk)).1 = 0 ∧
    wide_volume.raid_mode = 0 ∧ wide_volume.num_disks = 2 ∧
    2 < wide_volume.superblock.num_data_blocks ∧
    2 + 2 ^ 24 < wide_volume.superblock.num_data_blocks ∧
    2 % wide_volume.num_disks = (2 + 2 ^ 24) % wide_volume.num_disks ∧
    2 / wide_volume.num_disks ≠ (2 + 2 ^ 24) / wide_volume.num_disks ∧
    stripe_disk_offset wide_volume 2 = stripe_disk_offset wide_volume (2 + 2 ^ 24) ∧
    (raid_read_int wide_volume (2 + 2 ^ 24) 512).map (fun f => (List.range 512).map f)
      = some (List.replicate 512 0) ∧
    (raid_write_int wide_volume (fun _ => 7) 2 512).isSome = true ∧
    (raid_read_int wide_written2 (2 + 2 ^ 24) 512).map (fun f => (List.range 512).map f)
      = some (List.replicate 512 7) := by
  decide!

/-- C25, failing input: on the 2-disk stripe volume reached from a fresh volume
by the operations `spill_ops`, the inode bitmap and the inode table of disk 1
equal those of disk 0; the regular file `/f` (inode 3) has indirect block 3,
whose entry 1 is 5454.  `unlink /f` returns 0; it calls `free_data_block(5454)`,
whose `clear_bit` clears bit 6 of the byte that lies 5454 / 8 = 681 bytes after
`d_bitmap_ptr` = 348: byte 1029, which is byte 5 of inode slot 1 (the inode
table starts at 512), the second byte of `mode` of the directory `/d`.  In
stripe mode only disk 0 is changed: afterwards the byte is 1 on disk 0 and 65
on disk 1, the record of inode 1 has mode 0755 on disk 0 and `S_IFDIR | 0755`
on disk 1, the inode tables of the two disks differ, and `/d/x`, which resolved
before, gives `-ENOTDIR`. -/
theorem unlink_clears_bit_in_inode_table :
    inode_regions_identical ex_spill ∧
    ¬ inode_regions_identical (wfs_unlink_with free_data_block_int env0 ex_spill path_f).2 ∧
    (ex_spill.raid_mode = 0 ∧ ex_spill.num_disks = 2 ∧
      ex_spill.superblock.d_bitmap_ptr = 348 ∧ ex_spill.superblock.i_blocks_ptr = 512 ∧
      ex_spill.superblock.num_data_blocks = 64 ∧
      (traverse_path ex_spill path_f).1 = 0 ∧ (traverse_path ex_spill path_f).2.2 = 3 ∧
      (load_inode ex_spill 3).mode &&& S_IFREG ≠ 0 ∧
      (load_inode ex_spill 3).blocks IND_BLOCK = 3 ∧
      indirect_pointers ex_spill (load_inode ex_spill 3) 0 = 4 ∧
      indirect_pointers ex_spill (load_inode ex_spill 3) 1 = 5454 ∧
      348 + 5454 / 8 = 512 + INODE_SIZE * 1 + 5 ∧ 5454 % 8 = 6 ∧
      image_byte ex_spill.superblock (ex_spill.disk_maps 0) 1029 = 65 ∧
      image_byte ex_spill.superblock (ex_spill.disk_maps 1) 1029 = 65 ∧
      (traverse_path ex_spill path_d_x).1 = 0 ∧
      (wfs_unlink_with free_data_block_int env0 ex_spill path_f).1 = 0 ∧
      image_byte ex_spill.superblock
        ((wfs_unlink_with free_data_block_int env0 ex_spill path_f).2.disk_maps 0) 1029 = 1 ∧
      image_byte ex_spill.superblock
        ((wfs_unlink_with free_data_block_int env0 ex_spill path_f).2.disk_maps 1) 1029 = 65 ∧
      (((wfs_unlink_with free_data_block_int env0 ex_spill path_f).2.disk_maps 0).inodes 1).mode
        = 0o755 ∧
      (((wfs_unlink_with free_data_block_int env0 ex_spill path_f).2.disk_maps 1).inodes 1).mode
        = S_IFDIR ||| 0o755 ∧
      (wfs_unlink_with free_data_block_int env0 ex_spill path_f).2.num_disks = 2 ∧
      (traverse_path (wfs_unlink_with free_data_block_int env0 ex_spill path_f).2
        path_d_x).1 = -ENOTDIR) := by
  have hdec : (ex_spill.raid_mode = 0 ∧ ex_spill.num_disks = 2 ∧
      ex_spill.superblock.d_bitmap_ptr = 348 ∧ ex_spill.superblock.i_blocks_ptr = 512 ∧
      ex_spill.superblock.num_data_blocks = 64 ∧
      (traverse_path ex_spill path_f).1 = 0 ∧ (traverse_path ex_spill path_f).2.2 = 3 ∧
      (load_inode ex_spill 3).mode &&& S_IFREG ≠ 0 ∧
      (load_inode ex_spill 3).blocks IND_BLOCK = 3 ∧
      indirect_pointers ex_spill (load_inode ex_spill 3) 0 = 4 ∧
      indirect_pointers ex_spill (load_inode ex_spill 3) 1 = 5454 ∧
      348 + 5454 / 8 = 512 + INODE_SIZE * 1 + 5 ∧ 5454 % 8 = 6 ∧
      image_byte ex_spill.superblock (ex_spill.disk_maps 0) 1029 = 65 ∧
      image_byte ex_spill.superblock (ex_spill.disk_maps 1) 1029 = 65 ∧
      (traverse_path ex_spill path_d_x).1 = 0 ∧
      (wfs_unlink_with free_data_block_int env0 ex_spill path_f).1 = 0 ∧
      image_byte ex_spill.superblock
        ((wfs_unlink_with free_data_block_int env0 ex_spill path_f).2.disk_maps 0) 1029 = 1 ∧
      image_byte ex_spill.superblock
        ((wfs_unlink_with free_data_block_int env0 ex_spill path_f).2.disk_maps 1) 1029 = 65 ∧
      (((wfs_unlink_with free_data_block_int env0 ex_spill path_f).2.disk_maps 0).inodes 1).mode
        = 0o755 ∧
      (((wfs_unlink_with free_data_block_int env0 ex_spill path_f).2.disk_maps 1).inodes 1).mode
        = S_IFDIR ||| 0o755 ∧
      (wfs_unlink_with free_data_block_int env0 ex_spill path_f).2.num_disks = 2 ∧
      (traverse_path (wfs_unlink_with free_data_block_int env0 ex_spill path_f).2
        path_d_x).1 = -ENOTDIR) := by
    decide!
  refine ⟨?_, ?_, hdec⟩
  · apply inv_ops_run inode_regions_prim_invariant env0 spill_ops (fresh_volume 0 2)
    intro i hi
    have hi2 : i < 2 := hi
    interval_cases i <;> exact ⟨rfl, rfl⟩
  · intro h
    have h1 := (h 1 (by rw [hdec.2.2.2.2.2.2.2.2.2.2.2.2.2.2.2.2.2.2.2.2.2.1]; decide)).2
    have h2 := congrArg (fun t => (t 1).mode) h1
    simp only at h2
    rw [hdec.2.2.2.2.2.2.2.2.2.2.2.2.2.2.2.2.2.2.2.1,
      hdec.2.2.2.2.2.2.2.2.2.2.2.2.2.2.2.2.2.2.2.2.1] at h2
    exact absurd h2 (by decide)

/-! ## Reading a file larger than 2^40 bytes -/

/-- C13, failing input: on a fresh 2-disk mirror volume with an empty regular
file `/a` (inode 1), a one-byte write at offset 2^42 returns 1: the quotient
`offset / BLOCK_SIZE` = 2^33 becomes `block_index` 0 in the `int`, the byte goes
to direct slot 0 (data block 2), no other block slot is set, and the size is
2^42 + 1.  Then `wfs_read` of 600 bytes at offset 2^41 is inside the file, so
at most `min(600, size - offset) = 600` bytes are due.  The first block that
covers the range is logical block 2^32, which is none of the 70 blocks of a
file, so it is not allocated and a read that stops at the first unallocated
block delivers nothing.  The code takes `block_index` = 0 for it, finds
`blocks[0]` allocated and delivers 512 bytes, the first of them the byte 7; it
stops at the next index, 1, whose slot is 0. -/
theorem read_far_offset_wraps_block_index :
    (traverse_path ex_stale1 path_a).1 = 0 ∧
    (traverse_path ex_stale1 path_a).2.2 = 1 ∧
    (load_inode ex_stale1 1).size = 0 ∧
    (wfs_write env0 ex_stale1 path_a [7] (2 ^ 42)).1 = 1 ∧
    (traverse_path ex_far path_a).1 = 0 ∧
    (traverse_path ex_far path_a).2.2 = 1 ∧
    (load_inode ex_far 1).mode &&& S_IFREG ≠ 0 ∧
    (load_inode ex_far 1).size = 2 ^ 42 + 1 ∧
    (∀ k, k < N_BLOCKS → (load_inode ex_far 1).blocks k = if k = 0 then 2 else 0) ∧
    2 ^ 41 < (load_inode ex_far 1).size ∧
    min 600 ((load_inode ex_far 1).size - 2 ^ 41) = 600 ∧
    2 ^ 41 / BLOCK_SIZE = 2 ^ 32 ∧
    ¬ (2 ^ 32 < D_BLOCK + INDIRECT_BLOCK_ENTRIES) ∧
    to_int (2 ^ 41 / BLOCK_SIZE) = 0 ∧
    (wfs_read ex_far path_a 600 (2 ^ 41)).1 = 512 ∧
    (wfs_read ex_far path_a 600 (2 ^ 41)).2.length = 512 ∧
    (wfs_read ex_far path_a 600 (2 ^ 41)).2.head? = some 7 := by
  decide!

/-! ## Writes that reach beyond the last block of a file -/

theorem free_data_blocks_congr (s t : FS) (hsb : t.superblock = s.superblock)
    (hdb : (t.disk_maps 0).d_bitmap = (s.disk_maps 0).d_bitmap) :
    free_data_blocks t = free_data_blocks s := by
  unfold free_data_blocks
  rw [hsb, hdb]

theorem filter_length_le_add_count (p q : Nat → Bool) (B : Nat)
    (h : ∀ x, x ≠ B → p x = q x) :
    ∀ L : List Nat, (L.filter p).length ≤ (L.filter q).length + L.count B := by
  intro L
  induction L with
  | nil => simp
  | cons a L ih =>
    by_cases ha : a = B
    · subst ha
      rw [List.count_cons_self, List.filter_cons, List.filter_cons]
      cases hp : p a <;> cases hq : q a <;> simp <;> omega
    · rw [List.count_cons_of_ne (Ne.symm ha), List.filter_cons, List.filter_cons, h a ha]
      cases hq : q a <;> simp <;> omega

/-- While a block is free, `allocate_data_block` does not fail. -/
theorem allocate_data_block_of_free (s : FS) (h : 0 < free_data_blocks s) :
    ¬ (allocate_data_block s).1 < 0 := by
  intro hneg
  unfold free_data_blocks at h
  obtain ⟨i, hi⟩ := List.exists_mem_of_length_pos h
  rw [List.mem_filter, List.mem_range'_1] at hi
  rcases allocate_data_block_cases s with ⟨_, _, hall⟩ | ⟨k, hk, _⟩
  · have := hall i hi.1.1 (by omega)
    simp at hi
    exact this hi.2
  · rw [hk] at hneg
    exact absurd hneg (Int.not_lt.mpr (Int.ofNat_nonneg _))

/-- A successful `allocate_data_block` takes one block from the free ones. -/
theorem free_data_blocks_allocate (s : FS) (hok : ¬ (allocate_data_block s).1 < 0) :
    free_data_blocks s ≤ free_data_blocks (allocate_data_block s).2 + 1 := by
  obtain ⟨B, _, _, _, _, _, hbits⟩ := allocate_data_block_ok s hok
  unfold free_data_blocks
  rw [allocate_data_block_superblock]
  have hc : (List.range' 1 (s.superblock.num_data_blocks - 1)).count B ≤ 1 :=
    List.nodup_iff_count_le_one.mp (List.nodup_range' _ _) B
  refine le_trans (filter_length_le_add_count _
    (fun i => decide (get_bit ((allocate_data_block s).2.disk_maps 0).d_bitmap i = 0)) B ?_ _)
    (by omega)
  intro x hx
  have := hbits x
  unfold data_bit at this
  simp only [this, if_neg hx]

/-- With a free block for it when it is missing, `allocate_indirect_block`
returns 0 with an indirect block recorded, and takes at most that one block. -/
theorem allocate_indirect_block_of_free (s : FS) (inode : wfs_inode)
    (h : inode.blocks IND_BLOCK = 0 → 0 < free_data_blocks s) :
    (allocate_indirect_block s inode).1 = 0 ∧
    (allocate_indirect_block s inode).2.1.blocks IND_BLOCK ≠ 0 ∧
    free_data_blocks s ≤ free_data_blocks (allocate_indirect_block s inode).2.2
      + (if inode.blocks IND_BLOCK = 0 then 1 else 0) := by
  unfold allocate_indirect_block
  by_cases h0 : inode.blocks IND_BLOCK = 0
  · have hok := allocate_data_block_of_free s (h h0)
    obtain ⟨B, _, hB, hB0, _⟩ := allocate_data_block_ok s hok
    simp only [h0, ne_eq, not_true_eq_false, if_false, hok, if_true]
    refine ⟨trivial, ?_, ?_⟩
    · rw [update_same, hB]
      exact hB0
    · refine le_trans (free_data_blocks_allocate s hok) (Nat.add_le_add_right (le_of_eq ?_) 1)
      exact (free_data_blocks_congr _ _ (by simp) (by simp)).symm
  · simp only [ne_eq, h0, not_false_eq_true, if_true, if_false]
    exact ⟨trivial, trivial, by omega⟩

/-- With a free block, `allocate_indirect_data_block` does not fail for an entry
of an allocated indirect block, and takes at most one block. -/
theorem allocate_indirect_data_block_of_free (s : FS) (inode : wfs_inode) (idx : Nat)
    (hind : inode.blocks IND_BLOCK ≠ 0) (hidx : idx < INDIRECT_BLOCK_ENTRIES)
    (h : 0 < free_data_blocks s) :
    ¬ (allocate_indirect_data_block s inode idx).1 < 0 ∧
    free_data_blocks s ≤ free_data_blocks (allocate_indirect_data_block s inode idx).2 + 1 := by
  rw [allocate_indirect_data_block_eq s inode idx hind hidx]
  have hok := allocate_data_block_of_free s h
  by_cases hp : indirect_pointers s inode idx ≠ 0
  · rw [if_pos hp]
    exact ⟨Int.not_lt.mpr (Int.ofNat_nonneg _), Nat.le_succ _⟩
  · rw [if_neg hp, if_neg hok]
    refine ⟨Int.not_lt.mpr (Int.ofNat_nonneg _), ?_⟩
    refine le_trans (free_data_blocks_allocate s hok) (Nat.add_le_add_right (le_of_eq ?_) 1)
    exact (free_data_blocks_congr _ _ (by simp) (by simp)).symm

/-- The loop of `wfs_write`, entered at an offset of at most 35840 with a range
that reaches beyond byte 35840, is left by `return -EFBIG` when disk 0 has a
free data block for every block index from `offset / 512` to 69 and one for the
indirect block if the file has none. -/
theorem wfs_write_loop_reaches_efbig (buf : List Nat) :
    ∀ (fuel : Nat) (s : FS) (inode : wfs_inode) (size offset bw : Nat),
      offset ≤ 35840 → 35840 < offset + size → size ≤ fuel →
      (70 - offset / BLOCK_SIZE) + (if inode.blocks IND_BLOCK = 0 then 1 else 0)
        ≤ free_data_blocks s →
      (wfs_write_loop buf fuel s inode size offset bw).efbig = true := by
  intro fuel
  induction fuel with
  | zero =>
    intro s inode size offset bw h1 h2 h3 _
    omega
  | succ fuel ih =>
    intro s inode size offset bw h1 h2 h3 hfree
    have hsize : size ≠ 0 := by omega
    have hB : BLOCK_SIZE = 512 := rfl
    have hD : D_BLOCK = 6 := rfl
    have hI : INDIRECT_BLOCK_ENTRIES = 64 := rfl
    rw [hB] at hfree
    by_cases h70 : offset / 512 < 70
    · -- the step that all three continuing branches share
      have htw : min (BLOCK_SIZE - offset % BLOCK_SIZE) size = 512 - offset % 512 := by
        rw [hB]; omega
      have hnext : (offset + (512 - offset % 512)) / 512 = offset / 512 + 1 := by omega
      have hstep : ∀ (s' : FS) (inode' : wfs_inode),
          (70 - (offset / 512 + 1)) + (if inode'.blocks IND_BLOCK = 0 then 1 else 0)
            ≤ free_data_blocks s' →
          (wfs_write_loop buf fuel s' inode' (size - (512 - offset % 512))
            (offset + (512 - offset % 512)) (bw + (512 - offset % 512))).efbig = true := by
        intro s' inode' hf
        apply ih s' inode' _ _ _ (by omega) (by omega) (by omega)
        rw [hB, hnext]
        exact hf
      by_cases hd : offset / BLOCK_SIZE < D_BLOCK
      · rw [wfs_write_loop_direct_eq buf fuel s inode size offset bw hsize hd, htw]
        have hne : (offset / BLOCK_SIZE) ≠ IND_BLOCK := by
          rw [hD] at hd; unfold IND_BLOCK D_BLOCK; omega
        by_cases h0 : inode.blocks (offset / BLOCK_SIZE) = 0
        · have hok := allocate_data_block_of_free s (by omega)
          simp only [h0, if_true, hok, if_false]
          apply hstep
          have e := free_data_blocks_congr (allocate_data_block s).2
            (raid_write (allocate_data_block s).2
              (memcpy_to
                (raid_read (allocate_data_block s).2 (allocate_data_block s).1.toNat BLOCK_SIZE)
                (offset % BLOCK_SIZE) (fun k => buf.getD (bw + k) 0) (512 - offset % 512))
              (allocate_data_block s).1.toNat BLOCK_SIZE) (by simp) (by simp)
          rw [e]
          have := free_data_blocks_allocate s hok
          simp only [update_noteq (Ne.symm hne)]
          omega
        · simp only [h0, if_false]
          apply hstep
          have e := free_data_blocks_congr s
            (raid_write s
              (memcpy_to (raid_read s (inode.blocks (offset / BLOCK_SIZE)) BLOCK_SIZE)
                (offset % BLOCK_SIZE) (fun k => buf.getD (bw + k) 0) (512 - offset % 512))
              (inode.blocks (offset / BLOCK_SIZE)) BLOCK_SIZE) (by simp) (by simp)
          rw [e]
          omega
      · have hb2 : offset / BLOCK_SIZE < D_BLOCK + INDIRECT_BLOCK_ENTRIES := by
          rw [hB, hD, hI]; omega
        rw [wfs_write_loop_indirect_eq buf fuel s inode size offset bw hsize hd hb2, htw]
        obtain ⟨ha1, ha2, ha3⟩ := allocate_indirect_block_of_free s inode (fun _ => by omega)
        have hidx : offset / BLOCK_SIZE - D_BLOCK < INDIRECT_BLOCK_ENTRIES := by
          rw [hB, hD, hI] at *; omega
        have hfree1 : 0 < free_data_blocks (allocate_indirect_block s inode).2.2 := by
          split_ifs at ha3 hfree <;> omega
        obtain ⟨hd1, hd2⟩ := allocate_indirect_data_block_of_free
          (allocate_indirect_block s inode).2.2 (allocate_indirect_block s inode).2.1
          (offset / BLOCK_SIZE - D_BLOCK) ha2 hidx hfree1
        simp only [ha1, ne_eq, not_true_eq_false, if_false, hd1]
        apply hstep
        have e := free_data_blocks_congr (allocate_indirect_data_block
            (allocate_indirect_block s inode).2.2 (allocate_indirect_block s inode).2.1
            (offset / BLOCK_SIZE - D_BLOCK)).2
          (raid_write
            (allocate_indirect_data_block (allocate_indirect_block s inode).2.2
              (allocate_indirect_block s inode).2.1 (offset / BLOCK_SIZE - D_BLOCK)).2
            (memcpy_to
              (raid_read
                (allocate_indirect_data_block (allocate_indirect_block s inode).2.2
                  (allocate_indirect_block s inode).2.1 (offset / BLOCK_SIZE - D_BLOCK)).2
                (allocate_indirect_data_block (allocate_indirect_block s inode).2.2
                  (allocate_indirect_block s inode).2.1
                  (offset / BLOCK_SIZE - D_BLOCK)).1.toNat BLOCK_SIZE)
              (offset % BLOCK_SIZE) (fun k => buf.getD (bw + k) 0) (512 - offset % 512))
            (allocate_indirect_data_block (allocate_indirect_block s inode).2.2
              (allocate_indirect_block s inode).2.1 (offset / BLOCK_SIZE - D_BLOCK)).1.toNat
            BLOCK_SIZE) (by simp) (by simp)
        rw [e, if_neg ha2]
        split_ifs at ha3 hfree <;> omega
    · have hidx : offset / BLOCK_SIZE = 70 := by rw [hB]; omega
      have hti : to_int 70 = 70 := to_int_of_lt 70 (by norm_num)
      rw [wfs_write_loop]
      simp only [hsize, if_false, hidx, hti]
      norm_num [hD, hI]

/-- For a regular file, a write that starts at an offset of at most 35840 and
reaches beyond byte 35840 returns `-EFBIG` when disk 0 has 71 free data blocks
(70 blocks of data and the indirect block). -/
theorem wfs_write_returns_efbig (env : Env) (s : FS) (path buf : List Nat) (offset : Nat)
    (htr : (traverse_path s path).1 = 0)
    (hreg : (traverse_path s path).2.1.mode &&& S_IFREG ≠ 0)
    (hoff : offset ≤ 35840) (hlen : 35840 < offset + buf.length)
    (hfree : 71 ≤ free_data_blocks s) :
    (wfs_write env s path buf offset).1 = -EFBIG := by
  rw [wfs_write_of_regular env s path buf offset htr hreg]
  have h70 : 70 - offset / BLOCK_SIZE ≤ 70 := Nat.sub_le _ _
  have := wfs_write_loop_reaches_efbig buf buf.length s (traverse_path s path).2.1 buf.length
    offset 0 hoff hlen le_rfl (by split_ifs <;> omega)
  rw [this]
  rfl

/-- C6. On a fresh 2-disk mirror volume, `mknod` of a path whose basename has
28 bytes returns 0, and a second `mknod` of the same path returns 0 again
(not `-EEXIST`) and changes the disks: it takes inode 2 and appends a second
entry whose stored name is the same 27 bytes as that of the first. -/
theorem mknod_long_name_created_twice :
    (wfs_mknod env0 (fresh_volume 1 2) long_path (S_IFREG ||| 0o644)).1 = 0 ∧
    (wfs_mknod env0 ex_long1 long_path (S_IFREG ||| 0o644)).1 = 0 ∧
    get_bit (ex_long1.disk_maps 0).i_bitmap 2 = 0 ∧
    get_bit (ex_long2.disk_maps 0).i_bitmap 2 = 1 ∧
    (load_inode ex_long1 0).size = 96 ∧ (load_inode ex_long2 0).size = 128 ∧
    entry_name (raid_read ex_long2 ((load_inode ex_long2 0).blocks 0) BLOCK_SIZE) 2
      = List.replicate 27 97 ∧
    entry_name (raid_read ex_long2 ((load_inode ex_long2 0).blocks 0) BLOCK_SIZE) 3
      = List.replicate 27 97 := by
  refine ⟨?_, ?_, ?_, ?_, ?_, ?_, ?_, ?_⟩ <;> decide!

/-- C7. On a full volume (`ex_full`), `mkdir /d/x` fails with `-ENOSPC` in
`add_dentry`; the inode bit it had taken (inode 7) is clear again, but the stored
record of the parent `/d` (inode 1) has changed: its `nlinks` went from 2 to 1. -/
theorem mkdir_failure_decrements_parent_nlinks :
    (traverse_path ex_full [47, 100]).1 = 0 ∧
    (traverse_path ex_full [47, 100]).2.2 = 1 ∧
    (wfs_mkdir env0 ex_full [47, 100, 47, 120] 0o755).1 = -ENOSPC ∧
    get_bit (ex_full.disk_maps 0).i_bitmap 7 = 0 ∧
    get_bit ((wfs_mkdir env0 ex_full [47, 100, 47, 120] 0o755).2.disk_maps 0).i_bitmap 7 = 0 ∧
    (load_inode ex_full 1).nlinks = 2 ∧
    (load_inode (wfs_mkdir env0 ex_full [47, 100, 47, 120] 0o755).2 1).nlinks = 1 := by
  refine ⟨?_, ?_, ?_, ?_, ?_, ?_, ?_⟩ <;> decide!

/-- C8. On the volume `ex_long2`, whose root holds two entries with the same
27-byte name (inodes 1 and 2), `unlink` of that name resolves to the regular
file inode 1 and returns 0, and afterwards the root still contains an entry
with that name (it leads to inode 2). -/
theorem unlink_leaves_duplicate_name :
    resolve_child ex_long2 trunc_path = (0, 1) ∧
    (load_inode ex_long2 1).mode &&& S_IFDIR = 0 ∧
    (wfs_unlink env0 ex_long2 trunc_path).1 = 0 ∧
    (find_dentry (wfs_unlink env0 ex_long2 trunc_path).2
      (load_inode (wfs_unlink env0 ex_long2 trunc_path).2 0) (basename trunc_path)).1 = 0 ∧
    (find_dentry (wfs_unlink env0 ex_long2 trunc_path).2
      (load_inode (wfs_unlink env0 ex_long2 trunc_path).2 0) (basename trunc_path)).2.num
      = 2 := by
  refine ⟨?_, ?_, ?_, ?_, ?_⟩ <;> decide!

/-- C1. A sequence of calls on a fresh 2-disk mirror volume after which a write
that returns its full length is not read back.  `mknod /a`, a 64-byte write to
`/a`, `unlink /a`, `mkdir /d`, `mknod /d/x`: the block freed by the unlink is
taken for `/d` by `add_dentry` without being cleared, so that `/d` holds the
entry `x` and, from the old file content, an entry `e`, both for inode 2.  A
one-byte write at offset 512 gives the file `blocks[1] = 3`; `unlink /d/e`
frees inode 2 and block 3.  `/d/x` still resolves to the regular file inode 2;
writing 513 bytes at offset 0 returns 513 (block 3 is allocated again, now for
`blocks[0]`), and the read of 513 bytes at offset 0 returns 513 with first
byte 2 where 1 was written. -/
theorem write_read_after_stale_entry :
    (wfs_mknod env0 (fresh_volume 1 2) path_a (S_IFREG ||| 0o644)).1 = 0 ∧
    (wfs_write env0 ex_stale1 path_a forged_block 0).1 = 64 ∧
    (wfs_unlink env0 ex_stale2 path_a).1 = 0 ∧
    (wfs_mkdir env0 ex_stale3 [47, 100] 0o755).1 = 0 ∧
    (wfs_mknod env0 ex_stale4 path_d_x (S_IFREG ||| 0o644)).1 = 0 ∧
    (wfs_write env0 ex_stale5 path_d_x [7] 512).1 = 1 ∧
    (wfs_unlink env0 ex_stale6 path_d_e).1 = 0 ∧
    (traverse_path ex_stale7 path_d_x).1 = 0 ∧
    (traverse_path ex_stale7 path_d_x).2.1.mode &&& S_IFREG ≠ 0 ∧
    two_block_buf.length = 513 ∧
    (wfs_write env0 ex_stale7 path_d_x two_block_buf 0).1 = 513 ∧
    (wfs_read (wfs_write env0 ex_stale7 path_d_x two_block_buf 0).2 path_d_x 513 0).1 = 513 ∧
    (wfs_read (wfs_write env0 ex_stale7 path_d_x two_block_buf 0).2 path_d_x 513 0).2.head?
      = some 2 ∧
    two_block_buf.head? = some 1 := by
  decide!

/-- C11. A sequence of calls on a fresh 2-disk mirror volume after which
`rmdir` of an emptied directory fails.  `mknod /a`, a 64-byte write to `/a`
whose byte 32 is not 0, `unlink /a`: data block 2 is free and keeps the bytes.
`/d` is not present; `mkdir /d` and `mknod /d/x` return 0, `add_dentry` takes
block 2 for `/d` and writes only slot 0.  `rmdir /d` returns `-ENOTEMPTY`;
`unlink /d/x` returns 0; the second `rmdir /d` returns `-ENOTEMPTY` again (the
old file bytes in slot 1 count as an entry) and `/d` still resolves. -/
theorem rmdir_after_unlink_stale_block :
    (wfs_mknod env0 (fresh_volume 1 2) path_a (S_IFREG ||| 0o644)).1 = 0 ∧
    (wfs_write env0 ex_stale1 path_a forged_block 0).1 = 64 ∧
    (wfs_unlink env0 ex_stale2 path_a).1 = 0 ∧
    (resolve_child ex_stale3 [47, 100]).1 = -ENOENT ∧
    (wfs_mkdir env0 ex_stale3 [47, 100] 0o755).1 = 0 ∧
    (wfs_mknod env0 ex_stale4 path_d_x (S_IFREG ||| 0o644)).1 = 0 ∧
    (wfs_rmdir env0 ex_stale5 [47, 100]).1 = -ENOTEMPTY ∧
    (wfs_unlink env0 ex_stale5 path_d_x).1 = 0 ∧
    (wfs_rmdir env0 (wfs_unlink env0 ex_stale5 path_d_x).2 [47, 100]).1 = -ENOTEMPTY ∧
    (traverse_path (wfs_rmdir env0 (wfs_unlink env0 ex_stale5 path_d_x).2 [47, 100]).2
      [47, 100]).1 = 0 := by
  decide!

/-- C14. On a fresh 2-disk mirror volume with an empty regular file `/a`
(inode 1), a one-byte write at offset 2^41 = 2199023255552, far beyond 35840:
the quotient `offset / BLOCK_SIZE` = 2^32 becomes `block_index` 0 when it is
stored in the `int`, so the byte goes to direct slot 0.  The call returns 1
(not `-EFBIG`) and the disks change: data block 2 is allocated, it is recorded
in `blocks[0]` and holds the byte, and the stored size is 2^41 + 1. -/
theorem write_far_offset_wraps_block_index :
    (traverse_path ex_stale1 path_a).1 = 0 ∧
    (traverse_path ex_stale1 path_a).2.2 = 1 ∧
    (load_inode ex_stale1 1).mode &&& S_IFREG ≠ 0 ∧
    (load_inode ex_stale1 1).size = 0 ∧
    (load_inode ex_stale1 1).blocks 0 = 0 ∧
    data_bit ex_stale1 0 2 = 0 ∧
    35840 ≤ 2 ^ 41 ∧
    to_int (2 ^ 41 / BLOCK_SIZE) = 0 ∧
    (wfs_write env0 ex_stale1 path_a [7] (2 ^ 41)).1 = 1 ∧
    (load_inode (wfs_write env0 ex_stale1 path_a [7] (2 ^ 41)).2 1).size = 2 ^ 41 + 1 ∧
    (load_inode (wfs_write env0 ex_stale1 path_a [7] (2 ^ 41)).2 1).blocks 0 = 2 ∧
    data_bit (wfs_write env0 ex_stale1 path_a [7] (2 ^ 41)).2 0 2 = 1 ∧
    raid_read (wfs_write env0 ex_stale1 path_a [7] (2 ^ 41)).2 2 BLOCK_SIZE 0 = 7 := by
  decide!

end WFS
